import Mathlib

/-!
# ohmu: a verification development

A shallow embedding of parts of the ohmu sources, followed by the properties
proved about them.  The first part covers the bytecode codec of
src/til/Bytecode.cpp: the byte stream primitives, the bytecode reader and the
bytecode writer.  The second part covers the CFG reducer of
src/til/CFGReducer.h.

Conventions of the embedding.
* A byte is a natural number; every store reduces modulo 256 (the element type
  of the buffer is `uint8_t`) and every load does the same.
* `uint32_t` and `uint64_t` values are natural numbers, reduced modulo `2^32`
  and `2^64` wherever the C++ arithmetic can overflow.
* The buffer is a list of `BufferSize` bytes.  An access outside the list is
  undefined in the source; the embedding reads `0` there and ignores the
  store, and the theorems carry the hypothesis that the access is inside.
* A `while`/`for` loop is a function with a leading iteration budget.  The
  callers pass a budget that the loop never exhausts; where the budget is a
  parameter (the loop of `read`), a theorem gives a budget that suffices.
* The traversal of an expression tree is a function by recursion on the tree,
  and so is total.
-/

namespace Ohmu

/-! ## Byte stream writer -/

/-- State of `ByteStreamWriterBase`.  `Sink` collects the bytes handed to
`writeData`, in call order. -/
structure ByteStreamWriterBase where
  BufferSize : Nat
  MaxAtomSize : Nat
  Buffer : List Nat
  Pos : Nat
  Sink : List Nat
deriving DecidableEq, Inhabited

namespace ByteStreamWriterBase

/-- The statement `Buffer[Pos++] = b` with `b` converted to `uint8_t`. -/
def store (w : ByteStreamWriterBase) (b : Nat) : ByteStreamWriterBase :=
  { w with Buffer := w.Buffer.set w.Pos (b % 256), Pos := w.Pos + 1 }

/-- The loop of `writeUInt32_Vbr` and `writeUInt64_Vbr`:
`while (V > 0) { V2 = V >> 7; Hibit = (V2 == 0) ? 0 : 0x80;
Buffer[Pos++] = (V & 0x7F) | Hibit; V = V2; }`. -/
def writeVbrLoop : Nat → ByteStreamWriterBase → Nat → ByteStreamWriterBase
  | 0, w, _ => w
  | fuel + 1, w, V =>
    if V > 0 then
      let V2 := V >>> 7
      let Hibit := if V2 = 0 then 0 else 0x80
      writeVbrLoop fuel (w.store ((V &&& 0x7F) ||| Hibit)) V2
    else w

/-- `ByteStreamWriterBase::writeUInt32_Vbr(uint32_t V)`. -/
def writeUInt32_Vbr (w : ByteStreamWriterBase) (V : Nat) : ByteStreamWriterBase :=
  let V := V % 2 ^ 32
  if V = 0 then w.store 0 else writeVbrLoop 32 w V

/-- `ByteStreamWriterBase::writeUInt64_Vbr(uint64_t V)`. -/
def writeUInt64_Vbr (w : ByteStreamWriterBase) (V : Nat) : ByteStreamWriterBase :=
  let V := V % 2 ^ 64
  if V = 0 then w.store 0 else writeVbrLoop 64 w V

/-- The call `memcpy(Buffer.data() + off, Data, Size)`: the bytes of `Data` stored
at `off`, `off + 1`, ... -/
def memcpy : List Nat → Nat → List Nat → List Nat
  | buf, _, [] => buf
  | buf, off, x :: xs => memcpy (buf.set off (x % 256)) (off + 1) xs

/-- Modelled from the spec: `length()` of the writer, declared in Bytecode.h, the
number of free bytes that remain in the buffer (section 4.3, buffer layout). -/
def length (w : ByteStreamWriterBase) : Int :=
  (w.BufferSize : Int) - (w.Pos : Int)

/-- Modelled from the spec: the sink `writeData(bytes, n)` of section 6, here the
string-backed one, which appends to an in-memory buffer. -/
def writeData (w : ByteStreamWriterBase) (Data : List Nat) : ByteStreamWriterBase :=
  { w with Sink := w.Sink ++ Data }

/-- `ByteStreamWriterBase::flush()`. -/
def flush (w : ByteStreamWriterBase) : ByteStreamWriterBase :=
  let w1 := if w.Pos > 0 then w.writeData (w.Buffer.take w.Pos) else w
  { w1 with Pos := 0 }

/-- `ByteStreamWriterBase::endAtom()`. -/
def endAtom (w : ByteStreamWriterBase) : ByteStreamWriterBase :=
  if w.length ≤ (w.MaxAtomSize : Int) then w.flush else w

/-- `ByteStreamWriterBase::writeBytes(Data, Size)`, with `Size = Data.length`. -/
def writeBytes (w : ByteStreamWriterBase) (Data : List Nat) : ByteStreamWriterBase :=
  if Data.length ≥ w.BufferSize >>> 1 then
    (w.flush).writeData Data
  else
    let w1 := if w.length - (Data.length : Int) ≤ (w.MaxAtomSize : Int) then w.flush else w
    { w1 with Buffer := memcpy w1.Buffer w1.Pos Data, Pos := w1.Pos + Data.length }

/-- The loop of `writeBits32` and `writeBits64`:
`while (Nbits > 0) { Buffer[Pos++] = V & 0xFF; V = V >> 8; Nbits -= 8; }`. -/
def writeBitsLoop : Nat → ByteStreamWriterBase → Nat → Nat → ByteStreamWriterBase
  | 0, w, _, _ => w
  | fuel + 1, w, V, Nbits =>
    if Nbits > 0 then writeBitsLoop fuel (w.store (V &&& 0xFF)) (V >>> 8) (Nbits - 8)
    else w

/-- `ByteStreamWriterBase::writeBits32(uint32_t V, int Nbits)`. -/
def writeBits32 (w : ByteStreamWriterBase) (V Nbits : Nat) : ByteStreamWriterBase :=
  writeBitsLoop (Nbits / 8 + 1) w (V % 2 ^ 32) Nbits

/-- `ByteStreamWriterBase::writeBits64(uint64_t V, int Nbits)`. -/
def writeBits64 (w : ByteStreamWriterBase) (V Nbits : Nat) : ByteStreamWriterBase :=
  writeBitsLoop (Nbits / 8 + 1) w (V % 2 ^ 64) Nbits

/-- Modelled from the spec: `writeUInt8`, declared in Bytecode.h, one byte. -/
def writeUInt8 (w : ByteStreamWriterBase) (V : Nat) : ByteStreamWriterBase :=
  w.writeBits32 (V % 2 ^ 8) 8

/-- Modelled from the spec: `writeUInt16`, declared in Bytecode.h, a fixed
integer of two bytes, little-endian (section 4.3, primitives). -/
def writeUInt16 (w : ByteStreamWriterBase) (V : Nat) : ByteStreamWriterBase :=
  w.writeBits32 (V % 2 ^ 16) 16

/-- Modelled from the spec: `writeUInt32`, declared in Bytecode.h, a fixed
integer of four bytes, little-endian (section 4.3, primitives). -/
def writeUInt32 (w : ByteStreamWriterBase) (V : Nat) : ByteStreamWriterBase :=
  w.writeBits32 V 32

/-- Modelled from the spec: `writeUInt64`, declared in Bytecode.h, a fixed
integer of eight bytes, little-endian (section 4.3, primitives). -/
def writeUInt64 (w : ByteStreamWriterBase) (V : Nat) : ByteStreamWriterBase :=
  w.writeBits64 V 64

/-- `ByteStreamWriterBase::writeString(StringRef S)`. -/
def writeString (w : ByteStreamWriterBase) (S : List Nat) : ByteStreamWriterBase :=
  (w.writeUInt32 S.length).writeBytes S

/-- The bytes an operation stored: the buffer of the later state `w2` between
the write position of the earlier state `w1` and that of `w2`. -/
def emitted (w1 w2 : ByteStreamWriterBase) : List Nat :=
  (w2.Buffer.drop w1.Pos).take (w2.Pos - w1.Pos)

end ByteStreamWriterBase

/-! ## Byte stream reader -/

/-- State of `ByteStreamReaderBase`.  `Source` holds the bytes that `readData`
has not delivered yet; `AllocFails` says that the allocator callback
`allocStringData` returns null. -/
structure ByteStreamReaderBase where
  BufferSize : Nat
  MaxAtomSize : Nat
  Buffer : List Nat
  BufferLen : Nat
  Pos : Nat
  Eof : Bool
  Error : Bool
  Source : List Nat
  AllocFails : Bool
deriving DecidableEq, Inhabited

namespace ByteStreamReaderBase

/-- The expression `Buffer[Pos++]`. -/
def load (r : ByteStreamReaderBase) : Nat × ByteStreamReaderBase :=
  (r.Buffer.getD r.Pos 0 % 256, { r with Pos := r.Pos + 1 })

/-- The loop of `readUInt32_Vbr` (`W = 32`) and `readUInt64_Vbr` (`W = 64`):
`for (B = 0; B < W; B += 7) { Byt = Buffer[Pos++];
V = V | ((Byt & 0x7F) << B); if ((Byt & 0x80) == 0) break; }`,
the shift being taken in `W`-bit arithmetic. -/
def readVbrLoop (W : Nat) :
    Nat → ByteStreamReaderBase → Nat → Nat → Nat × ByteStreamReaderBase
  | 0, r, V, _ => (V, r)
  | fuel + 1, r, V, B =>
    if B < W then
      let Byt := r.load.1
      let r1 := r.load.2
      let V1 := V ||| (((Byt &&& 0x7F) <<< B) % 2 ^ W)
      if Byt &&& 0x80 = 0 then (V1, r1) else readVbrLoop W fuel r1 V1 (B + 7)
    else (V, r)

/-- Modelled from the spec: `length()` of the reader, declared in Bytecode.h, the
number of unread bytes in the buffer, `BufferLen - Pos` as an `int`. -/
def length (r : ByteStreamReaderBase) : Int :=
  (r.BufferLen : Int) - (r.Pos : Int)

/-- Modelled from the spec: `empty()`, declared in Bytecode.h: no unread byte
remains in the buffer.  After `endAtom` this implies that the source is
exhausted too, since `endAtom` refills a buffer that runs low. -/
def empty (r : ByteStreamReaderBase) : Bool :=
  decide (r.length ≤ 0)

/-- Modelled from the spec: the source `readData(buf, n)` of section 6, here the
string-backed one: it delivers the next `n` bytes, fewer at the end of the
stream. -/
def readData (r : ByteStreamReaderBase) (n : Nat) : List Nat × ByteStreamReaderBase :=
  (r.Source.take n, { r with Source := r.Source.drop n })

/-- `ByteStreamReaderBase::refill()`.  When `Pos` has run past `BufferLen` the
source computes a negative length and reads into memory before the buffer;
the embedding takes the length as `0` there.  The assertion
`Pos > length()` that precedes the move of the unread bytes is not part of
the state. -/
def refill (r : ByteStreamReaderBase) : ByteStreamReaderBase :=
  if r.Eof then r
  else
    let r1 :=
      if r.Pos > 0 then
        let len := r.length
        let buf := if len > 0 then
            ByteStreamWriterBase.memcpy r.Buffer 0 ((r.Buffer.drop r.Pos).take len.toNat)
          else r.Buffer
        { r with Buffer := buf, Pos := 0, BufferLen := len.toNat }
      else r
    let d := (r1.readData (r1.BufferSize - r1.BufferLen)).1
    let r2 := (r1.readData (r1.BufferSize - r1.BufferLen)).2
    let r3 := { r2 with
      Buffer := ByteStreamWriterBase.memcpy r2.Buffer r2.BufferLen d,
      BufferLen := r2.BufferLen + d.length }
    if r3.BufferLen < r3.BufferSize then { r3 with Eof := true } else r3

/-- `ByteStreamReaderBase::endAtom()`. -/
def endAtom (r : ByteStreamReaderBase) : ByteStreamReaderBase :=
  if r.length ≤ (r.MaxAtomSize : Int) then r.refill else r

/-- `ByteStreamReaderBase::readBytes(Data, Size)`; the first component is what
was copied to `Data`, in order. -/
def readBytes (r : ByteStreamReaderBase) (Size : Nat) : List Nat × ByteStreamReaderBase :=
  let len := r.length
  if (Size : Int) > len then
    let d1 := (r.Buffer.drop r.Pos).take len.toNat
    let Size1 := ((Size : Int) - len).toNat
    if Size1 ≥ r.BufferSize >>> 1 then
      if r.Eof then (d1, { r with Error := true })
      else
        let d2 := (r.readData Size1).1
        let r1 := (r.readData Size1).2
        let r2 := if d2.length < Size1 then { r1 with Eof := true } else r1
        (d1 ++ d2, r2.refill)
    else
      let r1 := r.refill
      if (Size1 : Int) > r1.length then (d1, { r1 with Error := true })
      else
        let d2 := (r1.Buffer.drop r1.Pos).take Size1
        let r2 := { r1 with Pos := r1.Pos + Size1 }
        (d1 ++ d2, if r2.length < (r2.MaxAtomSize : Int) then r2.refill else r2)
  else
    let d := (r.Buffer.drop r.Pos).take Size
    let r2 := { r with Pos := r.Pos + Size }
    (d, if r2.length < (r2.MaxAtomSize : Int) then r2.refill else r2)

/-- The loop of `readBits32` (`W = 32`) and `readBits64` (`W = 64`):
`while (true) { Byt = Buffer[Pos++]; V = V | (Byt << B); B += 8;
if (B >= Nbits) break; }`, the shift being taken in `W`-bit arithmetic. -/
def readBitsLoop (W : Nat) :
    Nat → ByteStreamReaderBase → Nat → Nat → Nat → Nat × ByteStreamReaderBase
  | 0, r, V, _, _ => (V, r)
  | fuel + 1, r, V, B, Nbits =>
    let Byt := r.load.1
    let r1 := r.load.2
    let V1 := V ||| ((Byt <<< B) % 2 ^ W)
    if B + 8 ≥ Nbits then (V1, r1) else readBitsLoop W fuel r1 V1 (B + 8) Nbits

/-- `ByteStreamReaderBase::readBits32(int Nbits)`. -/
def readBits32 (r : ByteStreamReaderBase) (Nbits : Nat) : Nat × ByteStreamReaderBase :=
  readBitsLoop 32 (Nbits / 8 + 1) r 0 0 Nbits

/-- `ByteStreamReaderBase::readBits64(int Nbits)`. -/
def readBits64 (r : ByteStreamReaderBase) (Nbits : Nat) : Nat × ByteStreamReaderBase :=
  readBitsLoop 64 (Nbits / 8 + 1) r 0 0 Nbits

/-- Modelled from the spec: `readUInt8`, declared in Bytecode.h, one byte. -/
def readUInt8 (r : ByteStreamReaderBase) : Nat × ByteStreamReaderBase :=
  r.readBits32 8

/-- Modelled from the spec: `readUInt16`, declared in Bytecode.h, a fixed
integer of two bytes, little-endian (section 4.3, primitives). -/
def readUInt16 (r : ByteStreamReaderBase) : Nat × ByteStreamReaderBase :=
  r.readBits32 16

/-- Modelled from the spec: `readUInt32`, declared in Bytecode.h, a fixed
integer of four bytes, little-endian (section 4.3, primitives). -/
def readUInt32 (r : ByteStreamReaderBase) : Nat × ByteStreamReaderBase :=
  r.readBits32 32

/-- Modelled from the spec: `readUInt64`, declared in Bytecode.h, a fixed
integer of eight bytes, little-endian (section 4.3, primitives). -/
def readUInt64 (r : ByteStreamReaderBase) : Nat × ByteStreamReaderBase :=
  r.readBits64 64

/-- `ByteStreamReaderBase::readString()`; the allocator callback
`allocStringData` returns null exactly when `AllocFails` is set. -/
def readString (r : ByteStreamReaderBase) : List Nat × ByteStreamReaderBase :=
  let Sz := r.readUInt32.1
  let r1 := r.readUInt32.2
  if r1.AllocFails then ([], { r1 with Error := true })
  else r1.readBytes Sz

/-- `ByteStreamReaderBase::readUInt32_Vbr()`. -/
def readUInt32_Vbr (r : ByteStreamReaderBase) : Nat × ByteStreamReaderBase :=
  readVbrLoop 32 32 r 0 0

/-- `ByteStreamReaderBase::readUInt64_Vbr()`. -/
def readUInt64_Vbr (r : ByteStreamReaderBase) : Nat × ByteStreamReaderBase :=
  readVbrLoop 64 64 r 0 0

end ByteStreamReaderBase

/-! ## TIL values and the CFG builder

The node classes (TIL.h), the builder (CFGBuilder.h) and the header Bytecode.h
are not part of src/.  The reader of Bytecode.cpp uses them through their
interfaces only; the definitions of this section give those interfaces a
meaning, following section 4.2 and 4.3 of the specification. -/

/-- The payload of a literal: none for a void literal, a number (the bit
pattern for a floating point value) or a string. -/
inductive LitVal where
  | none : LitVal
  | num (n : Nat) : LitVal
  | str (s : List Nat) : LitVal
deriving DecidableEq, Inhabited

/-- Modelled from the spec: the values of type `SExpr*` that the reader handles,
one constructor per node kind of section 3 and `null` for `nullptr`.  A block
is referred to by its handle in the builder, a CFG likewise.  The argument
`i` of block `b` is `Phi (some (b, i))`; `Phi none` is a free-standing phi
node. -/
inductive SExpr where
  | null : SExpr
  | VarDecl (kind varIndex : Nat) (name : List Nat) (defn : SExpr) : SExpr
  | Function (vd body : SExpr) : SExpr
  | Code (retType body : SExpr) (cc : Nat) : SExpr
  | Field (range body : SExpr) : SExpr
  | Slot (name : List Nat) (modifiers : Nat) (defn : SExpr) : SExpr
  | Record (parent : SExpr) (slots : List SExpr) : SExpr
  | Array (elemType size : SExpr) (elements : List SExpr) : SExpr
  | ScalarType (bt : Nat) : SExpr
  | Literal (bt : Nat) (val : LitVal) : SExpr
  | Variable (vd : SExpr) : SExpr
  | Apply (f a : SExpr) (kind : Nat) : SExpr
  | Project (rec : SExpr) (slotName : List Nat) : SExpr
  | Call (target : SExpr) (bt : Nat) : SExpr
  | Alloc (init : SExpr) (kind : Nat) : SExpr
  | Load (ptr : SExpr) (bt : Nat) : SExpr
  | Store (dst src : SExpr) : SExpr
  | ArrayIndex (a i : SExpr) : SExpr
  | ArrayAdd (a i : SExpr) : SExpr
  | UnaryOp (op : Nat) (e : SExpr) (bt : Nat) : SExpr
  | BinaryOp (op : Nat) (e0 e1 : SExpr) (bt : Nat) : SExpr
  | Cast (op : Nat) (e : SExpr) (bt : Nat) : SExpr
  | Phi (owner : Option (Nat × Nat)) : SExpr
  | Goto (target : Option Nat) (args : List SExpr) : SExpr
  | Branch (cond : SExpr) (thenBlock elseBlock : Option Nat) : SExpr
  | Switch (cond : SExpr) (caseValues : List SExpr) (caseBlocks : List (Option Nat)) : SExpr
  | Return (e : SExpr) : SExpr
  | Undefined : SExpr
  | Wildcard : SExpr
  | Identifier (name : List Nat) : SExpr
  | Let (vd body : SExpr) : SExpr
  | IfThenElse (c t e : SExpr) : SExpr
  | SCFG (cfg : Nat) : SExpr
  | Annotated (e : SExpr) (ann : Nat) : SExpr
deriving Inhabited

namespace SExpr

/-- The test `E != nullptr`. -/
def isNull : SExpr → Bool
  | null => true
  | _ => false

/-- The cast `dyn_cast<VarDecl>(E)`: `E` when it is a `VarDecl`, null otherwise. -/
def dynCastVarDecl : SExpr → SExpr
  | VarDecl k i n d => VarDecl k i n d
  | _ => null

/-- The cast `dyn_cast<Slot>(E)`: `E` when it is a `Slot`, null otherwise. -/
def dynCastSlot : SExpr → SExpr
  | Slot n m d => Slot n m d
  | _ => null

end SExpr

/-- Modelled from the spec: a basic block as far as the reader looks at it: its
block ID, the number of its phi arguments, its terminator (null while it has
none) and whether a CFG owns it. -/
structure BasicBlock where
  blockID : Nat
  numArguments : Nat
  terminator : SExpr
  inCFG : Bool
deriving Inhabited

/-- Modelled from the spec: a CFG: its list of blocks (handles, `none` for a
null entry), its entry and its exit block. -/
structure SCFG where
  blocks : List (Option Nat)
  entry : Nat
  exit : Nat
deriving Inhabited

/-- Modelled from the spec: the state of the builder of section 4.2: the blocks
and CFGs it has allocated, the CFG and the block under construction. -/
structure CFGBuilder where
  Heap : List BasicBlock
  Cfgs : List SCFG
  CurrentCFG : Option Nat
  CurrentBB : Option Nat
deriving Inhabited

namespace CFGBuilder

/-- Modelled from the spec: `numArguments()` of the block with handle `b`. -/
def numArguments (B : CFGBuilder) (b : Nat) : Nat :=
  (B.Heap.getD b default).numArguments

/-- Modelled from the spec: `numBlocks()` of the current CFG. -/
def numBlocks (B : CFGBuilder) : Nat :=
  match B.CurrentCFG with
  | some c => (B.Cfgs.getD c default).blocks.length
  | none => 0

/-- Modelled from the spec: `newBlock(Nargs)`: a fresh block with `Nargs` phi
arguments, owned by no CFG yet. -/
def newBlock (B : CFGBuilder) (Nargs : Nat) : Nat × CFGBuilder :=
  (B.Heap.length, { B with Heap := B.Heap ++ [⟨0, Nargs, SExpr.null, false⟩] })

/-- Modelled from the spec: `add(block)` of the current CFG: the block is
appended to the list of blocks and marked as owned. -/
def addBlock (B : CFGBuilder) (b : Nat) : CFGBuilder :=
  match B.CurrentCFG with
  | some c =>
    { B with
      Cfgs := B.Cfgs.modify (fun g => { g with blocks := g.blocks ++ [some b] }) c,
      Heap := B.Heap.modify (fun x => { x with inCFG := true }) b }
  | none => B

/-- Modelled from the spec: `beginCFG(nullptr)`: a new CFG that owns a fresh entry
block without arguments and a fresh exit block with one phi argument, which
becomes the current CFG. -/
def beginCFG (B : CFGBuilder) : CFGBuilder :=
  let e := B.Heap.length
  let x := B.Heap.length + 1
  { B with
    Heap := B.Heap ++ [⟨0, 0, SExpr.null, true⟩, ⟨0, 1, SExpr.null, true⟩],
    Cfgs := B.Cfgs ++ [⟨[some e, some x], e, x⟩],
    CurrentCFG := some B.Cfgs.length }

/-- Modelled from the spec: `beginBlock(block)`: the block becomes the current
one, and joins the current CFG when no CFG owns it. -/
def beginBlock (B : CFGBuilder) (b : Option Nat) : CFGBuilder :=
  match b with
  | some h =>
    let B1 := if (B.Heap.getD h default).inCFG then B else B.addBlock h
    { B1 with CurrentBB := some h }
  | none => { B with CurrentBB := none }

/-- Modelled from the spec: `endBlock(term)`: the current block receives the
terminator and is closed. -/
def endBlock (B : CFGBuilder) (term : SExpr) : CFGBuilder :=
  match B.CurrentBB with
  | some h =>
    { B with
      Heap := B.Heap.modify (fun x => { x with terminator := term }) h,
      CurrentBB := none }
  | none => B

/-- Modelled from the spec: `endCFG()`: the current CFG is closed. -/
def endCFG (B : CFGBuilder) : CFGBuilder :=
  { B with CurrentCFG := none, CurrentBB := none }

/-- Modelled from the spec: `newGoto(target, args)`: the current block is
terminated by a `Goto` that passes `args` to the phi arguments of `target`. -/
def newGoto (B : CFGBuilder) (target : Option Nat) (args : List SExpr) : CFGBuilder :=
  B.endBlock (SExpr.Goto target args)

/-- Modelled from the spec: `newBranch(cond, thenBlock, elseBlock)`. -/
def newBranch (B : CFGBuilder) (c : SExpr) (t e : Option Nat) : CFGBuilder :=
  B.endBlock (SExpr.Branch c t e)

/-- Modelled from the spec: `newSwitch(cond, numCases)`: the current block is
terminated by a `Switch` without cases yet; the result names the block that
holds it. -/
def newSwitch (B : CFGBuilder) (c : SExpr) : Option Nat × CFGBuilder :=
  (B.CurrentBB, B.endBlock (SExpr.Switch c [] []))

/-- Modelled from the spec: `addSwitchCase(switch, value, block)`. -/
def addSwitchCase (B : CFGBuilder) (E : Option Nat) (v : SExpr) (b : Option Nat) :
    CFGBuilder :=
  match E with
  | some h =>
    { B with Heap := B.Heap.modify (fun x =>
        match x.terminator with
        | SExpr.Switch c vs bs => { x with terminator := SExpr.Switch c (vs ++ [v]) (bs ++ [b]) }
        | _ => x) h }
  | none => B

/-- Modelled from the spec: `newReturn(e)`. -/
def newReturn (B : CFGBuilder) (e : SExpr) : CFGBuilder :=
  B.endBlock (SExpr.Return e)

end CFGBuilder

/-! ## Bytecode reader -/

/-- State of `BytecodeReader`: the byte stream, the builder, the reconstruction
stack (bottom first, as in the `std::vector`), the scope table `Vars`, the
block table `Blocks` (`none` for a null slot), the instruction table `Instrs`
(`SExpr.null` for a null slot), the counters of the CFG being read and the
sticky error flag, which `fail` sets and `success()` tests. -/
structure BytecodeReader where
  Reader : ByteStreamReaderBase
  Builder : CFGBuilder
  Stack : List SExpr
  Vars : List SExpr
  Blocks : List (Option Nat)
  Instrs : List SExpr
  CurrentInstrID : Nat
  CurrentArg : Nat
  CFGStackSize : Nat
  Error : Bool
deriving Inhabited

/-- The parts of the program that the reader depends on and that src/ does not
hold, taken as parameters.
* `InvalidBlockID`: the constant `BasicBlock::InvalidBlockID`.
* `voidType`: the byte that stands for `BaseType::getBaseType<void>()`.
* `BtBr`: the branch table `BtBr<ReadLiteralFun>::branch`: for a base type
  byte, the payload decoder `readLitVal` of the type it selects, or `none` when
  it takes the default path.
* `isInstruction`: the test behind `dyn_cast_or_null<Instruction>`.
* `deserialize`: the functions `X::deserialize(this)` of the annotation kinds
  listed in TILAnnKinds.def. -/
structure Tables where
  InvalidBlockID : Nat
  voidType : Nat
  BtBr : Nat → Option (ByteStreamReaderBase → LitVal × ByteStreamReaderBase)
  isInstruction : SExpr → Bool
  deserialize : Nat → BytecodeReader → Nat × BytecodeReader

/-- The conversion of a `uint32_t` to `int`. -/
def toInt32 (n : Nat) : Int :=
  if n % 2 ^ 32 < 2 ^ 31 then ((n % 2 ^ 32 : Nat) : Int)
  else ((n % 2 ^ 32 : Nat) : Int) - 2 ^ 32

/-- Modelled from the spec: the pseudo-opcodes of section 4.3 in the order in which
the spec and the `switch` of `readSExpr` list them; they occupy the low range
of the byte tag. -/
def PSOP_Null : Nat := 0

/-- See `PSOP_Null`. -/
def PSOP_WeakInstrRef : Nat := 1

/-- See `PSOP_Null`. -/
def PSOP_BBArgument : Nat := 2

/-- See `PSOP_Null`. -/
def PSOP_BBInstruction : Nat := 3

/-- See `PSOP_Null`. -/
def PSOP_EnterScope : Nat := 4

/-- See `PSOP_Null`. -/
def PSOP_ExitScope : Nat := 5

/-- See `PSOP_Null`. -/
def PSOP_EnterBlock : Nat := 6

/-- See `PSOP_Null`. -/
def PSOP_EnterCFG : Nat := 7

/-- See `PSOP_Null`. -/
def PSOP_Annotation : Nat := 8

/-- See `PSOP_Null`: the number of pseudo-opcodes, the first byte tag of an
expression opcode. -/
def PSOP_Last : Nat := 9

/-- Modelled from the spec: the expression opcodes (TILOps.def is not in src/), one
per node kind, numbered in the order in which section 4.3 lists them. -/
inductive TIL_Opcode where
  | COP_VarDecl | COP_Function | COP_Code | COP_Field | COP_Slot | COP_Record
  | COP_Array | COP_ScalarType | COP_Literal | COP_Variable | COP_Apply
  | COP_Project | COP_Call | COP_Alloc | COP_Load | COP_Store | COP_ArrayIndex
  | COP_ArrayAdd | COP_UnaryOp | COP_BinaryOp | COP_Cast | COP_Phi | COP_Goto
  | COP_Branch | COP_Switch | COP_Return | COP_Undefined | COP_Wildcard
  | COP_Identifier | COP_Let | COP_IfThenElse | COP_BasicBlock | COP_SCFG
deriving DecidableEq, Inhabited

namespace TIL_Opcode

/-- The numeric value of an opcode. -/
def toNat : TIL_Opcode → Nat
  | COP_VarDecl => 0 | COP_Function => 1 | COP_Code => 2 | COP_Field => 3
  | COP_Slot => 4 | COP_Record => 5 | COP_Array => 6 | COP_ScalarType => 7
  | COP_Literal => 8 | COP_Variable => 9 | COP_Apply => 10 | COP_Project => 11
  | COP_Call => 12 | COP_Alloc => 13 | COP_Load => 14 | COP_Store => 15
  | COP_ArrayIndex => 16 | COP_ArrayAdd => 17 | COP_UnaryOp => 18
  | COP_BinaryOp => 19 | COP_Cast => 20 | COP_Phi => 21 | COP_Goto => 22
  | COP_Branch => 23 | COP_Switch => 24 | COP_Return => 25 | COP_Undefined => 26
  | COP_Wildcard => 27 | COP_Identifier => 28 | COP_Let => 29
  | COP_IfThenElse => 30 | COP_BasicBlock => 31 | COP_SCFG => 32

/-- The opcode with a given numeric value, if there is one. -/
def ofNat? : Nat → Option TIL_Opcode
  | 0 => some COP_VarDecl | 1 => some COP_Function | 2 => some COP_Code
  | 3 => some COP_Field | 4 => some COP_Slot | 5 => some COP_Record
  | 6 => some COP_Array | 7 => some COP_ScalarType | 8 => some COP_Literal
  | 9 => some COP_Variable | 10 => some COP_Apply | 11 => some COP_Project
  | 12 => some COP_Call | 13 => some COP_Alloc | 14 => some COP_Load
  | 15 => some COP_Store | 16 => some COP_ArrayIndex | 17 => some COP_ArrayAdd
  | 18 => some COP_UnaryOp | 19 => some COP_BinaryOp | 20 => some COP_Cast
  | 21 => some COP_Phi | 22 => some COP_Goto | 23 => some COP_Branch
  | 24 => some COP_Switch | 25 => some COP_Return | 26 => some COP_Undefined
  | 27 => some COP_Wildcard | 28 => some COP_Identifier | 29 => some COP_Let
  | 30 => some COP_IfThenElse | 31 => some COP_BasicBlock | 32 => some COP_SCFG
  | _ => none

end TIL_Opcode

namespace BytecodeReader

/-! ### Helpers declared in Bytecode.h -/

/-- Modelled from the spec: `fail(message)` sets the sticky error flag. -/
def fail (r : BytecodeReader) : BytecodeReader :=
  { r with Error := true }

/-- Modelled from the spec: `success()`: the error flag is clear. -/
def success (r : BytecodeReader) : Bool :=
  !r.Error

/-- Modelled from the spec: `push(E)` puts `E` on top of the reconstruction stack. -/
def push (r : BytecodeReader) (E : SExpr) : BytecodeReader :=
  { r with Stack := r.Stack ++ [E] }

/-- Modelled from the spec: `arg(i)` is the value `i` places below the top of the
stack.  The source does not say what it is when the stack holds `i` values or
fewer; the embedding gives null. -/
def arg (r : BytecodeReader) (i : Nat) : SExpr :=
  if i < r.Stack.length then r.Stack.getD (r.Stack.length - 1 - i) SExpr.null
  else SExpr.null

/-- Modelled from the spec: `drop(n)` removes the top `n` values of the stack. -/
def drop (r : BytecodeReader) (n : Nat) : BytecodeReader :=
  { r with Stack := r.Stack.take (r.Stack.length - n) }

/-- Modelled from the spec: `lastArgs(n)` is the top `n` values of the stack,
lowest first. -/
def lastArgs (r : BytecodeReader) (n : Nat) : List SExpr :=
  r.Stack.drop (r.Stack.length - n)

/-- Modelled from the spec: `readPseudoOpcode()` reads the byte tag of an atom. -/
def readPseudoOpcode (r : BytecodeReader) : Nat × BytecodeReader :=
  (r.Reader.readUInt8.1, { r with Reader := r.Reader.readUInt8.2 })

/-- Modelled from the spec: `getOpcode(Psop)`: the expression opcode of a byte tag
above the pseudo-opcodes. -/
def getOpcode (Psop : Nat) : Option TIL_Opcode :=
  TIL_Opcode.ofNat? (Psop - PSOP_Last)

/-- Modelled from the spec: `readFlag<T>()` reads a flag byte. -/
def readFlag (r : BytecodeReader) : Nat × BytecodeReader :=
  (r.Reader.readUInt8.1, { r with Reader := r.Reader.readUInt8.2 })

/-- Modelled from the spec: `readBaseType()` reads the base type byte. -/
def readBaseType (r : BytecodeReader) : Nat × BytecodeReader :=
  (r.Reader.readUInt8.1, { r with Reader := r.Reader.readUInt8.2 })

/-- The call `Reader->readUInt32()`. -/
def readUInt32 (r : BytecodeReader) : Nat × BytecodeReader :=
  (r.Reader.readUInt32.1, { r with Reader := r.Reader.readUInt32.2 })

/-- The call `Reader->readUInt16()`. -/
def readUInt16 (r : BytecodeReader) : Nat × BytecodeReader :=
  (r.Reader.readUInt16.1, { r with Reader := r.Reader.readUInt16.2 })

/-- The call `Reader->readUInt64()`. -/
def readUInt64 (r : BytecodeReader) : Nat × BytecodeReader :=
  (r.Reader.readUInt64.1, { r with Reader := r.Reader.readUInt64.2 })

/-- The call `Reader->readString()`. -/
def readString (r : BytecodeReader) : List Nat × BytecodeReader :=
  (r.Reader.readString.1, { r with Reader := r.Reader.readString.2 })

/-! ### Functions of Bytecode.cpp -/

/-- `BytecodeReader::getVarDecl(unsigned Vidx)`. -/
def getVarDecl (r : BytecodeReader) (Vidx : Nat) : SExpr × BytecodeReader :=
  if Vidx ≥ r.Vars.length then (SExpr.null, r.fail)
  else (r.Vars.getD Vidx SExpr.null, r)

/-- `BytecodeReader::getBlock(int Bid, int Nargs)`, called with the unsigned
values read from the stream.  The range test is
`Bid >= static_cast<int>(Blocks.size())`, with the size of the table
converted to `int`.  A negative `Bid` passes the test against a table of
fewer than `2^31` entries and indexes the table below its start; the
embedding reads a null slot there and ignores the store. -/
def getBlock (T : Tables) (r : BytecodeReader) (Bid Nargs : Nat) :
    Option Nat × BytecodeReader :=
  if Bid % 2 ^ 32 = T.InvalidBlockID % 2 ^ 32 then (none, r)
  else if toInt32 Bid ≥ toInt32 r.Blocks.length then (none, r.fail)
  else
    let Bb : Option Nat :=
      if toInt32 Bid < 0 then none else r.Blocks.getD (toInt32 Bid).toNat none
    match Bb with
    | none =>
      let nb := r.Builder.newBlock Nargs
      let blocks := if toInt32 Bid < 0 then r.Blocks
        else r.Blocks.set (toInt32 Bid).toNat (some nb.1)
      (some nb.1, { r with Builder := nb.2, Blocks := blocks })
    | some b =>
      if toInt32 (r.Builder.numArguments b) ≠ toInt32 Nargs then (some b, r.fail)
      else (some b, r)

/-- `BytecodeReader::enterScope()`. -/
def enterScope (r : BytecodeReader) : BytecodeReader :=
  match (r.arg 0).dynCastVarDecl with
  | SExpr.VarDecl k i n d =>
    if r.Vars.length ≠ i then r.fail
    else { r with Vars := r.Vars ++ [SExpr.VarDecl k i n d] }
  | _ => r.fail

/-- `BytecodeReader::exitScope()`. -/
def exitScope (r : BytecodeReader) : BytecodeReader :=
  { r with Vars := r.Vars.dropLast }

/-- The loop of `enterBlock`:
`for (i = 0; i < n; ++i) Instrs[CurrentInstrID++] = Bb->arguments()[i];`
for the block `b`, from argument `i` on, `k` arguments remaining. -/
def registerPhis (b : Nat) : Nat → Nat → BytecodeReader → BytecodeReader
  | 0, _, r => r
  | k + 1, i, r =>
    registerPhis b k (i + 1)
      { r with
        Instrs := r.Instrs.set r.CurrentInstrID (SExpr.Phi (some (b, i))),
        CurrentInstrID := r.CurrentInstrID + 1 }

/-- `BytecodeReader::enterBlock()`.  When `getBlock` gives null the source
dereferences a null block; the embedding registers no argument then. -/
def enterBlock (T : Tables) (r : BytecodeReader) : BytecodeReader :=
  let Bid := r.readUInt32.1
  let r1 := r.readUInt32.2
  let r2 := { r1.readUInt32.2 with CurrentInstrID := r1.readUInt32.1 }
  let Nargs := r2.readUInt32.1
  let r3 := r2.readUInt32.2
  let gb := getBlock T r3 Bid Nargs
  let r4 := { gb.2 with Builder := gb.2.Builder.beginBlock gb.1 }
  let r5 := match r4.Builder.CurrentBB with
    | some b => registerPhis b (r4.Builder.numArguments b) 0 r4
    | none => r4
  { r5 with CurrentArg := 0 }

/-- The call `Blocks.resize(n, nullptr)`, the same for `Instrs`. -/
def resize {α : Type} (l : List α) (n : Nat) (d : α) : List α :=
  l.take n ++ List.replicate (n - l.length) d

/-- `BytecodeReader::enterCFG()`.  The stores `Blocks[Eid]` and `Blocks[Xid]` are
not guarded in the source; the embedding ignores a store outside the table. -/
def enterCFG (r : BytecodeReader) : BytecodeReader :=
  let Nb := r.readUInt32.1
  let r1 := r.readUInt32.2
  let Ni := r1.readUInt32.1
  let r2 := r1.readUInt32.2
  let Eid := r2.readUInt32.1
  let r3 := r2.readUInt32.2
  let Xid := r3.readUInt32.1
  let r4 := r3.readUInt32.2
  let B := r4.Builder.beginCFG
  let cfg := B.Cfgs.getD (B.CurrentCFG.getD 0) default
  let blocks := ((resize r4.Blocks Nb none).set Eid (some cfg.entry)).set Xid (some cfg.exit)
  { r4 with
    Builder := B,
    Blocks := blocks,
    Instrs := resize r4.Instrs Ni SExpr.null,
    CFGStackSize := r4.Stack.length }

/-- `BytecodeReader::readBasicBlock()`. -/
def readBasicBlock (r : BytecodeReader) : BytecodeReader :=
  if r.Builder.CurrentBB.isSome then
    { r with Builder := r.Builder.endBlock SExpr.null }
  else r

/-- The loop of `readSCFG`:
`for (i = 0; i < n; ++i) { B = Blocks[i]; Cfg->blocks()[i].reset(B);
B->setBlockID(i); }` as a function of the CFG and of the heap of blocks.
For a null `B` the source dereferences null; the embedding sets no ID then. -/
def renumberBlocks (Blocks : List (Option Nat)) :
    Nat → Nat → SCFG × List BasicBlock → SCFG × List BasicBlock
  | 0, _, s => s
  | k + 1, i, s =>
    let B := Blocks.getD i none
    let g := { s.1 with blocks := s.1.blocks.set i B }
    let heap := match B with
      | some b => s.2.modify (fun x => { x with blockID := i }) b
      | none => s.2
    renumberBlocks Blocks k (i + 1) (g, heap)

/-- `BytecodeReader::readSCFG()`. -/
def readSCFG (r : BytecodeReader) : BytecodeReader :=
  let r1 := { r with CFGStackSize := 0 }
  if r1.Builder.numBlocks ≠ r1.Blocks.length then r1.fail
  else
    let c := r1.Builder.CurrentCFG.getD 0
    let s := renumberBlocks r1.Blocks r1.Blocks.length 0
      (r1.Builder.Cfgs.getD c default, r1.Builder.Heap)
    let B := { r1.Builder with Cfgs := r1.Builder.Cfgs.set c s.1, Heap := s.2 }
    push { r1 with Builder := B.endCFG, Blocks := [], Instrs := [] } (SExpr.SCFG c)

/-- `BytecodeReader::readNull()`. -/
def readNull (r : BytecodeReader) : BytecodeReader :=
  r.push SExpr.null

/-- `BytecodeReader::readWeak()`. -/
def readWeak (r : BytecodeReader) : BytecodeReader :=
  let i := r.readUInt32.1
  let r1 := r.readUInt32.2
  if i ≥ r1.Instrs.length then r1.fail
  else r1.push (r1.Instrs.getD i SExpr.null)

/-- `BytecodeReader::readBBArgument()`. -/
def readBBArgument (r : BytecodeReader) : BytecodeReader :=
  drop { r with CurrentArg := r.CurrentArg + 1 } 1

/-- `BytecodeReader::readBBInstruction()`. -/
def readBBInstruction (T : Tables) (r : BytecodeReader) : BytecodeReader :=
  if r.Stack.length ≤ r.CFGStackSize then r.fail
  else
    let I := if T.isInstruction (r.arg 0) then r.arg 0 else SExpr.null
    if !(r.arg 0).isNull && I.isNull then r.fail
    else
      drop { r with
        Instrs := r.Instrs.set r.CurrentInstrID I,
        CurrentInstrID := r.CurrentInstrID + 1 } 1

/-- `BytecodeReader::readVarDecl()`. -/
def readVarDecl (r : BytecodeReader) : BytecodeReader :=
  let K := r.readFlag.1
  let r1 := r.readFlag.2
  let Id := r1.readUInt32.1
  let r2 := r1.readUInt32.2
  let Nm := r2.readString.1
  let r3 := r2.readString.2
  let E := SExpr.VarDecl K Id Nm (r3.arg 0)
  (r3.drop 1).push E

/-- `BytecodeReader::readFunction()`. -/
def readFunction (r : BytecodeReader) : BytecodeReader :=
  let E := SExpr.Function (r.arg 1).dynCastVarDecl (r.arg 0)
  (r.drop 2).push E

/-- `BytecodeReader::readCode()`. -/
def readCode (r : BytecodeReader) : BytecodeReader :=
  let Cc := r.readFlag.1
  let r1 := r.readFlag.2
  let E := SExpr.Code (r1.arg 1) (r1.arg 0) Cc
  (r1.drop 2).push E

/-- `BytecodeReader::readField()`. -/
def readField (r : BytecodeReader) : BytecodeReader :=
  let E := SExpr.Field (r.arg 1) (r.arg 0)
  (r.drop 2).push E

/-- `BytecodeReader::readSlot()`. -/
def readSlot (r : BytecodeReader) : BytecodeReader :=
  let Mods := r.readUInt16.1
  let r1 := r.readUInt16.2
  let S := r1.readString.1
  let r2 := r1.readString.2
  let E := SExpr.Slot S Mods (r2.arg 0)
  (r2.drop 1).push E

/-- `BytecodeReader::readRecord()`.  The slots are added from `arg(Ns-1)` down to
`arg(0)`. -/
def readRecord (r : BytecodeReader) : BytecodeReader :=
  let Ns := r.readUInt32.1
  let r1 := r.readUInt32.2
  let slots := (List.range Ns).map (fun j => (r1.arg (Ns - 1 - j)).dynCastSlot)
  let E := SExpr.Record (r1.arg Ns) slots
  (r1.drop (Ns + 1)).push E

/-- `BytecodeReader::readArray()`.  Element `i` is `arg(Ne-1-i)`. -/
def readArray (r : BytecodeReader) : BytecodeReader :=
  let Ne := r.readUInt64.1
  let r1 := r.readUInt64.2
  let E :=
    if Ne = 0 then SExpr.Array (r1.arg 1) (r1.arg 0) []
    else SExpr.Array (r1.arg (Ne + 1)) SExpr.null
      ((List.range Ne).map (fun i => r1.arg (Ne - 1 - i)))
  (r1.drop (Ne + 2)).push E

/-- `BytecodeReader::readScalarType()`. -/
def readScalarType (r : BytecodeReader) : BytecodeReader :=
  let Bt := r.readBaseType.1
  let r1 := r.readBaseType.2
  r1.push (SExpr.ScalarType Bt)

/-- `BytecodeReader::readLiteral()` with `ReadLiteralFun`: the default path of the
branch table pushes `newLiteralVoid()`, every other path pushes
`newLiteralT<T>(readLitVal(...))` for the type `T` that `Bt` selects. -/
def readLiteral (T : Tables) (r : BytecodeReader) : BytecodeReader :=
  let Bt := r.readBaseType.1
  let r1 := r.readBaseType.2
  match T.BtBr Bt with
  | none => r1.push (SExpr.Literal T.voidType LitVal.none)
  | some readLitVal =>
    push { r1 with Reader := (readLitVal r1.Reader).2 }
      (SExpr.Literal Bt (readLitVal r1.Reader).1)

/-- `BytecodeReader::readVariable()`. -/
def readVariable (r : BytecodeReader) : BytecodeReader :=
  let Vidx := r.readUInt32.1
  let r1 := r.readUInt32.2
  let vd := r1.getVarDecl Vidx
  vd.2.push (SExpr.Variable vd.1)

/-- `BytecodeReader::readApply()`. -/
def readApply (r : BytecodeReader) : BytecodeReader :=
  let Ak := r.readFlag.1
  let r1 := r.readFlag.2
  let E := SExpr.Apply (r1.arg 1) (r1.arg 0) Ak
  (r1.drop 2).push E

/-- `BytecodeReader::readProject()`. -/
def readProject (r : BytecodeReader) : BytecodeReader :=
  let Nm := r.readString.1
  let r1 := r.readString.2
  let E := SExpr.Project (r1.arg 0) Nm
  (r1.drop 1).push E

/-- `BytecodeReader::readCall()`. -/
def readCall (r : BytecodeReader) : BytecodeReader :=
  let Bt := r.readBaseType.1
  let r1 := r.readBaseType.2
  let E := SExpr.Call (r1.arg 0) Bt
  (r1.drop 1).push E

/-- `BytecodeReader::readAlloc()`. -/
def readAlloc (r : BytecodeReader) : BytecodeReader :=
  let Ak := r.readFlag.1
  let r1 := r.readFlag.2
  let E := SExpr.Alloc (r1.arg 0) Ak
  (r1.drop 1).push E

/-- `BytecodeReader::readLoad()`. -/
def readLoad (r : BytecodeReader) : BytecodeReader :=
  let Bt := r.readBaseType.1
  let r1 := r.readBaseType.2
  let E := SExpr.Load (r1.arg 0) Bt
  (r1.drop 1).push E

/-- `BytecodeReader::readStore()`. -/
def readStore (r : BytecodeReader) : BytecodeReader :=
  let E := SExpr.Store (r.arg 1) (r.arg 0)
  (r.drop 2).push E

/-- `BytecodeReader::readArrayIndex()`. -/
def readArrayIndex (r : BytecodeReader) : BytecodeReader :=
  let E := SExpr.ArrayIndex (r.arg 1) (r.arg 0)
  (r.drop 2).push E

/-- `BytecodeReader::readArrayAdd()`. -/
def readArrayAdd (r : BytecodeReader) : BytecodeReader :=
  let E := SExpr.ArrayAdd (r.arg 1) (r.arg 0)
  (r.drop 2).push E

/-- `BytecodeReader::readUnaryOp()`. -/
def readUnaryOp (r : BytecodeReader) : BytecodeReader :=
  let Uop := r.readFlag.1
  let r1 := r.readFlag.2
  let Bt := r1.readBaseType.1
  let r2 := r1.readBaseType.2
  let E := SExpr.UnaryOp Uop (r2.arg 0) Bt
  (r2.drop 1).push E

/-- `BytecodeReader::readBinaryOp()`. -/
def readBinaryOp (r : BytecodeReader) : BytecodeReader :=
  let Bop := r.readFlag.1
  let r1 := r.readFlag.2
  let Bt := r1.readBaseType.1
  let r2 := r1.readBaseType.2
  let E := SExpr.BinaryOp Bop (r2.arg 1) (r2.arg 0) Bt
  (r2.drop 2).push E

/-- `BytecodeReader::readCast()`. -/
def readCast (r : BytecodeReader) : BytecodeReader :=
  let Cop := r.readFlag.1
  let r1 := r.readFlag.2
  let Bt := r1.readBaseType.1
  let r2 := r1.readBaseType.2
  let E := SExpr.Cast Cop (r2.arg 0) Bt
  (r2.drop 1).push E

/-- `BytecodeReader::readPhi()`. -/
def readPhi (r : BytecodeReader) : BytecodeReader :=
  match r.Builder.CurrentBB with
  | some b =>
    if r.CurrentArg < r.Builder.numArguments b then r.push (SExpr.Phi (some (b, r.CurrentArg)))
    else r.push (SExpr.Phi none)
  | none => r.push (SExpr.Phi none)

/-- `BytecodeReader::readGoto()`. -/
def readGoto (T : Tables) (r : BytecodeReader) : BytecodeReader :=
  let Nargs := r.readUInt32.1
  let r1 := r.readUInt32.2
  let Bid := r1.readUInt32.1
  let r2 := r1.readUInt32.2
  let gb := getBlock T r2 Bid Nargs
  let r3 := { gb.2 with Builder := gb.2.Builder.newGoto gb.1 (gb.2.lastArgs Nargs) }
  r3.drop Nargs

/-- `BytecodeReader::readBranch()`. -/
def readBranch (T : Tables) (r : BytecodeReader) : BytecodeReader :=
  let ThenBid := r.readUInt32.1
  let r1 := r.readUInt32.2
  let ElseBid := r1.readUInt32.1
  let r2 := r1.readUInt32.2
  let Bbt := getBlock T r2 ThenBid 0
  let Bbe := getBlock T Bbt.2 ElseBid 0
  let r3 := { Bbe.2 with Builder := Bbe.2.Builder.newBranch (Bbe.2.arg 0) Bbt.1 Bbe.1 }
  r3.drop 1

/-- The loop of `readSwitch`:
`for (i = 0; i < Nc; ++i) { Bid = Reader->readUInt32(); Bb = getBlock(Bid, 0);
Builder.addSwitchCase(E, arg(Nc-1-i), Bb); }`, `k` cases remaining. -/
def readSwitchCases (T : Tables) (E : Option Nat) (Nc : Nat) :
    Nat → Nat → BytecodeReader → BytecodeReader
  | 0, _, r => r
  | k + 1, i, r =>
    let Bid := r.readUInt32.1
    let r1 := r.readUInt32.2
    let Bb := getBlock T r1 Bid 0
    let r2 := { Bb.2 with
      Builder := Bb.2.Builder.addSwitchCase E (Bb.2.arg (Nc - 1 - i)) Bb.1 }
    readSwitchCases T E Nc k (i + 1) r2

/-- `BytecodeReader::readSwitch()`. -/
def readSwitch (T : Tables) (r : BytecodeReader) : BytecodeReader :=
  let Nc := r.readUInt32.1
  let r1 := r.readUInt32.2
  let sw := r1.Builder.newSwitch (r1.arg Nc)
  let r2 := { r1 with Builder := sw.2 }
  let r3 := readSwitchCases T sw.1 Nc Nc 0 r2
  r3.drop (Nc + 1)

/-- `BytecodeReader::readReturn()`. -/
def readReturn (r : BytecodeReader) : BytecodeReader :=
  drop { r with Builder := r.Builder.newReturn (r.arg 0) } 1

/-- `BytecodeReader::readUndefined()`. -/
def readUndefined (r : BytecodeReader) : BytecodeReader :=
  r.push SExpr.Undefined

/-- `BytecodeReader::readWildcard()`. -/
def readWildcard (r : BytecodeReader) : BytecodeReader :=
  r.push SExpr.Wildcard

/-- `BytecodeReader::readIdentifier()`. -/
def readIdentifier (r : BytecodeReader) : BytecodeReader :=
  let S := r.readString.1
  let r1 := r.readString.2
  r1.push (SExpr.Identifier S)

/-- `BytecodeReader::readLet()`. -/
def readLet (r : BytecodeReader) : BytecodeReader :=
  let E := SExpr.Let (r.arg 1).dynCastVarDecl (r.arg 0)
  (r.drop 2).push E

/-- `BytecodeReader::readIfThenElse()`. -/
def readIfThenElse (r : BytecodeReader) : BytecodeReader :=
  let E := SExpr.IfThenElse (r.arg 2) (r.arg 1) (r.arg 0)
  (r.drop 3).push E

/-- `BytecodeReader::readAnnotationByKind(Ak)`: the annotation that
`X::deserialize(this)` gives is added to `arg(0)`. -/
def readAnnotationByKind (T : Tables) (Ak : Nat) (r : BytecodeReader) : BytecodeReader :=
  let A := (T.deserialize Ak r).1
  let r1 := (T.deserialize Ak r).2
  (r1.drop 1).push (SExpr.Annotated (r1.arg 0) A)

/-- `BytecodeReader::readAnnotation()`. -/
def readAnnotation (T : Tables) (r : BytecodeReader) : BytecodeReader :=
  readAnnotationByKind T r.readFlag.1 r.readFlag.2

/-- `BytecodeReader::readSExprByType(op)`; a value that is no opcode meets no
`case` of the `switch`. -/
def readSExprByType (T : Tables) (op : Option TIL_Opcode) (r : BytecodeReader) :
    BytecodeReader :=
  match op with
  | some TIL_Opcode.COP_VarDecl => readVarDecl r
  | some TIL_Opcode.COP_Function => readFunction r
  | some TIL_Opcode.COP_Code => readCode r
  | some TIL_Opcode.COP_Field => readField r
  | some TIL_Opcode.COP_Slot => readSlot r
  | some TIL_Opcode.COP_Record => readRecord r
  | some TIL_Opcode.COP_Array => readArray r
  | some TIL_Opcode.COP_ScalarType => readScalarType r
  | some TIL_Opcode.COP_Literal => readLiteral T r
  | some TIL_Opcode.COP_Variable => readVariable r
  | some TIL_Opcode.COP_Apply => readApply r
  | some TIL_Opcode.COP_Project => readProject r
  | some TIL_Opcode.COP_Call => readCall r
  | some TIL_Opcode.COP_Alloc => readAlloc r
  | some TIL_Opcode.COP_Load => readLoad r
  | some TIL_Opcode.COP_Store => readStore r
  | some TIL_Opcode.COP_ArrayIndex => readArrayIndex r
  | some TIL_Opcode.COP_ArrayAdd => readArrayAdd r
  | some TIL_Opcode.COP_UnaryOp => readUnaryOp r
  | some TIL_Opcode.COP_BinaryOp => readBinaryOp r
  | some TIL_Opcode.COP_Cast => readCast r
  | some TIL_Opcode.COP_Phi => readPhi r
  | some TIL_Opcode.COP_Goto => readGoto T r
  | some TIL_Opcode.COP_Branch => readBranch T r
  | some TIL_Opcode.COP_Switch => readSwitch T r
  | some TIL_Opcode.COP_Return => readReturn r
  | some TIL_Opcode.COP_Undefined => readUndefined r
  | some TIL_Opcode.COP_Wildcard => readWildcard r
  | some TIL_Opcode.COP_Identifier => readIdentifier r
  | some TIL_Opcode.COP_Let => readLet r
  | some TIL_Opcode.COP_IfThenElse => readIfThenElse r
  | some TIL_Opcode.COP_BasicBlock => readBasicBlock r
  | some TIL_Opcode.COP_SCFG => readSCFG r
  | none => r

/-- `BytecodeReader::readSExpr()`. -/
def readSExpr (T : Tables) (r : BytecodeReader) : BytecodeReader :=
  let Psop := r.readPseudoOpcode.1
  let r1 := r.readPseudoOpcode.2
  let r2 :=
    match Psop with
    | 0 => readNull r1
    | 1 => readWeak r1
    | 2 => readBBArgument r1
    | 3 => readBBInstruction T r1
    | 4 => enterScope r1
    | 5 => exitScope r1
    | 6 => enterBlock T r1
    | 7 => enterCFG r1
    | 8 => readAnnotation T r1
    | _ => readSExprByType T (getOpcode Psop) r1
  { r2 with Reader := r2.Reader.endAtom }

/-- The loop of `read`: `while (!Reader->empty() && success()) readSExpr();`.
The result is `none` when the budget `fuel` runs out before the loop ends. -/
def readLoop (T : Tables) : Nat → BytecodeReader → Option BytecodeReader
  | 0, r => if !r.Reader.empty && r.success then none else some r
  | fuel + 1, r =>
    if !r.Reader.empty && r.success then readLoop T fuel (readSExpr T r) else some r

/-- The statements of `read` that follow its loop: the value returned and the
final state. -/
def readFinish (r : BytecodeReader) : SExpr × BytecodeReader :=
  if !r.success then (SExpr.null, r)
  else if r.Stack.length = 0 then (SExpr.null, r.fail)
  else if r.Stack.length > 1 then
    (r.fail.Stack.getD (r.fail.Stack.length - 1) SExpr.null, r.fail)
  else (r.Stack.getD 0 SExpr.null, r)

/-- `BytecodeReader::read()`: the loop, then the checks of the stack.  The result
is `none` when the loop does not end within `fuel` atoms. -/
def read (T : Tables) (fuel : Nat) (r : BytecodeReader) : Option (SExpr × BytecodeReader) :=
  (readLoop T fuel r).map readFinish

end BytecodeReader

/-! ## Bytecode writer -/

/-- State of `BytecodeWriter`: the byte stream it writes to. -/
structure BytecodeWriter where
  Writer : ByteStreamWriterBase
deriving DecidableEq, Inhabited

namespace BytecodeWriter

/-- Modelled from the spec: `writePseudoOpcode(Psop)` writes the byte tag of a
pseudo-opcode. -/
def writePseudoOpcode (w : BytecodeWriter) (Psop : Nat) : BytecodeWriter :=
  { w with Writer := w.Writer.writeUInt8 Psop }

/-- Modelled from the spec: `writeOpcode(Op)` writes the byte tag of an expression
opcode, which lies above the pseudo-opcodes. -/
def writeOpcode (w : BytecodeWriter) (Op : TIL_Opcode) : BytecodeWriter :=
  { w with Writer := w.Writer.writeUInt8 (PSOP_Last + Op.toNat) }

/-- Modelled from the spec: `writeBaseType(Bt)` writes the base type byte. -/
def writeBaseType (w : BytecodeWriter) (Bt : Nat) : BytecodeWriter :=
  { w with Writer := w.Writer.writeUInt8 Bt }

/-- `BytecodeWriter::reduceNull()`. -/
def reduceNull (w : BytecodeWriter) : BytecodeWriter :=
  w.writePseudoOpcode PSOP_Null

/-- `BytecodeWriter::reduceScalarType(ScalarType *E)`; nothing is written for a
node of another kind, which the parameter type excludes. -/
def reduceScalarType (w : BytecodeWriter) (E : SExpr) : BytecodeWriter :=
  match E with
  | SExpr.ScalarType bt => (w.writeOpcode TIL_Opcode.COP_ScalarType).writeBaseType bt
  | _ => w

/-- `BytecodeWriter::reduceUndefined(Undefined *E)`. -/
def reduceUndefined (w : BytecodeWriter) (_E : SExpr) : BytecodeWriter :=
  w.writeOpcode TIL_Opcode.COP_Undefined

/-- `BytecodeWriter::reduceWildcard(Wildcard *E)`. -/
def reduceWildcard (w : BytecodeWriter) (_E : SExpr) : BytecodeWriter :=
  w.writeOpcode TIL_Opcode.COP_Wildcard

/-- Modelled from the spec: the end of an atom in the writer, `Writer->endAtom()`,
which the traversal of Bytecode.h issues after each `reduce` function
(section 4.3: each atom ends with `endAtom()`). -/
def endAtom (w : BytecodeWriter) : BytecodeWriter :=
  { w with Writer := w.Writer.endAtom }

/-- Modelled from the spec: the byte stream that the writer has produced once its
buffer is flushed: what the sink has received. -/
def output (w : BytecodeWriter) : List Nat :=
  w.Writer.flush.Sink

end BytecodeWriter

/-- A bytecode writer over an empty buffer of `BufferSize` zero bytes. -/
def BytecodeWriter.init (BufferSize MaxAtomSize : Nat) : BytecodeWriter :=
  ⟨⟨BufferSize, MaxAtomSize, List.replicate BufferSize 0, 0, []⟩⟩


namespace BytecodeWriter

/-- Modelled from the spec: `writeFlag(f)` writes a flag byte. -/
def writeFlag (w : BytecodeWriter) (f : Nat) : BytecodeWriter :=
  { w with Writer := w.Writer.writeUInt8 f }

/-- `BytecodeWriter::reduceApply(Apply *E)`; nothing is written for a node of
another kind, which the parameter type excludes. -/
def reduceApply (w : BytecodeWriter) (E : SExpr) : BytecodeWriter :=
  match E with
  | SExpr.Apply _ _ ak => (w.writeOpcode TIL_Opcode.COP_Apply).writeFlag ak
  | _ => w

/-- `BytecodeWriter::reduceIdentifier(Identifier *E)`; nothing is written for a
node of another kind, which the parameter type excludes. -/
def reduceIdentifier (w : BytecodeWriter) (E : SExpr) : BytecodeWriter :=
  match E with
  | SExpr.Identifier n =>
    { Writer := (w.writeOpcode TIL_Opcode.COP_Identifier).Writer.writeString n }
  | _ => w

end BytecodeWriter
/-! ## CFG reducer

The node classes of the TIL and the traversal framework (ThreadSafetyTIL.h,
ThreadSafetyTraverse.h) are not part of src/.  CFGReducer.h uses them through
their interfaces; the definitions marked as modelled give those interfaces a
meaning, following sections 3 and 4.2 of the specification.  A block is
referred to by its index in the arena, a phi argument by the list of its
values.  An assertion that fails is recorded by its line in CFGReducer.h and
execution continues, as in a build without assertions. -/

/-- Modelled from the spec: the terminators that the reducer builds (section 3,
CFG form): `Goto` with its target and phi slot, `Branch`, `Return`. -/
inductive Terminator where
  | Goto (TargetBlock Index : Nat) : Terminator
  | Branch (Condition : SExpr) (ThenBlock ElseBlock : Nat) : Terminator
  | Return (Retval : SExpr) : Terminator
deriving Inhabited

namespace Terminator

/-- Modelled from the spec: `thenBlock()` of a branch. -/
def thenBlock : Terminator → Nat
  | Branch _ t _ => t
  | _ => 0

/-- Modelled from the spec: `elseBlock()` of a branch. -/
def elseBlock : Terminator → Nat
  | Branch _ _ e => e
  | _ => 0

end Terminator

/-- Modelled from the spec: a basic block of the TIL (section 3, CFG form): its phi
arguments, each given by its values, one per predecessor; its interior
instructions; its terminator, if it has one; its predecessors (`none` for a
null pointer); and whether a CFG owns it (`cfg()` is not null). -/
structure TILBasicBlock where
  Args : List (List SExpr)
  Instrs : List SExpr
  TermInstr : Option Terminator
  Predecessors : List (Option Nat)
  CFGPtr : Bool
deriving Inhabited

namespace TILBasicBlock

/-- Modelled from the spec: `new (Arena) BasicBlock(Arena)`, an empty block. -/
def new : TILBasicBlock :=
  ⟨[], [], none, [], false⟩

/-- Modelled from the spec: `addArgument(Ph)` with a phi node that has the values
`vs`. -/
def addArgument (B : TILBasicBlock) (vs : List SExpr) : TILBasicBlock :=
  { B with Args := B.Args ++ [vs] }

/-- Modelled from the spec: `addInstruction(E)` of a block. -/
def addInstruction (B : TILBasicBlock) (E : SExpr) : TILBasicBlock :=
  { B with Instrs := B.Instrs ++ [E] }

/-- Modelled from the spec: `setTerminator(Term)`. -/
def setTerminator (B : TILBasicBlock) (Term : Terminator) : TILBasicBlock :=
  { B with TermInstr := some Term }

/-- Modelled from the spec: `addPredecessor(Pred)` (section 4.2, ordering note):
the predecessor is appended, every phi argument receives a further slot that
holds null, and the index of the new predecessor is returned. -/
def addPredecessor (B : TILBasicBlock) (Pred : Option Nat) : Nat × TILBasicBlock :=
  (B.Predecessors.length,
    { B with Predecessors := B.Predecessors ++ [Pred],
             Args := B.Args.map (fun vs => vs ++ [SExpr.null]) })

end TILBasicBlock

/-- Modelled from the spec: an `SCFG` (section 3): its blocks in the order in which
they were added, its entry and its exit block. -/
structure TILSCFG where
  Blocks : List Nat
  Entry : Nat
  Exit : Nat
deriving DecidableEq, Inhabited

/-- What a value of the embedding does not show of the node it stands for:
whether the node belongs to a block already (`E->block()` is not null), and
whether two values are one and the same node (`==` on pointers). -/
structure Pointers where
  block : SExpr → Bool
  same : SExpr → SExpr → Bool

namespace SExpr

/-- Modelled from the spec: `ThreadSafetyTIL::isTrivial(E)`: the pure values, a
literal or a variable (section 4.2). -/
def isTrivial : SExpr → Bool
  | Literal _ _ => true
  | Variable _ => true
  | _ => false

/-- Modelled from the spec: `name()` of a `VarDecl` or of an `Identifier`. -/
def name : SExpr → List Nat
  | VarDecl _ _ n _ => n
  | Identifier n => n
  | _ => []

/-- Modelled from the spec: `definition()` of a `VarDecl`. -/
def definition : SExpr → SExpr
  | VarDecl _ _ _ d => d
  | _ => null

end SExpr

/-- State of `VarContext`: the vector `Vars`. -/
structure VarContext where
  Vars : List SExpr
deriving Inhabited

namespace VarContext

/-- The loop of `VarContext::lookup`, with `k = n - i` iterations to go: it
looks at `Vars[n-i-1]`, which is `Vars[k-1]`. -/
def lookupLoop (C : VarContext) (S : List Nat) : Nat → SExpr
  | 0 => SExpr.null
  | k + 1 =>
    let V := C.Vars.getD k SExpr.null
    if V.name = S then V else lookupLoop C S k

/-- `VarContext::lookup(StringRef S)`; `n` is `Vars.size()` as an `unsigned`. -/
def lookup (C : VarContext) (S : List Nat) : SExpr :=
  C.lookupLoop S (C.Vars.length % 2 ^ 32)

/-- `VarContext::push(VarDecl *V)`. -/
def push (C : VarContext) (V : SExpr) : VarContext :=
  ⟨C.Vars ++ [V]⟩

/-- `VarContext::pop()`. -/
def pop (C : VarContext) : VarContext :=
  ⟨C.Vars.dropLast⟩

end VarContext

/-- State of `CFGRewriteReducer`: the blocks allocated in the arena, the members
`varCtx_`, `currentCFG_`, `currentBB_`, `currentArgs_` and `currentInstrs_`,
and the lines of the assertions that have failed. -/
structure CFGRewriteReducer where
  Arena : List TILBasicBlock
  varCtx_ : VarContext
  currentCFG_ : Option TILSCFG
  currentBB_ : Option Nat
  currentArgs_ : List SExpr
  currentInstrs_ : List SExpr
  FailedAsserts : List Nat
deriving Inhabited

/-- State of `CFGRewriteReducer::ContextT`: the continuation, `none` for a null
pointer; the reducer it points to is the state that is passed along. -/
structure ContextT where
  Continuation : Option Nat
deriving DecidableEq, Inhabited

namespace CFGRewriteReducer

/-- `CFGRewriteReducer(MemRegionRef A)`: no CFG, no block. -/
def init : CFGRewriteReducer :=
  ⟨[], ⟨[]⟩, none, none, [], [], []⟩

/-- The block with index `b`. -/
def blockAt (R : CFGRewriteReducer) (b : Nat) : TILBasicBlock :=
  R.Arena.getD b default

/-- An update of the block with index `b`. -/
def update (R : CFGRewriteReducer) (b : Nat) (f : TILBasicBlock → TILBasicBlock) :
    CFGRewriteReducer :=
  { R with Arena := R.Arena.modify f b }

/-- The allocation of a block in the arena, `new (Arena) BasicBlock(Arena)`, with
the content `B`: the index of the block, and the state that holds it. -/
def alloc (R : CFGRewriteReducer) (B : TILBasicBlock) : Nat × CFGRewriteReducer :=
  (R.Arena.length, { R with Arena := R.Arena ++ [B] })

/-- The statement `assert(c)` at `line` of CFGReducer.h. -/
def assert (R : CFGRewriteReducer) (line : Nat) (c : Bool) : CFGRewriteReducer :=
  if c then R else { R with FailedAsserts := R.FailedAsserts ++ [line] }

/-- The call `Target->addPredecessor(Pred)` on the block with index `Target`. -/
def addPredecessor (R : CFGRewriteReducer) (Target : Nat) (Pred : Option Nat) :
    Nat × CFGRewriteReducer :=
  (((R.blockAt Target).addPredecessor Pred).1,
    R.update Target (fun B => (B.addPredecessor Pred).2))

/-- `CFGRewriteReducer::enterScope(VarDecl *Orig, VarDecl *Nv)`. -/
def enterScope (P : Pointers) (R : CFGRewriteReducer) (Orig Nv : SExpr) : CFGRewriteReducer :=
  if Orig.name.length > 0 then
    let R1 := { R with varCtx_ := R.varCtx_.push Nv }
    if R1.currentBB_.isSome then
      if R1.currentInstrs_.length > 0 ∧
          P.same (R1.currentInstrs_.getLastD SExpr.null) Nv.definition then
        { R1 with currentInstrs_ := R1.currentInstrs_.dropLast ++ [Nv] }
      else
        { R1 with currentInstrs_ := R1.currentInstrs_ ++ [Nv] }
    else R1
  else R

/-- `CFGRewriteReducer::exitScope(const VarDecl *Orig)`. -/
def exitScope (R : CFGRewriteReducer) (Orig : SExpr) : CFGRewriteReducer :=
  if Orig.name.length > 0 then { R with varCtx_ := R.varCtx_.pop } else R

/-- `CFGRewriteReducer::reduceIdentifier(Identifier &Orig)`; the new node is a
copy of `Orig`. -/
def reduceIdentifier (R : CFGRewriteReducer) (Orig : SExpr) : SExpr :=
  let E := R.varCtx_.lookup Orig.name
  if ¬ E.isNull then E else SExpr.Identifier Orig.name

/-- `CFGRewriteReducer::reduceLet(Let &Orig, VarDecl *Nvd, SExpr *B)`. -/
def reduceLet (R : CFGRewriteReducer) (_Orig Nvd B : SExpr) : SExpr :=
  if R.currentCFG_.isSome then B else SExpr.Let Nvd B

/-- `CFGRewriteReducer::addInstruction(SExpr* E)`.  For a null `E`, and with no
current block, the source reads through a null pointer; the embedding adds
nothing there. -/
def addInstruction (P : Pointers) (R : CFGRewriteReducer) (E : SExpr) :
    SExpr × CFGRewriteReducer :=
  if ¬ E.isNull ∧ ¬ E.isTrivial ∧ ¬ P.block E then
    match R.currentBB_ with
    | some b => (E, R.update b (fun B => B.addInstruction E))
    | none => (E, R)
  else (E, R)

/-- `CFGRewriteReducer::startBlock(BasicBlock *BB)`; `currentCFG_->add(BB)` puts
the block at the end of the block list of the CFG and makes the CFG its
owner. -/
def startBlock (R : CFGRewriteReducer) (BB : Nat) : CFGRewriteReducer :=
  let R1 := R.assert 156 R.currentBB_.isNone
  let R2 := R1.assert 157 R1.currentArgs_.isEmpty
  let R3 := R2.assert 158 R2.currentInstrs_.isEmpty
  let R4 := R3.assert 159 ((R3.blockAt BB).Instrs.length == 0)
  let R5 := R4.assert 161 (match R4.currentBB_ with
    | some b => (R4.blockAt b).Instrs.length == 0
    | none => true)
  let R6 := { R5 with currentBB_ := some BB }
  if ¬ (R6.blockAt BB).CFGPtr then
    match R6.currentCFG_ with
    | some G =>
      { R6.update BB (fun B => { B with CFGPtr := true }) with
        currentCFG_ := some { G with Blocks := G.Blocks ++ [BB] } }
    | none => R6
  else R6

/-- `CFGRewriteReducer::finishBlock(Terminator* Term)`.  With no current block
the source reads through a null pointer; the embedding changes no block
there. -/
def finishBlock (R : CFGRewriteReducer) (Term : Terminator) : CFGRewriteReducer :=
  let R1 := R.assert 229 R.currentBB_.isSome
  let R3 := match R1.currentBB_ with
    | some b =>
      let R2 := R1.assert 230 ((R1.blockAt b).Instrs.length == 0)
      R2.update b (fun B =>
        { B with Instrs := B.Instrs ++ R2.currentInstrs_, TermInstr := some Term })
    | none => R1
  { R3 with currentArgs_ := [], currentInstrs_ := [], currentBB_ := none }

/-- `CFGRewriteReducer::createBranch(SExpr *Cond)`. -/
def createBranch (R : CFGRewriteReducer) (Cond : SExpr) : Terminator × CFGRewriteReducer :=
  let R1 := R.assert 172 R.currentBB_.isSome
  let Ntb := (R1.alloc TILBasicBlock.new).1
  let R2 := (R1.alloc TILBasicBlock.new).2
  let Neb := (R2.alloc TILBasicBlock.new).1
  let R3 := (R2.alloc TILBasicBlock.new).2
  let R4 := (R3.addPredecessor Ntb R3.currentBB_).2
  let R5 := (R4.addPredecessor Neb R4.currentBB_).2
  let Nt := Terminator.Branch Cond Ntb Neb
  (Nt, R5.finishBlock Nt)

/-- `CFGRewriteReducer::createGoto(SExpr* Result, BasicBlock *Target)`; the
arguments of a block are phi nodes, so that the cast to `Phi` succeeds. -/
def createGoto (R : CFGRewriteReducer) (Result : SExpr) (Target : Nat) :
    Terminator × CFGRewriteReducer :=
  let R1 := R.assert 189 R.currentBB_.isSome
  let Idx := (R1.addPredecessor Target R1.currentBB_).1
  let R2 := (R1.addPredecessor Target R1.currentBB_).2
  let R3 :=
    if (R2.blockAt Target).Args.length > 0 then
      R2.update Target (fun B => { B with Args := B.Args.modifyHead (fun vs => vs.set Idx Result) })
    else R2
  let Nt := Terminator.Goto Target Idx
  (Nt, R3.finishBlock Nt)

/-- Modelled from the spec: `new (Arena) SCFG(Arena, 0)`: a CFG with a fresh entry
block and a fresh exit block; the exit block has one phi argument and returns
it (sections 3 and 4.2: the exit block is the continuation of the whole
expression, it is never the current block, and it has a terminator). -/
def newSCFG (R : CFGRewriteReducer) : TILSCFG × CFGRewriteReducer :=
  let Entry := R.Arena.length
  let Exit := R.Arena.length + 1
  (⟨[Entry, Exit], Entry, Exit⟩,
    { R with Arena := R.Arena ++
      [{ TILBasicBlock.new with CFGPtr := true },
       { ((TILBasicBlock.new.addArgument []).setTerminator
            (Terminator.Return (SExpr.Phi (some (Exit, 0))))) with CFGPtr := true }] })

/-- `CFGRewriteReducer::initCFG()`: the exit block is returned. -/
def initCFG (R : CFGRewriteReducer) : Nat × CFGRewriteReducer :=
  let R1 := R.assert 207 (R.currentCFG_.isNone && R.currentBB_.isNone)
  let G := R1.newSCFG.1
  let R2 := R1.newSCFG.2
  let R3 := { R2 with currentCFG_ := some G, currentBB_ := some G.Entry }
  let R4 := R3.assert 210 ((R3.blockAt G.Entry).Instrs.length == 0)
  (G.Exit, R4)

/-- Modelled from the spec: `computeNormalForm()` (section 4.2, normal form) gives
the blocks and the instructions their IDs; it adds and removes no block,
terminator, predecessor or phi value.  A block of the embedding stores no ID,
and the order of the block list after the call is not modelled: the list
stays in the order of addition. -/
def computeNormalForm (R : CFGRewriteReducer) : CFGRewriteReducer :=
  R

/-- `CFGRewriteReducer::finishCFG()`. -/
def finishCFG (R : CFGRewriteReducer) : Option TILSCFG × CFGRewriteReducer :=
  (R.computeNormalForm.currentCFG_, R.computeNormalForm)

/-- `CFGRewriteReducer::makeContinuation()`: a fresh block with one phi argument
that has no value yet. -/
def makeContinuation (R : CFGRewriteReducer) : Nat × CFGRewriteReducer :=
  R.alloc (TILBasicBlock.new.addArgument [])

end CFGRewriteReducer

namespace ContextT

/-- `ContextT::subExpr(TraversalKind K)`. -/
def subExpr (_Ctx : ContextT) : ContextT :=
  ⟨none⟩

/-- `ContextT::getCurrentContinuation()`. -/
def getCurrentContinuation (Ctx : ContextT) (R : CFGRewriteReducer) :
    ContextT × CFGRewriteReducer :=
  if Ctx.Continuation.isSome then (Ctx, R)
  else (⟨some R.makeContinuation.1⟩, R.makeContinuation.2)

/-- `ContextT::insideCFG()`. -/
def insideCFG (_Ctx : ContextT) (R : CFGRewriteReducer) : Bool :=
  R.currentBB_.isSome

/-- `ContextT::continuation()`. -/
def continuation (Ctx : ContextT) : Option Nat :=
  Ctx.Continuation

end ContextT

namespace CFGRewriter

/-- The statements of `CFGRewriter::traverse` that follow the call of
`traverseByCase`; `res` is the result of that call and the state it left. -/
def traverseEnd (P : Pointers) (Ctx : ContextT) (res : SExpr × CFGRewriteReducer) :
    SExpr × CFGRewriteReducer :=
  if ¬ Ctx.insideCFG res.2 then res
  else
    match Ctx.continuation with
    | none => res.2.addInstruction P res.1
    | some K => (SExpr.null, (res.2.createGoto res.1 K).2)

mutual

/-- The dispatch `traverseByCase(E, Ctx, K)` of the traversal framework, with the
`traverse` function of each node kind in the branch of that kind.  The
branch of `IfThenElse` is `CFGRewriter::traverseIfThenElse`, the branches of
`Let` and `Identifier` end in `reduceLet` and `reduceIdentifier` of
CFGReducer.h.  Modelled from the spec are the other branches (section 4.2,
contract, case a): the sub-expressions are traversed in order, each by
`CFGRewriter::traverse`, which is `traverseEnd` applied to `traverseByCase`,
and the node is built anew from the results; a variable declaration with a
scope (`Function`, `Let`) is entered before the body is traversed and left
after it; a null pointer and the nodes of the CFG form, which an expression
tree does not contain, are handed back as they are. -/
def traverseByCase (P : Pointers) :
    SExpr → ContextT → CFGRewriteReducer → SExpr × CFGRewriteReducer
  | SExpr.null, _, R => (SExpr.null, R)
  | SExpr.VarDecl k i n d, Ctx, R =>
    let r0 := traverseEnd P Ctx (traverseByCase P d Ctx.subExpr R)
    (SExpr.VarDecl k i n r0.1, r0.2)
  | SExpr.Function vd b, Ctx, R =>
    let r0 := traverseEnd P Ctx (traverseByCase P vd Ctx.subExpr R)
    let R1 := r0.2.enterScope P vd r0.1
    let r1 := traverseEnd P Ctx (traverseByCase P b Ctx.subExpr R1)
    (SExpr.Function r0.1 r1.1, r1.2.exitScope vd)
  | SExpr.Code t b cc, Ctx, R =>
    let r0 := traverseEnd P Ctx (traverseByCase P t Ctx.subExpr R)
    let r1 := traverseEnd P Ctx (traverseByCase P b Ctx.subExpr r0.2)
    (SExpr.Code r0.1 r1.1 cc, r1.2)
  | SExpr.Field t b, Ctx, R =>
    let r0 := traverseEnd P Ctx (traverseByCase P t Ctx.subExpr R)
    let r1 := traverseEnd P Ctx (traverseByCase P b Ctx.subExpr r0.2)
    (SExpr.Field r0.1 r1.1, r1.2)
  | SExpr.Slot n m d, Ctx, R =>
    let r0 := traverseEnd P Ctx (traverseByCase P d Ctx.subExpr R)
    (SExpr.Slot n m r0.1, r0.2)
  | SExpr.Record p ss, Ctx, R =>
    let r0 := traverseEnd P Ctx (traverseByCase P p Ctx.subExpr R)
    let r1 := traverseList P ss Ctx r0.2
    (SExpr.Record r0.1 r1.1, r1.2)
  | SExpr.Array t s es, Ctx, R =>
    let r0 := traverseEnd P Ctx (traverseByCase P t Ctx.subExpr R)
    let r1 := traverseEnd P Ctx (traverseByCase P s Ctx.subExpr r0.2)
    let r2 := traverseList P es Ctx r1.2
    (SExpr.Array r0.1 r1.1 r2.1, r2.2)
  | SExpr.ScalarType bt, _, R => (SExpr.ScalarType bt, R)
  | SExpr.Literal bt v, _, R => (SExpr.Literal bt v, R)
  | SExpr.Variable vd, _, R => (SExpr.Variable vd, R)
  | SExpr.Apply f a k, Ctx, R =>
    let r0 := traverseEnd P Ctx (traverseByCase P f Ctx.subExpr R)
    let r1 := traverseEnd P Ctx (traverseByCase P a Ctx.subExpr r0.2)
    (SExpr.Apply r0.1 r1.1 k, r1.2)
  | SExpr.Project e s, Ctx, R =>
    let r0 := traverseEnd P Ctx (traverseByCase P e Ctx.subExpr R)
    (SExpr.Project r0.1 s, r0.2)
  | SExpr.Call e bt, Ctx, R =>
    let r0 := traverseEnd P Ctx (traverseByCase P e Ctx.subExpr R)
    (SExpr.Call r0.1 bt, r0.2)
  | SExpr.Alloc e k, Ctx, R =>
    let r0 := traverseEnd P Ctx (traverseByCase P e Ctx.subExpr R)
    (SExpr.Alloc r0.1 k, r0.2)
  | SExpr.Load e bt, Ctx, R =>
    let r0 := traverseEnd P Ctx (traverseByCase P e Ctx.subExpr R)
    (SExpr.Load r0.1 bt, r0.2)
  | SExpr.Store d s, Ctx, R =>
    let r0 := traverseEnd P Ctx (traverseByCase P d Ctx.subExpr R)
    let r1 := traverseEnd P Ctx (traverseByCase P s Ctx.subExpr r0.2)
    (SExpr.Store r0.1 r1.1, r1.2)
  | SExpr.ArrayIndex a i, Ctx, R =>
    let r0 := traverseEnd P Ctx (traverseByCase P a Ctx.subExpr R)
    let r1 := traverseEnd P Ctx (traverseByCase P i Ctx.subExpr r0.2)
    (SExpr.ArrayIndex r0.1 r1.1, r1.2)
  | SExpr.ArrayAdd a i, Ctx, R =>
    let r0 := traverseEnd P Ctx (traverseByCase P a Ctx.subExpr R)
    let r1 := traverseEnd P Ctx (traverseByCase P i Ctx.subExpr r0.2)
    (SExpr.ArrayAdd r0.1 r1.1, r1.2)
  | SExpr.UnaryOp op e bt, Ctx, R =>
    let r0 := traverseEnd P Ctx (traverseByCase P e Ctx.subExpr R)
    (SExpr.UnaryOp op r0.1 bt, r0.2)
  | SExpr.BinaryOp op a b bt, Ctx, R =>
    let r0 := traverseEnd P Ctx (traverseByCase P a Ctx.subExpr R)
    let r1 := traverseEnd P Ctx (traverseByCase P b Ctx.subExpr r0.2)
    (SExpr.BinaryOp op r0.1 r1.1 bt, r1.2)
  | SExpr.Cast op e bt, Ctx, R =>
    let r0 := traverseEnd P Ctx (traverseByCase P e Ctx.subExpr R)
    (SExpr.Cast op r0.1 bt, r0.2)
  | SExpr.Phi o, _, R => (SExpr.Phi o, R)
  | SExpr.Goto t as, _, R => (SExpr.Goto t as, R)
  | SExpr.Branch c t e, _, R => (SExpr.Branch c t e, R)
  | SExpr.Switch c vs bs, _, R => (SExpr.Switch c vs bs, R)
  | SExpr.Return e, _, R => (SExpr.Return e, R)
  | SExpr.Undefined, _, R => (SExpr.Undefined, R)
  | SExpr.Wildcard, _, R => (SExpr.Wildcard, R)
  | SExpr.Identifier n, _, R => (R.reduceIdentifier (SExpr.Identifier n), R)
  | SExpr.Let vd b, Ctx, R =>
    let r0 := traverseEnd P Ctx (traverseByCase P vd Ctx.subExpr R)
    let R1 := r0.2.enterScope P vd r0.1
    let r1 := traverseEnd P Ctx (traverseByCase P b Ctx.subExpr R1)
    let R2 := r1.2.exitScope vd
    (R2.reduceLet (SExpr.Let vd b) r0.1 r1.1, R2)
  | SExpr.IfThenElse c t e, Ctx, R =>
    if ¬ Ctx.insideCFG R then
      let r0 := traverseEnd P Ctx (traverseByCase P c Ctx.subExpr R)
      let r1 := traverseEnd P Ctx (traverseByCase P t Ctx.subExpr r0.2)
      let r2 := traverseEnd P Ctx (traverseByCase P e Ctx.subExpr r1.2)
      (SExpr.IfThenElse r0.1 r1.1 r2.1, r2.2)
    else
      let Cont := (Ctx.getCurrentContinuation R).1
      let R1 := (Ctx.getCurrentContinuation R).2
      let Nc := traverseEnd P Ctx (traverseByCase P c Ctx.subExpr R1)
      let Br := (Nc.2.createBranch Nc.1).1
      let R2 := (Nc.2.createBranch Nc.1).2
      let R3 := R2.startBlock Br.elseBlock
      let R4 := (traverseEnd P Cont (traverseByCase P e Cont.subExpr R3)).2
      let R5 := R4.startBlock Br.thenBlock
      let R6 := (traverseEnd P Cont (traverseByCase P t Cont.subExpr R5)).2
      let K := Cont.continuation.getD 0
      let R7 := R6.startBlock K
      let R8 := R7.assert 306 (decide ((R7.blockAt K).Args.length > 0))
      (if (R8.blockAt K).Args.length > 0 then SExpr.Phi (some (K, 0)) else SExpr.null, R8)
  | SExpr.SCFG g, _, R => (SExpr.SCFG g, R)
  | SExpr.Annotated e a, Ctx, R =>
    let r0 := traverseEnd P Ctx (traverseByCase P e Ctx.subExpr R)
    (SExpr.Annotated r0.1 a, r0.2)

/-- The traversal of a list of sub-expressions, in order (the slots of a record,
the elements of an array). -/
def traverseList (P : Pointers) :
    List SExpr → ContextT → CFGRewriteReducer → List SExpr × CFGRewriteReducer
  | [], _, R => ([], R)
  | x :: xs, Ctx, R =>
    let r0 := traverseEnd P Ctx (traverseByCase P x Ctx.subExpr R)
    let r1 := traverseList P xs Ctx r0.2
    (r0.1 :: r1.1, r1.2)

end

/-- `CFGRewriter::traverse(SExpr *E, CtxT Ctx, TraversalKind K)`. -/
def traverse (P : Pointers) (E : SExpr) (Ctx : ContextT) (R : CFGRewriteReducer) :
    SExpr × CFGRewriteReducer :=
  traverseEnd P Ctx (traverseByCase P E Ctx.subExpr R)

/-- `CFGRewriter::traverseIfThenElse(IfThenElse *E, CtxT Ctx, TraversalKind K)`:
the branch of `traverseByCase` for this node. -/
def traverseIfThenElse (P : Pointers) (c t e : SExpr) (Ctx : ContextT) (R : CFGRewriteReducer) :
    SExpr × CFGRewriteReducer :=
  traverseByCase P (SExpr.IfThenElse c t e) Ctx R

/-- `CFGRewriter::convertSExprToCFG(SExpr *E, MemRegionRef A)`: the CFG that is
returned, and the blocks of the arena. -/
def convertSExprToCFG (P : Pointers) (E : SExpr) : Option TILSCFG × List TILBasicBlock :=
  let Exit := CFGRewriteReducer.init.initCFG.1
  let R1 := CFGRewriteReducer.init.initCFG.2
  let R2 := (traverse P E ⟨some Exit⟩ R1).2
  (R2.finishCFG.1, R2.finishCFG.2.Arena)

end CFGRewriter

/-! ## Parser results and the abstract stack

`ParseResult` and `AbstractStack` of src/parser/Parser.h.  A pointer is an
address, a natural number, and `nullptr` is the address 0; a name on the
abstract stack is the string it points to, a list of bytes.  A function with
an assertion returns, as its first component, whether the assertion holds;
the other components are what the function does in a build without
assertions. -/

/-- The enumerator `PRS_None` of `ParseResult::ResultKind`. -/
def PRS_None : Nat := 0

/-- The enumerator `PRS_TokenStr` of `ParseResult::ResultKind`. -/
def PRS_TokenStr : Nat := 1

/-- The enumerator `PRS_UserDefined` of `ParseResult::ResultKind`. -/
def PRS_UserDefined : Nat := 2

/-- State of `ParseResult::ResultVal`: the pointer `ptr_` and the length `len_`. -/
structure ResultVal where
  ptr_ : Nat
  len_ : Nat
deriving DecidableEq, Inhabited

/-- State of `ParseResult`: `ruleID_`, `resultKind_` (an `unsigned short`),
`isList_` and `result_`. -/
structure ParseResult where
  ruleID_ : Nat
  resultKind_ : Nat
  isList_ : Bool
  result_ : ResultVal
deriving DecidableEq, Inhabited

namespace ParseResult

/-- `ParseResult()`. -/
def new : ParseResult :=
  ⟨0, PRS_None, false, ⟨0, 0⟩⟩

/-- `ParseResult(const Token& tok)`, with the address and the length of the
string of the token. -/
def ofToken (c_str length : Nat) : ParseResult :=
  ⟨0, PRS_TokenStr, false, ⟨c_str, length⟩⟩

/-- `ParseResult(unsigned short kind, void* node)`; the first component is the
assertion `kind >= PRS_UserDefined`. -/
def ofNode (kind node : Nat) : Bool × ParseResult :=
  (decide (kind % 2 ^ 16 ≥ PRS_UserDefined), ⟨0, kind % 2 ^ 16, false, ⟨node, 0⟩⟩)

/-- `ParseResult(unsigned short kind, ListType *pl)`; the first component is the
assertion `kind >= PRS_UserDefined`. -/
def ofList (kind pl : Nat) : Bool × ParseResult :=
  (decide (kind % 2 ^ 16 ≥ PRS_UserDefined), ⟨0, kind % 2 ^ 16, true, ⟨pl, 0⟩⟩)

/-- `ParseResult::kind()`. -/
def kind (r : ParseResult) : Nat :=
  r.resultKind_

/-- `ParseResult::empty()`. -/
def empty (r : ParseResult) : Bool :=
  r.resultKind_ == PRS_None

/-- `ParseResult::ruleID()`. -/
def ruleID (r : ParseResult) : Nat :=
  r.ruleID_

/-- `ParseResult::isUnique()`. -/
def isUnique (r : ParseResult) : Bool :=
  decide (r.resultKind_ ≥ PRS_UserDefined)

/-- `ParseResult::release()`. -/
def release (r : ParseResult) : ParseResult :=
  { r with resultKind_ := PRS_None, isList_ := false, result_ := { r.result_ with ptr_ := 0 } }

/-- The move constructor `ParseResult(ParseResult &&r)`: the result that is
constructed, and `r` afterwards. -/
def move (r : ParseResult) : ParseResult × ParseResult :=
  (⟨r.ruleID_, r.resultKind_, r.isList_, r.result_⟩, r.release)

/-- The move assignment `operator=(ParseResult &&r)` to a result `d` that is
another object than `r`: `d` afterwards, and `r` afterwards. -/
def assign (d r : ParseResult) : ParseResult × ParseResult :=
  ({ d with ruleID_ := r.ruleID_, resultKind_ := r.resultKind_, isList_ := r.isList_,
            result_ := r.result_ }, r.release)

/-- The destructor `~ParseResult()`: whether its assertion
`resultKind_ == PRS_None` ("Unused ParseResult.") holds. -/
def destruct (r : ParseResult) : Bool :=
  r.resultKind_ == PRS_None

/-- `ParseResult::getNode()`: whether the assertion
`resultKind_ >= PRS_UserDefined && isList_ == false` holds, the pointer that
is returned, and the result afterwards. -/
def getNode (r : ParseResult) : Bool × Nat × ParseResult :=
  (decide (r.resultKind_ ≥ PRS_UserDefined) && (r.isList_ == false), r.result_.ptr_, r.release)

/-- `ParseResult::getNodeList()`: whether the assertion
`resultKind_ >= PRS_UserDefined && isList_ == false` holds, the pointer to
the list that is returned, and the result afterwards. -/
def getNodeList (r : ParseResult) : Bool × Nat × ParseResult :=
  (decide (r.resultKind_ ≥ PRS_UserDefined) && (r.isList_ == false), r.result_.ptr_, r.release)

end ParseResult

/-- State of `AbstractStack`: `blockStart_` and the names on `stack_`. -/
structure AbstractStack where
  blockStart_ : Nat
  stack_ : List (List Nat)
deriving DecidableEq, Inhabited

namespace AbstractStack

/-- The constant `AbstractStack::InvalidIndex`. -/
def InvalidIndex : Nat := 0xFFFF

/-- The loop of `getIndex`:
`for (unsigned i=0, n=stack_.size(); i<n; ++i) { if (*stack_[i] == s) return i; }`
followed by `return InvalidIndex`, with a budget of iterations. -/
def getIndexLoop (A : AbstractStack) (s : List Nat) (n : Nat) : Nat → Nat → Nat
  | 0, _ => InvalidIndex
  | k + 1, i =>
    if i < n then
      if A.stack_.getD i [] = s then i else getIndexLoop A s n k (i + 1)
    else InvalidIndex

/-- `AbstractStack::getIndex(const std::string &s)`; `n` is an `unsigned`. -/
def getIndex (A : AbstractStack) (s : List Nat) : Nat :=
  getIndexLoop A s (A.stack_.length % 2 ^ 32) (A.stack_.length % 2 ^ 32) 0

/-- `AbstractStack::size()`. -/
def size (A : AbstractStack) : Nat :=
  A.stack_.length % 2 ^ 32

/-- `AbstractStack::push_back(std::string *s)`. -/
def push_back (A : AbstractStack) (s : List Nat) : AbstractStack :=
  { A with stack_ := A.stack_ ++ [s] }

end AbstractStack


/-- State of `ResultStack`: the vector `stack_`, bottom first. -/
structure ResultStack where
  stack_ : List ParseResult
deriving DecidableEq, Inhabited

namespace ResultStack

/-- `ResultStack::size()`, an `unsigned`. -/
def size (S : ResultStack) : Nat :=
  S.stack_.length % 2 ^ 32

/-- The loop by which `std::vector::erase` moves the entries above the erased
range down: `for (; src != end; ++src, ++dst) *dst = std::move(*src);`, with
the move assignment of `ParseResult`, `k` entries remaining. -/
def moveDown : Nat → Nat → Nat → List ParseResult → List ParseResult
  | 0, _, _, l => l
  | k + 1, dst, src, l =>
    let p := ParseResult.assign (l.getD dst default) (l.getD src default)
    moveDown k (dst + 1) (src + 1) ((l.set dst p.1).set src p.2)

/-- The call `stack_.erase(stack_.begin() + first, stack_.begin() + last)` of
`std::vector`: the entries above the range are move-assigned down, in order,
and the `last - first` objects that are then at the end of the vector are
destroyed.  The first component says whether the assertion of the destructor
holds for each of them; the second is the vector that is left. -/
def erase (l : List ParseResult) (first last : Nat) : Bool × List ParseResult :=
  let l1 := moveDown (l.length - last) first last l
  let n := l.length - (last - first)
  ((l1.drop n).all ParseResult.destruct, l1.take n)

/-- `ResultStack::drop(unsigned n, unsigned nsave)`; the first component says
whether the assertions hold: `stack_.size() >= n + nsave`, the sum being
taken in `unsigned` arithmetic, and the assertion of `~ParseResult()` for
every object that `erase` destroys.  When the stack holds fewer than
`n + nsave` entries the source forms an iterator before the start of the
vector; the embedding takes the start there. -/
def drop (S : ResultStack) (n nsave : Nat) : Bool × ResultStack :=
  if n = 0 then (true, S)
  else
    (decide (S.stack_.length ≥ (n + nsave) % 2 ^ 32)
        && (erase S.stack_ (S.stack_.length - nsave - n) (S.stack_.length - nsave)).1,
      ⟨(erase S.stack_ (S.stack_.length - nsave - n) (S.stack_.length - nsave)).2⟩)

end ResultStack
/-! ## Proof devices -/

/-- The list of bytes the loop `writeVbrLoop` stores for `V`, in order. -/
def vbrList : Nat → Nat → List Nat
  | 0, _ => []
  | fuel + 1, V =>
    if V > 0 then
      (((V &&& 0x7F) ||| (if V >>> 7 = 0 then 0 else 0x80)) % 256) :: vbrList fuel (V >>> 7)
    else []

/-- The bytes the VBR writer of width `W` stores for `V`: a single zero byte for
`0`, the bytes of the loop otherwise. -/
def vbrEnc (W V : Nat) : List Nat :=
  if V = 0 then [0] else vbrList W V

/-- The byte format of a variable-byte integer: `bs` is not empty, every byte but
the last has bit `0x80` set, the last has it clear, the low seven bits of byte
`i` are bits `7i .. 7i+6` of `V`, and for `V > 0` the length of `bs` is the least
`n` with `V < 2^(7n)`. -/
def VbrFormat (V : Nat) (bs : List Nat) : Prop :=
  1 ≤ bs.length ∧
  (∀ i, i + 1 < bs.length → bs.getD i 0 &&& 0x80 = 0x80) ∧
  bs.getD (bs.length - 1) 0 &&& 0x80 = 0 ∧
  (∀ i, i < bs.length → bs.getD i 0 < 256 ∧ bs.getD i 0 &&& 0x7F = V / 2 ^ (7 * i) % 2 ^ 7) ∧
  (0 < V → V < 2 ^ (7 * bs.length) ∧ ∀ n, n < bs.length → 2 ^ (7 * n) ≤ V)

/-- A writer with a 16 byte buffer filled with `0xFF`, positioned at offset 3. -/
def exWriter : ByteStreamWriterBase :=
  ⟨16, 4, List.replicate 16 0xFF, 3, []⟩

/-- A reader whose 16 byte buffer is `Buf`, all of it read from the source,
positioned at offset `Pos`. -/
def exReader (Buf : List Nat) (Pos : Nat) : ByteStreamReaderBase :=
  ⟨16, 4, Buf, 16, Pos, true, false, [], false⟩

/-- Modelled from the spec: a string-backed byte stream reader over `stream` with a
buffer of `BufferSize` zero bytes, filled by a first `refill`. -/
def ByteStreamReaderBase.ofStream (BufferSize MaxAtomSize : Nat) (stream : List Nat) :
    ByteStreamReaderBase :=
  ByteStreamReaderBase.refill
    ⟨BufferSize, MaxAtomSize, List.replicate BufferSize 0, 0, 0, false, false, stream, false⟩

/-- A bytecode reader in its initial state over `stream`: empty stack, empty
tables, no CFG under construction, error flag clear. -/
def BytecodeReader.ofStream (BufferSize MaxAtomSize : Nat) (stream : List Nat) :
    BytecodeReader :=
  ⟨ByteStreamReaderBase.ofStream BufferSize MaxAtomSize stream, ⟨[], [], none, none⟩,
    [], [], [], [], 0, 0, 0, false⟩

/-- A table for the examples: `InvalidBlockID` is `0x0FFFFFFF`, byte 0 is the
void base type and takes the default path of the branch table, every other
byte selects a type whose payload is a 32 bit integer; the nodes that are not
instructions are the declarations, the types and the CFG; annotations carry
no payload. -/
def exTables : Tables where
  InvalidBlockID := 0x0FFFFFFF
  voidType := 0
  BtBr := fun bt =>
    if bt = 0 then none
    else some (fun R => (LitVal.num R.readUInt32.1, R.readUInt32.2))
  isInstruction := fun e =>
    match e with
    | SExpr.null => false
    | SExpr.VarDecl _ _ _ _ => false
    | SExpr.Function _ _ => false
    | SExpr.Code _ _ _ => false
    | SExpr.Field _ _ => false
    | SExpr.Slot _ _ _ => false
    | SExpr.Record _ _ => false
    | SExpr.Array _ _ _ => false
    | SExpr.ScalarType _ => false
    | SExpr.SCFG _ => false
    | _ => true
  deserialize := fun _ r => (0, r)

/-- A stream that holds one CFG of two blocks: `EnterCFG(2, 1, 0, 1)`; the entry
block `EnterBlock(0, 0, 0)` closed by `BasicBlock` with no terminator atom
before it; the exit block `EnterBlock(1, 0, 1)` with its phi argument (`Phi`,
`BBArgument`) and its terminator (`WeakInstrRef(0)`, `Return`), closed by
`BasicBlock`; then `SCFG`. -/
def exStreamNoTerminator : List Nat :=
  [7, 2, 0, 0, 0, 1, 0, 0, 0, 0, 0, 0, 0, 1, 0, 0, 0,
   6, 0, 0, 0, 0, 0, 0, 0, 0, 0, 0, 0, 0,
   40,
   6, 1, 0, 0, 0, 0, 0, 0, 0, 1, 0, 0, 0,
   30, 2,
   1, 0, 0, 0, 0, 34,
   40, 41]

/-- The number of bytes of the stream that the reader has not consumed: the
unread bytes of the buffer and the bytes that the source still holds. -/
def ByteStreamReaderBase.unread (R : ByteStreamReaderBase) : Nat :=
  (R.BufferLen - R.Pos) + R.Source.length

/-- The decoders taken as parameters only consume input: the payload decoders
of the branch table and the deserializers of annotations leave no more unread
bytes than they find. -/
def Tables.Consuming (T : Tables) : Prop :=
  (∀ bt dec R, T.BtBr bt = some dec → (dec R).2.unread ≤ R.unread) ∧
  (∀ k r, (T.deserialize k r).2.Reader.unread ≤ r.Reader.unread)

/-- A stream that holds the header `EnterCFG(2, 1, 0, 1)` of a CFG with two
blocks and one instruction, entry block 0 and exit block 1. -/
def exStreamEnterCFG : List Nat :=
  [7, 2, 0, 0, 0, 1, 0, 0, 0, 0, 0, 0, 0, 1, 0, 0, 0]

/-- A stream in which the entry block ends with `Goto(numArgs = 0, block 1)`
while block 1, the exit block, has one argument: `EnterCFG(2, 1, 0, 1)`,
`EnterBlock(0, 0, 0)`, `Goto(0, 1)`. -/
def exStreamGotoMismatch : List Nat :=
  [7, 2, 0, 0, 0, 1, 0, 0, 0, 0, 0, 0, 0, 1, 0, 0, 0,
   6, 0, 0, 0, 0, 0, 0, 0, 0, 0, 0, 0, 0,
   31, 0, 0, 0, 0, 1, 0, 0, 0]

/-- A stream whose entry block ends with
`Branch(then = 0x80000000, else = InvalidBlockID)`: `EnterCFG(2, 1, 0, 1)`,
`EnterBlock(0, 0, 0)`, `Undefined`, `Branch`, `BasicBlock`, `SCFG`.  The block
ID `0x80000000` is neither `InvalidBlockID` nor an index of the block table,
which has two entries. -/
def exStreamBranchBadId : List Nat :=
  [7, 2, 0, 0, 0, 1, 0, 0, 0, 0, 0, 0, 0, 1, 0, 0, 0,
   6, 0, 0, 0, 0, 0, 0, 0, 0, 0, 0, 0, 0,
   35,
   32, 0, 0, 0, 128, 255, 255, 255, 15,
   40, 41]

/-- A stream that holds the header `EnterCFG(2, 0, 0, 0)`, which gives the entry
and the exit block the same ID 0, followed by `SCFG`. -/
def exStreamSameEntryExit : List Nat :=
  [7, 2, 0, 0, 0, 0, 0, 0, 0, 0, 0, 0, 0, 0, 0, 0, 0, 41]

/-- The stream that a writer with a buffer of 16 bytes and atoms of at most 4
bytes produces for two atoms of one 32 bit integer each and a third atom that
holds the string `S`. -/
def exStreamString (S : List Nat) : List Nat :=
  (((((ByteStreamWriterBase.mk 16 4 (List.replicate 16 0) 0 []).writeUInt32 7).endAtom.writeUInt32
    9).endAtom.writeString S).endAtom).flush.Sink

/-- The `n` low bytes of `V`, least significant byte first. -/
def bitsList : Nat → Nat → List Nat
  | 0, _ => []
  | n + 1, V => (V % 256) :: bitsList n (V / 256)

/-- A state of the reducer at work on a CFG: the blocks of the CFG exist; each
of them other than the current block has a terminator; each of them other
than the entry and the exit block has a predecessor; every phi argument of
every block holds one value per predecessor; the current block exists. -/
def CFGRewriteReducer.WellFormed (R : CFGRewriteReducer) : Prop :=
  ∃ G, R.currentCFG_ = some G ∧
    (∀ b ∈ G.Blocks, b < R.Arena.length) ∧
    (∀ b ∈ G.Blocks, R.currentBB_ ≠ some b → (R.blockAt b).TermInstr.isSome) ∧
    (∀ b ∈ G.Blocks, b ≠ G.Entry → b ≠ G.Exit → 1 ≤ (R.blockAt b).Predecessors.length) ∧
    (∀ b, ∀ vs ∈ (R.blockAt b).Args, vs.length = (R.blockAt b).Predecessors.length) ∧
    (∀ b, R.currentBB_ = some b → b < R.Arena.length)

/-- The later state `R2` keeps what the earlier state `R1` has built: no block
is lost, no block loses a predecessor, and the entry and the exit block of
the CFG stay the same. -/
def CFGRewriteReducer.Extends (R1 R2 : CFGRewriteReducer) : Prop :=
  R1.Arena.length ≤ R2.Arena.length ∧
  (∀ b, (R1.blockAt b).Predecessors.length ≤ (R2.blockAt b).Predecessors.length) ∧
  R2.currentCFG_.map (fun G => (G.Entry, G.Exit))
    = R1.currentCFG_.map (fun G => (G.Entry, G.Exit))

/-- The expression `IfThenElse(Literal(true), Literal(10), Literal(20))`; the
base types are bytes of `exTables`. -/
def exIfThenElse : SExpr :=
  SExpr.IfThenElse (SExpr.Literal 1 (LitVal.num 1)) (SExpr.Literal 7 (LitVal.num 10))
    (SExpr.Literal 7 (LitVal.num 20))

/-- An instance of `Pointers`: no node belongs to a block, no two values are the
same node. -/
def exPointers : Pointers :=
  ⟨fun _ => false, fun _ _ => false⟩

/-- The later state `R2` differs from the earlier state `R1` in the variable
context at most: the blocks, the CFG, the current block, the pending
instructions and arguments, and the failed assertions are the same. -/
def CFGRewriteReducer.Untouched (R1 R2 : CFGRewriteReducer) : Prop :=
  R2.Arena = R1.Arena ∧ R2.currentCFG_ = R1.currentCFG_ ∧ R2.currentBB_ = R1.currentBB_ ∧
  R2.currentInstrs_ = R1.currentInstrs_ ∧ R2.currentArgs_ = R1.currentArgs_ ∧
  R2.FailedAsserts = R1.FailedAsserts

/-- What a traversal without continuation does to the state: a well-formed
state stays well-formed and is extended, a current block is followed by a
current block; without a current block nothing but the variable context
changes. -/
def CFGRewriteReducer.Step (R1 R2 : CFGRewriteReducer) : Prop :=
  (R1.WellFormed →
    R2.WellFormed ∧ R1.Extends R2 ∧ (R1.currentBB_.isSome → R2.currentBB_.isSome)) ∧
  (R1.currentBB_ = none → R1.Untouched R2)

/-- The test that a value is a `VarDecl` node: what the element type `VarDecl*` of
`VarContext` says of an entry that is not null. -/
def SExpr.isVarDecl : SExpr → Bool
  | SExpr.VarDecl _ _ _ _ => true
  | _ => false

/-- A variable context for the examples: `x`, `y` and again `x` (the names are the
bytes 120 and 121), the second `x` pushed last; the definitions tell the two
declarations of `x` apart. -/
def exVarContext : VarContext :=
  ⟨[SExpr.VarDecl 0 0 [120] (SExpr.Literal 7 (LitVal.num 1)),
    SExpr.VarDecl 0 1 [121] (SExpr.Literal 7 (LitVal.num 2)),
    SExpr.VarDecl 0 2 [120] (SExpr.Literal 7 (LitVal.num 3))]⟩

/-- An abstract stack of `0x10000` names: the name `a` (the byte 97) in the slots
0 to `0xFFFE` and the name `s` (the byte 115) in slot `0xFFFF`. -/
def exBigStack : AbstractStack :=
  ⟨0, List.replicate 0xFFFF [97] ++ [[115]]⟩

/-- The effect of a reader on the reconstruction stack that pops `k` values and
pushes one: the later stack has one value on top of what the earlier stack has
below its top `k` values. -/
def BytecodeReader.PopsAndPushesOne (r r2 : BytecodeReader) (k : Nat) : Prop :=
  r2.Stack.length = r.Stack.length - k + 1 ∧
  r2.Stack.take (r.Stack.length - k) = r.Stack.take (r.Stack.length - k)

/-- The effect of a reader on the reconstruction stack that pops `k` values and
pushes nothing. -/
def BytecodeReader.PopsOnly (r r2 : BytecodeReader) (k : Nat) : Prop :=
  r2.Stack = r.Stack.take (r.Stack.length - k)


/-- The bytes of the stream that the reader has not consumed, in stream order:
the unread bytes of the buffer, then what the source still holds. -/
def ByteStreamReaderBase.pending (R : ByteStreamReaderBase) : List Nat :=
  (R.Buffer.drop R.Pos).take (R.BufferLen - R.Pos) ++ R.Source

/-- A reader with a buffer of 16 bytes and atoms of at most 4 bytes over a stream
of twelve bytes of three 32 bit integers followed by `payload`, after the
three integers have been read (`endAtom` after the first and the second): the
first four bytes of the payload are the last four bytes of its buffer. -/
def exAfterHeader (payload : List Nat) : ByteStreamReaderBase :=
  (ByteStreamReaderBase.ofStream 16 4
    ([7, 0, 0, 0, 9, 0, 0, 0, 6, 0, 0, 0] ++ payload)).readUInt32.2.endAtom.readUInt32.2.endAtom.readUInt32.2

/-- The bytes that a list of stores `Buffer[Pos++] = b` writes, one after the
other: the body of an atom. -/
def ByteStreamWriterBase.storeAll (w : ByteStreamWriterBase) (bs : List Nat) :
    ByteStreamWriterBase :=
  bs.foldl ByteStreamWriterBase.store w

/-- The scope table is in order: entry `i` is a `VarDecl` whose `varIndex` is
`i`. -/
def BytecodeReader.ScopesInOrder (r : BytecodeReader) : Prop :=
  ∀ i, i < r.Vars.length → ∃ k n d, r.Vars.getD i SExpr.null = SExpr.VarDecl k i n d

/-- The reader states that are reachable through `enterScope` and `exitScope`:
a state with an empty scope table; the state after `enterScope`; the state
after `exitScope` when the table is not empty (`pop_back` on an empty vector
has no defined result); and a state that some other step has reached without
touching the table. -/
inductive BytecodeReader.ScopeReachable : BytecodeReader → Prop
  | start (r : BytecodeReader) : r.Vars = [] → ScopeReachable r
  | enter (r : BytecodeReader) : ScopeReachable r → ScopeReachable r.enterScope
  | exit (r : BytecodeReader) : ScopeReachable r → r.Vars ≠ [] →
      ScopeReachable r.exitScope
  | other (r r2 : BytecodeReader) : ScopeReachable r → r2.Vars = r.Vars →
      ScopeReachable r2

/-- The calls `writeBytes(D, D.size())` for the data `D` of `Ds`, one after the
other. -/
def ByteStreamWriterBase.writeAll (w : ByteStreamWriterBase) (Ds : List (List Nat)) :
    ByteStreamWriterBase :=
  Ds.foldl ByteStreamWriterBase.writeBytes w

/-- The bytes that the writer has accepted so far, in order: what it has handed
to the sink, then what waits in its buffer. -/
def ByteStreamWriterBase.accepted (w : ByteStreamWriterBase) : List Nat :=
  w.Sink ++ w.Buffer.take w.Pos

/-- A stream whose header `EnterCFG(2, 1, 5, 1)` names the entry block 5 in a
CFG of two blocks. -/
def exStreamEntryOutside : List Nat :=
  [7, 2, 0, 0, 0, 1, 0, 0, 0, 5, 0, 0, 0, 1, 0, 0, 0]

/-- A stream whose CFG declares one instruction and holds two:
`EnterCFG(2, 1, 0, 1)`, `EnterBlock(0, 0, 0)`, then twice `Undefined`,
`BBInstruction`. -/
def exStreamTwoInstructions : List Nat :=
  [7, 2, 0, 0, 0, 1, 0, 0, 0, 0, 0, 0, 0, 1, 0, 0, 0,
   6, 0, 0, 0, 0, 0, 0, 0, 0, 0, 0, 0, 0,
   35, 3, 35, 3]

/-- A stream whose CFG declares one instruction and whose exit block, which has
one argument, starts at the instruction ID 7: `EnterCFG(2, 1, 0, 1)`,
`EnterBlock(1, 7, 1)`. -/
def exStreamFirstInstrOutside : List Nat :=
  [7, 2, 0, 0, 0, 1, 0, 0, 0, 0, 0, 0, 0, 1, 0, 0, 0,
   6, 1, 0, 0, 0, 7, 0, 0, 0, 1, 0, 0, 0]

/-- The expression `if (1 + 2) then 10 else 20`: an `IfThenElse` whose condition
is a `BinaryOp` over two literals. -/
def exIfBinaryOp : SExpr :=
  SExpr.IfThenElse (SExpr.BinaryOp 0 (SExpr.Literal 7 (LitVal.num 1))
      (SExpr.Literal 7 (LitVal.num 2)) 7)
    (SExpr.Literal 7 (LitVal.num 10)) (SExpr.Literal 7 (LitVal.num 20))

/-- A reader state at work on a CFG whose block table has `0x10000000` entries:
slot 0 holds the entry block, block 0, without arguments; the last slot,
`0x0FFFFFFF`, holds the exit block, block 1, with one argument; the others
are empty.  The stream holds the body of a `Goto` atom: `numArgs = 0` and the
target `0x0FFFFFFF`, which is the value of `InvalidBlockID` in `exTables`. -/
def exReaderSentinel : BytecodeReader :=
  { BytecodeReader.ofStream 64 20 [0, 0, 0, 0, 255, 255, 255, 15] with
    Builder := ⟨[⟨0, 0, SExpr.null, true⟩, ⟨0, 1, SExpr.null, true⟩],
      [⟨[some 0, some 1], 0, 1⟩], some 0, some 0⟩,
    Blocks := [some 0] ++ List.replicate 0x0FFFFFFE none ++ [some 1] }

/-- A reader state whose block table has `n` entries, all of them empty. -/
def exReaderEmptyTable (n : Nat) : BytecodeReader :=
  { BytecodeReader.ofStream 64 20 [] with Blocks := List.replicate n none }

/-- Modelled from the spec: the byte stream that a writer with a buffer of
`BufferSize` bytes produces for the tree `Apply(Identifier(n1),
Identifier(n2))`: the atoms in post-order, children before the parent, each
atom closed by `endAtom` (section 4.3). -/
def exStreamApply (BufferSize MaxAtomSize : Nat) (n1 n2 : List Nat) : List Nat :=
  (((((BytecodeWriter.init BufferSize MaxAtomSize).reduceIdentifier
        (SExpr.Identifier n1)).endAtom.reduceIdentifier
        (SExpr.Identifier n2)).endAtom.reduceApply
        (SExpr.Apply (SExpr.Identifier n1) (SExpr.Identifier n2) 0)).endAtom).output

/-- A name of nine bytes. -/
def exNameShort : List Nat :=
  [97, 98, 99, 100, 101, 102, 103, 104, 105]

/-- A name of sixteen bytes. -/
def exNameLong : List Nat :=
  [1, 2, 3, 4, 5, 6, 7, 8, 9, 10, 11, 12, 13, 14, 15, 16]
/-! ## Theorems: variable-byte integers -/

theorem splice_step (B bs : List Nat) (p b : Nat) (h : p < B.length) :
    (B.set p b).take (p + 1) ++ bs ++ (B.set p b).drop (p + 1 + bs.length)
      = B.take p ++ (b :: bs) ++ B.drop (p + (bs.length + 1)) := by
  rw [List.set_eq_take_cons_drop b h]
  have hl : (B.take p).length = p := by simp; omega
  have h1 : (B.take p ++ b :: B.drop (p + 1)).take (p + 1) = B.take p ++ [b] := by
    rw [List.take_append_eq_append_take, hl]
    simp
  have h2 : (B.take p ++ b :: B.drop (p + 1)).drop (p + 1 + bs.length)
      = B.drop (p + (bs.length + 1)) := by
    rw [List.drop_append_eq_append_drop, hl]
    have : p + 1 + bs.length - p = bs.length + 1 := by omega
    rw [this]
    have : (B.take p).drop (p + 1 + bs.length) = [] := by
      apply List.drop_eq_nil_of_le; simp; omega
    rw [this]
    simp [List.drop_drop]
    congr 1; omega
  rw [h1, h2]
  simp

theorem writeVbrLoop_eq (fuel : Nat) : ∀ (w : ByteStreamWriterBase) (V : Nat),
    w.Pos + (vbrList fuel V).length ≤ w.Buffer.length →
    ByteStreamWriterBase.writeVbrLoop fuel w V =
      { w with
        Buffer := w.Buffer.take w.Pos ++ vbrList fuel V
                    ++ w.Buffer.drop (w.Pos + (vbrList fuel V).length),
        Pos := w.Pos + (vbrList fuel V).length } := by
  induction fuel with
  | zero => intro w V _; simp [ByteStreamWriterBase.writeVbrLoop, vbrList]
  | succ n ih =>
    intro w V h
    by_cases hV : V > 0
    · simp only [vbrList, hV, if_true, List.length_cons] at h ⊢
      simp only [ByteStreamWriterBase.writeVbrLoop, hV, if_true]
      have hp : w.Pos < w.Buffer.length := by omega
      rw [ih]
      · simp only [ByteStreamWriterBase.store]
        rw [splice_step _ _ _ _ hp]
        congr 1; omega
      · simp only [ByteStreamWriterBase.store, List.length_set]; omega
    · simp [ByteStreamWriterBase.writeVbrLoop, vbrList, hV]

theorem and127 (V : Nat) : V &&& 127 = V % 128 := by
  have := Nat.and_pow_two_sub_one_eq_mod V 7
  simpa using this

theorem low7_facts : ∀ x, x < 128 →
    (x ||| 0) % 256 = x ∧ (x ||| 128) % 256 = x + 128 ∧
    x &&& 127 = x ∧ (x + 128) &&& 127 = x ∧
    x &&& 128 = 0 ∧ (x + 128) &&& 128 = 128 := by
  decide

theorem or_shift (V0 x B W : Nat) (h0 : V0 < 2 ^ B) (hx : x * 2 ^ B < 2 ^ W) :
    V0 ||| ((x <<< B) % 2 ^ W) = V0 + x * 2 ^ B := by
  rw [Nat.shiftLeft_eq, Nat.mod_eq_of_lt hx, Nat.or_comm, Nat.mul_comm,
    ← Nat.mul_add_lt_is_or h0, Nat.add_comm]

theorem vbrList_zero (f : Nat) : vbrList f 0 = [] := by
  cases f <;> simp [vbrList]

theorem vbrList_succ (f V : Nat) (hV : 0 < V) :
    vbrList (f + 1) V =
      (V % 128 + (if V / 128 = 0 then 0 else 128)) :: vbrList f (V / 128) := by
  have hm : V % 128 < 128 := Nat.mod_lt _ (by norm_num)
  have hf := low7_facts (V % 128) hm
  simp only [vbrList, hV, if_true, Nat.shiftRight_eq_div_pow, and127]
  norm_num
  by_cases hq : V / 128 = 0
  · simp only [hq, if_true]; simpa using hf.1
  · simp only [hq, if_false]; exact hf.2.1

theorem readVbrLoop_vbrList (W : Nat) : ∀ (f rf : Nat) (r : ByteStreamReaderBase)
    (pre post : List Nat) (V V0 B : Nat),
    0 < V → V < 2 ^ (7 * f) → V0 < 2 ^ B → V0 + V * 2 ^ B < 2 ^ W →
    r.Buffer = pre ++ vbrList f V ++ post → r.Pos = pre.length →
    (vbrList f V).length ≤ rf →
    ByteStreamReaderBase.readVbrLoop W rf r V0 B =
      (V0 + V * 2 ^ B, { r with Pos := r.Pos + (vbrList f V).length }) := by
  intro f
  induction f with
  | zero => intro rf r pre post V V0 B hV hlt; simp at hlt; omega
  | succ f ih =>
    intro rf r pre post V V0 B hV hlt h0 hW hbuf hpos hrf
    have hm : V % 128 < 128 := Nat.mod_lt _ (by norm_num)
    have hf := low7_facts (V % 128) hm
    rw [vbrList_succ f V hV] at hbuf hrf ⊢
    have hPpos : 0 < 2 ^ B := Nat.pow_pos (by norm_num)
    have hBW : B < W := by
      have h1 : 2 ^ B ≤ V * 2 ^ B := Nat.le_mul_of_pos_left _ hV
      have h2 : 2 ^ B < 2 ^ W := by omega
      exact (Nat.pow_lt_pow_iff_right (by norm_num)).1 h2
    obtain ⟨rf, rfl⟩ : ∃ k, rf = k + 1 := ⟨rf - 1, by simp at hrf; omega⟩
    have hdecomp : V = 128 * (V / 128) + V % 128 := (Nat.div_add_mod V 128).symm
    have hmW : V % 128 * 2 ^ B < 2 ^ W := by
      have : V % 128 * 2 ^ B ≤ V * 2 ^ B := Nat.mul_le_mul_right _ (Nat.mod_le _ _)
      omega
    have hload : r.load.1 = V % 128 + (if V / 128 = 0 then 0 else 128) := by
      simp only [ByteStreamReaderBase.load, hbuf, hpos]
      rw [List.append_assoc, List.getD_append_right _ _ _ _ (le_refl _)]
      simp only [Nat.sub_self, List.cons_append, List.getD_cons_zero]
      split <;> omega
    simp only [ByteStreamReaderBase.readVbrLoop, hBW, if_true, hload]
    by_cases hq : V / 128 = 0
    · simp only [hq, if_true, Nat.add_zero, hf.2.2.2.2.1, hf.2.2.1, vbrList_zero,
        List.length_cons, List.length_nil]
      rw [or_shift _ _ _ _ h0 hmW]
      have : V % 128 = V := by omega
      rw [this]
      rfl
    · simp only [hq, if_false, hf.2.2.2.2.2, hf.2.2.2.1, List.length_cons]
      rw [or_shift _ _ _ _ h0 hmW]
      have hq' : 0 < V / 128 := Nat.pos_of_ne_zero hq
      have hlt' : V / 128 < 2 ^ (7 * f) := by
        rw [Nat.div_lt_iff_lt_mul (by norm_num)]
        have : 2 ^ (7 * (f + 1)) = 2 ^ (7 * f) * 128 := by
          rw [Nat.mul_succ, Nat.pow_add]
        omega
      have hpow : 2 ^ (B + 7) = 128 * 2 ^ B := by rw [Nat.pow_add]; ring
      have hsum : V0 + V % 128 * 2 ^ B + V / 128 * 2 ^ (B + 7) = V0 + V * 2 ^ B := by
        rw [hpow]
        conv_rhs => rw [hdecomp]
        ring
      have h0' : V0 + V % 128 * 2 ^ B < 2 ^ (B + 7) := by
        rw [hpow]
        have : V % 128 * 2 ^ B + 2 ^ B ≤ 128 * 2 ^ B := by
          have : (V % 128 + 1) * 2 ^ B ≤ 128 * 2 ^ B := Nat.mul_le_mul_right _ (by omega)
          linarith
        omega
      have := ih rf r.load.2 (pre ++ [V % 128 + 128]) post (V / 128)
        (V0 + V % 128 * 2 ^ B) (B + 7) hq' hlt' h0' (by rw [hsum]; exact hW)
        (by simp [ByteStreamReaderBase.load, hbuf, hq])
        (by simp [ByteStreamReaderBase.load, hpos])
        (by simp at hrf; omega)
      simp only [if_neg (by decide : ¬ (128 = 0))]
      rw [this, hsum]
      simp [ByteStreamReaderBase.load]
      omega

theorem vbrList_spec : ∀ (f V : Nat), 0 < V → V < 2 ^ (7 * f) →
    1 ≤ (vbrList f V).length ∧
    2 ^ (7 * ((vbrList f V).length - 1)) ≤ V ∧ V < 2 ^ (7 * (vbrList f V).length) ∧
    ∀ i, i < (vbrList f V).length →
      (vbrList f V).getD i 0
        = V / 2 ^ (7 * i) % 128 + (if i + 1 < (vbrList f V).length then 128 else 0) := by
  intro f
  induction f with
  | zero => intro V hV hlt; simp at hlt; omega
  | succ f ih =>
    intro V hV hlt
    rw [vbrList_succ f V hV]
    by_cases hq : V / 128 = 0
    · have hV128 : V < 128 := by
        by_contra h
        have : 1 ≤ V / 128 := (Nat.one_le_div_iff (by norm_num)).2 (by omega)
        omega
      simp only [hq, if_true, vbrList_zero, List.length_cons, List.length_nil]
      refine ⟨by omega, by simpa using hV, by simpa using hV128, ?_⟩
      intro i hi
      have : i = 0 := by omega
      subst this
      simp
    · have hq' : 0 < V / 128 := Nat.pos_of_ne_zero hq
      have hlt' : V / 128 < 2 ^ (7 * f) := by
        rw [Nat.div_lt_iff_lt_mul (by norm_num)]
        have : 2 ^ (7 * (f + 1)) = 2 ^ (7 * f) * 128 := by
          rw [Nat.mul_succ, Nat.pow_add]
        omega
      obtain ⟨h1, h2, h3, h4⟩ := ih (V / 128) hq' hlt'
      simp only [hq, if_false, List.length_cons]
      generalize hn : (vbrList f (V / 128)).length = n at h1 h2 h3 h4
      obtain ⟨m, rfl⟩ : ∃ m, n = m + 1 := ⟨n - 1, by omega⟩
      have hdm := Nat.div_add_mod V 128
      have hmod : V % 128 < 128 := Nat.mod_lt _ (by norm_num)
      refine ⟨by omega, ?_, ?_, ?_⟩
      · simp only [Nat.add_sub_cancel] at h2 ⊢
        have : 2 ^ (7 * (m + 1)) = 2 ^ (7 * m) * 128 := by
          rw [Nat.mul_succ, Nat.pow_add]
        rw [this]
        have : 2 ^ (7 * m) * 128 ≤ V / 128 * 128 := Nat.mul_le_mul_right _ h2
        omega
      · have : 2 ^ (7 * (m + 1 + 1)) = 2 ^ (7 * (m + 1)) * 128 := by
          rw [Nat.mul_succ, Nat.pow_add]
        rw [this]
        have : (V / 128 + 1) * 128 ≤ 2 ^ (7 * (m + 1)) * 128 := Nat.mul_le_mul_right _ h3
        omega
      · intro i hi
        cases i with
        | zero => simp
        | succ j =>
          simp only [List.getD_cons_succ]
          rw [h4 j (by omega)]
          have : 2 ^ (7 * (j + 1)) = 128 * 2 ^ (7 * j) := by
            rw [Nat.mul_succ, Nat.pow_add]; ring
          rw [this, Nat.div_div_eq_div_mul]
          simp only [Nat.add_lt_add_iff_right]

theorem store_eq (w : ByteStreamWriterBase) (b : Nat) (h : w.Pos + 1 ≤ w.Buffer.length) :
    w.store b = { w with
      Buffer := w.Buffer.take w.Pos ++ [b % 256] ++ w.Buffer.drop (w.Pos + [b % 256].length),
      Pos := w.Pos + [b % 256].length } := by
  simp only [ByteStreamWriterBase.store, List.length_singleton]
  rw [List.set_eq_take_cons_drop _ (by omega)]
  simp

theorem emitted_splice (w : ByteStreamWriterBase) (enc : List Nat)
    (h : w.Pos + enc.length ≤ w.Buffer.length) :
    ByteStreamWriterBase.emitted w { w with
      Buffer := w.Buffer.take w.Pos ++ enc ++ w.Buffer.drop (w.Pos + enc.length),
      Pos := w.Pos + enc.length } = enc := by
  simp only [ByteStreamWriterBase.emitted]
  have hl : (w.Buffer.take w.Pos).length = w.Pos := by simp; omega
  rw [List.append_assoc, List.drop_left' hl]
  simp

theorem vbrList_length_le (f V k : Nat) (hV : 0 < V) (hf : V < 2 ^ (7 * f))
    (hk : V < 2 ^ (7 * k)) : (vbrList f V).length ≤ k := by
  obtain ⟨h1, h2, _, _⟩ := vbrList_spec f V hV hf
  by_contra hc
  have : 7 * k ≤ 7 * ((vbrList f V).length - 1) := by omega
  have := Nat.pow_le_pow_right (by norm_num : 0 < 2) this
  omega

theorem vbrEnc_length (W V k : Nat) (hW : V < 2 ^ (7 * W)) (hk : V < 2 ^ (7 * k)) (h1 : 1 ≤ k) :
    1 ≤ (vbrEnc W V).length ∧ (vbrEnc W V).length ≤ k := by
  unfold vbrEnc
  by_cases hV : V = 0
  · simp [hV]; omega
  · simp only [hV, if_false]
    have hpos : 0 < V := Nat.pos_of_ne_zero hV
    exact ⟨(vbrList_spec W V hpos hW).1, vbrList_length_le W V k hpos hW hk⟩

theorem writeUInt64_Vbr_eq (w : ByteStreamWriterBase) (V : Nat) (hV : V < 2 ^ 64)
    (hroom : w.Pos + 10 ≤ w.Buffer.length) :
    w.writeUInt64_Vbr V = { w with
      Buffer := w.Buffer.take w.Pos ++ vbrEnc 64 V
                  ++ w.Buffer.drop (w.Pos + (vbrEnc 64 V).length),
      Pos := w.Pos + (vbrEnc 64 V).length } := by
  have hlen := vbrEnc_length 64 V 10 (by omega) (by omega) (by omega)
  unfold ByteStreamWriterBase.writeUInt64_Vbr
  simp only [Nat.mod_eq_of_lt hV]
  unfold vbrEnc at hlen ⊢
  by_cases h0 : V = 0
  · simp only [h0, if_true]
    rw [store_eq w 0 (by omega)]
  · simp only [h0, if_false] at hlen ⊢
    exact writeVbrLoop_eq 64 w V (by omega)

theorem writeUInt32_Vbr_eq (w : ByteStreamWriterBase) (V : Nat) (hV : V < 2 ^ 32)
    (hroom : w.Pos + 5 ≤ w.Buffer.length) :
    w.writeUInt32_Vbr V = { w with
      Buffer := w.Buffer.take w.Pos ++ vbrEnc 32 V
                  ++ w.Buffer.drop (w.Pos + (vbrEnc 32 V).length),
      Pos := w.Pos + (vbrEnc 32 V).length } := by
  have hlen := vbrEnc_length 32 V 5 (by omega) (by omega) (by omega)
  unfold ByteStreamWriterBase.writeUInt32_Vbr
  simp only [Nat.mod_eq_of_lt hV]
  unfold vbrEnc at hlen ⊢
  by_cases h0 : V = 0
  · simp only [h0, if_true]
    rw [store_eq w 0 (by omega)]
  · simp only [h0, if_false] at hlen ⊢
    exact writeVbrLoop_eq 32 w V (by omega)

theorem readVbrLoop_vbrEnc (W : Nat) (V : Nat) (hV : V < 2 ^ W) (r : ByteStreamReaderBase)
    (pre post : List Nat) (hbuf : r.Buffer = pre ++ vbrEnc W V ++ post)
    (hpos : r.Pos = pre.length) (hW : 0 < W) :
    ByteStreamReaderBase.readVbrLoop W W r 0 0
      = (V, { r with Pos := r.Pos + (vbrEnc W V).length }) := by
  have hVW : V < 2 ^ (7 * W) :=
    lt_of_lt_of_le hV (Nat.pow_le_pow_right (by norm_num) (by omega))
  unfold vbrEnc at hbuf ⊢
  by_cases h0 : V = 0
  · subst h0
    simp only [if_true] at hbuf ⊢
    obtain ⟨k, rfl⟩ : ∃ k, W = k + 1 := ⟨W - 1, by omega⟩
    have hload : r.load.1 = 0 := by
      simp only [ByteStreamReaderBase.load, hbuf, hpos]
      rw [List.append_assoc, List.getD_append_right _ _ _ _ (le_refl _)]
      simp
    simp only [ByteStreamReaderBase.readVbrLoop, hW, if_true, hload]
    simp [ByteStreamReaderBase.load]
  · simp only [h0, if_false] at hbuf ⊢
    have hpos' : 0 < V := Nat.pos_of_ne_zero h0
    have := readVbrLoop_vbrList W W W r pre post V 0 0 hpos' hVW (by norm_num)
      (by simpa using hV) hbuf hpos
      (vbrList_length_le W V W hpos' hVW hVW)
    simpa using this

theorem vbrEnc_format (W V : Nat) (hW : V < 2 ^ (7 * W)) : VbrFormat V (vbrEnc W V) := by
  unfold vbrEnc
  by_cases h0 : V = 0
  · subst h0
    simp only [if_true, VbrFormat, List.length_singleton]
    refine ⟨le_refl _, ?_, by simp, ?_, ?_⟩
    · intro i hi; omega
    · intro i hi
      have : i = 0 := by omega
      subst this; simp
    · intro h; omega
  · simp only [h0, if_false]
    have hpos : 0 < V := Nat.pos_of_ne_zero h0
    obtain ⟨h1, h2, h3, h4⟩ := vbrList_spec W V hpos hW
    refine ⟨h1, ?_, ?_, ?_, ?_⟩
    · intro i hi
      rw [h4 i (by omega)]
      simp only [hi, if_true]
      exact (low7_facts _ (Nat.mod_lt _ (by norm_num))).2.2.2.2.2
    · rw [h4 _ (by omega)]
      have : ¬ ((vbrList W V).length - 1 + 1 < (vbrList W V).length) := by omega
      simp only [this, if_false, Nat.add_zero]
      exact (low7_facts _ (Nat.mod_lt _ (by norm_num))).2.2.2.2.1
    · intro i hi
      rw [h4 i hi]
      have hm : V / 2 ^ (7 * i) % 128 < 128 := Nat.mod_lt _ (by norm_num)
      have hf := low7_facts _ hm
      by_cases hc : i + 1 < (vbrList W V).length
      · simp only [hc, if_true]
        exact ⟨by omega, hf.2.2.2.1⟩
      · simp only [hc, if_false, Nat.add_zero]
        exact ⟨by omega, hf.2.2.1⟩
    · intro _
      refine ⟨h3, ?_⟩
      intro n hn
      have : 7 * n ≤ 7 * ((vbrList W V).length - 1) := by omega
      exact le_trans (Nat.pow_le_pow_right (by norm_num) this) h2

theorem vbrEnc_injective (W V1 V2 : Nat) (hW : 0 < W) (h1 : V1 < 2 ^ W) (h2 : V2 < 2 ^ W)
    (h : vbrEnc W V1 = vbrEnc W V2) : V1 = V2 := by
  let r : ByteStreamReaderBase := ⟨0, 0, vbrEnc W V1, 0, 0, false, false, [], false⟩
  have e1 := readVbrLoop_vbrEnc W V1 h1 r [] [] (by simp [r]) (by simp [r]) hW
  have e2 := readVbrLoop_vbrEnc W V2 h2 r [] [] (by simp [r, h]) (by simp [r]) hW
  rw [e1] at e2
  exact (Prod.mk.inj e2).1

/-! ## Theorems: bytecode reader -/

theorem getD_modify_self {α : Type} (l : List α) (f : α → α) (b : Nat) (d : α)
    (h : b < l.length) : (l.modify f b).getD b d = f (l.getD b d) := by
  simp [List.getD_eq_getElem?_getD, List.getElem?_modify, h]

namespace ByteStreamReaderBase

theorem load_unread (R : ByteStreamReaderBase) : R.load.2.unread ≤ R.unread := by
  simp only [load, unread]; omega

theorem load_unread_lt (R : ByteStreamReaderBase) (h : R.Pos < R.BufferLen) :
    R.load.2.unread < R.unread := by
  simp only [load, unread]; omega

theorem readBitsLoop_unread (W : Nat) : ∀ (fuel : Nat) (R : ByteStreamReaderBase) (V B N : Nat),
    (readBitsLoop W fuel R V B N).2.unread ≤ R.unread := by
  intro fuel
  induction fuel with
  | zero => intro R V B N; simp [readBitsLoop]
  | succ n ih =>
    intro R V B N
    simp only [readBitsLoop]
    split
    · exact load_unread R
    · exact le_trans (ih _ _ _ _) (load_unread R)

theorem readUInt8_unread (R : ByteStreamReaderBase) : R.readUInt8.2.unread ≤ R.unread :=
  readBitsLoop_unread _ _ _ _ _ _

theorem readUInt16_unread (R : ByteStreamReaderBase) : R.readUInt16.2.unread ≤ R.unread :=
  readBitsLoop_unread _ _ _ _ _ _

theorem readUInt32_unread (R : ByteStreamReaderBase) : R.readUInt32.2.unread ≤ R.unread :=
  readBitsLoop_unread _ _ _ _ _ _

theorem readUInt64_unread (R : ByteStreamReaderBase) : R.readUInt64.2.unread ≤ R.unread :=
  readBitsLoop_unread _ _ _ _ _ _

theorem readUInt8_unread_lt (R : ByteStreamReaderBase) (h : R.Pos < R.BufferLen) :
    R.readUInt8.2.unread < R.unread := by
  have : R.readUInt8 = ((0 ||| ((R.load.1 <<< 0) % 2 ^ 32)), R.load.2) := by
    simp [readUInt8, readBits32, readBitsLoop]
  rw [this]
  exact load_unread_lt R h

theorem refill_unread (R : ByteStreamReaderBase) : R.refill.unread ≤ R.unread := by
  unfold refill
  by_cases hE : R.Eof = true
  · simp [hE]
  · simp only [hE, if_false, Bool.false_eq_true]
    by_cases hp : R.Pos > 0
    · simp only [hp, if_true, readData, unread, length]
      split <;> simp only [List.length_take, List.length_drop] <;> omega
    · simp only [hp, if_false, readData, unread]
      split <;> simp only [List.length_take, List.length_drop] <;> omega

theorem endAtom_unread (R : ByteStreamReaderBase) : R.endAtom.unread ≤ R.unread := by
  unfold endAtom
  split
  · exact refill_unread R
  · exact le_refl _

theorem readBytes_unread (R : ByteStreamReaderBase) (Size : Nat) :
    (R.readBytes Size).2.unread ≤ R.unread := by
  unfold readBytes
  simp only
  split
  · split
    · split
      · simp [unread]
      · refine le_trans (refill_unread _) ?_
        split <;> simp only [readData, unread, List.length_drop] <;> omega
    · split
      · exact le_trans (by simp [unread]) (refill_unread R)
      · split
        · refine le_trans (refill_unread _) (le_trans ?_ (refill_unread R))
          simp only [unread]; omega
        · refine le_trans ?_ (refill_unread R)
          simp only [unread]; omega
  · split
    · refine le_trans (refill_unread _) ?_
      simp only [unread]; omega
    · simp only [unread]; omega

theorem readString_unread (R : ByteStreamReaderBase) : R.readString.2.unread ≤ R.unread := by
  unfold readString
  simp only
  split
  · exact le_trans (by simp [unread]) (readUInt32_unread R)
  · exact le_trans (readBytes_unread _ _) (readUInt32_unread R)

end ByteStreamReaderBase

namespace BytecodeReader
theorem getBlock_Reader (T : Tables) (r : BytecodeReader) (Bid Nargs : Nat) :
    (getBlock T r Bid Nargs).2.Reader = r.Reader := by
  unfold getBlock
  split
  · rfl
  · split
    · rfl
    · simp only
      split
      · rfl
      · split <;> rfl

theorem getVarDecl_Reader (r : BytecodeReader) (i : Nat) :
    (getVarDecl r i).2.Reader = r.Reader := by
  unfold getVarDecl
  split <;> rfl

theorem registerPhis_Reader (b : Nat) : ∀ (k i : Nat) (r : BytecodeReader),
    (registerPhis b k i r).Reader = r.Reader := by
  intro k
  induction k with
  | zero => intro i r; rfl
  | succ n ih => intro i r; simp only [registerPhis]; rw [ih]

theorem readSwitchCases_unread (T : Tables) (E : Option Nat) (Nc : Nat) :
    ∀ (k i : Nat) (r : BytecodeReader),
    (readSwitchCases T E Nc k i r).Reader.unread ≤ r.Reader.unread := by
  intro k
  induction k with
  | zero => intro i r; exact le_refl _
  | succ n ih =>
    intro i r
    simp only [readSwitchCases]
    refine le_trans (ih _ _) ?_
    simp only [getBlock_Reader, readUInt32]
    exact ByteStreamReaderBase.readUInt32_unread _

theorem readVarDecl_unread (r : BytecodeReader) :
    (readVarDecl r).Reader.unread ≤ r.Reader.unread := by
  unfold readVarDecl
  try simp only [readFlag, readBaseType, readUInt16, readUInt32, readUInt64, readString,
    push, drop, fail, getBlock_Reader, getVarDecl_Reader, registerPhis_Reader]
  exact (Nat.le_trans (ByteStreamReaderBase.readString_unread _) (Nat.le_trans (ByteStreamReaderBase.readUInt32_unread _) (ByteStreamReaderBase.readUInt8_unread _)))

theorem readFunction_unread (r : BytecodeReader) :
    (readFunction r).Reader.unread ≤ r.Reader.unread := by
  unfold readFunction
  try simp only [readFlag, readBaseType, readUInt16, readUInt32, readUInt64, readString,
    push, drop, fail, getBlock_Reader, getVarDecl_Reader, registerPhis_Reader]
  exact Nat.le_refl _

theorem readCode_unread (r : BytecodeReader) :
    (readCode r).Reader.unread ≤ r.Reader.unread := by
  unfold readCode
  try simp only [readFlag, readBaseType, readUInt16, readUInt32, readUInt64, readString,
    push, drop, fail, getBlock_Reader, getVarDecl_Reader, registerPhis_Reader]
  exact (ByteStreamReaderBase.readUInt8_unread _)

theorem readField_unread (r : BytecodeReader) :
    (readField r).Reader.unread ≤ r.Reader.unread := by
  unfold readField
  try simp only [readFlag, readBaseType, readUInt16, readUInt32, readUInt64, readString,
    push, drop, fail, getBlock_Reader, getVarDecl_Reader, registerPhis_Reader]
  exact Nat.le_refl _

theorem readSlot_unread (r : BytecodeReader) :
    (readSlot r).Reader.unread ≤ r.Reader.unread := by
  unfold readSlot
  try simp only [readFlag, readBaseType, readUInt16, readUInt32, readUInt64, readString,
    push, drop, fail, getBlock_Reader, getVarDecl_Reader, registerPhis_Reader]
  exact (Nat.le_trans (ByteStreamReaderBase.readString_unread _) (ByteStreamReaderBase.readUInt16_unread _))

theorem readRecord_unread (r : BytecodeReader) :
    (readRecord r).Reader.unread ≤ r.Reader.unread := by
  unfold readRecord
  try simp only [readFlag, readBaseType, readUInt16, readUInt32, readUInt64, readString,
    push, drop, fail, getBlock_Reader, getVarDecl_Reader, registerPhis_Reader]
  exact (ByteStreamReaderBase.readUInt32_unread _)

theorem readArray_unread (r : BytecodeReader) :
    (readArray r).Reader.unread ≤ r.Reader.unread := by
  unfold readArray
  try simp only [readFlag, readBaseType, readUInt16, readUInt32, readUInt64, readString,
    push, drop, fail, getBlock_Reader, getVarDecl_Reader, registerPhis_Reader]
  exact (ByteStreamReaderBase.readUInt64_unread _)

theorem readScalarType_unread (r : BytecodeReader) :
    (readScalarType r).Reader.unread ≤ r.Reader.unread := by
  unfold readScalarType
  try simp only [readFlag, readBaseType, readUInt16, readUInt32, readUInt64, readString,
    push, drop, fail, getBlock_Reader, getVarDecl_Reader, registerPhis_Reader]
  exact (ByteStreamReaderBase.readUInt8_unread _)

theorem readVariable_unread (r : BytecodeReader) :
    (readVariable r).Reader.unread ≤ r.Reader.unread := by
  unfold readVariable
  try simp only [readFlag, readBaseType, readUInt16, readUInt32, readUInt64, readString,
    push, drop, fail, getBlock_Reader, getVarDecl_Reader, registerPhis_Reader]
  exact (ByteStreamReaderBase.readUInt32_unread _)

theorem readApply_unread (r : BytecodeReader) :
    (readApply r).Reader.unread ≤ r.Reader.unread := by
  unfold readApply
  try simp only [readFlag, readBaseType, readUInt16, readUInt32, readUInt64, readString,
    push, drop, fail, getBlock_Reader, getVarDecl_Reader, registerPhis_Reader]
  exact (ByteStreamReaderBase.readUInt8_unread _)

theorem readProject_unread (r : BytecodeReader) :
    (readProject r).Reader.unread ≤ r.Reader.unread := by
  unfold readProject
  try simp only [readFlag, readBaseType, readUInt16, readUInt32, readUInt64, readString,
    push, drop, fail, getBlock_Reader, getVarDecl_Reader, registerPhis_Reader]
  exact (ByteStreamReaderBase.readString_unread _)

theorem readCall_unread (r : BytecodeReader) :
    (readCall r).Reader.unread ≤ r.Reader.unread := by
  unfold readCall
  try simp only [readFlag, readBaseType, readUInt16, readUInt32, readUInt64, readString,
    push, drop, fail, getBlock_Reader, getVarDecl_Reader, registerPhis_Reader]
  exact (ByteStreamReaderBase.readUInt8_unread _)

theorem readAlloc_unread (r : BytecodeReader) :
    (readAlloc r).Reader.unread ≤ r.Reader.unread := by
  unfold readAlloc
  try simp only [readFlag, readBaseType, readUInt16, readUInt32, readUInt64, readString,
    push, drop, fail, getBlock_Reader, getVarDecl_Reader, registerPhis_Reader]
  exact (ByteStreamReaderBase.readUInt8_unread _)

theorem readLoad_unread (r : BytecodeReader) :
    (readLoad r).Reader.unread ≤ r.Reader.unread := by
  unfold readLoad
  try simp only [readFlag, readBaseType, readUInt16, readUInt32, readUInt64, readString,
    push, drop, fail, getBlock_Reader, getVarDecl_Reader, registerPhis_Reader]
  exact (ByteStreamReaderBase.readUInt8_unread _)

theorem readStore_unread (r : BytecodeReader) :
    (readStore r).Reader.unread ≤ r.Reader.unread := by
  unfold readStore
  try simp only [readFlag, readBaseType, readUInt16, readUInt32, readUInt64, readString,
    push, drop, fail, getBlock_Reader, getVarDecl_Reader, registerPhis_Reader]
  exact Nat.le_refl _

theorem readArrayIndex_unread (r : BytecodeReader) :
    (readArrayIndex r).Reader.unread ≤ r.Reader.unread := by
  unfold readArrayIndex
  try simp only [readFlag, readBaseType, readUInt16, readUInt32, readUInt64, readString,
    push, drop, fail, getBlock_Reader, getVarDecl_Reader, registerPhis_Reader]
  exact Nat.le_refl _

theorem readArrayAdd_unread (r : BytecodeReader) :
    (readArrayAdd r).Reader.unread ≤ r.Reader.unread := by
  unfold readArrayAdd
  try simp only [readFlag, readBaseType, readUInt16, readUInt32, readUInt64, readString,
    push, drop, fail, getBlock_Reader, getVarDecl_Reader, registerPhis_Reader]
  exact Nat.le_refl _

theorem readUnaryOp_unread (r : BytecodeReader) :
    (readUnaryOp r).Reader.unread ≤ r.Reader.unread := by
  unfold readUnaryOp
  try simp only [readFlag, readBaseType, readUInt16, readUInt32, readUInt64, readString,
    push, drop, fail, getBlock_Reader, getVarDecl_Reader, registerPhis_Reader]
  exact (Nat.le_trans (ByteStreamReaderBase.readUInt8_unread _) (ByteStreamReaderBase.readUInt8_unread _))

theorem readBinaryOp_unread (r : BytecodeReader) :
    (readBinaryOp r).Reader.unread ≤ r.Reader.unread := by
  unfold readBinaryOp
  try simp only [readFlag, readBaseType, readUInt16, readUInt32, readUInt64, readString,
    push, drop, fail, getBlock_Reader, getVarDecl_Reader, registerPhis_Reader]
  exact (Nat.le_trans (ByteStreamReaderBase.readUInt8_unread _) (ByteStreamReaderBase.readUInt8_unread _))

theorem readCast_unread (r : BytecodeReader) :
    (readCast r).Reader.unread ≤ r.Reader.unread := by
  unfold readCast
  try simp only [readFlag, readBaseType, readUInt16, readUInt32, readUInt64, readString,
    push, drop, fail, getBlock_Reader, getVarDecl_Reader, registerPhis_Reader]
  exact (Nat.le_trans (ByteStreamReaderBase.readUInt8_unread _) (ByteStreamReaderBase.readUInt8_unread _))

theorem readPhi_unread (r : BytecodeReader) :
    (readPhi r).Reader.unread ≤ r.Reader.unread := by
  unfold readPhi
  try simp only [readFlag, readBaseType, readUInt16, readUInt32, readUInt64, readString,
    push, drop, fail, getBlock_Reader, getVarDecl_Reader, registerPhis_Reader]
  repeat' split
  all_goals exact Nat.le_refl _

theorem readReturn_unread (r : BytecodeReader) :
    (readReturn r).Reader.unread ≤ r.Reader.unread := by
  unfold readReturn
  try simp only [readFlag, readBaseType, readUInt16, readUInt32, readUInt64, readString,
    push, drop, fail, getBlock_Reader, getVarDecl_Reader, registerPhis_Reader]
  exact Nat.le_refl _

theorem readUndefined_unread (r : BytecodeReader) :
    (readUndefined r).Reader.unread ≤ r.Reader.unread := by
  unfold readUndefined
  try simp only [readFlag, readBaseType, readUInt16, readUInt32, readUInt64, readString,
    push, drop, fail, getBlock_Reader, getVarDecl_Reader, registerPhis_Reader]
  exact Nat.le_refl _

theorem readWildcard_unread (r : BytecodeReader) :
    (readWildcard r).Reader.unread ≤ r.Reader.unread := by
  unfold readWildcard
  try simp only [readFlag, readBaseType, readUInt16, readUInt32, readUInt64, readString,
    push, drop, fail, getBlock_Reader, getVarDecl_Reader, registerPhis_Reader]
  exact Nat.le_refl _

theorem readIdentifier_unread (r : BytecodeReader) :
    (readIdentifier r).Reader.unread ≤ r.Reader.unread := by
  unfold readIdentifier
  try simp only [readFlag, readBaseType, readUInt16, readUInt32, readUInt64, readString,
    push, drop, fail, getBlock_Reader, getVarDecl_Reader, registerPhis_Reader]
  exact (ByteStreamReaderBase.readString_unread _)

theorem readLet_unread (r : BytecodeReader) :
    (readLet r).Reader.unread ≤ r.Reader.unread := by
  unfold readLet
  try simp only [readFlag, readBaseType, readUInt16, readUInt32, readUInt64, readString,
    push, drop, fail, getBlock_Reader, getVarDecl_Reader, registerPhis_Reader]
  exact Nat.le_refl _

theorem readIfThenElse_unread (r : BytecodeReader) :
    (readIfThenElse r).Reader.unread ≤ r.Reader.unread := by
  unfold readIfThenElse
  try simp only [readFlag, readBaseType, readUInt16, readUInt32, readUInt64, readString,
    push, drop, fail, getBlock_Reader, getVarDecl_Reader, registerPhis_Reader]
  exact Nat.le_refl _

theorem readBasicBlock_unread (r : BytecodeReader) :
    (readBasicBlock r).Reader.unread ≤ r.Reader.unread := by
  unfold readBasicBlock
  try simp only [readFlag, readBaseType, readUInt16, readUInt32, readUInt64, readString,
    push, drop, fail, getBlock_Reader, getVarDecl_Reader, registerPhis_Reader]
  repeat' split
  all_goals exact Nat.le_refl _

theorem readSCFG_unread (r : BytecodeReader) :
    (readSCFG r).Reader.unread ≤ r.Reader.unread := by
  unfold readSCFG
  try simp only [readFlag, readBaseType, readUInt16, readUInt32, readUInt64, readString,
    push, drop, fail, getBlock_Reader, getVarDecl_Reader, registerPhis_Reader]
  repeat' split
  all_goals exact Nat.le_refl _

theorem readNull_unread (r : BytecodeReader) :
    (readNull r).Reader.unread ≤ r.Reader.unread := by
  unfold readNull
  try simp only [readFlag, readBaseType, readUInt16, readUInt32, readUInt64, readString,
    push, drop, fail, getBlock_Reader, getVarDecl_Reader, registerPhis_Reader]
  exact Nat.le_refl _

theorem readWeak_unread (r : BytecodeReader) :
    (readWeak r).Reader.unread ≤ r.Reader.unread := by
  unfold readWeak
  try simp only [readFlag, readBaseType, readUInt16, readUInt32, readUInt64, readString,
    push, drop, fail, getBlock_Reader, getVarDecl_Reader, registerPhis_Reader]
  repeat' split
  all_goals exact (ByteStreamReaderBase.readUInt32_unread _)

theorem readBBArgument_unread (r : BytecodeReader) :
    (readBBArgument r).Reader.unread ≤ r.Reader.unread := by
  unfold readBBArgument
  try simp only [readFlag, readBaseType, readUInt16, readUInt32, readUInt64, readString,
    push, drop, fail, getBlock_Reader, getVarDecl_Reader, registerPhis_Reader]
  exact Nat.le_refl _

theorem enterScope_unread (r : BytecodeReader) :
    (enterScope r).Reader.unread ≤ r.Reader.unread := by
  unfold enterScope
  try simp only [readFlag, readBaseType, readUInt16, readUInt32, readUInt64, readString,
    push, drop, fail, getBlock_Reader, getVarDecl_Reader, registerPhis_Reader]
  repeat' split
  all_goals exact Nat.le_refl _

theorem exitScope_unread (r : BytecodeReader) :
    (exitScope r).Reader.unread ≤ r.Reader.unread := by
  unfold exitScope
  try simp only [readFlag, readBaseType, readUInt16, readUInt32, readUInt64, readString,
    push, drop, fail, getBlock_Reader, getVarDecl_Reader, registerPhis_Reader]
  exact Nat.le_refl _

theorem enterCFG_unread (r : BytecodeReader) :
    (enterCFG r).Reader.unread ≤ r.Reader.unread := by
  unfold enterCFG
  try simp only [readFlag, readBaseType, readUInt16, readUInt32, readUInt64, readString,
    push, drop, fail, getBlock_Reader, getVarDecl_Reader, registerPhis_Reader]
  exact (Nat.le_trans (ByteStreamReaderBase.readUInt32_unread _) (Nat.le_trans (ByteStreamReaderBase.readUInt32_unread _) (Nat.le_trans (ByteStreamReaderBase.readUInt32_unread _) (ByteStreamReaderBase.readUInt32_unread _))))

theorem readGoto_unread (T : Tables) (r : BytecodeReader) :
    (readGoto T r).Reader.unread ≤ r.Reader.unread := by
  unfold readGoto
  try simp only [readFlag, readBaseType, readUInt16, readUInt32, readUInt64, readString,
    push, drop, fail, getBlock_Reader, getVarDecl_Reader, registerPhis_Reader]
  exact (Nat.le_trans (ByteStreamReaderBase.readUInt32_unread _) (ByteStreamReaderBase.readUInt32_unread _))

theorem readBranch_unread (T : Tables) (r : BytecodeReader) :
    (readBranch T r).Reader.unread ≤ r.Reader.unread := by
  unfold readBranch
  try simp only [readFlag, readBaseType, readUInt16, readUInt32, readUInt64, readString,
    push, drop, fail, getBlock_Reader, getVarDecl_Reader, registerPhis_Reader]
  exact (Nat.le_trans (ByteStreamReaderBase.readUInt32_unread _) (ByteStreamReaderBase.readUInt32_unread _))

theorem readBBInstruction_unread (T : Tables) (r : BytecodeReader) :
    (readBBInstruction T r).Reader.unread ≤ r.Reader.unread := by
  unfold readBBInstruction
  try simp only [readFlag, readBaseType, readUInt16, readUInt32, readUInt64, readString,
    push, drop, fail, getBlock_Reader, getVarDecl_Reader, registerPhis_Reader]
  repeat' split
  all_goals exact Nat.le_refl _

theorem enterBlock_unread (T : Tables) (r : BytecodeReader) :
    (enterBlock T r).Reader.unread ≤ r.Reader.unread := by
  have h : (enterBlock T r).Reader = r.Reader.readUInt32.2.readUInt32.2.readUInt32.2 := by
    unfold enterBlock
    simp only
    split
    · simp only [registerPhis_Reader, getBlock_Reader, readUInt32]
    · simp only [getBlock_Reader, readUInt32]
  rw [h]
  exact (Nat.le_trans (ByteStreamReaderBase.readUInt32_unread _) (Nat.le_trans (ByteStreamReaderBase.readUInt32_unread _) (ByteStreamReaderBase.readUInt32_unread _)))

theorem readSwitch_unread (T : Tables) (r : BytecodeReader) :
    (readSwitch T r).Reader.unread ≤ r.Reader.unread := by
  unfold readSwitch
  simp only [drop]
  refine Nat.le_trans (readSwitchCases_unread _ _ _ _ _ _) ?_
  simp only [readUInt32]
  exact ByteStreamReaderBase.readUInt32_unread _

theorem readLiteral_unread (T : Tables) (hT : T.Consuming) (r : BytecodeReader) :
    (readLiteral T r).Reader.unread ≤ r.Reader.unread := by
  unfold readLiteral
  simp only
  split
  · simp only [push, readBaseType]
    exact ByteStreamReaderBase.readUInt8_unread _
  · rename_i dec hdec
    simp only [push, readBaseType]
    exact Nat.le_trans (hT.1 _ dec _ hdec) (ByteStreamReaderBase.readUInt8_unread _)

theorem readAnnotation_unread (T : Tables) (hT : T.Consuming) (r : BytecodeReader) :
    ( readAnnotation T r).Reader.unread ≤ r.Reader.unread := by
  unfold readAnnotation readAnnotationByKind
  simp only [push, drop, readFlag]
  exact Nat.le_trans (hT.2 _ _) (ByteStreamReaderBase.readUInt8_unread _)

theorem readSExprByType_unread (T : Tables) (hT : T.Consuming) (op : Option TIL_Opcode)
    (r : BytecodeReader) : (readSExprByType T op r).Reader.unread ≤ r.Reader.unread := by
  unfold readSExprByType
  split
  · exact readVarDecl_unread r
  · exact readFunction_unread r
  · exact readCode_unread r
  · exact readField_unread r
  · exact readSlot_unread r
  · exact readRecord_unread r
  · exact readArray_unread r
  · exact readScalarType_unread r
  · exact readLiteral_unread T hT r
  · exact readVariable_unread r
  · exact readApply_unread r
  · exact readProject_unread r
  · exact readCall_unread r
  · exact readAlloc_unread r
  · exact readLoad_unread r
  · exact readStore_unread r
  · exact readArrayIndex_unread r
  · exact readArrayAdd_unread r
  · exact readUnaryOp_unread r
  · exact readBinaryOp_unread r
  · exact readCast_unread r
  · exact readPhi_unread r
  · exact readGoto_unread T r
  · exact readBranch_unread T r
  · exact readSwitch_unread T r
  · exact readReturn_unread r
  · exact readUndefined_unread r
  · exact readWildcard_unread r
  · exact readIdentifier_unread r
  · exact readLet_unread r
  · exact readIfThenElse_unread r
  · exact readBasicBlock_unread r
  · exact readSCFG_unread r
  · exact Nat.le_refl _

theorem readSExpr_unread_lt (T : Tables) (hT : T.Consuming) (r : BytecodeReader)
    (h : r.Reader.empty = false) :
    (readSExpr T r).Reader.unread < r.Reader.unread := by
  have hpos : r.Reader.Pos < r.Reader.BufferLen := by
    simp only [ByteStreamReaderBase.empty, ByteStreamReaderBase.length, decide_eq_false_iff_not]
      at h
    omega
  have h1 : r.readPseudoOpcode.2.Reader.unread < r.Reader.unread := by
    simp only [readPseudoOpcode]
    exact ByteStreamReaderBase.readUInt8_unread_lt _ hpos
  unfold readSExpr
  simp only
  refine Nat.lt_of_le_of_lt (ByteStreamReaderBase.endAtom_unread _) ?_
  refine Nat.lt_of_le_of_lt ?_ h1
  split
  · exact readNull_unread _
  · exact readWeak_unread _
  · exact readBBArgument_unread _
  · exact readBBInstruction_unread T _
  · exact enterScope_unread _
  · exact exitScope_unread _
  · exact enterBlock_unread T _
  · exact enterCFG_unread _
  · exact readAnnotation_unread T hT _
  · exact readSExprByType_unread T hT _ _

/-- The loop of `read` ends: a budget above the number of unread bytes is never
exhausted. -/
theorem readLoop_terminates (T : Tables) (hT : T.Consuming) :
    ∀ (fuel : Nat) (r : BytecodeReader), r.Reader.unread ≤ fuel →
      ∃ r1, readLoop T fuel r = some r1 := by
  intro fuel
  induction fuel with
  | zero =>
    intro r h
    have he : r.Reader.empty = true := by
      simp only [ByteStreamReaderBase.unread] at h
      simp only [ByteStreamReaderBase.empty, ByteStreamReaderBase.length, decide_eq_true_eq]
      omega
    exact ⟨r, by simp [readLoop, he]⟩
  | succ n ih =>
    intro r h
    by_cases hc : (!r.Reader.empty && r.success) = true
    · have he : r.Reader.empty = false := by
        cases hh : r.Reader.empty <;> simp [hh] at hc ⊢
      have hlt := readSExpr_unread_lt T hT r he
      obtain ⟨r1, hr1⟩ := ih (readSExpr T r) (by omega)
      exact ⟨r1, by simp only [readLoop, hc, if_true]; exact hr1⟩
    · exact ⟨r, by simp only [readLoop, hc]; rfl⟩

end BytecodeReader

/-- The example table only consumes input. -/
theorem exTables_consuming : exTables.Consuming := by
  constructor
  · intro bt dec R h
    simp only [exTables] at h
    split at h
    · exact absurd h (by simp)
    · have hd : dec = fun R => (LitVal.num R.readUInt32.1, R.readUInt32.2) :=
        (Option.some.inj h).symm
      rw [hd]
      exact ByteStreamReaderBase.readUInt32_unread R
  · intro k r
    exact Nat.le_refl _

/-! ## Theorems: the block table -/

theorem toInt32_of_lt (n : Nat) (h : n < 2 ^ 31) : toInt32 n = (n : Int) := by
  have h2 : n % 2 ^ 32 = n := Nat.mod_eq_of_lt (by omega)
  simp only [toInt32, h2, h, if_true]

theorem toInt32_inj (m n : Nat) (hm : m < 2 ^ 32) (hn : n < 2 ^ 32)
    (h : toInt32 m = toInt32 n) : m = n := by
  have h1 : m % 2 ^ 32 = m := Nat.mod_eq_of_lt hm
  have h2 : n % 2 ^ 32 = n := Nat.mod_eq_of_lt hn
  simp only [toInt32, h1, h2] at h
  split at h <;> split at h <;> omega

theorem toInt32_neg (n : Nat) (h1 : 2 ^ 31 ≤ n) (h2 : n < 2 ^ 32) : toInt32 n < 0 := by
  have h3 : n % 2 ^ 32 = n := Nat.mod_eq_of_lt h2
  simp only [toInt32, h3]
  split <;> omega

namespace ByteStreamReaderBase

theorem readBitsLoop_lt (W : Nat) : ∀ (fuel : Nat) (R : ByteStreamReaderBase) (V B N : Nat),
    V < 2 ^ W → (readBitsLoop W fuel R V B N).1 < 2 ^ W := by
  intro fuel
  induction fuel with
  | zero => intro R V B N h; simpa [readBitsLoop] using h
  | succ n ih =>
    intro R V B N h
    have hor : V ||| ((R.load.1 <<< B) % 2 ^ W) < 2 ^ W :=
      Nat.or_lt_two_pow h (Nat.mod_lt _ (Nat.pow_pos (by norm_num)))
    simp only [readBitsLoop]
    split
    · exact hor
    · exact ih _ _ _ _ hor

theorem readUInt32_lt (R : ByteStreamReaderBase) : R.readUInt32.1 < 2 ^ 32 :=
  readBitsLoop_lt 32 _ _ _ _ _ (by norm_num)

end ByteStreamReaderBase

namespace BytecodeReader

theorem readUInt32_value_lt (r : BytecodeReader) : r.readUInt32.1 < 2 ^ 32 :=
  ByteStreamReaderBase.readUInt32_lt _

/-- `getBlock` on a slot that holds a block with another number of arguments:
the error flag is set, whatever the size of the table. -/
theorem getBlock_mismatch (T : Tables) (r : BytecodeReader) (Bid Nargs b : Nat)
    (hinv : Bid % 2 ^ 32 ≠ T.InvalidBlockID % 2 ^ 32)
    (hid : Bid < 2 ^ 31)
    (hslot : r.Blocks.getD Bid none = some b)
    (hargs : toInt32 (r.Builder.numArguments b) ≠ toInt32 Nargs) :
    (getBlock T r Bid Nargs).2 = r.fail := by
  have hi : toInt32 Bid = (Bid : Int) := toInt32_of_lt Bid hid
  unfold getBlock
  simp only [hinv, if_false, hi]
  by_cases h1 : (Bid : Int) ≥ toInt32 r.Blocks.length
  · simp only [h1, if_true]
  · have h2 : ¬ ((Bid : Int) < 0) := by omega
    simp only [h1, h2, if_false, Int.toNat_ofNat, hslot, hargs, ne_eq, not_false_eq_true,
      if_true]

/-- `getBlock` on an empty slot inside the table. -/
theorem getBlock_empty (T : Tables) (r : BytecodeReader) (Bid Nargs : Nat)
    (hinv : Bid % 2 ^ 32 ≠ T.InvalidBlockID % 2 ^ 32)
    (hsize : r.Blocks.length < 2 ^ 31)
    (hlt : Bid < r.Blocks.length)
    (hslot : r.Blocks.getD Bid none = none) :
    getBlock T r Bid Nargs = (some r.Builder.Heap.length,
      { r with Builder := (r.Builder.newBlock Nargs).2,
               Blocks := r.Blocks.set Bid (some r.Builder.Heap.length) }) := by
  have hi : toInt32 Bid = (Bid : Int) := toInt32_of_lt Bid (by omega)
  have hl : toInt32 r.Blocks.length = (r.Blocks.length : Int) := toInt32_of_lt _ hsize
  unfold getBlock
  simp only [hinv, if_false, hi, hl]
  have h1 : ¬ ((Bid : Int) ≥ (r.Blocks.length : Int)) := by omega
  have h2 : ¬ ((Bid : Int) < 0) := by omega
  simp only [h1, h2, if_false, Int.toNat_ofNat, hslot, CFGBuilder.newBlock]

/-- `getBlock` on a slot that holds a block with the number of arguments asked for. -/
theorem getBlock_match (T : Tables) (r : BytecodeReader) (Bid Nargs b : Nat)
    (hinv : Bid % 2 ^ 32 ≠ T.InvalidBlockID % 2 ^ 32)
    (hsize : r.Blocks.length < 2 ^ 31)
    (hslot : r.Blocks.getD Bid none = some b)
    (hargs : r.Builder.numArguments b = Nargs) :
    getBlock T r Bid Nargs = (some b, r) := by
  have hlt : Bid < r.Blocks.length := by
    by_contra hc
    rw [List.getD_eq_default _ _ (by omega)] at hslot
    exact absurd hslot (by simp)
  have hi : toInt32 Bid = (Bid : Int) := toInt32_of_lt Bid (by omega)
  have hl : toInt32 r.Blocks.length = (r.Blocks.length : Int) := toInt32_of_lt _ hsize
  unfold getBlock
  simp only [hinv, if_false, hi, hl]
  have h1 : ¬ ((Bid : Int) ≥ (r.Blocks.length : Int)) := by omega
  have h2 : ¬ ((Bid : Int) < 0) := by omega
  simp only [h1, h2, if_false, Int.toNat_ofNat, hslot, hargs, ne_eq, not_true_eq_false]

/-- Once the error flag is set, the loop of `read` stops and `read` returns null. -/
theorem read_of_error (T : Tables) (fuel : Nat) (r : BytecodeReader) (h : r.Error = true) :
    BytecodeReader.read T fuel r = some (SExpr.null, r) := by
  have hl : readLoop T fuel r = some r := by
    cases fuel <;> simp [readLoop, success, h]
  simp [BytecodeReader.read, hl, readFinish, success, h]

end BytecodeReader

namespace BytecodeReader
theorem readUInt32_frame (r : BytecodeReader) :
    r.readUInt32.2.Blocks = r.Blocks ∧ r.readUInt32.2.Builder = r.Builder ∧
    r.readUInt32.2.Stack = r.Stack ∧ r.readUInt32.2.Error = r.Error ∧
    r.readUInt32.2.Instrs = r.Instrs ∧ r.readUInt32.2.Vars = r.Vars ∧
    r.readUInt32.2.CurrentInstrID = r.CurrentInstrID ∧
    r.readUInt32.2.CurrentArg = r.CurrentArg ∧
    r.readUInt32.2.CFGStackSize = r.CFGStackSize := by
  simp only [readUInt32, and_self]

theorem readPseudoOpcode_frame (r : BytecodeReader) :
    r.readPseudoOpcode.2.Blocks = r.Blocks ∧ r.readPseudoOpcode.2.Builder = r.Builder ∧
    r.readPseudoOpcode.2.Stack = r.Stack ∧ r.readPseudoOpcode.2.Error = r.Error ∧
    r.readPseudoOpcode.2.Instrs = r.Instrs ∧ r.readPseudoOpcode.2.Vars = r.Vars ∧
    r.readPseudoOpcode.2.CurrentInstrID = r.CurrentInstrID ∧
    r.readPseudoOpcode.2.CurrentArg = r.CurrentArg ∧
    r.readPseudoOpcode.2.CFGStackSize = r.CFGStackSize := by
  simp only [readPseudoOpcode, and_self]

end BytecodeReader

theorem readSExpr_goto (T : Tables) (r0 : BytecodeReader)
    (hop : r0.readPseudoOpcode.1 = PSOP_Last + TIL_Opcode.COP_Goto.toNat) :
    BytecodeReader.readSExpr T r0 =
      { BytecodeReader.readGoto T r0.readPseudoOpcode.2 with
        Reader := (BytecodeReader.readGoto T r0.readPseudoOpcode.2).Reader.endAtom } := by
  have hop' : r0.readPseudoOpcode.1 = 31 := by rw [hop]; rfl
  unfold BytecodeReader.readSExpr
  simp only [hop']
  rfl

theorem getD_modify_ne {α : Type} (l : List α) (f : α → α) (a b : Nat) (d : α)
    (h : a ≠ b) : (l.modify f a).getD b d = l.getD b d := by
  simp [List.getD_eq_getElem?_getD, List.getElem?_modify_ne f l h]

theorem getD_set_eq {α : Type} (l : List α) (i j : Nat) (x d : α) :
    (l.set i x).getD j d = if i = j ∧ j < l.length then x else l.getD j d := by
  simp only [List.getD_eq_getElem?_getD, List.getElem?_set]
  by_cases h : i = j
  · subst h
    by_cases h2 : i < l.length
    · simp [h2]
    · simp [h2, List.getElem?_eq_none (by omega : l.length ≤ i)]
  · simp [h]

namespace BytecodeReader

theorem renumberBlocks_length (Blocks : List (Option Nat)) :
    ∀ (k i : Nat) (s : SCFG × List BasicBlock),
      (renumberBlocks Blocks k i s).1.blocks.length = s.1.blocks.length ∧
      (renumberBlocks Blocks k i s).2.length = s.2.length ∧
      (renumberBlocks Blocks k i s).1.entry = s.1.entry ∧
      (renumberBlocks Blocks k i s).1.exit = s.1.exit := by
  intro k
  induction k with
  | zero => intro i s; simp [renumberBlocks]
  | succ n ih =>
    intro i s
    simp only [renumberBlocks]
    refine ⟨(ih (i + 1) _).1.trans (by simp), (ih (i + 1) _).2.1.trans ?_,
      (ih (i + 1) _).2.2.1.trans rfl, (ih (i + 1) _).2.2.2.trans rfl⟩
    split <;> simp

/-- The block list of the CFG after the loop of `readSCFG`. -/
theorem renumberBlocks_blocks (Blocks : List (Option Nat)) :
    ∀ (k i : Nat) (s : SCFG × List BasicBlock) (j : Nat),
      (renumberBlocks Blocks k i s).1.blocks.getD j none =
        if i ≤ j ∧ j < i + k ∧ j < s.1.blocks.length then Blocks.getD j none
        else s.1.blocks.getD j none := by
  intro k
  induction k with
  | zero =>
    intro i s j
    have : ¬ (i ≤ j ∧ j < i + 0 ∧ j < s.1.blocks.length) := by omega
    simp only [renumberBlocks, this, if_false]
  | succ n ih =>
    intro i s j
    simp only [renumberBlocks]
    rw [ih]
    simp only [List.length_set, getD_set_eq]
    by_cases h1 : i = j
    · subst h1
      by_cases h2 : i < s.1.blocks.length
      · simp [h2]
      · simp [h2]
    · by_cases h2 : i + 1 ≤ j ∧ j < i + 1 + n ∧ j < s.1.blocks.length
      · have : i ≤ j ∧ j < i + (n + 1) ∧ j < s.1.blocks.length := by omega
        simp [h2, this]
      · have : ¬ (i ≤ j ∧ j < i + (n + 1) ∧ j < s.1.blocks.length) := by omega
        simp [h2, this, h1]

/-- A block that no slot of the range names keeps its state. -/
theorem renumberBlocks_untouched (Blocks : List (Option Nat)) :
    ∀ (k i : Nat) (s : SCFG × List BasicBlock) (b : Nat),
      (∀ j, i ≤ j → j < i + k → Blocks.getD j none ≠ some b) →
      (renumberBlocks Blocks k i s).2.getD b default = s.2.getD b default := by
  intro k
  induction k with
  | zero => intro i s b _; simp [renumberBlocks]
  | succ n ih =>
    intro i s b h
    simp only [renumberBlocks]
    rw [ih (i + 1) _ b (fun j h1 h2 => h j (by omega) (by omega))]
    have hi := h i (le_refl _) (by omega)
    split
    · rename_i c hc
      have : c ≠ b := by
        intro e; rw [e] at hc; exact hi hc
      exact getD_modify_ne _ _ _ _ _ this
    · rfl

/-- The block that slot `j` of the range names receives the ID `j`, when no
other slot names it. -/
theorem renumberBlocks_blockID (Blocks : List (Option Nat))
    (hinj : ∀ j1 j2 b, Blocks.getD j1 none = some b → Blocks.getD j2 none = some b → j1 = j2) :
    ∀ (k i : Nat) (s : SCFG × List BasicBlock) (j b : Nat),
      i ≤ j → j < i + k → Blocks.getD j none = some b → b < s.2.length →
      ((renumberBlocks Blocks k i s).2.getD b default).blockID = j := by
  intro k
  induction k with
  | zero => intro i s j b h1 h2; omega
  | succ n ih =>
    intro i s j b h1 h2 hb hlen
    simp only [renumberBlocks]
    by_cases hij : i = j
    · subst hij
      rw [renumberBlocks_untouched Blocks n (i + 1) _ b
        (fun j' hj1 _ e => by have := hinj j' i b e hb; omega)]
      simp only [hb]
      rw [getD_modify_self _ _ _ _ hlen]
    · refine ih (i + 1) _ j b (by omega) (by omega) hb ?_
      split <;> simp [hlen]

end BytecodeReader

theorem list_eq_of_getD {α : Type} (l1 l2 : List α) (d : α) (hlen : l1.length = l2.length)
    (h : ∀ j, j < l1.length → l1.getD j d = l2.getD j d) : l1 = l2 := by
  apply List.ext_getElem hlen
  intro n h1 h2
  have := h n h1
  rw [List.getD_eq_getElem _ _ h1, List.getD_eq_getElem _ _ h2] at this
  exact this

/-! ### `getBlock` outside the range of block IDs -/

namespace BytecodeReader

/-- `getBlock` on the ID `InvalidBlockID`: null, and no change of state. -/
theorem getBlock_invalid (T : Tables) (r : BytecodeReader) (Bid Nargs : Nat)
    (h : Bid % 2 ^ 32 = T.InvalidBlockID % 2 ^ 32) :
    getBlock T r Bid Nargs = (none, r) := by
  simp only [getBlock, h, if_true]

/-- `getBlock` on an ID that is not below the size of the table as an `int`. -/
theorem getBlock_outside (T : Tables) (r : BytecodeReader) (Bid Nargs : Nat)
    (hinv : Bid % 2 ^ 32 ≠ T.InvalidBlockID % 2 ^ 32)
    (h : toInt32 Bid ≥ toInt32 r.Blocks.length) :
    getBlock T r Bid Nargs = (none, r.fail) := by
  simp only [getBlock, hinv, if_false, h, if_true]

theorem exReaderSentinel_facts :
    exReaderSentinel.Blocks.length = 0x10000000 ∧
    exReaderSentinel.Blocks.getD 0x0FFFFFFF none = some 1 := by
  refine ⟨?_, ?_⟩
  · show ([some 0] ++ List.replicate 0x0FFFFFFE none ++ [some 1]).length = 0x10000000
    rw [List.length_append, List.length_append, List.length_replicate]
    rfl
  · show ([some 0] ++ List.replicate 0x0FFFFFFE none ++ [some 1]).getD 0x0FFFFFFF none = some 1
    have hl : ([some 0] ++ List.replicate 0x0FFFFFFE (none : Option Nat)).length = 0x0FFFFFFF := by
      rw [List.length_append, List.length_replicate]; rfl
    rw [List.getD_append_right _ _ _ _ (by rw [hl]), hl, Nat.sub_self]
    rfl

end BytecodeReader
/-! ## Theorems: bit-packed integers -/

theorem bitsList_length : ∀ (n V : Nat), (bitsList n V).length = n := by
  intro n
  induction n with
  | zero => intro V; rfl
  | succ n ih => intro V; simp [bitsList, ih]

theorem bitsList_getD : ∀ (n V k : Nat), k < n →
    (bitsList n V).getD k 0 = V / 2 ^ (8 * k) % 256 := by
  intro n
  induction n with
  | zero => intro V k h; omega
  | succ n ih =>
    intro V k h
    cases k with
    | zero => simp [bitsList]
    | succ k =>
      simp only [bitsList, List.getD_cons_succ]
      rw [ih _ _ (by omega), Nat.div_div_eq_div_mul]
      have : 256 * 2 ^ (8 * k) = 2 ^ (8 * (k + 1)) := by
        rw [Nat.mul_succ, Nat.pow_add]; ring
      rw [this]

theorem and255 (V : Nat) : V &&& 255 = V % 256 := by
  have := Nat.and_pow_two_sub_one_eq_mod V 8
  simpa using this

theorem writeBitsLoop_eq : ∀ (n fuel : Nat) (w : ByteStreamWriterBase) (V Nbits : Nat),
    8 * n < Nbits + 8 → Nbits ≤ 8 * n → n ≤ fuel →
    w.Pos + n ≤ w.Buffer.length →
    ByteStreamWriterBase.writeBitsLoop fuel w V Nbits =
      { w with
        Buffer := w.Buffer.take w.Pos ++ bitsList n V ++ w.Buffer.drop (w.Pos + n),
        Pos := w.Pos + n } := by
  intro n
  induction n with
  | zero =>
    intro fuel w V Nbits _ h2 _ _
    have : Nbits = 0 := by omega
    subst this
    cases fuel <;> simp [ByteStreamWriterBase.writeBitsLoop, bitsList]
  | succ n ih =>
    intro fuel w V Nbits h1 h2 hf hroom
    obtain ⟨fuel, rfl⟩ : ∃ k, fuel = k + 1 := ⟨fuel - 1, by omega⟩
    have hN : Nbits > 0 := by omega
    simp only [ByteStreamWriterBase.writeBitsLoop, hN, if_true]
    rw [ih fuel _ _ _ (by omega) (by omega) (by omega)
      (by simp only [ByteStreamWriterBase.store, List.length_set]; omega)]
    simp only [ByteStreamWriterBase.store, bitsList, and255, Nat.mod_mod,
      Nat.shiftRight_eq_div_pow]
    have hp : w.Pos < w.Buffer.length := by omega
    have := splice_step w.Buffer (bitsList n (V / 256)) w.Pos (V % 256) hp
    rw [bitsList_length] at this
    norm_num
    exact ⟨by simpa using this, by omega⟩

theorem readBitsLoop_bitsList (W : Nat) : ∀ (n fuel : Nat) (r : ByteStreamReaderBase)
    (pre post : List Nat) (V V0 B Nbits : Nat),
    1 ≤ n → B + 8 * n < Nbits + 8 → Nbits ≤ B + 8 * n → n ≤ fuel →
    V0 < 2 ^ B → B + 8 * n ≤ W →
    r.Buffer = pre ++ bitsList n V ++ post → r.Pos = pre.length →
    ByteStreamReaderBase.readBitsLoop W fuel r V0 B Nbits =
      (V0 + V % 2 ^ (8 * n) * 2 ^ B, { r with Pos := r.Pos + n }) := by
  intro n
  induction n with
  | zero => intro fuel r pre post V V0 B Nbits h; omega
  | succ n ih =>
    intro fuel r pre post V V0 B Nbits _ h1 h2 hf h0 hW hbuf hpos
    obtain ⟨fuel, rfl⟩ : ∃ k, fuel = k + 1 := ⟨fuel - 1, by omega⟩
    have hm : V % 256 < 256 := Nat.mod_lt _ (by norm_num)
    have hload : r.load.1 = V % 256 := by
      simp only [ByteStreamReaderBase.load, hbuf, hpos, bitsList]
      rw [List.append_assoc, List.getD_append_right _ _ _ _ (le_refl _)]
      simp only [Nat.sub_self, List.cons_append, List.getD_cons_zero, Nat.mod_mod]
    have hmW : V % 256 * 2 ^ B < 2 ^ W := by
      have h3 : V % 256 * 2 ^ B < 256 * 2 ^ B :=
        Nat.mul_lt_mul_of_pos_right hm (Nat.pow_pos (by norm_num))
      have h4 : 256 * 2 ^ B = 2 ^ (B + 8) := by rw [Nat.pow_add]; ring
      have h5 : 2 ^ (B + 8) ≤ 2 ^ W := Nat.pow_le_pow_right (by norm_num) (by omega)
      omega
    simp only [ByteStreamReaderBase.readBitsLoop, hload]
    rw [or_shift _ _ _ _ h0 hmW]
    by_cases hlast : B + 8 ≥ Nbits
    · have hn : n = 0 := by omega
      subst hn
      simp only [hlast, if_true]
      simp [ByteStreamReaderBase.load]
    · simp only [hlast, if_false]
      have hpow : 2 ^ (B + 8) = 256 * 2 ^ B := by rw [Nat.pow_add]; ring
      have h0' : V0 + V % 256 * 2 ^ B < 2 ^ (B + 8) := by
        rw [hpow]
        have : (V % 256 + 1) * 2 ^ B ≤ 256 * 2 ^ B := Nat.mul_le_mul_right _ (by omega)
        linarith
      have := ih fuel r.load.2 (pre ++ [V % 256]) post (V / 256)
        (V0 + V % 256 * 2 ^ B) (B + 8) Nbits (by omega) (by omega) (by omega) (by omega)
        h0' (by omega)
        (by simp [ByteStreamReaderBase.load, hbuf, bitsList])
        (by simp [ByteStreamReaderBase.load, hpos])
      rw [this]
      have hmod : V % 2 ^ (8 * (n + 1)) = V % 256 + 256 * (V / 256 % 2 ^ (8 * n)) := by
        have : 2 ^ (8 * (n + 1)) = 256 * 2 ^ (8 * n) := by
          rw [Nat.mul_succ, Nat.pow_add]; ring
        rw [this, Nat.mod_mul]
      rw [hmod, hpow]
      simp only [ByteStreamReaderBase.load, Prod.mk.injEq]
      constructor
      · ring
      · congr 1; omega

theorem writeBits_emitted (w : ByteStreamWriterBase) (V Nbits fuel : Nat)
    (hf : (Nbits + 7) / 8 ≤ fuel)
    (hroom : w.Pos + (Nbits + 7) / 8 ≤ w.Buffer.length) :
    (ByteStreamWriterBase.writeBitsLoop fuel w V Nbits).Pos = w.Pos + (Nbits + 7) / 8 ∧
    ByteStreamWriterBase.emitted w (ByteStreamWriterBase.writeBitsLoop fuel w V Nbits)
      = bitsList ((Nbits + 7) / 8) V := by
  have hw := writeBitsLoop_eq ((Nbits + 7) / 8) fuel w V Nbits (by omega) (by omega) hf hroom
  rw [hw]
  refine ⟨rfl, ?_⟩
  have := emitted_splice w (bitsList ((Nbits + 7) / 8) V) (by rw [bitsList_length]; exact hroom)
  rw [bitsList_length] at this
  exact this

/-! ## Theorems: CFG reducer -/

namespace CFGRewriteReducer

theorem blockAt_update (R : CFGRewriteReducer) (b c : Nat) (f : TILBasicBlock → TILBasicBlock) :
    (R.update b f).blockAt c =
      if b = c ∧ b < R.Arena.length then f (R.blockAt c) else R.blockAt c := by
  simp only [update, blockAt]
  by_cases h : b = c
  · subst h
    by_cases h2 : b < R.Arena.length
    · simp only [h2, and_self, if_true]
      exact getD_modify_self _ _ _ _ h2
    · simp only [h2, and_false, if_false]
      rw [List.getD_eq_default _ _ (by simp; omega), List.getD_eq_default _ _ (by omega)]
  · simp only [h, false_and, if_false]
    exact getD_modify_ne _ _ _ _ _ h

theorem update_length (R : CFGRewriteReducer) (b : Nat) (f : TILBasicBlock → TILBasicBlock) :
    (R.update b f).Arena.length = R.Arena.length := by
  simp [update]

theorem blockAt_alloc (R : CFGRewriteReducer) (B : TILBasicBlock) (c : Nat) :
    (R.alloc B).2.blockAt c =
      if c = R.Arena.length then B else R.blockAt c := by
  simp only [alloc, blockAt]
  by_cases h : c < R.Arena.length
  · have : c ≠ R.Arena.length := by omega
    simp only [this, if_false]
    rw [List.getD_append _ _ _ _ h]
  · by_cases h2 : c = R.Arena.length
    · subst h2; simp
    · simp only [h2, if_false]
      rw [List.getD_eq_default _ _ (by simp; omega), List.getD_eq_default _ _ (by omega)]

theorem blockAt_default (R : CFGRewriteReducer) (c : Nat) (h : R.Arena.length ≤ c) :
    R.blockAt c = default := by
  simp only [blockAt]; exact List.getD_eq_default _ _ h

end CFGRewriteReducer

namespace CFGRewriteReducer

theorem assert_fields (R : CFGRewriteReducer) (l : Nat) (c : Bool) :
    (R.assert l c).Arena = R.Arena ∧ (R.assert l c).currentCFG_ = R.currentCFG_ ∧
    (R.assert l c).currentBB_ = R.currentBB_ ∧ (R.assert l c).currentInstrs_ = R.currentInstrs_ ∧
    (R.assert l c).currentArgs_ = R.currentArgs_ ∧ (R.assert l c).varCtx_ = R.varCtx_ := by
  unfold CFGRewriteReducer.assert
  split <;> simp

@[simp] theorem assert_Arena (R : CFGRewriteReducer) (l : Nat) (c : Bool) :
    (R.assert l c).Arena = R.Arena := (assert_fields R l c).1

@[simp] theorem assert_currentCFG (R : CFGRewriteReducer) (l : Nat) (c : Bool) :
    (R.assert l c).currentCFG_ = R.currentCFG_ := (assert_fields R l c).2.1

@[simp] theorem assert_currentBB (R : CFGRewriteReducer) (l : Nat) (c : Bool) :
    (R.assert l c).currentBB_ = R.currentBB_ := (assert_fields R l c).2.2.1

@[simp] theorem assert_currentInstrs (R : CFGRewriteReducer) (l : Nat) (c : Bool) :
    (R.assert l c).currentInstrs_ = R.currentInstrs_ := (assert_fields R l c).2.2.2.1

@[simp] theorem assert_currentArgs (R : CFGRewriteReducer) (l : Nat) (c : Bool) :
    (R.assert l c).currentArgs_ = R.currentArgs_ := (assert_fields R l c).2.2.2.2.1

@[simp] theorem assert_varCtx (R : CFGRewriteReducer) (l : Nat) (c : Bool) :
    (R.assert l c).varCtx_ = R.varCtx_ := (assert_fields R l c).2.2.2.2.2

@[simp] theorem assert_blockAt (R : CFGRewriteReducer) (l : Nat) (c : Bool) (b : Nat) :
    (R.assert l c).blockAt b = R.blockAt b := by
  simp [blockAt]

@[simp] theorem update_currentCFG (R : CFGRewriteReducer) (b : Nat)
    (f : TILBasicBlock → TILBasicBlock) : (R.update b f).currentCFG_ = R.currentCFG_ := rfl

@[simp] theorem update_currentBB (R : CFGRewriteReducer) (b : Nat)
    (f : TILBasicBlock → TILBasicBlock) : (R.update b f).currentBB_ = R.currentBB_ := rfl

@[simp] theorem update_currentInstrs (R : CFGRewriteReducer) (b : Nat)
    (f : TILBasicBlock → TILBasicBlock) : (R.update b f).currentInstrs_ = R.currentInstrs_ := rfl

@[simp] theorem update_FailedAsserts (R : CFGRewriteReducer) (b : Nat)
    (f : TILBasicBlock → TILBasicBlock) : (R.update b f).FailedAsserts = R.FailedAsserts := rfl

/-- What `finishBlock` does to a state with a current block. -/
theorem finishBlock_spec (R : CFGRewriteReducer) (Term : Terminator) (b : Nat)
    (hb : R.currentBB_ = some b) (hv : b < R.Arena.length) :
    (R.finishBlock Term).currentCFG_ = R.currentCFG_ ∧
    (R.finishBlock Term).currentBB_ = none ∧
    (R.finishBlock Term).Arena.length = R.Arena.length ∧
    (∀ c, ((R.finishBlock Term).blockAt c).Predecessors = (R.blockAt c).Predecessors ∧
          ((R.finishBlock Term).blockAt c).Args = (R.blockAt c).Args ∧
          ((R.finishBlock Term).blockAt c).TermInstr
            = if c = b then some Term else (R.blockAt c).TermInstr) := by
  have h1 : (R.assert 229 R.currentBB_.isSome).currentBB_ = some b := by simp [hb]
  simp only [finishBlock, h1]
  refine ⟨by simp, trivial, by simp [update_length], ?_⟩
  intro c
  have : ∀ X : CFGRewriteReducer, ∀ (a i : List SExpr) (o : Option Nat),
      blockAt { X with currentArgs_ := a, currentInstrs_ := i, currentBB_ := o } c
        = X.blockAt c := fun _ _ _ _ => rfl
  rw [this, blockAt_update]
  by_cases hc : b = c
  · subst hc; simp [hv]
  · have hc2 : ¬ c = b := fun h => hc h.symm
    simp [hc, hc2]

/-- What `addPredecessor` does. -/
theorem addPredecessor_spec (R : CFGRewriteReducer) (T : Nat) (Pred : Option Nat)
    (hv : T < R.Arena.length) :
    (R.addPredecessor T Pred).1 = (R.blockAt T).Predecessors.length ∧
    (R.addPredecessor T Pred).2.currentCFG_ = R.currentCFG_ ∧
    (R.addPredecessor T Pred).2.currentBB_ = R.currentBB_ ∧
    (R.addPredecessor T Pred).2.Arena.length = R.Arena.length ∧
    (∀ c, ((R.addPredecessor T Pred).2.blockAt c).Predecessors
            = (if c = T then (R.blockAt c).Predecessors ++ [Pred]
               else (R.blockAt c).Predecessors) ∧
          ((R.addPredecessor T Pred).2.blockAt c).Args
            = (if c = T then (R.blockAt c).Args.map (fun vs => vs ++ [SExpr.null])
               else (R.blockAt c).Args) ∧
          ((R.addPredecessor T Pred).2.blockAt c).TermInstr = (R.blockAt c).TermInstr) := by
  refine ⟨rfl, rfl, rfl, by simp [addPredecessor, update_length], ?_⟩
  intro c
  simp only [addPredecessor, blockAt_update]
  by_cases hc : T = c
  · subst hc; simp [hv, TILBasicBlock.addPredecessor]
  · have hc2 : ¬ c = T := fun h => hc h.symm
    simp [hc, hc2]

end CFGRewriteReducer

namespace CFGRewriteReducer

/-- What `createGoto` does to a state with a current block `b` and an existing
target `K`. -/
theorem createGoto_spec (R : CFGRewriteReducer) (Result : SExpr) (K b : Nat)
    (hb : R.currentBB_ = some b) (hv : b < R.Arena.length) (hK : K < R.Arena.length) :
    (R.createGoto Result K).1 = Terminator.Goto K (R.blockAt K).Predecessors.length ∧
    (R.createGoto Result K).2.currentCFG_ = R.currentCFG_ ∧
    (R.createGoto Result K).2.currentBB_ = none ∧
    (R.createGoto Result K).2.Arena.length = R.Arena.length ∧
    (∀ c, ((R.createGoto Result K).2.blockAt c).Predecessors
            = (if c = K then (R.blockAt c).Predecessors ++ [some b]
               else (R.blockAt c).Predecessors) ∧
          ((R.createGoto Result K).2.blockAt c).Args
            = (if c = K then
                ((R.blockAt c).Args.map (fun vs => vs ++ [SExpr.null])).modifyHead
                  (fun vs => vs.set (R.blockAt K).Predecessors.length Result)
               else (R.blockAt c).Args) ∧
          ((R.createGoto Result K).2.blockAt c).TermInstr
            = if c = b then some (Terminator.Goto K (R.blockAt K).Predecessors.length)
              else (R.blockAt c).TermInstr) := by
  -- the state after the phi value is stored
  have hR3 : ∀ (R2 : CFGRewriteReducer) (f : TILBasicBlock → TILBasicBlock)
      (g : List SExpr → List SExpr),
      (∀ B, (f B).Predecessors = B.Predecessors ∧ (f B).TermInstr = B.TermInstr ∧
        (f B).Args = B.Args.modifyHead g) →
      R2.Arena.length = R.Arena.length →
      (∀ c, ((if (R2.blockAt K).Args.length > 0 then R2.update K f
          else R2).blockAt c).Predecessors = (R2.blockAt c).Predecessors ∧
        ((if (R2.blockAt K).Args.length > 0 then R2.update K f
          else R2).blockAt c).TermInstr = (R2.blockAt c).TermInstr ∧
        ((if (R2.blockAt K).Args.length > 0 then R2.update K f
          else R2).blockAt c).Args =
            (if c = K then (R2.blockAt c).Args.modifyHead g else (R2.blockAt c).Args)) := by
    intro R2 f g hf hl c
    by_cases hA : (R2.blockAt K).Args.length > 0
    · simp only [hA, if_true, blockAt_update]
      by_cases hc : K = c
      · subst hc; simp [hl, hK, hf]
      · have hc2 : ¬ c = K := fun h => hc h.symm
        simp [hc, hc2]
    · simp only [hA, if_false, true_and]
      by_cases hc : c = K
      · subst hc
        have : (R2.blockAt c).Args = [] := by
          cases h : (R2.blockAt c).Args with
          | nil => rfl
          | cons x xs => rw [h] at hA; simp at hA
        simp [this]
      · simp [hc]
  simp only [createGoto]
  set R1 := R.assert 189 R.currentBB_.isSome with hR1
  have hb1 : R1.currentBB_ = some b := by simp [hR1, hb]
  have hK1 : K < R1.Arena.length := by simpa [hR1] using hK
  have e1 : ∀ c, R1.blockAt c = R.blockAt c := fun c => assert_blockAt _ _ _ _
  obtain ⟨a1, a2, a3, a4, a5⟩ := addPredecessor_spec R1 K R1.currentBB_ hK1
  rw [a1, e1]
  set R2 := (R1.addPredecessor K R1.currentBB_).2 with hR2
  have a4' : R2.Arena.length = R.Arena.length := by rw [a4]; simp [hR1]
  have h3 := fun (n : Nat) => hR3 R2
    (fun B : TILBasicBlock => { B with Args := B.Args.modifyHead (fun vs => vs.set n Result) })
    (fun vs : List SExpr => vs.set n Result) (fun B => ⟨rfl, rfl, rfl⟩) a4'
  have hcur3 : ∀ f, (if (R2.blockAt K).Args.length > 0 then R2.update K f
      else R2).currentBB_ = some b := by
    intro f; split <;> simp [a3, hb1]
  have hlen3 : ∀ f, (if (R2.blockAt K).Args.length > 0 then R2.update K f
      else R2).Arena.length = R.Arena.length := by
    intro f; split <;> simp [a4', update_length]
  have hcfg3 : ∀ f, (if (R2.blockAt K).Args.length > 0 then R2.update K f
      else R2).currentCFG_ = R.currentCFG_ := by
    intro f; split <;> simp [a2, hR1]
  have key : ∀ R3 : CFGRewriteReducer, R3.currentBB_ = some b →
      R3.Arena.length = R.Arena.length → R3.currentCFG_ = R.currentCFG_ →
      (∀ c, (R3.blockAt c).Predecessors = (R2.blockAt c).Predecessors ∧
        (R3.blockAt c).TermInstr = (R2.blockAt c).TermInstr ∧
        (R3.blockAt c).Args = (if c = K then (R2.blockAt c).Args.modifyHead
            (fun vs => vs.set (R.blockAt K).Predecessors.length Result)
          else (R2.blockAt c).Args)) →
      Terminator.Goto K (R.blockAt K).Predecessors.length
          = Terminator.Goto K (R.blockAt K).Predecessors.length ∧
      (R3.finishBlock (Terminator.Goto K (R.blockAt K).Predecessors.length)).currentCFG_
          = R.currentCFG_ ∧
      (R3.finishBlock (Terminator.Goto K (R.blockAt K).Predecessors.length)).currentBB_
          = none ∧
      (R3.finishBlock (Terminator.Goto K (R.blockAt K).Predecessors.length)).Arena.length
          = R.Arena.length ∧
      (∀ c, ((R3.finishBlock (Terminator.Goto K
                (R.blockAt K).Predecessors.length)).blockAt c).Predecessors
            = (if c = K then (R.blockAt c).Predecessors ++ [some b]
               else (R.blockAt c).Predecessors) ∧
          ((R3.finishBlock (Terminator.Goto K
                (R.blockAt K).Predecessors.length)).blockAt c).Args
            = (if c = K then
                ((R.blockAt c).Args.map (fun vs => vs ++ [SExpr.null])).modifyHead
                  (fun vs => vs.set (R.blockAt K).Predecessors.length Result)
               else (R.blockAt c).Args) ∧
          ((R3.finishBlock (Terminator.Goto K
                (R.blockAt K).Predecessors.length)).blockAt c).TermInstr
            = if c = b then some (Terminator.Goto K (R.blockAt K).Predecessors.length)
              else (R.blockAt c).TermInstr) := by
    intro R3 hc3 hl3 hg3 h3
    obtain ⟨f1, f2, f3, f4⟩ := finishBlock_spec R3
      (Terminator.Goto K (R.blockAt K).Predecessors.length) b hc3 (by rw [hl3]; omega)
    refine ⟨rfl, by rw [f1, hg3], f2, by rw [f3, hl3], ?_⟩
    intro c
    obtain ⟨g1, g2, g3⟩ := f4 c
    obtain ⟨k1, k2, k3⟩ := h3 c
    obtain ⟨p1, p2, p3⟩ := a5 c
    rw [e1, hb1] at p1
    rw [e1] at p2 p3
    refine ⟨by rw [g1, k1, p1], ?_, by rw [g3, k2, p3]⟩
    rw [g2, k3, p2]
    by_cases hc : c = K <;> simp [hc]
  exact key _ (hcur3 _) (hlen3 _) (hcfg3 _) (h3 _)

end CFGRewriteReducer

namespace CFGRewriteReducer

theorem alloc_fields (R : CFGRewriteReducer) (B : TILBasicBlock) :
    (R.alloc B).1 = R.Arena.length ∧
    (R.alloc B).2.currentCFG_ = R.currentCFG_ ∧
    (R.alloc B).2.currentBB_ = R.currentBB_ ∧
    (R.alloc B).2.Arena.length = R.Arena.length + 1 := by
  simp [alloc]

/-- What `createBranch` does to a state with a current block `b`. -/
theorem createBranch_spec (R : CFGRewriteReducer) (Cond : SExpr) (b : Nat)
    (hb : R.currentBB_ = some b) (hv : b < R.Arena.length) :
    (R.createBranch Cond).1 = Terminator.Branch Cond R.Arena.length (R.Arena.length + 1) ∧
    (R.createBranch Cond).2.currentCFG_ = R.currentCFG_ ∧
    (R.createBranch Cond).2.currentBB_ = none ∧
    (R.createBranch Cond).2.Arena.length = R.Arena.length + 2 ∧
    (∀ c, ((R.createBranch Cond).2.blockAt c).Predecessors
            = (if c = R.Arena.length ∨ c = R.Arena.length + 1 then [some b]
               else (R.blockAt c).Predecessors) ∧
          ((R.createBranch Cond).2.blockAt c).Args = (R.blockAt c).Args ∧
          ((R.createBranch Cond).2.blockAt c).TermInstr
            = if c = b then
                some (Terminator.Branch Cond R.Arena.length (R.Arena.length + 1))
              else (R.blockAt c).TermInstr) := by
  simp only [createBranch]
  set R1 := R.assert 172 R.currentBB_.isSome with hR1
  have hl1 : R1.Arena.length = R.Arena.length := by simp [hR1]
  have e1 : ∀ c, R1.blockAt c = R.blockAt c := fun c => assert_blockAt _ _ _ _
  have hc1 : R1.currentBB_ = some b := by simp [hR1, hb]
  have hg1 : R1.currentCFG_ = R.currentCFG_ := by simp [hR1]
  obtain ⟨x1, x2, x3, x4⟩ := alloc_fields R1 TILBasicBlock.new
  have y := blockAt_alloc R1 TILBasicBlock.new
  set R2 := (R1.alloc TILBasicBlock.new).2 with hR2
  obtain ⟨u1, u2, u3, u4⟩ := alloc_fields R2 TILBasicBlock.new
  have v := blockAt_alloc R2 TILBasicBlock.new
  set R3 := (R2.alloc TILBasicBlock.new).2 with hR3
  rw [x1, u1, x4, hl1]
  obtain ⟨a1, a2, a3, a4, a5⟩ := addPredecessor_spec R3 R.Arena.length R3.currentBB_ (by omega)
  set R4 := (R3.addPredecessor R.Arena.length R3.currentBB_).2 with hR4
  obtain ⟨b1, b2, b3, b4, b5⟩ :=
    addPredecessor_spec R4 (R.Arena.length + 1) R4.currentBB_ (by omega)
  set R5 := (R4.addPredecessor (R.Arena.length + 1) R4.currentBB_).2 with hR5
  have hc5 : R5.currentBB_ = some b := by rw [b3, a3, u3, x3, hc1]
  obtain ⟨f1, f2, f3, f4⟩ := finishBlock_spec R5
    (Terminator.Branch Cond R.Arena.length (R.Arena.length + 1)) b hc5 (by omega)
  refine ⟨rfl, by rw [f1, b2, a2, u2, x2, hg1], f2, by omega, ?_⟩
  intro c
  obtain ⟨g1, g2, g3⟩ := f4 c
  obtain ⟨p1, p2, p3⟩ := b5 c
  obtain ⟨q1, q2, q3⟩ := a5 c
  have hcur4 : R4.currentBB_ = some b := by rw [a3, u3, x3, hc1]
  have hcur3 : R3.currentBB_ = some b := by rw [u3, x3, hc1]
  rw [g1, g2, g3, p1, p2, p3, q1, q2, q3, v, y, e1, x4, hl1, hcur4, hcur3]
  have hd : (default : TILBasicBlock) = TILBasicBlock.new := rfl
  by_cases h1 : c = R.Arena.length
  · subst h1
    have : R.blockAt R.Arena.length = default := blockAt_default R _ (le_refl _)
    simp [this, hd, TILBasicBlock.new]
  · by_cases h2 : c = R.Arena.length + 1
    · subst h2
      have : R.blockAt (R.Arena.length + 1) = default := blockAt_default R _ (by omega)
      simp [this, hd, TILBasicBlock.new]
    · simp [h1, h2]


/-- What `startBlock` does. -/
theorem startBlock_spec (R : CFGRewriteReducer) (BB : Nat) :
    (R.startBlock BB).currentBB_ = some BB ∧
    (R.startBlock BB).Arena.length = R.Arena.length ∧
    (∀ c, ((R.startBlock BB).blockAt c).Predecessors = (R.blockAt c).Predecessors ∧
          ((R.startBlock BB).blockAt c).Args = (R.blockAt c).Args ∧
          ((R.startBlock BB).blockAt c).TermInstr = (R.blockAt c).TermInstr) ∧
    (∀ G, R.currentCFG_ = some G →
      (R.startBlock BB).currentCFG_ = some G ∨
      (R.startBlock BB).currentCFG_ = some { G with Blocks := G.Blocks ++ [BB] }) ∧
    (R.currentCFG_ = none → (R.startBlock BB).currentCFG_ = none) := by
  simp only [startBlock]
  generalize hR5 : CFGRewriteReducer.assert _ 161 _ = R5
  have hl5 : R5.Arena.length = R.Arena.length := by rw [← hR5]; simp
  have e5 : ∀ c, R5.blockAt c = R.blockAt c := fun c => by rw [← hR5]; simp
  have hg5 : R5.currentCFG_ = R.currentCFG_ := by rw [← hR5]; simp
  have e6 : ∀ c, blockAt { R5 with currentBB_ := some BB } c = R.blockAt c :=
    fun c => (e5 c)
  have e7 : ∀ c g, blockAt { R5 with currentBB_ := some BB, currentCFG_ := g } c
      = R.blockAt c := fun c _ => (e5 c)
  have hu : ∀ (X : CFGRewriteReducer) (g : Option TILSCFG) (c : Nat)
      (f : TILBasicBlock → TILBasicBlock),
      blockAt { X.update BB f with currentCFG_ := g } c = (X.update BB f).blockAt c :=
    fun _ _ _ _ => rfl
  split
  · cases hG : R.currentCFG_ with
    | none =>
      have hm : R5.currentCFG_ = none := hg5.trans hG
      rw [hm]
      exact ⟨rfl, hl5, fun c => by rw [e7]; exact ⟨rfl, rfl, rfl⟩, by simp, fun _ => rfl⟩
    | some G =>
      have hm : R5.currentCFG_ = some G := hg5.trans hG
      rw [hm]
      refine ⟨rfl, by simp [update_length, hl5], fun c => ?_, ?_, by simp⟩
      · rw [hu, blockAt_update, e7]
        split <;> exact ⟨rfl, rfl, rfl⟩
      · intro G2 hG2
        right
        simp only [Option.some.injEq] at hG2
        subst hG2
        rfl
  · refine ⟨rfl, hl5, fun c => by rw [e6]; exact ⟨rfl, rfl, rfl⟩, ?_, ?_⟩
    · intro G hG; left
      show R5.currentCFG_ = some G
      rw [hg5, hG]
    · intro hG
      show R5.currentCFG_ = none
      rw [hg5, hG]

/-- What `addInstruction` does. -/
theorem addInstruction_spec (P : Pointers) (R : CFGRewriteReducer) (E : SExpr) :
    (R.addInstruction P E).1 = E ∧
    (R.addInstruction P E).2.currentCFG_ = R.currentCFG_ ∧
    (R.addInstruction P E).2.currentBB_ = R.currentBB_ ∧
    (R.addInstruction P E).2.Arena.length = R.Arena.length ∧
    (∀ c, ((R.addInstruction P E).2.blockAt c).Predecessors = (R.blockAt c).Predecessors ∧
          ((R.addInstruction P E).2.blockAt c).Args = (R.blockAt c).Args ∧
          ((R.addInstruction P E).2.blockAt c).TermInstr = (R.blockAt c).TermInstr) := by
  unfold addInstruction
  split
  · split
    · refine ⟨rfl, rfl, rfl, update_length _ _ _, fun c => ?_⟩
      rw [blockAt_update]
      split <;> simp [TILBasicBlock.addInstruction]
    · exact ⟨rfl, rfl, rfl, rfl, fun c => ⟨rfl, rfl, rfl⟩⟩
  · exact ⟨rfl, rfl, rfl, rfl, fun c => ⟨rfl, rfl, rfl⟩⟩

end CFGRewriteReducer

namespace CFGRewriteReducer

theorem Extends.extRefl (R : CFGRewriteReducer) : R.Extends R :=
  ⟨le_refl _, fun _ => le_refl _, rfl⟩

theorem Extends.extTrans {R1 R2 R3 : CFGRewriteReducer} (h1 : R1.Extends R2) (h2 : R2.Extends R3) :
    R1.Extends R3 :=
  ⟨Nat.le_trans h1.1 h2.1, fun b => Nat.le_trans (h1.2.1 b) (h2.2.1 b), h2.2.2.trans h1.2.2⟩

theorem Untouched.untRefl (R : CFGRewriteReducer) : R.Untouched R :=
  ⟨rfl, rfl, rfl, rfl, rfl, rfl⟩

theorem Untouched.untTrans {R1 R2 R3 : CFGRewriteReducer} (h1 : R1.Untouched R2)
    (h2 : R2.Untouched R3) : R1.Untouched R3 :=
  ⟨h2.1.trans h1.1, h2.2.1.trans h1.2.1, h2.2.2.1.trans h1.2.2.1,
    h2.2.2.2.1.trans h1.2.2.2.1, h2.2.2.2.2.1.trans h1.2.2.2.2.1,
    h2.2.2.2.2.2.trans h1.2.2.2.2.2⟩

theorem Step.stepRefl (R : CFGRewriteReducer) : R.Step R :=
  ⟨fun h => ⟨h, Extends.extRefl R, fun h => h⟩, fun _ => Untouched.untRefl R⟩

theorem Step.stepTrans {R1 R2 R3 : CFGRewriteReducer} (h1 : R1.Step R2) (h2 : R2.Step R3) :
    R1.Step R3 := by
  refine ⟨fun hw => ?_, fun hn => ?_⟩
  · obtain ⟨w2, e2, s2⟩ := h1.1 hw
    obtain ⟨w3, e3, s3⟩ := h2.1 w2
    exact ⟨w3, e2.extTrans e3, fun h => s3 (s2 h)⟩
  · have u1 := h1.2 hn
    have hn2 : R2.currentBB_ = none := u1.2.2.1.trans hn
    exact u1.untTrans (h2.2 hn2)

/-- A state that differs from a well-formed one in nothing that well-formedness
looks at is well-formed. -/
theorem wf_of_same (R R2 : CFGRewriteReducer)
    (hg : R2.currentCFG_ = R.currentCFG_) (hc : R2.currentBB_ = R.currentBB_)
    (hl : R2.Arena.length = R.Arena.length)
    (hb : ∀ c, (R2.blockAt c).Predecessors = (R.blockAt c).Predecessors ∧
          (R2.blockAt c).Args = (R.blockAt c).Args ∧
          (R2.blockAt c).TermInstr = (R.blockAt c).TermInstr) :
    (R.WellFormed → R2.WellFormed) ∧ R.Extends R2 := by
  refine ⟨?_, ⟨by omega, fun b => by rw [(hb b).1], by rw [hg]⟩⟩
  rintro ⟨G, h1, h2, h3, h4, h5, h6⟩
  refine ⟨G, hg.trans h1, ?_, ?_, ?_, ?_, ?_⟩
  · intro b hb'; rw [hl]; exact h2 b hb'
  · intro b hb' hne; rw [(hb b).2.2]; exact h3 b hb' (by rw [← hc]; exact hne)
  · intro b hb' e1 e2; rw [(hb b).1]; exact h4 b hb' e1 e2
  · intro b vs hvs; rw [(hb b).1]; rw [(hb b).2.1] at hvs; exact h5 b vs hvs
  · intro b hb'; rw [hl]; exact h6 b (by rw [← hc]; exact hb')

theorem step_of_same (R R2 : CFGRewriteReducer)
    (hg : R2.currentCFG_ = R.currentCFG_) (hc : R2.currentBB_ = R.currentBB_)
    (hl : R2.Arena.length = R.Arena.length)
    (hb : ∀ c, (R2.blockAt c).Predecessors = (R.blockAt c).Predecessors ∧
          (R2.blockAt c).Args = (R.blockAt c).Args ∧
          (R2.blockAt c).TermInstr = (R.blockAt c).TermInstr)
    (hu : R.currentBB_ = none → R.Untouched R2) : R.Step R2 := by
  obtain ⟨w, e⟩ := wf_of_same R R2 hg hc hl hb
  exact ⟨fun hw => ⟨w hw, e, fun h => by rw [hc]; exact h⟩, hu⟩

theorem step_addInstruction (P : Pointers) (R : CFGRewriteReducer) (E : SExpr) :
    R.Step (R.addInstruction P E).2 := by
  obtain ⟨_, a2, a3, a4, a5⟩ := addInstruction_spec P R E
  refine step_of_same R _ a2 a3 a4 a5 ?_
  intro hn
  unfold addInstruction
  split
  · rw [hn]; exact Untouched.untRefl R
  · exact Untouched.untRefl R

theorem step_enterScope (P : Pointers) (R : CFGRewriteReducer) (Orig Nv : SExpr) :
    R.Step (R.enterScope P Orig Nv) := by
  have key : (R.enterScope P Orig Nv).currentCFG_ = R.currentCFG_ ∧
      (R.enterScope P Orig Nv).currentBB_ = R.currentBB_ ∧
      (R.enterScope P Orig Nv).Arena = R.Arena ∧
      (R.enterScope P Orig Nv).currentArgs_ = R.currentArgs_ ∧
      (R.enterScope P Orig Nv).FailedAsserts = R.FailedAsserts ∧
      (R.currentBB_ = none → (R.enterScope P Orig Nv).currentInstrs_ = R.currentInstrs_) := by
    simp only [enterScope]
    split_ifs with h1 h2 h3
    · exact ⟨rfl, rfl, rfl, rfl, rfl, fun h => by simp [h] at h2⟩
    · exact ⟨rfl, rfl, rfl, rfl, rfl, fun h => by simp [h] at h2⟩
    · exact ⟨rfl, rfl, rfl, rfl, rfl, fun _ => rfl⟩
    · exact ⟨rfl, rfl, rfl, rfl, rfl, fun _ => rfl⟩
  obtain ⟨k1, k2, k3, k4, k5, k6⟩ := key
  have hbl : ∀ c, (R.enterScope P Orig Nv).blockAt c = R.blockAt c := by
    intro c; simp only [blockAt, k3]
  refine step_of_same R _ k1 k2 (by rw [k3]) (fun c => by rw [hbl]; exact ⟨rfl, rfl, rfl⟩) ?_
  intro hn
  exact ⟨k3, k1, k2, k6 hn, k4, k5⟩

theorem step_exitScope (R : CFGRewriteReducer) (Orig : SExpr) :
    R.Step (R.exitScope Orig) := by
  unfold exitScope
  split
  · exact step_of_same R _ rfl rfl rfl (fun c => ⟨rfl, rfl, rfl⟩)
      (fun _ => ⟨rfl, rfl, rfl, rfl, rfl, rfl⟩)
  · exact Step.stepRefl R

end CFGRewriteReducer

theorem step_traverseEnd (P : Pointers) (Ctx : ContextT) (hC : Ctx.Continuation = none)
    (res : SExpr × CFGRewriteReducer) :
    res.2.Step (CFGRewriter.traverseEnd P Ctx res).2 := by
  unfold CFGRewriter.traverseEnd
  split
  · exact CFGRewriteReducer.Step.stepRefl _
  · simp only [ContextT.continuation, hC]
    exact CFGRewriteReducer.step_addInstruction P res.2 res.1

theorem mem_modifyHead {α : Type} (f : α → α) (l : List α) (x : α)
    (h : x ∈ l.modifyHead f) : ∃ y ∈ l, x = f y ∨ x = y := by
  cases l with
  | nil => simp at h
  | cons a t =>
    simp only [List.modifyHead_cons, List.mem_cons] at h
    rcases h with h | h
    · exact ⟨a, by simp, Or.inl h⟩
    · exact ⟨x, by simp [h], Or.inr rfl⟩

namespace CFGRewriteReducer

theorem wf_createGoto (R : CFGRewriteReducer) (Result : SExpr) (K b : Nat)
    (hw : R.WellFormed) (hb : R.currentBB_ = some b) (hK : K < R.Arena.length) :
    (R.createGoto Result K).2.WellFormed ∧ R.Extends (R.createGoto Result K).2 ∧
    (R.createGoto Result K).2.currentBB_ = none ∧
    1 ≤ ((R.createGoto Result K).2.blockAt K).Predecessors.length := by
  obtain ⟨G, h1, h2, h3, h4, h5, h6⟩ := hw
  have hv := h6 b hb
  obtain ⟨_, s2, s3, s4, s5⟩ := createGoto_spec R Result K b hb hv hK
  refine ⟨⟨G, s2.trans h1, ?_, ?_, ?_, ?_, ?_⟩, ⟨by omega, ?_, by rw [s2]⟩, s3, ?_⟩
  · intro c hc; rw [s4]; exact h2 c hc
  · intro c hc _
    rw [(s5 c).2.2]
    by_cases hcb : c = b
    · simp [hcb]
    · simp only [hcb, if_false]
      exact h3 c hc (by rw [hb]; intro h; exact hcb (Option.some.inj h).symm)
  · intro c hc e1 e2
    rw [(s5 c).1]
    split
    · simp
    · exact h4 c hc e1 e2
  · intro c vs hvs
    rw [(s5 c).1]
    rw [(s5 c).2.1] at hvs
    by_cases hcK : c = K
    · simp only [hcK, if_true] at hvs ⊢
      obtain ⟨ws, hws, hor⟩ := mem_modifyHead _ _ _ hvs
      obtain ⟨us, hus, rfl⟩ := List.mem_map.1 hws
      have := h5 K us hus
      rcases hor with h | h <;> simp [h, this]
    · simp only [hcK, if_false] at hvs ⊢
      exact h5 c vs hvs
  · intro c hc; rw [s3] at hc; cases hc
  · intro c
    rw [(s5 c).1]
    split <;> simp
  · rw [(s5 K).1]; simp

theorem wf_createBranch (R : CFGRewriteReducer) (Cond : SExpr) (b : Nat)
    (hw : R.WellFormed) (hb : R.currentBB_ = some b) :
    (R.createBranch Cond).2.WellFormed ∧ R.Extends (R.createBranch Cond).2 ∧
    (R.createBranch Cond).2.currentBB_ = none ∧
    (R.createBranch Cond).1.thenBlock = R.Arena.length ∧
    (R.createBranch Cond).1.elseBlock = R.Arena.length + 1 ∧
    (R.createBranch Cond).2.Arena.length = R.Arena.length + 2 ∧
    1 ≤ ((R.createBranch Cond).2.blockAt R.Arena.length).Predecessors.length ∧
    1 ≤ ((R.createBranch Cond).2.blockAt (R.Arena.length + 1)).Predecessors.length := by
  obtain ⟨G, h1, h2, h3, h4, h5, h6⟩ := hw
  have hv := h6 b hb
  obtain ⟨s1, s2, s3, s4, s5⟩ := createBranch_spec R Cond b hb hv
  refine ⟨⟨G, s2.trans h1, ?_, ?_, ?_, ?_, ?_⟩, ⟨by omega, ?_, by rw [s2]⟩, s3,
    by rw [s1]; rfl, by rw [s1]; rfl, s4, ?_, ?_⟩
  · intro c hc; rw [s4]; have := h2 c hc; omega
  · intro c hc _
    rw [(s5 c).2.2]
    by_cases hcb : c = b
    · simp [hcb]
    · simp only [hcb, if_false]
      exact h3 c hc (by rw [hb]; intro h; exact hcb (Option.some.inj h).symm)
  · intro c hc e1 e2
    rw [(s5 c).1]
    split
    · simp
    · exact h4 c hc e1 e2
  · intro c vs hvs
    rw [(s5 c).1]
    rw [(s5 c).2.1] at hvs
    split
    · rename_i hcn
      have : R.blockAt c = default := blockAt_default R c (by omega)
      rw [this] at hvs
      simp [default, instInhabitedTILBasicBlock] at hvs
    · exact h5 c vs hvs
  · intro c hc; rw [s3] at hc; cases hc
  · intro c
    rw [(s5 c).1]
    split
    · rename_i hcn
      have : R.blockAt c = default := blockAt_default R c (by omega)
      rw [this]
      simp [default, instInhabitedTILBasicBlock]
    · exact le_refl _
  · rw [(s5 _).1]; simp
  · rw [(s5 _).1]; simp

theorem wf_startBlock (R : CFGRewriteReducer) (BB : Nat)
    (hw : R.WellFormed) (hn : R.currentBB_ = none) (hBB : BB < R.Arena.length)
    (hp : 1 ≤ (R.blockAt BB).Predecessors.length) :
    (R.startBlock BB).WellFormed ∧ R.Extends (R.startBlock BB) ∧
    (R.startBlock BB).currentBB_ = some BB := by
  obtain ⟨G, h1, h2, h3, h4, h5, h6⟩ := hw
  obtain ⟨s1, s2, s3, s4, _⟩ := startBlock_spec R BB
  have hext : R.Extends (R.startBlock BB) := by
    refine ⟨by omega, fun c => by rw [(s3 c).1], ?_⟩
    rcases s4 G h1 with h | h
    · rw [h, h1]
    · rw [h, h1]; rfl
  refine ⟨?_, hext, s1⟩
  have hterm : ∀ c, c ∈ G.Blocks → ((R.startBlock BB).blockAt c).TermInstr.isSome := by
    intro c hc
    rw [(s3 c).2.2]
    exact h3 c hc (by rw [hn]; simp)
  rcases s4 G h1 with h | h
  · refine ⟨G, h, ?_, ?_, ?_, ?_, ?_⟩
    · intro c hc; rw [s2]; exact h2 c hc
    · intro c hc _; exact hterm c hc
    · intro c hc e1 e2; rw [(s3 c).1]; exact h4 c hc e1 e2
    · intro c vs hvs; rw [(s3 c).1]; rw [(s3 c).2.1] at hvs; exact h5 c vs hvs
    · intro c hc; rw [s1] at hc; cases hc; rw [s2]; exact hBB
  · refine ⟨_, h, ?_, ?_, ?_, ?_, ?_⟩
    · intro c hc
      rw [s2]
      simp only [List.mem_append, List.mem_singleton] at hc
      rcases hc with hc | hc
      · exact h2 c hc
      · rw [hc]; exact hBB
    · intro c hc hne
      simp only [List.mem_append, List.mem_singleton] at hc
      rcases hc with hc | hc
      · exact hterm c hc
      · exfalso; apply hne; rw [s1, hc]
    · intro c hc e1 e2
      rw [(s3 c).1]
      simp only [List.mem_append, List.mem_singleton] at hc
      rcases hc with hc | hc
      · exact h4 c hc e1 e2
      · rw [hc]; exact hp
    · intro c vs hvs; rw [(s3 c).1]; rw [(s3 c).2.1] at hvs; exact h5 c vs hvs
    · intro c hc; rw [s1] at hc; cases hc; rw [s2]; exact hBB

theorem wf_makeContinuation (R : CFGRewriteReducer) (hw : R.WellFormed) :
    R.makeContinuation.2.WellFormed ∧ R.Extends R.makeContinuation.2 ∧
    R.makeContinuation.2.currentBB_ = R.currentBB_ ∧
    R.makeContinuation.1 = R.Arena.length ∧
    R.makeContinuation.2.Arena.length = R.Arena.length + 1 := by
  obtain ⟨G, h1, h2, h3, h4, h5, h6⟩ := hw
  obtain ⟨a1, a2, a3, a4⟩ := alloc_fields R (TILBasicBlock.new.addArgument [])
  have hb := blockAt_alloc R (TILBasicBlock.new.addArgument [])
  have hold : ∀ c, c < R.Arena.length → R.makeContinuation.2.blockAt c = R.blockAt c := by
    intro c hc
    have : c ≠ R.Arena.length := by omega
    simp only [makeContinuation, hb, this, if_false]
  refine ⟨⟨G, a2.trans h1, ?_, ?_, ?_, ?_, ?_⟩, ⟨?_, ?_, ?_⟩, a3, a1, a4⟩
  · intro c hc; have := h2 c hc; simp only [makeContinuation]; omega
  · intro c hc hne
    rw [hold c (h2 c hc)]
    exact h3 c hc (by simpa only [makeContinuation, a3] using hne)
  · intro c hc e1 e2
    rw [hold c (h2 c hc)]
    exact h4 c hc e1 e2
  · intro c vs hvs
    simp only [makeContinuation, hb] at hvs ⊢
    split at hvs
    · rename_i hcn
      simp only [hcn, if_true]
      simp [TILBasicBlock.new, TILBasicBlock.addArgument] at hvs ⊢
      rw [hvs]
    · rename_i hcn
      simp only [hcn, if_false]
      exact h5 c vs hvs
  · intro c hc
    have := h6 c (by simpa only [makeContinuation, a3] using hc)
    simp only [makeContinuation]; omega
  · simp only [makeContinuation]; omega
  · intro c
    simp only [makeContinuation, hb]
    split
    · rename_i hcn
      have : R.blockAt c = default := blockAt_default R c (by omega)
      rw [this]
      simp [default, instInhabitedTILBasicBlock]
    · exact le_refl _
  · simp only [makeContinuation]; rw [a2]

end CFGRewriteReducer

section ReducerInduction

open CFGRewriteReducer

/-- A traversal with continuation `K`, begun with a current block, ends in a
`Goto` to `K`: no current block is left and `K` has a predecessor. -/
theorem wf_traverseEnd_cont (P : Pointers) (K : Nat) (R : CFGRewriteReducer)
    (f : CFGRewriteReducer → SExpr × CFGRewriteReducer) (hf : ∀ R : CFGRewriteReducer, R.Step (f R).2)
    (hw : R.WellFormed) (hcur : R.currentBB_.isSome) (hK : K < R.Arena.length) :
    (CFGRewriter.traverseEnd P ⟨some K⟩ (f R)).2.WellFormed ∧
    R.Extends (CFGRewriter.traverseEnd P ⟨some K⟩ (f R)).2 ∧
    (CFGRewriter.traverseEnd P ⟨some K⟩ (f R)).2.currentBB_ = none ∧
    1 ≤ ((CFGRewriter.traverseEnd P ⟨some K⟩ (f R)).2.blockAt K).Predecessors.length := by
  obtain ⟨w1, e1, s1⟩ := (hf R).1 hw
  have hs := s1 hcur
  obtain ⟨b, hb⟩ := Option.isSome_iff_exists.1 hs
  have hK1 : K < (f R).2.Arena.length := Nat.lt_of_lt_of_le hK e1.1
  obtain ⟨g1, g2, g3, g4⟩ := wf_createGoto (f R).2 (f R).1 K b w1 hb hK1
  have : CFGRewriter.traverseEnd P ⟨some K⟩ (f R)
      = (SExpr.null, ((f R).2.createGoto (f R).1 K).2) := by
    simp [CFGRewriter.traverseEnd, ContextT.insideCFG, ContextT.continuation, hs]
  rw [this]
  exact ⟨g1, e1.extTrans g2, g3, g4⟩

/-- The body of `traverseIfThenElse` inside a CFG, for sub-traversals that make
a step each. -/
theorem wf_ifThenElse (P : Pointers)
    (fc ft fe : CFGRewriteReducer → SExpr × CFGRewriteReducer)
    (hc : ∀ R : CFGRewriteReducer, R.Step (fc R).2)
    (ht : ∀ R : CFGRewriteReducer, R.Step (ft R).2)
    (he : ∀ R : CFGRewriteReducer, R.Step (fe R).2)
    (R : CFGRewriteReducer) (hw : R.WellFormed) (hcur : R.currentBB_.isSome) :
    let Ctx : ContextT := ⟨none⟩
    let Cont := (Ctx.getCurrentContinuation R).1
    let R1 := (Ctx.getCurrentContinuation R).2
    let Nc := CFGRewriter.traverseEnd P Ctx (fc R1)
    let Br := (Nc.2.createBranch Nc.1).1
    let R2 := (Nc.2.createBranch Nc.1).2
    let R3 := R2.startBlock Br.elseBlock
    let R4 := (CFGRewriter.traverseEnd P Cont (fe R3)).2
    let R5 := R4.startBlock Br.thenBlock
    let R6 := (CFGRewriter.traverseEnd P Cont (ft R5)).2
    let K := Cont.continuation.getD 0
    let R7 := R6.startBlock K
    let R8 := R7.assert 306 (decide ((R7.blockAt K).Args.length > 0))
    R8.WellFormed ∧ R.Extends R8 ∧ R8.currentBB_.isSome := by
  intro Ctx Cont R1 Nc Br R2 R3 R4 R5 R6 K R7 R8
  obtain ⟨m1, m2, m3, m4, m5⟩ := wf_makeContinuation R hw
  have hCont : Cont = ⟨some R.Arena.length⟩ := by
    simp only [Cont, Ctx, ContextT.getCurrentContinuation, m4]; rfl
  have hR1 : R1 = R.makeContinuation.2 := rfl
  have hK : K = R.Arena.length := by simp only [K, hCont]; rfl
  have w1 : R1.WellFormed := m1
  have c1 : R1.currentBB_.isSome := by rw [hR1, m3]; exact hcur
  -- the condition
  obtain ⟨wc, ec, sc⟩ := ((hc R1).stepTrans (step_traverseEnd P Ctx rfl (fc R1))).1 w1
  have hsc := sc c1
  obtain ⟨b, hb⟩ := Option.isSome_iff_exists.1 hsc
  -- the branch
  obtain ⟨wb, eb, cb, tb, elb, lb, p1, p2⟩ := wf_createBranch Nc.2 Nc.1 b wc hb
  have wb2 : R2.WellFormed := wb
  have cb2 : R2.currentBB_ = none := cb
  have tb2 : Br.thenBlock = Nc.2.Arena.length := tb
  have elb2 : Br.elseBlock = Nc.2.Arena.length + 1 := elb
  have l1 : R1.Arena.length = R.Arena.length + 1 := m5
  have l2 : R1.Arena.length ≤ Nc.2.Arena.length := ec.1
  have l3 : R2.Arena.length = Nc.2.Arena.length + 2 := lb
  have p1' : 1 ≤ (R2.blockAt Nc.2.Arena.length).Predecessors.length := p1
  have p2' : 1 ≤ (R2.blockAt (Nc.2.Arena.length + 1)).Predecessors.length := p2
  -- the else block
  obtain ⟨w3, e3, c3⟩ := wf_startBlock R2 Br.elseBlock wb2 cb2
    (by rw [elb2, l3]; omega) (by rw [elb2]; exact p2')
  have w3' : R3.WellFormed := w3
  have e3' : R2.Extends R3 := e3
  have c3' : R3.currentBB_ = some Br.elseBlock := c3
  have l4 : R2.Arena.length ≤ R3.Arena.length := e3'.1
  obtain ⟨w4, e4, c4, q4⟩ := wf_traverseEnd_cont P R.Arena.length R3 fe he w3'
    (by rw [c3']; rfl) (by omega)
  rw [← hCont] at w4 e4 c4 q4
  have w4' : R4.WellFormed := w4
  have e4' : R3.Extends R4 := e4
  have c4' : R4.currentBB_ = none := c4
  have q4' : 1 ≤ (R4.blockAt R.Arena.length).Predecessors.length := q4
  have l5 : R3.Arena.length ≤ R4.Arena.length := e4'.1
  -- the then block
  obtain ⟨w5, e5, c5⟩ := wf_startBlock R4 Br.thenBlock w4' c4'
    (by rw [tb2]; omega)
    (by rw [tb2]; exact Nat.le_trans p1' (Nat.le_trans (e3'.2.1 _) (e4'.2.1 _)))
  have w5' : R5.WellFormed := w5
  have e5' : R4.Extends R5 := e5
  have c5' : R5.currentBB_ = some Br.thenBlock := c5
  have l6 : R4.Arena.length ≤ R5.Arena.length := e5'.1
  obtain ⟨w6, e6, c6, q6⟩ := wf_traverseEnd_cont P R.Arena.length R5 ft ht w5'
    (by rw [c5']; rfl) (by omega)
  rw [← hCont] at w6 e6 c6 q6
  have w6' : R6.WellFormed := w6
  have e6' : R5.Extends R6 := e6
  have c6' : R6.currentBB_ = none := c6
  have q6' : 1 ≤ (R6.blockAt R.Arena.length).Predecessors.length := q6
  have l7 : R5.Arena.length ≤ R6.Arena.length := e6'.1
  -- the continuation
  obtain ⟨w7, e7, c7⟩ := wf_startBlock R6 K w6' c6'
    (by rw [hK]; omega) (by rw [hK]; exact q6')
  have w7' : R7.WellFormed := w7
  have e7' : R6.Extends R7 := e7
  have c7' : R7.currentBB_ = some K := c7
  obtain ⟨w8, e8⟩ := wf_of_same R7 R8 (assert_currentCFG _ _ _) (assert_currentBB _ _ _)
    (by simp [R8]) (fun c => by simp [R8])
  refine ⟨w8 w7', ?_, ?_⟩
  · exact m2.extTrans (ec.extTrans (eb.extTrans (e3'.extTrans (e4'.extTrans (e5'.extTrans
      (e6'.extTrans (e7'.extTrans e8)))))))
  · have : R8.currentBB_ = some K := (assert_currentBB _ _ _).trans c7'
    rw [this]; rfl

theorem step_traverseList (P : Pointers) : ∀ (l : List SExpr),
    (∀ x ∈ l, ∀ R : CFGRewriteReducer, R.Step (CFGRewriter.traverseByCase P x ⟨none⟩ R).2) →
    ∀ R : CFGRewriteReducer, R.Step (CFGRewriter.traverseList P l ⟨none⟩ R).2 := by
  intro l
  induction l with
  | nil => intro _ R; simp only [CFGRewriter.traverseList]; exact Step.stepRefl R
  | cons x xs ih =>
    intro h R
    simp only [CFGRewriter.traverseList, ContextT.subExpr]
    exact ((h x (by simp) R).stepTrans (step_traverseEnd P ⟨none⟩ rfl _)).stepTrans
      (ih (fun y hy => h y (by simp [hy])) _)


theorem step_traverseByCase (P : Pointers) : ∀ (n : Nat) (E : SExpr), sizeOf E ≤ n →
    ∀ R : CFGRewriteReducer, R.Step (CFGRewriter.traverseByCase P E ⟨none⟩ R).2 := by
  intro n
  induction n with
  | zero => intro E h; cases E <;> simp at h
  | succ n ih =>
    intro E h R
    have T : ∀ x, sizeOf x ≤ n → ∀ R : CFGRewriteReducer,
        R.Step (CFGRewriter.traverseEnd P ⟨none⟩ (CFGRewriter.traverseByCase P x ⟨none⟩ R)).2 :=
      fun x hx R => (ih x hx R).stepTrans (step_traverseEnd P ⟨none⟩ rfl _)
    have L : ∀ l : List SExpr, sizeOf l ≤ n → ∀ R : CFGRewriteReducer,
        R.Step (CFGRewriter.traverseList P l ⟨none⟩ R).2 :=
      fun l hl => step_traverseList P l (fun x hx => ih x (by
        have := List.sizeOf_lt_of_mem hx; omega))
    cases E with
    | IfThenElse c t e =>
      simp only [SExpr.IfThenElse.sizeOf_spec] at h
      simp only [CFGRewriter.traverseByCase, ContextT.subExpr]
      by_cases hcur : R.currentBB_.isSome
      · have hi : ¬ (¬ ContextT.insideCFG ⟨none⟩ R = true) := by
          simp [ContextT.insideCFG, hcur]
        simp only [hi, if_false]
        refine ⟨fun hw => ?_, fun hn => ?_⟩
        · obtain ⟨a1, a2, a3⟩ := wf_ifThenElse P _ _ _ (ih c (by omega)) (ih t (by omega))
            (ih e (by omega)) R hw hcur
          exact ⟨a1, a2, fun _ => a3⟩
        · rw [hn] at hcur; cases hcur
      · have hi : ¬ ContextT.insideCFG ⟨none⟩ R = true := by
          simpa [ContextT.insideCFG] using hcur
        simp only [hi, not_false_eq_true, if_true]
        exact (T c (by omega) R).stepTrans ((T t (by omega) _).stepTrans (T e (by omega) _))
    | Function vd b =>
      simp only [SExpr.Function.sizeOf_spec] at h
      simp only [CFGRewriter.traverseByCase, ContextT.subExpr]
      exact (T vd (by omega) R).stepTrans ((step_enterScope P _ _ _).stepTrans
        ((T b (by omega) _).stepTrans (step_exitScope _ _)))
    | Let vd b =>
      simp only [SExpr.Let.sizeOf_spec] at h
      simp only [CFGRewriter.traverseByCase, ContextT.subExpr]
      exact (T vd (by omega) R).stepTrans ((step_enterScope P _ _ _).stepTrans
        ((T b (by omega) _).stepTrans (step_exitScope _ _)))
    | Record p ss =>
      simp only [SExpr.Record.sizeOf_spec] at h
      simp only [CFGRewriter.traverseByCase, ContextT.subExpr]
      exact (T p (by omega) R).stepTrans (L ss (by omega) _)
    | Array t s es =>
      simp only [SExpr.Array.sizeOf_spec] at h
      simp only [CFGRewriter.traverseByCase, ContextT.subExpr]
      exact (T t (by omega) R).stepTrans ((T s (by omega) _).stepTrans (L es (by omega) _))
    | null => exact Step.stepRefl R
    | ScalarType bt => exact Step.stepRefl R
    | Literal bt v => exact Step.stepRefl R
    | Variable vd => exact Step.stepRefl R
    | Phi o => exact Step.stepRefl R
    | Goto t as => exact Step.stepRefl R
    | Branch c t e => exact Step.stepRefl R
    | Switch c vs bs => exact Step.stepRefl R
    | Return e => exact Step.stepRefl R
    | Undefined => exact Step.stepRefl R
    | Wildcard => exact Step.stepRefl R
    | Identifier nm => exact Step.stepRefl R
    | SCFG g => exact Step.stepRefl R
    | VarDecl k i nm d =>
      simp only [SExpr.VarDecl.sizeOf_spec] at h
      simp only [CFGRewriter.traverseByCase, ContextT.subExpr]
      exact T d (by omega) R
    | Slot nm m d =>
      simp only [SExpr.Slot.sizeOf_spec] at h
      simp only [CFGRewriter.traverseByCase, ContextT.subExpr]
      exact T d (by omega) R
    | Project e s =>
      simp only [SExpr.Project.sizeOf_spec] at h
      simp only [CFGRewriter.traverseByCase, ContextT.subExpr]
      exact T e (by omega) R
    | Call e bt =>
      simp only [SExpr.Call.sizeOf_spec] at h
      simp only [CFGRewriter.traverseByCase, ContextT.subExpr]
      exact T e (by omega) R
    | Alloc e k =>
      simp only [SExpr.Alloc.sizeOf_spec] at h
      simp only [CFGRewriter.traverseByCase, ContextT.subExpr]
      exact T e (by omega) R
    | Load e bt =>
      simp only [SExpr.Load.sizeOf_spec] at h
      simp only [CFGRewriter.traverseByCase, ContextT.subExpr]
      exact T e (by omega) R
    | UnaryOp op e bt =>
      simp only [SExpr.UnaryOp.sizeOf_spec] at h
      simp only [CFGRewriter.traverseByCase, ContextT.subExpr]
      exact T e (by omega) R
    | Cast op e bt =>
      simp only [SExpr.Cast.sizeOf_spec] at h
      simp only [CFGRewriter.traverseByCase, ContextT.subExpr]
      exact T e (by omega) R
    | Annotated e a =>
      simp only [SExpr.Annotated.sizeOf_spec] at h
      simp only [CFGRewriter.traverseByCase, ContextT.subExpr]
      exact T e (by omega) R
    | Code t b cc =>
      simp only [SExpr.Code.sizeOf_spec] at h
      simp only [CFGRewriter.traverseByCase, ContextT.subExpr]
      exact (T t (by omega) R).stepTrans (T b (by omega) _)
    | Field t b =>
      simp only [SExpr.Field.sizeOf_spec] at h
      simp only [CFGRewriter.traverseByCase, ContextT.subExpr]
      exact (T t (by omega) R).stepTrans (T b (by omega) _)
    | Apply f a k =>
      simp only [SExpr.Apply.sizeOf_spec] at h
      simp only [CFGRewriter.traverseByCase, ContextT.subExpr]
      exact (T f (by omega) R).stepTrans (T a (by omega) _)
    | Store d s =>
      simp only [SExpr.Store.sizeOf_spec] at h
      simp only [CFGRewriter.traverseByCase, ContextT.subExpr]
      exact (T d (by omega) R).stepTrans (T s (by omega) _)
    | ArrayIndex a i =>
      simp only [SExpr.ArrayIndex.sizeOf_spec] at h
      simp only [CFGRewriter.traverseByCase, ContextT.subExpr]
      exact (T a (by omega) R).stepTrans (T i (by omega) _)
    | ArrayAdd a i =>
      simp only [SExpr.ArrayAdd.sizeOf_spec] at h
      simp only [CFGRewriter.traverseByCase, ContextT.subExpr]
      exact (T a (by omega) R).stepTrans (T i (by omega) _)
    | BinaryOp op a b bt =>
      simp only [SExpr.BinaryOp.sizeOf_spec] at h
      simp only [CFGRewriter.traverseByCase, ContextT.subExpr]
      exact (T a (by omega) R).stepTrans (T b (by omega) _)

end ReducerInduction

theorem wf_initCFG :
    CFGRewriteReducer.init.initCFG.2.WellFormed ∧
    CFGRewriteReducer.init.initCFG.2.currentBB_ = some 0 ∧
    CFGRewriteReducer.init.initCFG.1 = 1 ∧
    CFGRewriteReducer.init.initCFG.2.Arena.length = 2 ∧
    CFGRewriteReducer.init.initCFG.2.currentCFG_ = some ⟨[0, 1], 0, 1⟩ := by
  refine ⟨⟨⟨[0, 1], 0, 1⟩, rfl, ?_, ?_, ?_, ?_, ?_⟩, rfl, rfl, rfl, rfl⟩
  · decide
  · intro b hb hne
    simp only [List.mem_cons, List.mem_singleton, List.not_mem_nil, or_false] at hb
    rcases hb with rfl | rfl
    · exact absurd rfl hne
    · rfl
  · intro b hb h0 h1
    simp only [List.mem_cons, List.mem_singleton, List.not_mem_nil, or_false] at hb
    rcases hb with rfl | rfl
    · exact absurd rfl h0
    · exact absurd rfl h1
  · intro b vs hvs
    match b, hvs with
    | 0, hvs => simp [CFGRewriteReducer.blockAt, CFGRewriteReducer.initCFG,
        CFGRewriteReducer.newSCFG, CFGRewriteReducer.init, CFGRewriteReducer.assert,
        TILBasicBlock.new] at hvs
    | 1, hvs =>
      have : vs = [] := by
        simpa [CFGRewriteReducer.blockAt, CFGRewriteReducer.initCFG,
          CFGRewriteReducer.newSCFG, CFGRewriteReducer.init, CFGRewriteReducer.assert,
          TILBasicBlock.new, TILBasicBlock.addArgument, TILBasicBlock.setTerminator] using hvs
      rw [this]; rfl
    | b + 2, hvs =>
      have : CFGRewriteReducer.init.initCFG.2.blockAt (b + 2) = default :=
        CFGRewriteReducer.blockAt_default _ _ (by
          show 2 ≤ b + 2
          omega)
      rw [this] at hvs
      simp [default, instInhabitedTILBasicBlock] at hvs
  · intro b hb
    have : b = 0 := (Option.some.inj hb).symm
    rw [this]; decide

theorem addInstruction_literal (P : Pointers) (R : CFGRewriteReducer) (bt : Nat) (v : LitVal) :
    R.addInstruction P (SExpr.Literal bt v) = (SExpr.Literal bt v, R) := by
  simp [CFGRewriteReducer.addInstruction, SExpr.isTrivial]

/-- The CFG of `exIfThenElse` does not depend on what `Pointers` says: the only
results that reach `addInstruction` are literals. -/
theorem convert_exIfThenElse (P : Pointers) :
    CFGRewriter.convertSExprToCFG P exIfThenElse
      = CFGRewriter.convertSExprToCFG exPointers exIfThenElse := by
  simp only [CFGRewriter.convertSExprToCFG, CFGRewriter.traverse, exIfThenElse,
    CFGRewriter.traverseByCase, CFGRewriter.traverseEnd, ContextT.continuation,
    addInstruction_literal]

theorem lookupLoop_none (C : VarContext) (S : List Nat) : ∀ k,
    (∀ j, j < k → (C.Vars.getD j SExpr.null).name ≠ S) → C.lookupLoop S k = SExpr.null := by
  intro k
  induction k with
  | zero => intro _; rfl
  | succ k ih =>
    intro h
    simp only [VarContext.lookupLoop, h k (Nat.lt_succ_self k), if_false]
    exact ih (fun j hj => h j (Nat.lt_succ_of_lt hj))

theorem lookupLoop_found (C : VarContext) (S : List Nat) (i : Nat) : ∀ k, i < k →
    (C.Vars.getD i SExpr.null).name = S →
    (∀ j, i < j → j < k → (C.Vars.getD j SExpr.null).name ≠ S) →
    C.lookupLoop S k = C.Vars.getD i SExpr.null := by
  intro k
  induction k with
  | zero => intro h; omega
  | succ k ih =>
    intro hi hn hlater
    by_cases hik : i = k
    · subst hik
      simp only [VarContext.lookupLoop, hn, if_true]
    · have hk : (C.Vars.getD k SExpr.null).name ≠ S := hlater k (by omega) (Nat.lt_succ_self k)
      simp only [VarContext.lookupLoop, hk, if_false]
      exact ih (by omega) hn (fun j h1 h2 => hlater j h1 (Nat.lt_succ_of_lt h2))

/-- The last entry with a given name, when there is an entry with that name. -/
theorem exists_last_named (C : VarContext) (S : List Nat) : ∀ k,
    (∃ j, j < k ∧ (C.Vars.getD j SExpr.null).name = S) →
    ∃ i, i < k ∧ (C.Vars.getD i SExpr.null).name = S ∧
      ∀ j, i < j → j < k → (C.Vars.getD j SExpr.null).name ≠ S := by
  intro k
  induction k with
  | zero => rintro ⟨j, hj, _⟩; omega
  | succ k ih =>
    rintro ⟨j, hj, hn⟩
    by_cases hk : (C.Vars.getD k SExpr.null).name = S
    · exact ⟨k, Nat.lt_succ_self k, hk, fun j h1 h2 => by omega⟩
    · have hjk : j < k := by
        rcases Nat.lt_succ_iff_lt_or_eq.1 hj with h | h
        · exact h
        · subst h; exact absurd hn hk
      obtain ⟨i, hi, hin, hl⟩ := ih ⟨j, hjk, hn⟩
      refine ⟨i, Nat.lt_succ_of_lt hi, hin, fun j' h1 h2 => ?_⟩
      rcases Nat.lt_succ_iff_lt_or_eq.1 h2 with h | h
      · exact hl j' h1 h
      · subst h; exact hk

/-! ## Theorems: abstract stack -/

theorem getIndexLoop_none (A : AbstractStack) (s : List Nat) (n : Nat) : ∀ k i,
    (∀ j, i ≤ j → j < n → A.stack_.getD j [] ≠ s) →
    A.getIndexLoop s n k i = AbstractStack.InvalidIndex := by
  intro k
  induction k with
  | zero => intro i _; rfl
  | succ k ih =>
    intro i h
    simp only [AbstractStack.getIndexLoop]
    split
    · rename_i hi
      simp only [h i (le_refl _) hi, if_false]
      exact ih (i + 1) (fun j h1 h2 => h j (by omega) h2)
    · rfl

theorem getIndexLoop_found (A : AbstractStack) (s : List Nat) (n m : Nat) (hm : m < n)
    (hs : A.stack_.getD m [] = s) : ∀ k i, i ≤ m → m < i + k →
    (∀ j, i ≤ j → j < m → A.stack_.getD j [] ≠ s) →
    A.getIndexLoop s n k i = m := by
  intro k
  induction k with
  | zero => intro i h1 h2; omega
  | succ k ih =>
    intro i h1 h2 h
    have hi : i < n := by omega
    simp only [AbstractStack.getIndexLoop, hi, if_true]
    by_cases him : i = m
    · subst him
      simp only [hs, if_true]
    · have hne : A.stack_.getD i [] ≠ s := h i (le_refl _) (by omega)
      simp only [hne, if_false]
      exact ih (i + 1) (by omega) (by omega) (fun j h3 h4 => h j (by omega) h4)

/-- The first slot that holds a given name, when a slot holds it. -/
theorem exists_first_named (l : List (List Nat)) (s : List Nat) : ∀ k,
    (∃ j, j < k ∧ l.getD j [] = s) →
    ∃ m, m < k ∧ l.getD m [] = s ∧ ∀ j, j < m → l.getD j [] ≠ s := by
  intro k
  induction k with
  | zero => rintro ⟨j, hj, _⟩; omega
  | succ k ih =>
    rintro ⟨j, hj, hn⟩
    by_cases hex : ∃ j, j < k ∧ l.getD j [] = s
    · obtain ⟨m, hm, h1, h2⟩ := ih hex
      exact ⟨m, Nat.lt_succ_of_lt hm, h1, h2⟩
    · have hjk : j = k := by
        rcases Nat.lt_succ_iff_lt_or_eq.1 hj with h | h
        · exact absurd ⟨j, h, hn⟩ hex
        · exact h
      subst hjk
      exact ⟨j, hj, hn, fun i hi hc => hex ⟨i, hi, hc⟩⟩

theorem exBigStack_facts :
    exBigStack.stack_.length = 0x10000 ∧
    exBigStack.stack_.getD 0xFFFF [] = [115] ∧
    ∀ j, j < 0xFFFF → exBigStack.stack_.getD j [] ≠ [115] := by
  refine ⟨?_, ?_, ?_⟩
  · show (List.replicate 0xFFFF [97] ++ [[115]]).length = 0x10000
    rw [List.length_append, List.length_replicate]
    rfl
  · show (List.replicate 0xFFFF [97] ++ [[115]]).getD 0xFFFF [] = [115]
    rw [List.getD_append_right _ _ _ _ (by rw [List.length_replicate])]
    rw [List.length_replicate, Nat.sub_self]
    rfl
  · intro j hj
    show (List.replicate 0xFFFF [97] ++ [[115]]).getD j [] ≠ [115]
    rw [List.getD_append _ _ _ _ (by rw [List.length_replicate]; exact hj)]
    rw [List.getD_eq_getElem _ _ (by rw [List.length_replicate]; exact hj)]
    rw [List.getElem_replicate]
    decide


/-! ### The reconstruction stack of the reader -/

namespace BytecodeReader

theorem pops_push (S : List SExpr) (k : Nat) (E : SExpr) :
    (S.take (S.length - k) ++ [E]).length = S.length - k + 1 ∧
    (S.take (S.length - k) ++ [E]).take (S.length - k) = S.take (S.length - k) := by
  have hl : (S.take (S.length - k)).length = S.length - k := by
    rw [List.length_take]; omega
  constructor
  · rw [List.length_append, hl]; rfl
  · exact List.take_left' hl

theorem push_only (S : List SExpr) (E : SExpr) :
    (S ++ [E]).length = S.length - 0 + 1 ∧
    (S ++ [E]).take (S.length - 0) = S.take (S.length - 0) := by
  have h := pops_push S 0 E
  simp only [Nat.sub_zero, List.take_length] at h ⊢
  exact h

theorem getBlock_Stack (T : Tables) (r : BytecodeReader) (Bid Nargs : Nat) :
    (getBlock T r Bid Nargs).2.Stack = r.Stack := by
  unfold getBlock
  split
  · rfl
  · split
    · rfl
    · simp only
      split
      · rfl
      · split <;> rfl

theorem getVarDecl_Stack (r : BytecodeReader) (i : Nat) :
    (r.getVarDecl i).2.Stack = r.Stack := by
  unfold getVarDecl
  split <;> rfl

theorem readSwitchCases_Stack (T : Tables) (E : Option Nat) (Nc : Nat) : ∀ k i r,
    (readSwitchCases T E Nc k i r).Stack = r.Stack := by
  intro k
  induction k with
  | zero => intro i r; rfl
  | succ k ih =>
    intro i r
    simp only [readSwitchCases]
    rw [ih]
    exact getBlock_Stack T _ _ _


theorem drop_push_spec (r r1 : BytecodeReader) (h : r1.Stack = r.Stack) (k : Nat) (E : SExpr) :
    r.PopsAndPushesOne ((r1.drop k).push E) k := by
  simp only [PopsAndPushesOne, push, drop, h]
  exact pops_push _ _ _

theorem push_spec (r r1 : BytecodeReader) (h : r1.Stack = r.Stack) (E : SExpr) :
    r.PopsAndPushesOne (r1.push E) 0 := by
  simp only [PopsAndPushesOne, push, h]
  exact push_only _ _

theorem drop_spec (r r1 : BytecodeReader) (h : r1.Stack = r.Stack) (k : Nat) :
    r.PopsOnly (r1.drop k) k := by
  simp only [PopsOnly, drop, h]

end BytecodeReader

/-! ### Stores of the writer after `endAtom` -/

namespace ByteStreamWriterBase

theorem storeAll_spec : ∀ (bs : List Nat) (w : ByteStreamWriterBase),
    w.Pos + bs.length ≤ w.Buffer.length →
    (w.storeAll bs).Pos = w.Pos + bs.length ∧
    (w.storeAll bs).Buffer.length = w.Buffer.length ∧
    (w.storeAll bs).BufferSize = w.BufferSize ∧
    (w.storeAll bs).Sink = w.Sink ∧
    (w.storeAll bs).Buffer.take w.Pos = w.Buffer.take w.Pos ∧
    ((w.storeAll bs).Buffer.drop w.Pos).take bs.length = bs.map (fun b => b % 256) := by
  intro bs
  induction bs with
  | nil => intro w _; simp [storeAll]
  | cons b bs ih =>
    intro w h
    have hl : w.Pos + 1 + bs.length ≤ w.Buffer.length := by
      simp only [List.length_cons] at h; omega
    have hw : (w.store b).Pos + bs.length ≤ (w.store b).Buffer.length := by
      simp only [store, List.length_set]; exact hl
    obtain ⟨h1, h2, h3, h4, h5, h6⟩ := ih (w.store b) hw
    have hs : w.storeAll (b :: bs) = (w.store b).storeAll bs := rfl
    rw [hs]
    have hpos : (w.store b).Pos = w.Pos + 1 := rfl
    have hbuf : (w.store b).Buffer = w.Buffer.set w.Pos (b % 256) := rfl
    refine ⟨?_, ?_, h3, h4, ?_, ?_⟩
    · rw [h1, hpos, List.length_cons]; omega
    · rw [h2, hbuf, List.length_set]
    · have := congrArg (List.take w.Pos) h5
      rw [hpos, List.take_take, List.take_take, Nat.min_eq_left (Nat.le_succ _)] at this
      rw [this, hbuf, List.set_eq_take_cons_drop _ (by omega)]
      exact List.take_left' (by rw [List.length_take]; omega)
    · have hlt : w.Pos < ((w.store b).storeAll bs).Buffer.length := by rw [h2, hbuf, List.length_set]; omega
      have hget : ((w.store b).storeAll bs).Buffer[w.Pos] = b % 256 := by
        have e1 : (((w.store b).storeAll bs).Buffer.take (w.Pos + 1))[w.Pos]? =
            ((w.store b).Buffer.take (w.Pos + 1))[w.Pos]? := by rw [← hpos, h5]
        rw [List.getElem?_take_of_lt (Nat.lt_succ_self _), List.getElem?_take_of_lt (Nat.lt_succ_self _), hbuf,
          List.getElem?_set_self (by omega), List.getElem?_eq_getElem hlt] at e1
        exact Option.some.inj e1
      rw [List.drop_eq_getElem_cons hlt, List.length_cons, List.take_succ_cons, List.map_cons, hget]
      rw [hpos] at h6
      rw [h6]

end ByteStreamWriterBase

/-! ### Sequences of `writeBytes` -/

namespace ByteStreamWriterBase

theorem memcpy_length : ∀ (D buf : List Nat) (off : Nat), (memcpy buf off D).length = buf.length := by
  intro D
  induction D with
  | nil => intro buf off; rfl
  | cons x xs ih =>
    intro buf off
    simp only [memcpy]
    rw [ih, List.length_set]

theorem memcpy_eq : ∀ (D buf : List Nat) (off : Nat), off + D.length ≤ buf.length →
    memcpy buf off D = buf.take off ++ D.map (fun b => b % 256) ++ buf.drop (off + D.length) := by
  intro D
  induction D with
  | nil =>
    intro buf off _
    simp [memcpy]
  | cons x xs ih =>
    intro buf off h
    simp only [List.length_cons] at h
    simp only [memcpy]
    rw [ih _ _ (by rw [List.length_set]; omega)]
    rw [List.set_eq_take_cons_drop _ (by omega)]
    have hl : (buf.take off).length = off := by rw [List.length_take]; omega
    have e1 : (buf.take off ++ x % 256 :: buf.drop (off + 1)).take (off + 1)
        = buf.take off ++ [x % 256] := by
      have : buf.take off ++ x % 256 :: buf.drop (off + 1)
          = (buf.take off ++ [x % 256]) ++ buf.drop (off + 1) := by simp
      rw [this]
      exact List.take_left' (by rw [List.length_append, hl]; rfl)
    have e2 : (buf.take off ++ x % 256 :: buf.drop (off + 1)).drop (off + 1 + xs.length)
        = buf.drop (off + (xs.length + 1)) := by
      have : buf.take off ++ x % 256 :: buf.drop (off + 1)
          = (buf.take off ++ [x % 256]) ++ buf.drop (off + 1) := by simp
      rw [this]
      have hl2 : (buf.take off ++ [x % 256]).length = off + 1 := by
        rw [List.length_append, hl]; rfl
      rw [← hl2, List.drop_append, List.drop_drop, hl2]
      congr 1; omega
    rw [e1, e2]
    simp [List.length_cons]

theorem writeBytes_step (w : ByteStreamWriterBase) (D : List Nat)
    (hbuf : w.Buffer.length = w.BufferSize) (hpos : w.Pos ≤ w.BufferSize)
    (hD : ∀ b ∈ D, b < 256) :
    (w.writeBytes D).Buffer.length = w.BufferSize ∧
    (w.writeBytes D).BufferSize = w.BufferSize ∧
    (w.writeBytes D).Pos ≤ w.BufferSize ∧
    (w.writeBytes D).accepted = w.accepted ++ D := by
  have hmap : D.map (fun b => b % 256) = D := by
    conv_rhs => rw [← List.map_id D]
    exact List.map_congr_left (fun b hb => Nat.mod_eq_of_lt (hD b hb))
  have hflush : w.flush.Sink = w.accepted ∧ w.flush.Pos = 0 ∧ w.flush.Buffer = w.Buffer ∧
      w.flush.BufferSize = w.BufferSize := by
    simp only [flush, accepted, writeData]
    by_cases hp : w.Pos > 0
    · simp only [hp, if_true, and_self]
    · have : w.Pos = 0 := by omega
      simp only [this, gt_iff_lt, Nat.lt_irrefl, if_false, List.take_zero, List.append_nil, and_self]
  obtain ⟨hf1, hf2, hf3, hf4⟩ := hflush
  unfold writeBytes
  split
  · refine ⟨?_, ?_, ?_, ?_⟩
    · show w.flush.Buffer.length = w.BufferSize
      rw [hf3, hbuf]
    · exact hf4
    · show w.flush.Pos ≤ w.BufferSize
      rw [hf2]; exact Nat.zero_le _
    · show (w.flush.Sink ++ D) ++ w.flush.Buffer.take w.flush.Pos = w.accepted ++ D
      rw [hf1, hf2, List.take_zero, List.append_nil]
  · rename_i hsmall
    have hhalf : w.BufferSize >>> 1 ≤ w.BufferSize := by
      rw [Nat.shiftRight_eq_div_pow]; exact Nat.div_le_self _ _
    have hlen : D.length < w.BufferSize := by omega
    simp only
    split
    · have hroom : w.flush.Pos + D.length ≤ w.flush.Buffer.length := by
        rw [hf2, hf3, hbuf]; omega
      refine ⟨?_, hf4, ?_, ?_⟩
      · show (memcpy w.flush.Buffer w.flush.Pos D).length = w.BufferSize
        rw [memcpy_length, hf3, hbuf]
      · show w.flush.Pos + D.length ≤ w.BufferSize
        rw [hf2]; omega
      · show w.flush.Sink ++ (memcpy w.flush.Buffer w.flush.Pos D).take (w.flush.Pos + D.length)
          = w.accepted ++ D
        rw [memcpy_eq _ _ _ hroom, hmap, hf1, hf2, List.take_zero, List.nil_append, Nat.zero_add]
        rw [List.take_left]
    · rename_i hnf
      simp only [length] at hnf
      have hroom : w.Pos + D.length ≤ w.Buffer.length := by
        rw [hbuf]; omega
      refine ⟨?_, rfl, ?_, ?_⟩
      · show (memcpy w.Buffer w.Pos D).length = w.BufferSize
        rw [memcpy_length, hbuf]
      · show w.Pos + D.length ≤ w.BufferSize
        omega
      · show w.Sink ++ (memcpy w.Buffer w.Pos D).take (w.Pos + D.length) = w.accepted ++ D
        rw [memcpy_eq _ _ _ hroom, hmap, accepted, List.append_assoc w.Sink]
        congr 1
        have hl : (w.Buffer.take w.Pos ++ D).length = w.Pos + D.length := by
          rw [List.length_append, List.length_take]; omega
        exact List.take_left' hl

theorem writeAll_spec : ∀ (Ds : List (List Nat)) (w : ByteStreamWriterBase),
    w.Buffer.length = w.BufferSize → w.Pos ≤ w.BufferSize →
    (∀ D ∈ Ds, ∀ b ∈ D, b < 256) →
    (w.writeAll Ds).Buffer.length = w.BufferSize ∧
    (w.writeAll Ds).BufferSize = w.BufferSize ∧
    (w.writeAll Ds).Pos ≤ w.BufferSize ∧
    (w.writeAll Ds).accepted = w.accepted ++ Ds.flatten := by
  intro Ds
  induction Ds with
  | nil =>
    intro w hb hp _
    simp [writeAll, hb, hp]
  | cons D Ds ih =>
    intro w hb hp hbytes
    obtain ⟨s1, s2, s3, s4⟩ := writeBytes_step w D hb hp (hbytes D (List.mem_cons_self _ _))
    have hrec := ih (w.writeBytes D) (by rw [s1, s2]) (by rw [s2]; exact s3)
      (fun D2 h2 => hbytes D2 (List.mem_cons_of_mem _ h2))
    have hw : w.writeAll (D :: Ds) = (w.writeBytes D).writeAll Ds := rfl
    rw [hw]
    obtain ⟨r1, r2, r3, r4⟩ := hrec
    refine ⟨by rw [r1, s2], by rw [r2, s2], by rw [← s2]; exact r3, ?_⟩
    rw [r4, s4, List.flatten_cons, List.append_assoc]

theorem flush_accepted (w : ByteStreamWriterBase) :
    w.flush.Sink = w.accepted ∧ w.flush.Pos = 0 := by
  simp only [flush, accepted, writeData]
  by_cases hp : w.Pos > 0
  · simp only [hp, if_true, and_self]
  · have : w.Pos = 0 := by omega
    simp only [this, gt_iff_lt, Nat.lt_irrefl, if_false, List.take_zero, List.append_nil,
      and_self]

end ByteStreamWriterBase

/-! ### The scope table of the reader -/

namespace BytecodeReader

theorem enterScope_cases (r : BytecodeReader) :
    (∀ k n d, r.arg 0 = SExpr.VarDecl k r.Vars.length n d →
      r.enterScope.Vars = r.Vars ++ [r.arg 0] ∧ r.enterScope.Error = r.Error) ∧
    ((¬ ∃ k n d, r.arg 0 = SExpr.VarDecl k r.Vars.length n d) →
      r.enterScope.Vars = r.Vars ∧ r.enterScope.Error = true) := by
  constructor
  · intro k n d h
    simp only [enterScope, h, SExpr.dynCastVarDecl, ne_eq, not_true_eq_false, if_false]
    exact ⟨trivial, trivial⟩
  · intro h
    unfold enterScope
    cases hE : r.arg 0 with
    | VarDecl k i n d =>
      simp only [SExpr.dynCastVarDecl]
      by_cases hi : r.Vars.length = i
      · exact absurd ⟨k, n, d, by rw [hE, hi]⟩ h
      · rw [if_pos hi]
        exact ⟨rfl, rfl⟩
    | _ =>
      simp only [SExpr.dynCastVarDecl, fail]
      exact ⟨trivial, trivial⟩

theorem scopesInOrder_of_reachable (r : BytecodeReader) (h : r.ScopeReachable) :
    r.ScopesInOrder := by
  induction h with
  | start r h0 =>
    intro i hi
    rw [h0] at hi
    exact absurd hi (Nat.not_lt_zero _)
  | enter r _ ih =>
    by_cases hv : ∃ k n d, r.arg 0 = SExpr.VarDecl k r.Vars.length n d
    · obtain ⟨k, n, d, hE⟩ := hv
      have hV := ((enterScope_cases r).1 k n d hE).1
      intro i hi
      rw [hV] at hi ⊢
      rw [List.length_append, List.length_singleton] at hi
      by_cases hlt : i < r.Vars.length
      · rw [List.getD_append _ _ _ _ hlt]
        exact ih i hlt
      · have hieq : i = r.Vars.length := by omega
        refine ⟨k, n, d, ?_⟩
        rw [List.getD_append_right _ _ _ _ (by omega), hieq, Nat.sub_self, hE]
        rfl
    · have hV := ((enterScope_cases r).2 hv).1
      intro i hi
      rw [hV] at hi ⊢
      exact ih i hi
  | exit r _ _ ih =>
    intro i hi
    have hV : r.exitScope.Vars = r.Vars.dropLast := rfl
    rw [hV] at hi ⊢
    rw [List.length_dropLast] at hi
    have hlt : i < r.Vars.length := by omega
    obtain ⟨k, n, d, hE⟩ := ih i hlt
    refine ⟨k, n, d, ?_⟩
    rw [← hE, List.dropLast_eq_take, List.getD_eq_getElem?_getD, List.getD_eq_getElem?_getD,
      List.getElem?_take_of_lt (by omega)]
  | other r r2 _ hV ih =>
    intro i hi
    rw [hV] at hi ⊢
    exact ih i hi

end BytecodeReader

/-! ### The result stack of the parser -/

namespace ResultStack

theorem assign_fst (d r : ParseResult) : (ParseResult.assign d r).1 = r := by
  cases r; rfl

theorem moveDown_length : ∀ (k dst src : Nat) (l : List ParseResult),
    (moveDown k dst src l).length = l.length := by
  intro k
  induction k with
  | zero => intro dst src l; rfl
  | succ k ih =>
    intro dst src l
    simp only [moveDown]
    rw [ih, List.length_set, List.length_set]

theorem moveDown_getElem? : ∀ (k dst src : Nat) (l : List ParseResult), dst < src →
    src + k ≤ l.length → ∀ i, (moveDown k dst src l)[i]? =
      if dst ≤ i ∧ i < dst + k then l[i + (src - dst)]?
      else if src ≤ i ∧ i < src + k then (l[i]?).map ParseResult.release
      else l[i]? := by
  intro k
  induction k with
  | zero =>
    intro dst src l _ _ i
    have h1 : ¬ (dst ≤ i ∧ i < dst + 0) := by omega
    have h2 : ¬ (src ≤ i ∧ i < src + 0) := by omega
    simp only [moveDown, if_neg h1, if_neg h2]
  | succ k ih =>
    intro dst src l hds hlen i
    have hsrc : src < l.length := by omega
    have hdst : dst < l.length := by omega
    have hX : l[src]? = some (l.getD src default) := by
      rw [List.getD_eq_getElem?_getD, List.getElem?_eq_getElem hsrc]
      rfl
    simp only [moveDown, assign_fst]
    rw [ih (dst + 1) (src + 1) _ (by omega) (by rw [List.length_set, List.length_set]; omega) i]
    have hd : src + 1 - (dst + 1) = src - dst := by omega
    rw [hd]
    have hset : ∀ j, ((l.set dst (l.getD src default)).set src
        (ParseResult.assign (l.getD dst default) (l.getD src default)).2)[j]?
        = if src = j then some (l.getD src default).release
          else if dst = j then some (l.getD src default) else l[j]? := by
      intro j
      rw [List.getElem?_set, List.getElem?_set]
      by_cases h1 : src = j
      · simp only [if_pos h1, List.length_set, hsrc, if_true]
        rfl
      · simp only [if_neg h1]
        by_cases h2 : dst = j
        · simp only [if_pos h2, hdst, if_true]
        · simp only [if_neg h2]
    by_cases hA : dst + 1 ≤ i ∧ i < dst + 1 + k
    · have hA2 : dst ≤ i ∧ i < dst + (k + 1) := by omega
      rw [if_pos hA, if_pos hA2, hset]
      have h1 : ¬ src = i + (src - dst) := by omega
      have h2 : ¬ dst = i + (src - dst) := by omega
      rw [if_neg h1, if_neg h2]
    · rw [if_neg hA]
      by_cases hB : src + 1 ≤ i ∧ i < src + 1 + k
      · have hA2 : ¬ (dst ≤ i ∧ i < dst + (k + 1)) := by omega
        have hB2 : src ≤ i ∧ i < src + (k + 1) := by omega
        rw [if_pos hB, if_neg hA2, if_pos hB2, hset]
        have h1 : ¬ src = i := by omega
        have h2 : ¬ dst = i := by omega
        rw [if_neg h1, if_neg h2]
      · rw [if_neg hB, hset]
        by_cases h1 : src = i
        · subst h1
          have hA2 : ¬ (dst ≤ src ∧ src < dst + (k + 1)) := by omega
          have hB2 : src ≤ src ∧ src < src + (k + 1) := by omega
          rw [if_pos rfl, if_neg hA2, if_pos hB2, hX]
          rfl
        · rw [if_neg h1]
          by_cases h2 : dst = i
          · subst h2
            have hA2 : dst ≤ dst ∧ dst < dst + (k + 1) := by omega
            rw [if_pos rfl, if_pos hA2]
            have : dst + (src - dst) = src := by omega
            rw [this, hX]
          · have hA2 : ¬ (dst ≤ i ∧ i < dst + (k + 1)) := by omega
            have hB2 : ¬ (src ≤ i ∧ i < src + (k + 1)) := by omega
            rw [if_neg h2, if_neg hA2, if_neg hB2]

theorem destruct_release (r : ParseResult) : r.release.destruct = true := rfl

theorem erase_split (below removed top : List ParseResult) (hn : 0 < removed.length) :
    (erase (below ++ removed ++ top) below.length (below.length + removed.length)).2
      = below ++ top ∧
    (erase (below ++ removed ++ top) below.length (below.length + removed.length)).1
      = (removed.drop top.length).all ParseResult.destruct := by
  have hlen : (below ++ removed ++ top).length = below.length + removed.length + top.length := by
    rw [List.length_append, List.length_append]
  have hk : (below ++ removed ++ top).length - (below.length + removed.length) = top.length := by
    omega
  have hN : (below ++ removed ++ top).length - (below.length + removed.length - below.length)
      = below.length + top.length := by omega
  have hget := moveDown_getElem? top.length below.length (below.length + removed.length)
    (below ++ removed ++ top) (by omega) (by omega)
  have hd : below.length + removed.length - below.length = removed.length := by omega
  have hl : ∀ i, (below ++ removed ++ top)[i]? =
      if i < below.length then below[i]?
      else if i < below.length + removed.length then removed[i - below.length]?
      else top[i - below.length - removed.length]? := by
    intro i
    by_cases h1 : i < below.length
    · rw [if_pos h1, List.append_assoc, List.getElem?_append_left h1]
    · rw [if_neg h1]
      by_cases h2 : i < below.length + removed.length
      · rw [if_pos h2, List.getElem?_append_left (by rw [List.length_append]; exact h2),
          List.getElem?_append_right (by omega)]
      · rw [if_neg h2, List.getElem?_append_right (by rw [List.length_append]; omega),
          List.length_append]
        congr 1
        omega
  simp only [erase, hk, hN]
  constructor
  · apply List.ext_getElem?
    intro i
    rw [List.getElem?_take]
    by_cases hi : i < below.length + top.length
    · rw [if_pos hi, hget, hd]
      by_cases h1 : below.length ≤ i
      · rw [if_pos ⟨h1, hi⟩, hl, List.getElem?_append_right h1]
        have e1 : ¬ (i + removed.length < below.length) := by omega
        have e2 : ¬ (i + removed.length < below.length + removed.length) := by omega
        rw [if_neg e1, if_neg e2]
        congr 1
        omega
      · have e1 : ¬ (below.length ≤ i ∧ i < below.length + top.length) := by omega
        have e2 : ¬ (below.length + removed.length ≤ i
            ∧ i < below.length + removed.length + top.length) := by omega
        rw [if_neg e1, if_neg e2, hl, if_pos (by omega), List.getElem?_append_left (by omega)]
    · rw [if_neg hi]
      symm
      rw [List.getElem?_eq_none_iff, List.length_append]
      omega
  · rw [Bool.eq_iff_iff, List.all_eq_true, List.all_eq_true]
    constructor
    · intro h x hx
      obtain ⟨j, hj⟩ := List.mem_iff_getElem?.mp hx
      rw [List.getElem?_drop] at hj
      have hjn : top.length + j < removed.length := by
        by_contra hc
        rw [List.getElem?_eq_none_iff.mpr (by omega)] at hj
        exact absurd hj (by simp)
      apply h x
      apply List.mem_iff_getElem?.mpr
      refine ⟨j, ?_⟩
      rw [List.getElem?_drop, hget]
      have e1 : ¬ (below.length ≤ below.length + top.length + j
          ∧ below.length + top.length + j < below.length + top.length) := by omega
      have e2 : ¬ (below.length + removed.length ≤ below.length + top.length + j
          ∧ below.length + top.length + j < below.length + removed.length + top.length) := by
        omega
      rw [if_neg e1, if_neg e2, hl, if_neg (by omega), if_pos (by omega), ← hj]
      congr 1
      omega
    · intro h x hx
      obtain ⟨j, hj⟩ := List.mem_iff_getElem?.mp hx
      rw [List.getElem?_drop, hget] at hj
      have e1 : ¬ (below.length ≤ below.length + top.length + j
          ∧ below.length + top.length + j < below.length + top.length) := by omega
      rw [if_neg e1] at hj
      by_cases h2 : below.length + removed.length ≤ below.length + top.length + j
          ∧ below.length + top.length + j < below.length + removed.length + top.length
      · rw [if_pos h2] at hj
        cases hy : (below ++ removed ++ top)[below.length + top.length + j]? with
        | none => rw [hy] at hj; exact absurd hj (by simp)
        | some y =>
          rw [hy] at hj
          have : x = y.release := (Option.some.inj hj).symm
          rw [this]
          exact destruct_release y
      · rw [if_neg h2] at hj
        have hlt : below.length + top.length + j < (below ++ removed ++ top).length := by
          by_contra hc
          rw [List.getElem?_eq_none_iff.mpr (by omega)] at hj
          exact absurd hj (by simp)
        rw [hl, if_neg (by omega), if_pos (by omega)] at hj
        apply h x
        apply List.mem_iff_getElem?.mpr
        refine ⟨j, ?_⟩
        rw [List.getElem?_drop, ← hj]
        congr 1
        omega

end ResultStack

/-! ### The bytes of a literal -/

namespace ByteStreamWriterBase

end ByteStreamWriterBase

namespace ByteStreamReaderBase

end ByteStreamReaderBase

namespace BytecodeWriter

end BytecodeWriter

namespace BytecodeReader

end BytecodeReader
/-! ## Claims C2 to C6: variable-byte integers -/

/-- C2: VBR round trip (64-bit).  For every `V < 2^64` stored by
`writeUInt64_Vbr` with room in the buffer, `readUInt64_Vbr` applied to a buffer
that holds the stored bytes at the read position, whatever precedes and follows
them, returns `V` and advances the read position by the number of bytes stored;
this holds in particular when reading the writer's own buffer at the position
where the write began; and two values with the same stored bytes are equal. -/
theorem C2_vbr64_round_trip (w : ByteStreamWriterBase) (V V2 : Nat)
    (r : ByteStreamReaderBase) (pre post : List Nat)
    (hV : V < 2 ^ 64) (hV2 : V2 < 2 ^ 64) (hroom : w.Pos + 10 ≤ w.Buffer.length)
    (hbuf : r.Buffer = pre ++ ByteStreamWriterBase.emitted w (w.writeUInt64_Vbr V) ++ post)
    (hpos : r.Pos = pre.length) :
    r.readUInt64_Vbr
        = (V, { r with Pos := r.Pos + ((w.writeUInt64_Vbr V).Pos - w.Pos) }) ∧
    (∀ r2 : ByteStreamReaderBase, r2.Buffer = (w.writeUInt64_Vbr V).Buffer →
        r2.Pos = w.Pos →
        r2.readUInt64_Vbr = (V, { r2 with Pos := (w.writeUInt64_Vbr V).Pos })) ∧
    (ByteStreamWriterBase.emitted w (w.writeUInt64_Vbr V2)
        = ByteStreamWriterBase.emitted w (w.writeUInt64_Vbr V) → V2 = V) := by
  have hlen := vbrEnc_length 64 V 10 (by omega) (by omega) (by omega)
  have hlen2 := vbrEnc_length 64 V2 10 (by omega) (by omega) (by omega)
  have hw := writeUInt64_Vbr_eq w V hV hroom
  have hw2 := writeUInt64_Vbr_eq w V2 hV2 hroom
  have he : ByteStreamWriterBase.emitted w (w.writeUInt64_Vbr V) = vbrEnc 64 V := by
    rw [hw]; exact emitted_splice w _ (by omega)
  have he2 : ByteStreamWriterBase.emitted w (w.writeUInt64_Vbr V2) = vbrEnc 64 V2 := by
    rw [hw2]; exact emitted_splice w _ (by omega)
  have hp : (w.writeUInt64_Vbr V).Pos = w.Pos + (vbrEnc 64 V).length := by rw [hw]
  refine ⟨?_, ?_, ?_⟩
  · rw [he] at hbuf
    rw [hp, Nat.add_sub_cancel_left]
    exact readVbrLoop_vbrEnc 64 V hV r pre post hbuf hpos (by norm_num)
  · intro r2 hb2 hp2
    rw [hp]
    have hb : r2.Buffer = w.Buffer.take w.Pos ++ vbrEnc 64 V
        ++ w.Buffer.drop (w.Pos + (vbrEnc 64 V).length) := by rw [hb2, hw]
    have := readVbrLoop_vbrEnc 64 V hV r2 _ _ hb (by rw [hp2]; simp; omega) (by norm_num)
    rw [hp2] at this
    exact this
  · intro h
    rw [he, he2] at h
    exact vbrEnc_injective 64 V2 V (by norm_num) hV2 hV h

/-- C3: VBR round trip (32-bit).  For every `V < 2^32` stored by
`writeUInt32_Vbr` with room in the buffer, `readUInt32_Vbr` applied to a buffer
that holds the stored bytes at the read position, whatever precedes and follows
them, returns `V` and advances the read position by the number of bytes stored,
which is at most 5; this holds in particular when reading the writer's own
buffer at the position where the write began. -/
theorem C3_vbr32_round_trip (w : ByteStreamWriterBase) (V : Nat)
    (r : ByteStreamReaderBase) (pre post : List Nat)
    (hV : V < 2 ^ 32) (hroom : w.Pos + 5 ≤ w.Buffer.length)
    (hbuf : r.Buffer = pre ++ ByteStreamWriterBase.emitted w (w.writeUInt32_Vbr V) ++ post)
    (hpos : r.Pos = pre.length) :
    r.readUInt32_Vbr
        = (V, { r with Pos := r.Pos + ((w.writeUInt32_Vbr V).Pos - w.Pos) }) ∧
    (w.writeUInt32_Vbr V).Pos - w.Pos ≤ 5 ∧
    (∀ r2 : ByteStreamReaderBase, r2.Buffer = (w.writeUInt32_Vbr V).Buffer →
        r2.Pos = w.Pos →
        r2.readUInt32_Vbr = (V, { r2 with Pos := (w.writeUInt32_Vbr V).Pos })) := by
  have hlen := vbrEnc_length 32 V 5 (by omega) (by omega) (by omega)
  have hw := writeUInt32_Vbr_eq w V hV hroom
  have he : ByteStreamWriterBase.emitted w (w.writeUInt32_Vbr V) = vbrEnc 32 V := by
    rw [hw]; exact emitted_splice w _ (by omega)
  have hp : (w.writeUInt32_Vbr V).Pos = w.Pos + (vbrEnc 32 V).length := by rw [hw]
  refine ⟨?_, ?_, ?_⟩
  · rw [he] at hbuf
    rw [hp, Nat.add_sub_cancel_left]
    exact readVbrLoop_vbrEnc 32 V hV r pre post hbuf hpos (by norm_num)
  · rw [hp, Nat.add_sub_cancel_left]; exact hlen.2
  · intro r2 hb2 hp2
    rw [hp]
    have hb : r2.Buffer = w.Buffer.take w.Pos ++ vbrEnc 32 V
        ++ w.Buffer.drop (w.Pos + (vbrEnc 32 V).length) := by rw [hb2, hw]
    have := readVbrLoop_vbrEnc 32 V hV r2 _ _ hb (by rw [hp2]; simp; omega) (by norm_num)
    rw [hp2] at this
    exact this

/-- C4: VBR byte format.  For every `V < 2^64` the bytes stored by
`writeUInt64_Vbr`, and for `V < 2^32` the bytes stored by `writeUInt32_Vbr`,
satisfy `VbrFormat`: at least one byte, bit `0x80` set on every byte but the
last and clear on the last, the low seven bits of byte `i` equal to bits
`7i .. 7i+6` of `V`, and for `V > 0` a length that is the least `n` with
`V < 2^(7n)`. -/
theorem C4_vbr_byte_format (w : ByteStreamWriterBase) (V : Nat) (hV : V < 2 ^ 64)
    (hroom : w.Pos + 10 ≤ w.Buffer.length) :
    VbrFormat V (ByteStreamWriterBase.emitted w (w.writeUInt64_Vbr V)) ∧
    (V < 2 ^ 32 → VbrFormat V (ByteStreamWriterBase.emitted w (w.writeUInt32_Vbr V))) := by
  constructor
  · have hlen := vbrEnc_length 64 V 10 (by omega) (by omega) (by omega)
    rw [writeUInt64_Vbr_eq w V hV hroom, emitted_splice w _ (by omega)]
    exact vbrEnc_format 64 V (by omega)
  · intro hV32
    have hlen := vbrEnc_length 32 V 5 (by omega) (by omega) (by omega)
    rw [writeUInt32_Vbr_eq w V hV32 (by omega), emitted_splice w _ (by omega)]
    exact vbrEnc_format 32 V (by omega)

/-- C5: the value 300.  Both VBR writers store exactly the bytes `0xAC 0x02` for
300, and both VBR readers return 300 from the bytes `0xAC 0x02`, whatever
precedes and follows them, after consuming the two bytes. -/
theorem C5_vbr_300 (w : ByteStreamWriterBase) (r : ByteStreamReaderBase)
    (pre post : List Nat) (hroom : w.Pos + 2 ≤ w.Buffer.length)
    (hbuf : r.Buffer = pre ++ [0xAC, 0x02] ++ post) (hpos : r.Pos = pre.length) :
    ByteStreamWriterBase.emitted w (w.writeUInt32_Vbr 300) = [0xAC, 0x02] ∧
    (w.writeUInt32_Vbr 300).Pos = w.Pos + 2 ∧
    ByteStreamWriterBase.emitted w (w.writeUInt64_Vbr 300) = [0xAC, 0x02] ∧
    (w.writeUInt64_Vbr 300).Pos = w.Pos + 2 ∧
    r.readUInt32_Vbr = (300, { r with Pos := r.Pos + 2 }) ∧
    r.readUInt64_Vbr = (300, { r with Pos := r.Pos + 2 }) := by
  have e32 : vbrList 32 300 = [0xAC, 0x02] := by decide
  have e64 : vbrList 64 300 = [0xAC, 0x02] := by decide
  have h32 : w.writeUInt32_Vbr 300 = ByteStreamWriterBase.writeVbrLoop 32 w 300 := by
    simp [ByteStreamWriterBase.writeUInt32_Vbr]
  have h64 : w.writeUInt64_Vbr 300 = ByteStreamWriterBase.writeVbrLoop 64 w 300 := by
    simp [ByteStreamWriterBase.writeUInt64_Vbr]
  have hw32 := writeVbrLoop_eq 32 w 300 (by rw [e32]; simpa using hroom)
  have hw64 := writeVbrLoop_eq 64 w 300 (by rw [e64]; simpa using hroom)
  have hs32 := emitted_splice w (vbrList 32 300) (by rw [e32]; simpa using hroom)
  have hs64 := emitted_splice w (vbrList 64 300) (by rw [e64]; simpa using hroom)
  have v32 : vbrEnc 32 300 = [0xAC, 0x02] := by decide
  have v64 : vbrEnc 64 300 = [0xAC, 0x02] := by decide
  have r32 := readVbrLoop_vbrEnc 32 300 (by norm_num) r pre post (by rw [v32]; exact hbuf)
    hpos (by norm_num)
  have r64 := readVbrLoop_vbrEnc 64 300 (by norm_num) r pre post (by rw [v64]; exact hbuf)
    hpos (by norm_num)
  rw [v32] at r32
  rw [v64] at r64
  rw [h32, h64, hw32, hw64]
  refine ⟨?_, ?_, ?_, ?_, r32, r64⟩
  · rw [hs32, e32]
  · rw [e32]; rfl
  · rw [hs64, e64]
  · rw [e64]; rfl

/-- C6: the value 0.  `writeUInt32_Vbr(0)` and `writeUInt64_Vbr(0)` each store the
single byte `0x00` at the write position and advance it by exactly 1. -/
theorem C6_vbr_zero (w : ByteStreamWriterBase) (hroom : w.Pos + 1 ≤ w.Buffer.length) :
    ByteStreamWriterBase.emitted w (w.writeUInt32_Vbr 0) = [0x00] ∧
    (w.writeUInt32_Vbr 0).Pos = w.Pos + 1 ∧
    (w.writeUInt32_Vbr 0).Buffer = w.Buffer.set w.Pos 0 ∧
    ByteStreamWriterBase.emitted w (w.writeUInt64_Vbr 0) = [0x00] ∧
    (w.writeUInt64_Vbr 0).Pos = w.Pos + 1 ∧
    (w.writeUInt64_Vbr 0).Buffer = w.Buffer.set w.Pos 0 := by
  have h32 : w.writeUInt32_Vbr 0 = w.store 0 := by
    simp [ByteStreamWriterBase.writeUInt32_Vbr]
  have h64 : w.writeUInt64_Vbr 0 = w.store 0 := by
    simp [ByteStreamWriterBase.writeUInt64_Vbr]
  have hs := emitted_splice w [0] (by simpa using hroom)
  have he : ByteStreamWriterBase.emitted w (w.store 0) = [0] := by
    rw [store_eq w 0 hroom]; exact hs
  rw [h32, h64]
  exact ⟨he, rfl, rfl, he, rfl, rfl⟩

/-- Witness of C2: the value 300 written at offset 3 of a 16 byte buffer, read
back from a buffer that holds the two bytes at offset 2. -/
theorem C2_vbr64_round_trip_witness :
    (exReader [7, 7, 0xAC, 0x02, 9, 9, 9, 9, 9, 9, 9, 9, 9, 9, 9, 9] 2).readUInt64_Vbr
      = (300, exReader [7, 7, 0xAC, 0x02, 9, 9, 9, 9, 9, 9, 9, 9, 9, 9, 9, 9] 4) :=
  (C2_vbr64_round_trip exWriter 300 301
    (exReader [7, 7, 0xAC, 0x02, 9, 9, 9, 9, 9, 9, 9, 9, 9, 9, 9, 9] 2)
    [7, 7] [9, 9, 9, 9, 9, 9, 9, 9, 9, 9, 9, 9]
    (by decide) (by decide) (by decide) (by decide) (by decide)).1

/-- Witness of C3: the value 300 written at offset 3 of a 16 byte buffer, read
back from a buffer that holds the two bytes at offset 2. -/
theorem C3_vbr32_round_trip_witness :
    (exReader [7, 7, 0xAC, 0x02, 9, 9, 9, 9, 9, 9, 9, 9, 9, 9, 9, 9] 2).readUInt32_Vbr
      = (300, exReader [7, 7, 0xAC, 0x02, 9, 9, 9, 9, 9, 9, 9, 9, 9, 9, 9, 9] 4) :=
  (C3_vbr32_round_trip exWriter 300
    (exReader [7, 7, 0xAC, 0x02, 9, 9, 9, 9, 9, 9, 9, 9, 9, 9, 9, 9] 2)
    [7, 7] [9, 9, 9, 9, 9, 9, 9, 9, 9, 9, 9, 9]
    (by decide) (by decide) (by decide) (by decide)).1

/-- Witness of C4: the bytes of the value 300, from either writer. -/
theorem C4_vbr_byte_format_witness :
    VbrFormat 300 (ByteStreamWriterBase.emitted exWriter (exWriter.writeUInt64_Vbr 300)) ∧
    VbrFormat 300 (ByteStreamWriterBase.emitted exWriter (exWriter.writeUInt32_Vbr 300)) :=
  ⟨(C4_vbr_byte_format exWriter 300 (by decide) (by decide)).1,
   (C4_vbr_byte_format exWriter 300 (by decide) (by decide)).2 (by decide)⟩

/-- Witness of C5: a writer at offset 3 of a 16 byte buffer and a reader at
offset 2 of a buffer that holds `0xAC 0x02` there. -/
theorem C5_vbr_300_witness :
    ByteStreamWriterBase.emitted exWriter (exWriter.writeUInt32_Vbr 300) = [0xAC, 0x02] ∧
    (exReader [7, 7, 0xAC, 0x02, 9, 9, 9, 9, 9, 9, 9, 9, 9, 9, 9, 9] 2).readUInt32_Vbr
      = (300, exReader [7, 7, 0xAC, 0x02, 9, 9, 9, 9, 9, 9, 9, 9, 9, 9, 9, 9] 4) :=
  have h := C5_vbr_300 exWriter
    (exReader [7, 7, 0xAC, 0x02, 9, 9, 9, 9, 9, 9, 9, 9, 9, 9, 9, 9] 2)
    [7, 7] [9, 9, 9, 9, 9, 9, 9, 9, 9, 9, 9, 9] (by decide) (by decide) (by decide)
  ⟨h.1, h.2.2.2.2.1⟩

/-- Witness of C6: a writer at offset 3 of a 16 byte buffer. -/
theorem C6_vbr_zero_witness :
    ByteStreamWriterBase.emitted exWriter (exWriter.writeUInt32_Vbr 0) = [0x00] ∧
    (exWriter.writeUInt64_Vbr 0).Pos = 4 :=
  have h := C6_vbr_zero exWriter (by decide)
  ⟨h.1, h.2.2.2.2.1⟩

/-! ## Claims C1 and C7 to C10: bytecode reader and writer -/

/-- C1 (defect in `readBytes`): the round trip fails on a name that lies across
the end of the reader's buffer.  For the tree `Apply(Identifier(n1),
Identifier(n2))` with a name `n1` of 9 bytes and a name `n2` of 16 bytes the
writer produces a stream of 37 bytes.  A reader whose buffer holds the whole
stream rebuilds the tree.  A reader with a buffer of 32 bytes finds 13 of the
16 bytes of `n2` in its buffer: its second atom leaves the identifier with the
name 1, ..., 13, 1, 2, 3 on the stack, the error flag still clear; it then
takes the byte 4 of the name for an opcode, and `read` returns null with the
error flag set. -/
theorem C1_round_trip_fails_on_straddling_name :
    exStreamApply 32 8 exNameShort exNameLong
      = [37, 9, 0, 0, 0] ++ exNameShort ++ [37, 16, 0, 0, 0] ++ exNameLong ++ [19, 0] ∧
    exStreamApply 64 8 exNameShort exNameLong = exStreamApply 32 8 exNameShort exNameLong ∧
    (BytecodeReader.read exTables 10 (BytecodeReader.ofStream 64 8
      (exStreamApply 64 8 exNameShort exNameLong))).map (fun x => (x.1, x.2.Error))
      = some (SExpr.Apply (SExpr.Identifier exNameShort) (SExpr.Identifier exNameLong) 0,
          false) ∧
    (BytecodeReader.readSExpr exTables (BytecodeReader.readSExpr exTables
      (BytecodeReader.ofStream 32 8 (exStreamApply 32 8 exNameShort exNameLong)))).Stack
      = [SExpr.Identifier exNameShort,
         SExpr.Identifier [1, 2, 3, 4, 5, 6, 7, 8, 9, 10, 11, 12, 13, 1, 2, 3]] ∧
    (BytecodeReader.readSExpr exTables (BytecodeReader.readSExpr exTables
      (BytecodeReader.ofStream 32 8 (exStreamApply 32 8 exNameShort exNameLong)))).Error
      = false ∧
    (BytecodeReader.read exTables 10 (BytecodeReader.ofStream 32 8
      (exStreamApply 32 8 exNameShort exNameLong))).map (fun x => (x.1, x.2.Error))
      = some (SExpr.null, true) := by
  refine ⟨by decide, by decide, by rfl, by rfl, by decide, by rfl⟩

/-- C8 (as stated, refuted): a value returned with the error flag set.  On the
stream of two `Undefined` atoms the loop of `read` ends without error with two
values on the stack; `read` then sets the error flag and returns the top of
the stack, the non-null node `Undefined`. -/
theorem C8_counterexample_value_with_flag_set :
    (BytecodeReader.read exTables 10 (BytecodeReader.ofStream 16 4 [35, 35])).map
        (fun x => (x.1.isNull, x.2.Error, x.2.Stack.length)) = some (false, true, 2) ∧
    (BytecodeReader.read exTables 10 (BytecodeReader.ofStream 16 4 [35, 35])).map (fun x => x.1)
        = some SExpr.Undefined ∧
    (BytecodeReader.readLoop exTables 10 (BytecodeReader.ofStream 16 4 [35, 35])).map (fun x => x.Error)
        = some false := by
  refine ⟨by decide, by rfl, by decide⟩

/-- C8 (amended): the value returned against the error flag.  For every table
whose decoders only consume input, every reader state `r` and every budget
`fuel` not below the number of unread bytes, the loop of `read` ends in a state
`r1` and `read` returns a value `v` and a state `r2` such that: if the error
flag is set in `r2`, then `v` is null, unless the flag was clear in `r1` and
more than one value was left on the stack; in that case the flag is set and `v`
is the value on top of the stack; and if the flag is clear in `r2`, then `v` is
the single value on the stack and `r2` is `r1`. -/
theorem C8_read_result_and_flag (T : Tables) (hT : T.Consuming) (fuel : Nat)
    (r : BytecodeReader) (hfuel : r.Reader.unread ≤ fuel) :
    ∃ r1 v r2, BytecodeReader.readLoop T fuel r = some r1 ∧
      BytecodeReader.read T fuel r = some (v, r2) ∧
      (r2.Error = true → ¬ (r1.Error = false ∧ r1.Stack.length > 1) → v = SExpr.null) ∧
      (r1.Error = false → r1.Stack.length > 1 →
        r2.Error = true ∧ v = r1.Stack.getD (r1.Stack.length - 1) SExpr.null) ∧
      (r2.Error = false → r1.Stack = [v] ∧ r2 = r1) := by
  obtain ⟨r1, hloop⟩ := BytecodeReader.readLoop_terminates T hT fuel r hfuel
  refine ⟨r1, (BytecodeReader.readFinish r1).1, (BytecodeReader.readFinish r1).2, hloop,
    by simp [BytecodeReader.read, hloop], ?_, ?_, ?_⟩
  · intro he hn
    by_cases hE : r1.Error = true
    · simp [BytecodeReader.readFinish, BytecodeReader.success, hE]
    · have hE' : r1.Error = false := by simpa using hE
      by_cases h0 : r1.Stack.length = 0
      · simp [BytecodeReader.readFinish, BytecodeReader.success, hE', h0]
      · by_cases h2 : r1.Stack.length > 1
        · exact absurd ⟨hE', h2⟩ hn
        · simp [BytecodeReader.readFinish, BytecodeReader.success, hE', h0, h2] at he
  · intro hE h2
    have h0 : r1.Stack.length ≠ 0 := by omega
    simp [BytecodeReader.readFinish, BytecodeReader.success, hE, h0, h2, BytecodeReader.fail]
  · intro he
    by_cases hE : r1.Error = true
    · simp [BytecodeReader.readFinish, BytecodeReader.success, hE] at he
    · have hE' : r1.Error = false := by simpa using hE
      by_cases h0 : r1.Stack.length = 0
      · simp [BytecodeReader.readFinish, BytecodeReader.success, hE', h0,
          BytecodeReader.fail] at he
      · by_cases h2 : r1.Stack.length > 1
        · simp [BytecodeReader.readFinish, BytecodeReader.success, hE', h0, h2,
            BytecodeReader.fail] at he
        · have h1 : r1.Stack.length = 1 := by omega
          obtain ⟨x, hx⟩ := List.length_eq_one.1 h1
          simp [BytecodeReader.readFinish, BytecodeReader.success, hE', hx]

/-- Witness of C8 (amended): the stream of two `Undefined` atoms, on which `read`
returns the top of the stack with the error flag set. -/
theorem C8_read_result_and_flag_witness :
    ∃ v r2, BytecodeReader.read exTables 10 (BytecodeReader.ofStream 16 4 [35, 35])
        = some (v, r2) ∧ r2.Error = true ∧ v = SExpr.Undefined := by
  obtain ⟨r1, v, r2, hloop, hread, _, h2, _⟩ :=
    C8_read_result_and_flag exTables exTables_consuming 10
      (BytecodeReader.ofStream 16 4 [35, 35]) (by decide)
  have hl : BytecodeReader.readLoop exTables 10 (BytecodeReader.ofStream 16 4 [35, 35])
      = some (BytecodeReader.readSExpr exTables (BytecodeReader.readSExpr exTables
          (BytecodeReader.ofStream 16 4 [35, 35]))) := by rfl
  have hr1 := Option.some.inj (hloop.symm.trans hl)
  subst hr1
  exact ⟨v, r2, hread, (h2 (by decide) (by decide)).1, (h2 (by decide) (by decide)).2⟩

/-- C9: the check of the stack size at the end of `read`.  For every table whose
decoders only consume input, every reader state `r` and every budget `fuel`
not below the number of unread bytes, the loop of `read` ends in a state `r1`;
when the error flag of `r1` is clear, `read` sets the error flag if the stack
of `r1` does not hold exactly one value, and returns that value, in the state
`r1` with the flag still clear, if it holds exactly one. -/
theorem C9_read_checks_stack_size (T : Tables) (hT : T.Consuming) (fuel : Nat)
    (r : BytecodeReader) (hfuel : r.Reader.unread ≤ fuel) :
    ∃ r1, BytecodeReader.readLoop T fuel r = some r1 ∧
      (r1.Error = false →
        (r1.Stack.length ≠ 1 →
          ∃ v, BytecodeReader.read T fuel r = some (v, r1.fail) ∧ r1.fail.Error = true) ∧
        (∀ v, r1.Stack = [v] →
          BytecodeReader.read T fuel r = some (v, r1) ∧ r1.Error = false)) := by
  obtain ⟨r1, hloop⟩ := BytecodeReader.readLoop_terminates T hT fuel r hfuel
  refine ⟨r1, hloop, ?_⟩
  intro hok
  constructor
  · intro hne
    by_cases h0 : r1.Stack.length = 0
    · exact ⟨SExpr.null, by simp [BytecodeReader.read, hloop, BytecodeReader.readFinish,
        BytecodeReader.success, hok, h0], rfl⟩
    · have h2 : r1.Stack.length > 1 := by omega
      exact ⟨r1.fail.Stack.getD (r1.fail.Stack.length - 1) SExpr.null,
        by simp [BytecodeReader.read, hloop, BytecodeReader.readFinish,
          BytecodeReader.success, hok, h0, h2],
        rfl⟩
  · intro v hv
    refine ⟨?_, hok⟩
    simp [BytecodeReader.read, hloop, BytecodeReader.readFinish, BytecodeReader.success, hok, hv]

/-- Witness of C9: the stream of one `Undefined` atom, which `read` returns with
the error flag clear. -/
theorem C9_read_checks_stack_size_witness :
    BytecodeReader.read exTables 10 (BytecodeReader.ofStream 16 4 [35])
      = some (SExpr.Undefined,
          BytecodeReader.readSExpr exTables (BytecodeReader.ofStream 16 4 [35])) := by
  obtain ⟨r1, hloop, h⟩ :=
    C9_read_checks_stack_size exTables exTables_consuming 10
      (BytecodeReader.ofStream 16 4 [35]) (by decide)
  have hl : BytecodeReader.readLoop exTables 10 (BytecodeReader.ofStream 16 4 [35])
      = some (BytecodeReader.readSExpr exTables (BytecodeReader.ofStream 16 4 [35])) := by rfl
  have hr1 := Option.some.inj (hloop.symm.trans hl)
  subst hr1
  exact ((h (by decide)).2 SExpr.Undefined (by rfl)).1

/-- C10 (as stated, refuted): on `exStreamNoTerminator`, whose entry block has no
terminator atom before its `BasicBlock` opcode, `read` returns the non-null
value `SCFG 0` with the error flag clear, the CFG being the only value on the
stack; in the CFG returned the entry block (handle 0) has a null terminator. -/
theorem C10_counterexample_missing_terminator_accepted :
    (BytecodeReader.read exTables 20 (BytecodeReader.ofStream 64 20 exStreamNoTerminator)).map
        (fun x => x.1) = some (SExpr.SCFG 0) ∧
    (BytecodeReader.read exTables 20 (BytecodeReader.ofStream 64 20 exStreamNoTerminator)).map
        (fun x => (x.1.isNull, x.2.Error, x.2.Stack.length)) = some (false, false, 1) ∧
    (BytecodeReader.read exTables 20 (BytecodeReader.ofStream 64 20 exStreamNoTerminator)).map
        (fun x => ((x.2.Builder.Heap.getD 0 default).terminator.isNull,
                   (x.2.Builder.Cfgs.getD 0 default).blocks)) = some (true, [some 0, some 1]) := by
  refine ⟨by rfl, by decide, by decide⟩

/-- C10 (amended): a block without terminator is closed, not rejected.  When a
block `b` is still open at the `BasicBlock` opcode, in a state in which the
assertion of `readBasicBlock` holds (the stack has the depth recorded by
`EnterCFG`), `readBasicBlock` closes the block with a null terminator and
changes neither the error flag nor the stack nor the block table. -/
theorem C10_missing_terminator_accepted (r : BytecodeReader) (b : Nat)
    (hbb : r.Builder.CurrentBB = some b) (hb : b < r.Builder.Heap.length)
    (hstk : r.Stack.length = r.CFGStackSize) :
    (BytecodeReader.readBasicBlock r).Error = r.Error ∧
    (BytecodeReader.readBasicBlock r).Stack = r.Stack ∧
    (BytecodeReader.readBasicBlock r).Stack.length = (BytecodeReader.readBasicBlock r).CFGStackSize ∧
    (BytecodeReader.readBasicBlock r).Blocks = r.Blocks ∧
    (BytecodeReader.readBasicBlock r).Builder.CurrentBB = none ∧
    ((BytecodeReader.readBasicBlock r).Builder.Heap.getD b default).terminator = SExpr.null := by
  refine ⟨?_, ?_, ?_, ?_, ?_, ?_⟩
  · simp [BytecodeReader.readBasicBlock, hbb]
  · simp [BytecodeReader.readBasicBlock, hbb]
  · simp [BytecodeReader.readBasicBlock, hbb, hstk]
  · simp [BytecodeReader.readBasicBlock, hbb]
  · simp [BytecodeReader.readBasicBlock, hbb, CFGBuilder.endBlock]
  · simp only [BytecodeReader.readBasicBlock, hbb, Option.isSome_some, if_true,
      CFGBuilder.endBlock]
    rw [getD_modify_self _ _ _ _ hb]

/-- Witness of C10 (amended): the state of the reader on `exStreamNoTerminator`
after the atoms `EnterCFG` and `EnterBlock`, in which the entry block is open. -/
theorem C10_missing_terminator_accepted_witness :
    (BytecodeReader.readBasicBlock
      (BytecodeReader.readSExpr exTables (BytecodeReader.readSExpr exTables
        (BytecodeReader.ofStream 64 20 exStreamNoTerminator)))).Error = false ∧
    ((BytecodeReader.readBasicBlock
      (BytecodeReader.readSExpr exTables (BytecodeReader.readSExpr exTables
        (BytecodeReader.ofStream 64 20 exStreamNoTerminator)))).Builder.Heap.getD 0 default).terminator
      = SExpr.null :=
  have h := C10_missing_terminator_accepted
    (BytecodeReader.readSExpr exTables (BytecodeReader.readSExpr exTables
        (BytecodeReader.ofStream 64 20 exStreamNoTerminator))) 0 (by decide) (by decide)
    (by decide)
  ⟨h.1, h.2.2.2.2.2⟩

/-! ## Claims C11 to C16: block table, strings, bit-packed integers -/

/-- C11 (as stated, refuted): a `Goto` to the block ID `InvalidBlockID`.  In the
state `exReaderSentinel` the error flag is clear, the atom is `Goto(0,
0x0FFFFFFF)` and slot `0x0FFFFFFF` of the block table holds block 1, which
has one argument, not 0; but `0x0FFFFFFF` is `InvalidBlockID`, for which
`getBlock` returns null before it looks at the table: `readGoto` leaves the
error flag clear. -/
theorem C11_counterexample_goto_to_invalid_block_id :
    exReaderSentinel.Error = false ∧
    exReaderSentinel.readUInt32.1 = 0 ∧
    exReaderSentinel.readUInt32.2.readUInt32.1 = 0x0FFFFFFF ∧
    exTables.InvalidBlockID = 0x0FFFFFFF ∧
    exReaderSentinel.Blocks.getD 0x0FFFFFFF none = some 1 ∧
    exReaderSentinel.Builder.numArguments 1 = 1 ∧
    BytecodeReader.getBlock exTables exReaderSentinel.readUInt32.2.readUInt32.2 0x0FFFFFFF 0
      = (none, exReaderSentinel.readUInt32.2.readUInt32.2) ∧
    (BytecodeReader.readGoto exTables exReaderSentinel).Error = false := by
  refine ⟨by decide, by decide, by decide, by decide, BytecodeReader.exReaderSentinel_facts.2,
    by decide, BytecodeReader.getBlock_invalid _ _ _ _ (by decide), by decide⟩

/-- C11 (amended): a `Goto` to a block with another number of arguments.  Let the
next atom of the reader state `r0` be a `Goto` atom `(Nargs, Bid)` whose
`Bid` is not `InvalidBlockID` and is not negative as the `int` that `getBlock`
receives (`Bid < 2^31`), and let slot `Bid` of the block table hold a block
`b` whose number of arguments differs from `Nargs`.  Then `readGoto` sets the
error flag, the flag is set after the atom, and `read` returns null with the
flag set. -/
theorem C11_goto_wrong_arg_count (T : Tables) (r0 : BytecodeReader) (b fuel : Nat)
    (hne : r0.Reader.empty = false) (hok : r0.Error = false)
    (hop : r0.readPseudoOpcode.1 = PSOP_Last + TIL_Opcode.COP_Goto.toNat)
    (hinv : (r0.readPseudoOpcode.2.readUInt32.2.readUInt32.1) % 2 ^ 32
              ≠ T.InvalidBlockID % 2 ^ 32)
    (hid : r0.readPseudoOpcode.2.readUInt32.2.readUInt32.1 < 2 ^ 31)
    (hslot : r0.Blocks.getD (r0.readPseudoOpcode.2.readUInt32.2.readUInt32.1) none = some b)
    (hnum : r0.Builder.numArguments b ≠ r0.readPseudoOpcode.2.readUInt32.1)
    (hnum32 : r0.Builder.numArguments b < 2 ^ 32) :
    (BytecodeReader.readGoto T r0.readPseudoOpcode.2).Error = true ∧
    (BytecodeReader.readSExpr T r0).Error = true ∧
    BytecodeReader.read T (fuel + 1) r0 = some (SExpr.null, BytecodeReader.readSExpr T r0) := by
  have hargs : toInt32 (r0.Builder.numArguments b)
      ≠ toInt32 (r0.readPseudoOpcode.2.readUInt32.1) := by
    intro h
    exact hnum (toInt32_inj _ _ hnum32 (BytecodeReader.readUInt32_value_lt _) h)
  have hB : (r0.readPseudoOpcode.2.readUInt32.2.readUInt32.2).Blocks = r0.Blocks := by
    rw [(BytecodeReader.readUInt32_frame _).1, (BytecodeReader.readUInt32_frame _).1,
      (BytecodeReader.readPseudoOpcode_frame _).1]
  have hH : (r0.readPseudoOpcode.2.readUInt32.2.readUInt32.2).Builder = r0.Builder := by
    rw [(BytecodeReader.readUInt32_frame _).2.1, (BytecodeReader.readUInt32_frame _).2.1,
      (BytecodeReader.readPseudoOpcode_frame _).2.1]
  have hg := BytecodeReader.getBlock_mismatch T
    (r0.readPseudoOpcode.2.readUInt32.2.readUInt32.2)
    (r0.readPseudoOpcode.2.readUInt32.2.readUInt32.1)
    (r0.readPseudoOpcode.2.readUInt32.1) b hinv hid
    (by rw [hB]; exact hslot) (by rw [hH]; exact hargs)
  have h1 : (BytecodeReader.readGoto T r0.readPseudoOpcode.2).Error = true := by
    unfold BytecodeReader.readGoto
    simp only [BytecodeReader.drop]
    rw [hg]
    simp only [BytecodeReader.fail]
  have h2 : (BytecodeReader.readSExpr T r0).Error = true := by
    rw [readSExpr_goto T r0 hop]
    exact h1
  refine ⟨h1, h2, ?_⟩
  have hc : (!r0.Reader.empty && r0.success) = true := by
    simp [hne, BytecodeReader.success, hok]
  have hl : BytecodeReader.readLoop T (fuel + 1) r0 = some (BytecodeReader.readSExpr T r0) := by
    simp only [BytecodeReader.readLoop, hc, if_true]
    cases fuel <;> simp [BytecodeReader.readLoop, BytecodeReader.success, h2]
  simp [BytecodeReader.read, hl, BytecodeReader.readFinish, BytecodeReader.success, h2]

/-- Witness of C11 (amended): the reader on `exStreamGotoMismatch` after the atoms `EnterCFG`
and `EnterBlock`; the next atom is `Goto(0, 1)` and block 1 has one argument. -/
theorem C11_goto_wrong_arg_count_witness :
    BytecodeReader.read exTables 1
      (BytecodeReader.readSExpr exTables (BytecodeReader.readSExpr exTables
        (BytecodeReader.ofStream 64 20 exStreamGotoMismatch)))
      = some (SExpr.null, BytecodeReader.readSExpr exTables
          (BytecodeReader.readSExpr exTables (BytecodeReader.readSExpr exTables
            (BytecodeReader.ofStream 64 20 exStreamGotoMismatch)))) :=
  (C11_goto_wrong_arg_count exTables
    (BytecodeReader.readSExpr exTables (BytecodeReader.readSExpr exTables
        (BytecodeReader.ofStream 64 20 exStreamGotoMismatch))) 1 0
    (by decide) (by decide) (by decide) (by decide) (by decide) (by decide) (by decide)
    (by decide)).2.2

/-- C12: a block ID of `2^31` or more.  In the reader state after
`EnterCFG(2, 1, 0, 1)`, whose block table has two entries, `getBlock` is
called with the ID `0x80000000`, which is neither `InvalidBlockID` nor below
the table size; as an `int` it is negative.  `getBlock` does not set the error
flag and returns a block, not null.  With that ID as the `then` target of a
`Branch`, the stream `exStreamBranchBadId` is read without error. -/
theorem C12_getBlock_accepts_negative_id :
    toInt32 0x80000000 < 0 ∧
    exTables.InvalidBlockID ≠ 0x80000000 ∧
    (BytecodeReader.readSExpr exTables
      (BytecodeReader.ofStream 64 20 exStreamEnterCFG)).Blocks.length = 2 ∧
    ((BytecodeReader.getBlock exTables (BytecodeReader.readSExpr exTables
      (BytecodeReader.ofStream 64 20 exStreamEnterCFG)) 0x80000000 0).1 = some 2) ∧
    ((BytecodeReader.getBlock exTables (BytecodeReader.readSExpr exTables
      (BytecodeReader.ofStream 64 20 exStreamEnterCFG)) 0x80000000 0).2.Error = false) ∧
    (BytecodeReader.read exTables 20 (BytecodeReader.ofStream 64 20 exStreamBranchBadId)).map
      (fun x => (x.1.isNull, x.2.Error)) = some (false, false) := by
  refine ⟨by decide, by decide, by decide, by decide, by decide, by decide⟩

/-- C13 (as stated, refuted): block IDs inside the table for which `getBlock`
creates no block.  In a table of `0x10000000` empty slots the ID
`0x0FFFFFFF` lies inside the table, but it is `InvalidBlockID`: `getBlock`
returns null and leaves the state as it is.  In a table of `2^31` empty
slots the size is negative as an `int`, so that `getBlock(0, 0)` fails the
range test: it sets the error flag and returns null. -/
theorem C13_counterexample_no_block_created :
    0x0FFFFFFF < (exReaderEmptyTable 0x10000000).Blocks.length ∧
    (exReaderEmptyTable 0x10000000).Blocks.getD 0x0FFFFFFF none = none ∧
    BytecodeReader.getBlock exTables (exReaderEmptyTable 0x10000000) 0x0FFFFFFF 0
      = (none, exReaderEmptyTable 0x10000000) ∧
    0 < (exReaderEmptyTable 0x80000000).Blocks.length ∧
    (exReaderEmptyTable 0x80000000).Blocks.getD 0 none = none ∧
    (BytecodeReader.getBlock exTables (exReaderEmptyTable 0x80000000) 0 0).1 = none ∧
    (exReaderEmptyTable 0x80000000).Error = false ∧
    (BytecodeReader.getBlock exTables (exReaderEmptyTable 0x80000000) 0 0).2.Error = true := by
  have hl : ∀ n, (exReaderEmptyTable n).Blocks.length = n := fun n => List.length_replicate _ _
  have hg : ∀ n i, (exReaderEmptyTable n).Blocks.getD i none = none := by
    intro n i
    show (List.replicate n (none : Option Nat)).getD i none = none
    rw [List.getD_eq_getElem?_getD, List.getElem?_replicate]
    split <;> rfl
  have hout : BytecodeReader.getBlock exTables (exReaderEmptyTable 0x80000000) 0 0
      = (none, (exReaderEmptyTable 0x80000000).fail) :=
    BytecodeReader.getBlock_outside _ _ _ _ (by decide) (by rw [hl]; decide)
  refine ⟨by rw [hl]; decide, hg _ _, BytecodeReader.getBlock_invalid _ _ _ _ (by decide),
    by rw [hl]; decide, hg _ _, by rw [hout], by decide, by rw [hout]; rfl⟩

/-- C13 (amended): forward references.  For a block table of fewer than `2^31`
entries and a block ID `id` inside it, other than `InvalidBlockID`, whose slot
is empty, `getBlock(id, n)` creates a block with `n` arguments, stores it in
slot `id`, changes no other slot and returns it, the error flag staying as it
is; a call `getBlock(id, n)` in that state, or in any later state `r2` whose
slot `id` still holds the block with its `n` arguments, returns the same block
and changes nothing. -/
theorem C13_forward_reference (T : Tables) (r : BytecodeReader) (id n : Nat)
    (hinv : id % 2 ^ 32 ≠ T.InvalidBlockID % 2 ^ 32)
    (hsize : r.Blocks.length < 2 ^ 31)
    (hlt : id < r.Blocks.length)
    (hslot : r.Blocks.getD id none = none) :
    (BytecodeReader.getBlock T r id n).1 = some r.Builder.Heap.length ∧
    (BytecodeReader.getBlock T r id n).2.Builder.numArguments r.Builder.Heap.length = n ∧
    (BytecodeReader.getBlock T r id n).2.Blocks
      = r.Blocks.set id (some r.Builder.Heap.length) ∧
    (BytecodeReader.getBlock T r id n).2.Blocks.getD id none = some r.Builder.Heap.length ∧
    (BytecodeReader.getBlock T r id n).2.Error = r.Error ∧
    BytecodeReader.getBlock T (BytecodeReader.getBlock T r id n).2 id n
      = (some r.Builder.Heap.length, (BytecodeReader.getBlock T r id n).2) ∧
    ∀ r2 : BytecodeReader, r2.Blocks.length < 2 ^ 31 →
      r2.Blocks.getD id none = some r.Builder.Heap.length →
      r2.Builder.numArguments r.Builder.Heap.length = n →
      BytecodeReader.getBlock T r2 id n = (some r.Builder.Heap.length, r2) := by
  have hg := BytecodeReader.getBlock_empty T r id n hinv hsize hlt hslot
  have hnum : (r.Builder.newBlock n).2.numArguments r.Builder.Heap.length = n := by
    simp [CFGBuilder.newBlock, CFGBuilder.numArguments]
  have hget : (r.Blocks.set id (some r.Builder.Heap.length)).getD id none
      = some r.Builder.Heap.length := by
    simp [List.getD_eq_getElem?_getD, hlt]
  rw [hg]
  refine ⟨rfl, hnum, rfl, hget, rfl, ?_, ?_⟩
  · exact BytecodeReader.getBlock_match T _ id n _ hinv (by simpa using hsize) hget hnum
  · intro r2 hs2 hslot2 hnum2
    exact BytecodeReader.getBlock_match T r2 id n _ hinv hs2 hslot2 hnum2

/-- Witness of C13 (amended): the reader after `EnterCFG(3, 0, 0, 1)`, whose slot 2 is
empty, and `getBlock(2, 0)`. -/
theorem C13_forward_reference_witness :
    (BytecodeReader.getBlock exTables (BytecodeReader.readSExpr exTables
      (BytecodeReader.ofStream 64 20 [7, 3, 0, 0, 0, 0, 0, 0, 0, 0, 0, 0, 0, 1, 0, 0, 0]))
      2 0).1 = some 2 :=
  (C13_forward_reference exTables (BytecodeReader.readSExpr exTables
      (BytecodeReader.ofStream 64 20 [7, 3, 0, 0, 0, 0, 0, 0, 0, 0, 0, 0, 0, 1, 0, 0, 0]))
    2 0 (by decide) (by decide) (by decide) (by decide)).1

/-- C14 (defect in `readSCFG`): after the header `EnterCFG(2, 0, 0, 0)`, which gives
the entry and the exit block the same ID, the CFG has two blocks and the
block table two entries, so that the check of `readSCFG` passes, but slot 1
of the table is empty.  The source calls `setBlockID` through this null
pointer; in the embedding no block is placed at position 1 of the block list
of the CFG, no block receives the ID 1, and the error flag stays clear. -/
theorem C14_readSCFG_empty_slot :
    (BytecodeReader.readSExpr exTables
      (BytecodeReader.ofStream 64 20 exStreamSameEntryExit)).Builder.numBlocks = 2 ∧
    (BytecodeReader.readSExpr exTables
      (BytecodeReader.ofStream 64 20 exStreamSameEntryExit)).Blocks = [some 1, none] ∧
    (BytecodeReader.read exTables 20 (BytecodeReader.ofStream 64 20 exStreamSameEntryExit)).map
      (fun x => (x.2.Error, (x.2.Builder.Cfgs.getD 0 default).blocks,
                 x.2.Builder.Heap.map (fun b => b.blockID)))
      = some (false, [some 1, none], [0, 0]) := by
  refine ⟨by decide, by decide, by decide⟩

/-- What `readSCFG` does when no slot is empty.  When the current CFG has as
many blocks as the block table has entries and every slot of the table holds a
block, no block being held by two slots, `readSCFG` places table entry `i` at
position `i` of the block list of the CFG, sets the ID of that block to `i`,
leaves the error flag as it is, empties the tables and pushes exactly one
value, the CFG. -/
theorem readSCFG_renumbers (r : BytecodeReader) (c : Nat)
    (hc : r.Builder.CurrentCFG = some c) (hcl : c < r.Builder.Cfgs.length)
    (hnum : r.Builder.numBlocks = r.Blocks.length)
    (hfull : ∀ i, i < r.Blocks.length →
      ∃ b, r.Blocks.getD i none = some b ∧ b < r.Builder.Heap.length)
    (hinj : ∀ j1 j2 b, r.Blocks.getD j1 none = some b → r.Blocks.getD j2 none = some b →
      j1 = j2) :
    (BytecodeReader.readSCFG r).Stack = r.Stack ++ [SExpr.SCFG c] ∧
    (BytecodeReader.readSCFG r).Error = r.Error ∧
    ((BytecodeReader.readSCFG r).Builder.Cfgs.getD c default).blocks = r.Blocks ∧
    (∀ i, i < r.Blocks.length → ∃ b,
      ((BytecodeReader.readSCFG r).Builder.Cfgs.getD c default).blocks.getD i none = some b ∧
      r.Blocks.getD i none = some b ∧
      ((BytecodeReader.readSCFG r).Builder.Heap.getD b default).blockID = i) ∧
    (BytecodeReader.readSCFG r).Blocks = [] ∧
    (BytecodeReader.readSCFG r).Instrs = [] := by
  have hlen : (r.Builder.Cfgs.getD c default).blocks.length = r.Blocks.length := by
    simpa only [CFGBuilder.numBlocks, hc] using hnum
  have hb : (BytecodeReader.renumberBlocks r.Blocks r.Blocks.length 0
      (r.Builder.Cfgs.getD c default, r.Builder.Heap)).1.blocks = r.Blocks := by
    apply list_eq_of_getD _ _ none
    · rw [(BytecodeReader.renumberBlocks_length _ _ _ _).1]; exact hlen
    · intro j hj
      rw [(BytecodeReader.renumberBlocks_length _ _ _ _).1] at hj
      have hj2 : j < (r.Builder.Cfgs.getD c default).blocks.length := hj
      rw [BytecodeReader.renumberBlocks_blocks]
      have : 0 ≤ j ∧ j < 0 + r.Blocks.length ∧
          j < (r.Builder.Cfgs.getD c default).blocks.length := by
        rw [hlen] at hj2 ⊢; omega
      simp only [this, and_self, if_true]
  have hcfg : ((BytecodeReader.readSCFG r).Builder.Cfgs.getD c default).blocks = r.Blocks := by
    simp only [BytecodeReader.readSCFG, hnum, ne_eq, not_true_eq_false, if_false, hc,
      Option.getD_some, BytecodeReader.push, CFGBuilder.endCFG]
    rw [getD_set_eq]
    simp only [hcl, and_self, if_true]
    exact hb
  refine ⟨?_, ?_, hcfg, ?_, ?_, ?_⟩
  · simp [BytecodeReader.readSCFG, hnum, hc, BytecodeReader.push]
  · simp [BytecodeReader.readSCFG, hnum, BytecodeReader.push]
  · intro i hi
    obtain ⟨b, hb1, hb2⟩ := hfull i hi
    refine ⟨b, by rw [hcfg]; exact hb1, hb1, ?_⟩
    simp only [BytecodeReader.readSCFG, hnum, ne_eq, not_true_eq_false, if_false, hc,
      Option.getD_some, BytecodeReader.push, CFGBuilder.endCFG]
    exact BytecodeReader.renumberBlocks_blockID r.Blocks hinj _ _ _ i b (Nat.zero_le _)
      (by omega) hb1 hb2
  · simp [BytecodeReader.readSCFG, hnum, BytecodeReader.push]
  · simp [BytecodeReader.readSCFG, hnum, BytecodeReader.push]

/-- An instance of `readSCFG_renumbers`: the reader on `exStreamNoTerminator` before its last
atom `SCFG`: the table holds the entry block in slot 0 and the exit block in
slot 1. -/
theorem readSCFG_renumbers_example :
    ((BytecodeReader.readSCFG
      (BytecodeReader.readSExpr exTables (BytecodeReader.readSExpr exTables
        (BytecodeReader.readSExpr exTables (BytecodeReader.ofStream 64 20
          [7, 2, 0, 0, 0, 1, 0, 0, 0, 0, 0, 0, 0, 1, 0, 0, 0,
           6, 0, 0, 0, 0, 0, 0, 0, 0, 0, 0, 0, 0, 40]))))).Builder.Cfgs.getD 0 default).blocks
      = [some 0, some 1] :=
  (readSCFG_renumbers
    (BytecodeReader.readSExpr exTables (BytecodeReader.readSExpr exTables
        (BytecodeReader.readSExpr exTables (BytecodeReader.ofStream 64 20
          [7, 2, 0, 0, 0, 1, 0, 0, 0, 0, 0, 0, 0, 1, 0, 0, 0,
           6, 0, 0, 0, 0, 0, 0, 0, 0, 0, 0, 0, 0, 40])))) 0
    (by decide) (by decide) (by decide) (by decide)
    (by
      have hB : (BytecodeReader.readSExpr exTables (BytecodeReader.readSExpr exTables
        (BytecodeReader.readSExpr exTables (BytecodeReader.ofStream 64 20
          [7, 2, 0, 0, 0, 1, 0, 0, 0, 0, 0, 0, 0, 1, 0, 0, 0,
           6, 0, 0, 0, 0, 0, 0, 0, 0, 0, 0, 0, 0, 40])))).Blocks = [some 0, some 1] := by
        decide
      rw [hB]
      intro j1 j2 b h1 h2
      match j1, j2, h1, h2 with
      | 0, 0, _, _ => rfl
      | 1, 1, _, _ => rfl
      | 0, 1, h1, h2 => simp at h1 h2; omega
      | 1, 0, h1, h2 => simp at h1 h2; omega
      | 0, _ + 2, _, h2 => simp at h2
      | 1, _ + 2, _, h2 => simp at h2
      | _ + 2, _, h1, _ => simp at h1)).2.2.1

/-- C15 (defect in `readBytes`): a string that straddles the end of the reader's
buffer does not survive the round trip.  The writer emits the length 6 and the
bytes 1 to 6; the reader with the same buffer size, after the two atoms that
precede the string, finds four of the six bytes in its buffer, copies them,
refills without having advanced past them, and copies the first two again: it
returns 1, 2, 3, 4, 1, 2 with the error flag clear, and leaves the four bytes
3, 4, 5, 6 unread. -/
theorem C15_readString_repeats_bytes :
    exStreamString [1, 2, 3, 4, 5, 6] =
      [7, 0, 0, 0, 9, 0, 0, 0, 6, 0, 0, 0, 1, 2, 3, 4, 5, 6] ∧
    (ByteStreamReaderBase.ofStream 16 4
      (exStreamString [1, 2, 3, 4, 5, 6])).readUInt32.2.endAtom.readUInt32.2.endAtom.readString.1
      = [1, 2, 3, 4, 1, 2] ∧
    (ByteStreamReaderBase.ofStream 16 4
      (exStreamString [1, 2, 3, 4, 5, 6])).readUInt32.2.endAtom.readUInt32.2.endAtom.readString.2.Error
      = false ∧
    (ByteStreamReaderBase.ofStream 16 4
      (exStreamString [1, 2, 3, 4, 5, 6])).readUInt32.2.endAtom.readUInt32.2.endAtom.readString.2.length
      = 4 := by
  refine ⟨by decide, by decide, by decide, by decide⟩

/-- C16 (defect in `readBits32` and `readBits64`): for `Nbits = 0` the writer stores
no byte, yet the reader, whose loop tests `B >= Nbits` only after it has read,
consumes one byte and returns it: here the byte `0xAB`, not `V mod 2^0`. -/
theorem C16_read_zero_bits_consumes_a_byte :
    (exWriter.writeBits32 5 0).Pos = exWriter.Pos ∧
    ByteStreamWriterBase.emitted exWriter (exWriter.writeBits32 5 0) = [] ∧
    ((exReader [0, 0, 0, 0xAB, 0, 0, 0, 0, 0, 0, 0, 0, 0, 0, 0, 0] 3).readBits32 0).1 = 0xAB ∧
    ((exReader [0, 0, 0, 0xAB, 0, 0, 0, 0, 0, 0, 0, 0, 0, 0, 0, 0] 3).readBits32 0).2.Pos = 4 ∧
    (exWriter.writeBits64 5 0).Pos = exWriter.Pos ∧
    ((exReader [0, 0, 0, 0xAB, 0, 0, 0, 0, 0, 0, 0, 0, 0, 0, 0, 0] 3).readBits64 0).1 = 0xAB ∧
    ((exReader [0, 0, 0, 0xAB, 0, 0, 0, 0, 0, 0, 0, 0, 0, 0, 0, 0] 3).readBits64 0).2.Pos = 4 := by
  refine ⟨by decide, by decide, by decide, by decide, by decide, by decide, by decide⟩

/-- Bit-packed integers round trip for `Nbits` from 1 on.  With
`n = (Nbits + 7) / 8`, the number of bytes that hold `Nbits` bits, and room
for `n` bytes in the buffer: `writeBits32(V, Nbits)` with `Nbits ≤ 32` stores
exactly `n` bytes, byte `k` being byte `k` of `V` counted from the least
significant one, and `readBits32(Nbits)` on a buffer that holds these bytes at
the read position consumes exactly `n` bytes and returns `V mod 2^(8 n)`; the
same holds for `writeBits64` and `readBits64` with `Nbits ≤ 64`. -/
theorem bits_round_trip (w : ByteStreamWriterBase) (r : ByteStreamReaderBase)
    (pre post : List Nat) (V Nbits : Nat)
    (h1 : 1 ≤ Nbits) (hroom : w.Pos + (Nbits + 7) / 8 ≤ w.Buffer.length) :
    (Nbits ≤ 32 → V < 2 ^ 32 →
      (w.writeBits32 V Nbits).Pos = w.Pos + (Nbits + 7) / 8 ∧
      (ByteStreamWriterBase.emitted w (w.writeBits32 V Nbits)).length = (Nbits + 7) / 8 ∧
      (∀ k, k < (Nbits + 7) / 8 →
        (ByteStreamWriterBase.emitted w (w.writeBits32 V Nbits)).getD k 0
          = V / 2 ^ (8 * k) % 256) ∧
      (r.Buffer = pre ++ ByteStreamWriterBase.emitted w (w.writeBits32 V Nbits) ++ post →
        r.Pos = pre.length →
        r.readBits32 Nbits
          = (V % 2 ^ (8 * ((Nbits + 7) / 8)), { r with Pos := r.Pos + (Nbits + 7) / 8 }))) ∧
    (Nbits ≤ 64 → V < 2 ^ 64 →
      (w.writeBits64 V Nbits).Pos = w.Pos + (Nbits + 7) / 8 ∧
      (ByteStreamWriterBase.emitted w (w.writeBits64 V Nbits)).length = (Nbits + 7) / 8 ∧
      (∀ k, k < (Nbits + 7) / 8 →
        (ByteStreamWriterBase.emitted w (w.writeBits64 V Nbits)).getD k 0
          = V / 2 ^ (8 * k) % 256) ∧
      (r.Buffer = pre ++ ByteStreamWriterBase.emitted w (w.writeBits64 V Nbits) ++ post →
        r.Pos = pre.length →
        r.readBits64 Nbits
          = (V % 2 ^ (8 * ((Nbits + 7) / 8)), { r with Pos := r.Pos + (Nbits + 7) / 8 }))) := by
  constructor
  · intro h32 hV
    have hw := writeBits_emitted w V Nbits (Nbits / 8 + 1) (by omega) hroom
    simp only [ByteStreamWriterBase.writeBits32, Nat.mod_eq_of_lt hV]
    rw [hw.2]
    refine ⟨hw.1, bitsList_length _ _, fun k hk => bitsList_getD _ _ _ hk, ?_⟩
    intro hbuf hpos
    have := readBitsLoop_bitsList 32 ((Nbits + 7) / 8) (Nbits / 8 + 1) r pre post V 0 0 Nbits
      (by omega) (by omega) (by omega) (by omega) (by norm_num) (by omega) hbuf hpos
    simpa [ByteStreamReaderBase.readBits32] using this
  · intro h64 hV
    have hw := writeBits_emitted w V Nbits (Nbits / 8 + 1) (by omega) hroom
    simp only [ByteStreamWriterBase.writeBits64, Nat.mod_eq_of_lt hV]
    rw [hw.2]
    refine ⟨hw.1, bitsList_length _ _, fun k hk => bitsList_getD _ _ _ hk, ?_⟩
    intro hbuf hpos
    have := readBitsLoop_bitsList 64 ((Nbits + 7) / 8) (Nbits / 8 + 1) r pre post V 0 0 Nbits
      (by omega) (by omega) (by omega) (by omega) (by norm_num) (by omega) hbuf hpos
    simpa [ByteStreamReaderBase.readBits64] using this

/-- An instance of `bits_round_trip`: 12 bits of `0x1234` stored by `exWriter` occupy two
bytes; a reader that finds them at offset 3 returns `0x1234` and stands at
offset 5. -/
theorem bits_round_trip_example :
    (exWriter.writeBits32 0x1234 12).Pos = exWriter.Pos + 2 ∧
    (exReader [0, 0, 0, 0x34, 0x12, 0, 0, 0, 0, 0, 0, 0, 0, 0, 0, 0] 3).readBits32 12
      = (0x1234, { exReader [0, 0, 0, 0x34, 0x12, 0, 0, 0, 0, 0, 0, 0, 0, 0, 0, 0] 3
                    with Pos := 5 }) :=
  ⟨((bits_round_trip exWriter
      (exReader [0, 0, 0, 0x34, 0x12, 0, 0, 0, 0, 0, 0, 0, 0, 0, 0, 0] 3)
      [0, 0, 0] [0, 0, 0, 0, 0, 0, 0, 0, 0, 0, 0] 0x1234 12 (by decide) (by decide)).1
      (by decide) (by decide)).1,
   ((bits_round_trip exWriter
      (exReader [0, 0, 0, 0x34, 0x12, 0, 0, 0, 0, 0, 0, 0, 0, 0, 0, 0] 3)
      [0, 0, 0] [0, 0, 0, 0, 0, 0, 0, 0, 0, 0, 0] 0x1234 12 (by decide) (by decide)).1
      (by decide) (by decide)).2.2.2 (by decide) (by decide)⟩

/-! ## Claims C17 to C20: CFG reducer -/

/-- C17: the CFG that `convertSExprToCFG` produces.  For every expression `E` (and
whatever the nodes say about their blocks and their identity) a CFG is
returned; every block of it exists in the arena and has a terminator; every
block of it other than the entry block has at least one predecessor; and
every phi argument of every block of it holds exactly one value per
predecessor of the block. -/
theorem C17_reducer_cfg_invariants (P : Pointers) (E : SExpr) :
    ∃ G, (CFGRewriter.convertSExprToCFG P E).1 = some G ∧
      (∀ b ∈ G.Blocks, b < (CFGRewriter.convertSExprToCFG P E).2.length ∧
        (((CFGRewriter.convertSExprToCFG P E).2.getD b default).TermInstr).isSome) ∧
      (∀ b ∈ G.Blocks, b ≠ G.Entry →
        1 ≤ ((CFGRewriter.convertSExprToCFG P E).2.getD b default).Predecessors.length) ∧
      (∀ b ∈ G.Blocks, ∀ vs ∈ ((CFGRewriter.convertSExprToCFG P E).2.getD b default).Args,
        vs.length
          = ((CFGRewriter.convertSExprToCFG P E).2.getD b default).Predecessors.length) := by
  obtain ⟨w0, c0, k0, l0, g0⟩ := wf_initCFG
  obtain ⟨w, e, c, q⟩ := wf_traverseEnd_cont P 1 CFGRewriteReducer.init.initCFG.2
    (CFGRewriter.traverseByCase P E ⟨none⟩)
    (fun R => step_traverseByCase P (sizeOf E) E (le_refl _) R) w0 (by rw [c0]; rfl)
    (by rw [l0]; decide)
  obtain ⟨G, h1, h2, h3, h4, h5, h6⟩ := w
  have hx : G.Exit = 1 := by
    have := e.2.2
    rw [h1, g0] at this
    simp only [Option.map_some', Option.some.injEq, Prod.mk.injEq] at this
    exact this.2
  refine ⟨G, h1, ?_, ?_, ?_⟩
  · intro b hb
    exact ⟨h2 b hb, h3 b hb (by rw [c]; simp)⟩
  · intro b hb hne
    by_cases hbx : b = G.Exit
    · rw [hbx, hx]; exact q
    · exact h4 b hb hne hbx
  · intro b _ vs hvs
    exact h5 b vs hvs

/-- C18 (as stated, refuted): the CFG of
`IfThenElse(Literal(true), Literal(10), Literal(20))` has five blocks, not
four: besides the entry, the exit, the else and the then block there is the
continuation that `traverseIfThenElse` makes, block 2, to which the else and
the then block jump and which jumps to the exit block. -/
theorem C18_counterexample_five_blocks :
    (CFGRewriter.convertSExprToCFG exPointers exIfThenElse).1
      = some ⟨[0, 1, 4, 3, 2], 0, 1⟩ ∧
    ((CFGRewriter.convertSExprToCFG exPointers exIfThenElse).1.map
      (fun G => G.Blocks.length)) = some 5 ∧
    ((CFGRewriter.convertSExprToCFG exPointers exIfThenElse).1.map
      (fun G => G.Blocks.length)) ≠ some 4 := by
  refine ⟨by decide, by decide, by decide⟩

/-- C18 (amended): `convertSExprToCFG` applied to
`IfThenElse(Literal(true), Literal(10), Literal(20))` produces a CFG with
exactly 5 blocks, here in the order in which they join the CFG: the entry
block 0, the exit block 1, the else block 4, the then block 3 and a join
block 2.  The entry block branches on the literal to the then and the else
block; each of these has the entry block as its only predecessor and jumps to
the join block, the else block into phi slot 0 and the then block into phi
slot 1; the join block jumps to the exit block, which returns its phi
argument. -/
theorem C18_if_then_else_five_blocks (P : Pointers) :
    (CFGRewriter.convertSExprToCFG P exIfThenElse).1 = some ⟨[0, 1, 4, 3, 2], 0, 1⟩ ∧
    (CFGRewriter.convertSExprToCFG P exIfThenElse).2.length = 5 ∧
    (CFGRewriter.convertSExprToCFG P exIfThenElse).2.map (fun B => B.TermInstr)
      = [some (Terminator.Branch (SExpr.Literal 1 (LitVal.num 1)) 3 4),
         some (Terminator.Return (SExpr.Phi (some (1, 0)))),
         some (Terminator.Goto 1 0),
         some (Terminator.Goto 2 1),
         some (Terminator.Goto 2 0)] ∧
    (CFGRewriter.convertSExprToCFG P exIfThenElse).2.map (fun B => B.Predecessors)
      = [[], [some 2], [some 4, some 3], [some 0], [some 0]] := by
  rw [convert_exIfThenElse]
  exact ⟨by decide, by decide, rfl, by decide⟩

/-- C19 (as stated, refuted): in the CFG of
`IfThenElse(Literal(true), Literal(10), Literal(20))` the phi argument of the
exit block holds one value, the phi argument of the join block 2, and not the
values 10 and 20; the values 20 and 10, in this order, are those of the phi
argument of the join block. -/
theorem C19_counterexample_exit_phi :
    ((CFGRewriter.convertSExprToCFG exPointers exIfThenElse).2.getD 1 default).Args
      = [[SExpr.Phi (some (2, 0))]] ∧
    ((CFGRewriter.convertSExprToCFG exPointers exIfThenElse).2.getD 1 default).Args
      ≠ [[SExpr.Literal 7 (LitVal.num 10), SExpr.Literal 7 (LitVal.num 20)]] ∧
    ((CFGRewriter.convertSExprToCFG exPointers exIfThenElse).2.getD 2 default).Args
      = [[SExpr.Literal 7 (LitVal.num 20), SExpr.Literal 7 (LitVal.num 10)]] ∧
    ((CFGRewriter.convertSExprToCFG exPointers exIfThenElse).2.getD 2 default).Args
      ≠ [[SExpr.Literal 7 (LitVal.num 10), SExpr.Literal 7 (LitVal.num 20)]] := by
  have h1 : ((CFGRewriter.convertSExprToCFG exPointers exIfThenElse).2.getD 1 default).Args
      = [[SExpr.Phi (some (2, 0))]] := rfl
  have h2 : ((CFGRewriter.convertSExprToCFG exPointers exIfThenElse).2.getD 2 default).Args
      = [[SExpr.Literal 7 (LitVal.num 20), SExpr.Literal 7 (LitVal.num 10)]] := rfl
  refine ⟨h1, ?_, h2, ?_⟩
  · rw [h1]; simp
  · rw [h2]; simp

/-- C19 (amended): `convertSExprToCFG` applied to
`IfThenElse(Literal(true), Literal(10), Literal(20))` produces an exit block
(block 1) with exactly one phi argument, which holds exactly one value, the
phi argument of the join block (block 2), its only predecessor; the join
block has exactly one phi argument, whose values, listed in the order of its
predecessors (the else block 4, processed first, then the then block 3),
are `[20, 10]`. -/
theorem C19_if_then_else_phi_values (P : Pointers) :
    ((CFGRewriter.convertSExprToCFG P exIfThenElse).1.map (fun G => G.Exit)) = some 1 ∧
    ((CFGRewriter.convertSExprToCFG P exIfThenElse).2.getD 1 default).Args
      = [[SExpr.Phi (some (2, 0))]] ∧
    ((CFGRewriter.convertSExprToCFG P exIfThenElse).2.getD 1 default).Predecessors
      = [some 2] ∧
    ((CFGRewriter.convertSExprToCFG P exIfThenElse).2.getD 2 default).Args
      = [[SExpr.Literal 7 (LitVal.num 20), SExpr.Literal 7 (LitVal.num 10)]] ∧
    ((CFGRewriter.convertSExprToCFG P exIfThenElse).2.getD 2 default).Predecessors
      = [some 4, some 3] ∧
    ((CFGRewriter.convertSExprToCFG P exIfThenElse).2.getD 0 default).TermInstr
      = some (Terminator.Branch (SExpr.Literal 1 (LitVal.num 1)) 3 4) := by
  rw [convert_exIfThenElse]
  exact ⟨by decide, rfl, by decide, rfl, by decide, rfl⟩

/-- C20: the three cases of `CFGRewriter::traverse`.  Let `Result` and `R1` be the
node and the state that `traverseByCase(E, Ctx.subExpr(K), K)` returns.
(a) When the reducer has no current block, `traverse` returns `Result` and
`R1`, and `R1` has the blocks, the CFG, the pending instructions and the
failed assertions of the state before, and no current block.
(b) When the reducer is well-formed and has a current block and `Ctx` has no
continuation, `traverse` is `addInstruction(Result)` on `R1`: it returns
`Result`, changes no terminator, and a current block remains, the one of `R1`.
(c) When the reducer is well-formed and has a current block and `Ctx` has the
continuation `K`, an existing block, `traverse` returns null and leaves the
state of `createGoto(Result, K)` on `R1`: the current block `b` of `R1` is
terminated by a `Goto` to `K` whose phi slot is the number of predecessors
that `K` had, `b` is the new last predecessor of `K`, every phi argument of `K`
has a value for this slot, the first one the value `Result`, and no current
block remains. -/
theorem C20_traverse_cases (P : Pointers) (E : SExpr) (Ctx : ContextT)
    (R : CFGRewriteReducer) :
    (R.currentBB_ = none →
      CFGRewriter.traverse P E Ctx R = CFGRewriter.traverseByCase P E Ctx.subExpr R ∧
      R.Untouched (CFGRewriter.traverse P E Ctx R).2) ∧
    (R.WellFormed → R.currentBB_.isSome → Ctx.Continuation = none →
      CFGRewriter.traverse P E Ctx R
        = (CFGRewriter.traverseByCase P E Ctx.subExpr R).2.addInstruction P
            (CFGRewriter.traverseByCase P E Ctx.subExpr R).1 ∧
      (CFGRewriter.traverse P E Ctx R).1 = (CFGRewriter.traverseByCase P E Ctx.subExpr R).1 ∧
      (CFGRewriter.traverse P E Ctx R).2.currentBB_
        = (CFGRewriter.traverseByCase P E Ctx.subExpr R).2.currentBB_ ∧
      (CFGRewriter.traverse P E Ctx R).2.currentBB_.isSome ∧
      (∀ c, ((CFGRewriter.traverse P E Ctx R).2.blockAt c).TermInstr
        = ((CFGRewriter.traverseByCase P E Ctx.subExpr R).2.blockAt c).TermInstr)) ∧
    (R.WellFormed → R.currentBB_.isSome → ∀ K, Ctx.Continuation = some K →
      K < R.Arena.length →
      ∃ b, (CFGRewriter.traverseByCase P E Ctx.subExpr R).2.currentBB_ = some b ∧
        (CFGRewriter.traverse P E Ctx R).1 = SExpr.null ∧
        (CFGRewriter.traverse P E Ctx R).2
          = ((CFGRewriter.traverseByCase P E Ctx.subExpr R).2.createGoto
              (CFGRewriter.traverseByCase P E Ctx.subExpr R).1 K).2 ∧
        ((CFGRewriter.traverse P E Ctx R).2.blockAt b).TermInstr
          = some (Terminator.Goto K
              ((CFGRewriter.traverseByCase P E Ctx.subExpr R).2.blockAt K).Predecessors.length) ∧
        ((CFGRewriter.traverse P E Ctx R).2.blockAt K).Predecessors
          = ((CFGRewriter.traverseByCase P E Ctx.subExpr R).2.blockAt K).Predecessors
              ++ [some b] ∧
        (∀ vs ∈ ((CFGRewriter.traverse P E Ctx R).2.blockAt K).Args,
          vs.length
            = ((CFGRewriter.traverseByCase P E Ctx.subExpr R).2.blockAt K).Predecessors.length
              + 1) ∧
        (∀ vs, ((CFGRewriter.traverse P E Ctx R).2.blockAt K).Args.head? = some vs →
          vs.getD
            ((CFGRewriter.traverseByCase P E Ctx.subExpr R).2.blockAt K).Predecessors.length
            SExpr.null = (CFGRewriter.traverseByCase P E Ctx.subExpr R).1) ∧
        (CFGRewriter.traverse P E Ctx R).2.currentBB_ = none) := by
  have hsub : Ctx.subExpr = ⟨none⟩ := rfl
  rw [hsub]
  have hstep := step_traverseByCase P (sizeOf E) E (le_refl _) R
  refine ⟨fun hn => ?_, fun hw hcur hC => ?_, fun hw hcur K hC hK => ?_⟩
  · have hu := hstep.2 hn
    have h1 : (CFGRewriter.traverseByCase P E ⟨none⟩ R).2.currentBB_ = none :=
      hu.2.2.1.trans hn
    have : CFGRewriter.traverse P E Ctx R = CFGRewriter.traverseByCase P E ⟨none⟩ R := by
      simp [CFGRewriter.traverse, CFGRewriter.traverseEnd, ContextT.insideCFG, h1, hsub]
    rw [this]
    exact ⟨rfl, hu⟩
  · obtain ⟨w1, e1, s1⟩ := hstep.1 hw
    have hs := s1 hcur
    have : CFGRewriter.traverse P E Ctx R
        = (CFGRewriter.traverseByCase P E ⟨none⟩ R).2.addInstruction P
            (CFGRewriter.traverseByCase P E ⟨none⟩ R).1 := by
      simp [CFGRewriter.traverse, CFGRewriter.traverseEnd, ContextT.insideCFG,
        ContextT.continuation, hs, hC, hsub]
    rw [this]
    obtain ⟨a1, a2, a3, a4, a5⟩ := CFGRewriteReducer.addInstruction_spec P
      (CFGRewriter.traverseByCase P E ⟨none⟩ R).2 (CFGRewriter.traverseByCase P E ⟨none⟩ R).1
    exact ⟨rfl, a1, a3, by rw [a3]; exact hs, fun c => (a5 c).2.2⟩
  · obtain ⟨w1, e1, s1⟩ := hstep.1 hw
    have hs := s1 hcur
    obtain ⟨b, hb⟩ := Option.isSome_iff_exists.1 hs
    have hK1 : K < (CFGRewriter.traverseByCase P E ⟨none⟩ R).2.Arena.length :=
      Nat.lt_of_lt_of_le hK e1.1
    have : CFGRewriter.traverse P E Ctx R
        = (SExpr.null, ((CFGRewriter.traverseByCase P E ⟨none⟩ R).2.createGoto
            (CFGRewriter.traverseByCase P E ⟨none⟩ R).1 K).2) := by
      simp [CFGRewriter.traverse, CFGRewriter.traverseEnd, ContextT.insideCFG,
        ContextT.continuation, hs, hC, hsub]
    rw [this]
    obtain ⟨G, h1, h2, h3, h4, h5, h6⟩ := w1
    obtain ⟨_, g2, g3, g4, g5⟩ := CFGRewriteReducer.createGoto_spec
      (CFGRewriter.traverseByCase P E ⟨none⟩ R).2 (CFGRewriter.traverseByCase P E ⟨none⟩ R).1
      K b hb (h6 b hb) hK1
    refine ⟨b, hb, rfl, rfl, ?_, ?_, ?_, ?_, g3⟩
    · rw [(g5 b).2.2]; simp
    · rw [(g5 K).1]; simp
    · intro vs hvs
      rw [(g5 K).2.1] at hvs
      simp only [if_true] at hvs
      obtain ⟨ws, hws, hor⟩ := mem_modifyHead _ _ _ hvs
      obtain ⟨us, hus, rfl⟩ := List.mem_map.1 hws
      have := h5 K us hus
      rcases hor with h | h <;> simp [h, this]
    · intro vs hvs
      rw [(g5 K).2.1] at hvs
      simp only [if_true] at hvs
      cases hA : ((CFGRewriter.traverseByCase P E ⟨none⟩ R).2.blockAt K).Args with
      | nil => rw [hA] at hvs; simp at hvs
      | cons us rest =>
        rw [hA] at hvs
        simp only [List.map_cons, List.modifyHead_cons, List.head?_cons,
          Option.some.injEq] at hvs
        have hl := h5 K us (by rw [hA]; simp)
        rw [← hvs]
        rw [List.getD_eq_getElem?_getD, List.getElem?_set_self (by simp [hl])]
        rfl

/-- Witness of C20: the reducer after `initCFG`, which is well-formed and has the
entry block 0 as current block, traverses a literal with the exit block 1 as
continuation: null is returned, block 0 ends in a `Goto` to block 1 and phi
slot 0, and no current block remains. -/
theorem C20_traverse_cases_witness :
    ∃ b, (CFGRewriter.traverseByCase exPointers (SExpr.Literal 7 (LitVal.num 10))
            (ContextT.subExpr ⟨some 1⟩) CFGRewriteReducer.init.initCFG.2).2.currentBB_ = some b ∧
      (CFGRewriter.traverse exPointers (SExpr.Literal 7 (LitVal.num 10)) ⟨some 1⟩
        CFGRewriteReducer.init.initCFG.2).1 = SExpr.null ∧
      (CFGRewriter.traverse exPointers (SExpr.Literal 7 (LitVal.num 10)) ⟨some 1⟩
        CFGRewriteReducer.init.initCFG.2).2.currentBB_ = none :=
  match (C20_traverse_cases exPointers (SExpr.Literal 7 (LitVal.num 10)) ⟨some 1⟩
      CFGRewriteReducer.init.initCFG.2).2.2 wf_initCFG.1 (by decide) 1 rfl (by decide) with
  | ⟨b, hb, h1, _, _, _, _, _, h7⟩ => ⟨b, hb, h1, h7⟩

/-! ## Claims C21 to C23: createGoto, reduceLet, reduceIdentifier -/

/-- C21: `createGoto(Result, K)` in a state with the current block `b`, for an
existing target `K` whose first phi argument, when it has one, holds one value
per predecessor.  The call `K->addPredecessor(b)` returns the number of
predecessors that `K` had, and the `Goto` that is built carries `K` and this
index; `b` is the new last predecessor of `K`; the first phi argument of `K`
holds `Result` at this index, after the values it had, and every other phi
argument of `K` holds null there; the current block `b` is terminated with
this `Goto`; no other block gets a predecessor or a terminator; and the
reducer is left with no current block. -/
theorem C21_createGoto (R : CFGRewriteReducer) (Result : SExpr) (K b : Nat)
    (hb : R.currentBB_ = some b) (hv : b < R.Arena.length) (hK : K < R.Arena.length)
    (hphi : ∀ vs, (R.blockAt K).Args.head? = some vs →
      vs.length = (R.blockAt K).Predecessors.length) :
    (R.addPredecessor K R.currentBB_).1 = (R.blockAt K).Predecessors.length ∧
    (R.createGoto Result K).1 = Terminator.Goto K (R.addPredecessor K R.currentBB_).1 ∧
    ((R.createGoto Result K).2.blockAt K).Predecessors
      = (R.blockAt K).Predecessors ++ [some b] ∧
    (∀ vs, (R.blockAt K).Args.head? = some vs →
      ((R.createGoto Result K).2.blockAt K).Args.head? = some (vs ++ [Result]) ∧
      (vs ++ [Result]).getD (R.addPredecessor K R.currentBB_).1 SExpr.null = Result) ∧
    ((R.createGoto Result K).2.blockAt K).Args.tail
      = (R.blockAt K).Args.tail.map (fun vs => vs ++ [SExpr.null]) ∧
    ((R.createGoto Result K).2.blockAt b).TermInstr
      = some (Terminator.Goto K (R.addPredecessor K R.currentBB_).1) ∧
    (∀ c, c ≠ K →
      ((R.createGoto Result K).2.blockAt c).Predecessors = (R.blockAt c).Predecessors ∧
      ((R.createGoto Result K).2.blockAt c).Args = (R.blockAt c).Args) ∧
    (∀ c, c ≠ b →
      ((R.createGoto Result K).2.blockAt c).TermInstr = (R.blockAt c).TermInstr) ∧
    (R.createGoto Result K).2.currentBB_ = none := by
  obtain ⟨s1, _, s3, _, s5⟩ := CFGRewriteReducer.createGoto_spec R Result K b hb hv hK
  have hidx : (R.addPredecessor K R.currentBB_).1 = (R.blockAt K).Predecessors.length := rfl
  rw [hidx]
  refine ⟨rfl, s1, ?_, ?_, ?_, ?_, ?_, ?_, s3⟩
  · rw [(s5 K).1]; simp
  · intro vs hvs
    have hl := hphi vs hvs
    rw [(s5 K).2.1]
    simp only [if_true]
    cases hA : (R.blockAt K).Args with
    | nil => rw [hA] at hvs; simp at hvs
    | cons us rest =>
      rw [hA] at hvs
      simp only [List.head?_cons, Option.some.injEq] at hvs
      subst hvs
      simp only [List.map_cons, List.modifyHead_cons, List.head?_cons, Option.some.injEq]
      have : (us ++ [SExpr.null]).set (R.blockAt K).Predecessors.length Result
          = us ++ [Result] := by
        rw [← hl, List.set_append_right _ _ (le_refl _)]
        simp
      rw [this]
      refine ⟨rfl, ?_⟩
      rw [← hl, List.getD_append_right _ _ _ _ (le_refl _)]
      simp
  · rw [(s5 K).2.1]
    simp only [if_true]
    cases (R.blockAt K).Args <;> simp
  · rw [(s5 b).2.2]; simp
  · intro c hc
    rw [(s5 c).1, (s5 c).2.1]
    simp [hc]
  · intro c hc
    rw [(s5 c).2.2]
    simp [hc]

/-- Witness of C21: the reducer after `initCFG` has the entry block 0 as current
block; `createGoto` to the exit block 1 with a literal as result stores the
literal in slot 0 of the phi argument of the exit block. -/
theorem C21_createGoto_witness :
    ((CFGRewriteReducer.init.initCFG.2.createGoto
        (SExpr.Literal 7 (LitVal.num 10)) 1).2.blockAt 1).Predecessors = [] ++ [some 0] ∧
    ((CFGRewriteReducer.init.initCFG.2.createGoto
        (SExpr.Literal 7 (LitVal.num 10)) 1).2.blockAt 0).TermInstr
      = some (Terminator.Goto 1 0) ∧
    (CFGRewriteReducer.init.initCFG.2.createGoto
        (SExpr.Literal 7 (LitVal.num 10)) 1).2.currentBB_ = none :=
  ⟨(C21_createGoto CFGRewriteReducer.init.initCFG.2 (SExpr.Literal 7 (LitVal.num 10)) 1 0
      rfl (by decide) (by decide) (fun vs h => by
        have : vs = [] := by cases h; rfl
        rw [this]; rfl)).2.2.1,
   (C21_createGoto CFGRewriteReducer.init.initCFG.2 (SExpr.Literal 7 (LitVal.num 10)) 1 0
      rfl (by decide) (by decide) (fun vs h => by
        have : vs = [] := by cases h; rfl
        rw [this]; rfl)).2.2.2.2.2.1,
   (C21_createGoto CFGRewriteReducer.init.initCFG.2 (SExpr.Literal 7 (LitVal.num 10)) 1 0
      rfl (by decide) (by decide) (fun vs h => by
        have : vs = [] := by cases h; rfl
        rw [this]; rfl)).2.2.2.2.2.2.2.2⟩

/-- C22: `reduceLet`.  When the reducer has a current CFG, `reduceLet` returns the
reduced body `B` itself; when it has none, it returns a new `Let` node over
`Nvd` and `B`.  Accordingly the traversal of `Let(vd, body)` in a reducer at
work on a CFG returns what the traversal of `body` returns, after the scope
of `vd` is entered; in a reducer without CFG and without current block it
returns the `Let` node over the two results. -/
theorem C22_reduceLet (P : Pointers) (R : CFGRewriteReducer) (Orig Nvd B vd body : SExpr) :
    (R.currentCFG_.isSome → R.reduceLet Orig Nvd B = B) ∧
    (R.currentCFG_ = none → R.reduceLet Orig Nvd B = SExpr.Let Nvd B) ∧
    (R.WellFormed →
      (CFGRewriter.traverseByCase P (SExpr.Let vd body) ⟨none⟩ R).1
        = (CFGRewriter.traverse P body ⟨none⟩
            ((CFGRewriter.traverse P vd ⟨none⟩ R).2.enterScope P vd
              (CFGRewriter.traverse P vd ⟨none⟩ R).1)).1) ∧
    (R.currentCFG_ = none → R.currentBB_ = none →
      (CFGRewriter.traverseByCase P (SExpr.Let vd body) ⟨none⟩ R).1
        = SExpr.Let (CFGRewriter.traverse P vd ⟨none⟩ R).1
            (CFGRewriter.traverse P body ⟨none⟩
              ((CFGRewriter.traverse P vd ⟨none⟩ R).2.enterScope P vd
                (CFGRewriter.traverse P vd ⟨none⟩ R).1)).1) := by
  have T : ∀ (x : SExpr) (R : CFGRewriteReducer),
      R.Step (CFGRewriter.traverse P x ⟨none⟩ R).2 := fun x R =>
    (step_traverseByCase P (sizeOf x) x (le_refl _) R).stepTrans
      (step_traverseEnd P ⟨none⟩ rfl _)
  have chain : R.Step (((CFGRewriter.traverse P body ⟨none⟩
      ((CFGRewriter.traverse P vd ⟨none⟩ R).2.enterScope P vd
        (CFGRewriter.traverse P vd ⟨none⟩ R).1)).2).exitScope vd) :=
    (T vd R).stepTrans ((CFGRewriteReducer.step_enterScope P _ _ _).stepTrans
      ((T body _).stepTrans (CFGRewriteReducer.step_exitScope _ _)))
  refine ⟨fun h => ?_, fun h => ?_, fun hw => ?_, fun hg hn => ?_⟩
  · simp [CFGRewriteReducer.reduceLet, h]
  · simp [CFGRewriteReducer.reduceLet, h]
  · obtain ⟨G, hG, _⟩ := (chain.1 hw).1
    simp only [CFGRewriter.traverseByCase, CFGRewriteReducer.reduceLet]
    simp only [CFGRewriter.traverse, ContextT.subExpr] at hG
    simp only [ContextT.subExpr, hG, Option.isSome_some, if_true]
    rfl
  · have hu := chain.2 hn
    have hG : (((CFGRewriter.traverse P body ⟨none⟩
      ((CFGRewriter.traverse P vd ⟨none⟩ R).2.enterScope P vd
        (CFGRewriter.traverse P vd ⟨none⟩ R).1)).2).exitScope vd).currentCFG_ = none :=
      hu.2.1.trans hg
    simp only [CFGRewriter.traverseByCase, CFGRewriteReducer.reduceLet]
    simp only [CFGRewriter.traverse, ContextT.subExpr] at hG
    simp only [ContextT.subExpr, hG]
    rfl

/-- Witness of C22: the reducer after `initCFG` has a current CFG and returns the
body; the reducer before it has none and returns a `Let` node. -/
theorem C22_reduceLet_witness :
    CFGRewriteReducer.init.initCFG.2.reduceLet SExpr.null SExpr.Undefined SExpr.Wildcard
      = SExpr.Wildcard ∧
    CFGRewriteReducer.init.reduceLet SExpr.null SExpr.Undefined SExpr.Wildcard
      = SExpr.Let SExpr.Undefined SExpr.Wildcard :=
  ⟨(C22_reduceLet exPointers CFGRewriteReducer.init.initCFG.2 SExpr.null SExpr.Undefined
      SExpr.Wildcard SExpr.null SExpr.null).1 rfl,
   (C22_reduceLet exPointers CFGRewriteReducer.init SExpr.null SExpr.Undefined
      SExpr.Wildcard SExpr.null SExpr.null).2.1 rfl⟩

/-- C23: identifier resolution.  For a variable context of fewer than `2^32`
entries, all of them `VarDecl` nodes, and an identifier with the name `n`:
when the entry at index `i` has the name `n` and no entry pushed after it
has, `reduceIdentifier` returns that entry; when an entry has the name `n` at all, the value returned
is the last such entry; and the value returned is a copy of the identifier
exactly when no entry has the name `n`. -/
theorem C23_reduceIdentifier (R : CFGRewriteReducer) (n : List Nat)
    (hvd : ∀ V ∈ R.varCtx_.Vars, V.isVarDecl = true)
    (hsize : R.varCtx_.Vars.length < 2 ^ 32) :
    (∀ i, i < R.varCtx_.Vars.length → (R.varCtx_.Vars.getD i SExpr.null).name = n →
      (∀ j, i < j → j < R.varCtx_.Vars.length →
        (R.varCtx_.Vars.getD j SExpr.null).name ≠ n) →
      R.reduceIdentifier (SExpr.Identifier n) = R.varCtx_.Vars.getD i SExpr.null) ∧
    ((∃ V ∈ R.varCtx_.Vars, V.name = n) →
      ∃ i, i < R.varCtx_.Vars.length ∧
        R.reduceIdentifier (SExpr.Identifier n) = R.varCtx_.Vars.getD i SExpr.null ∧
        (R.varCtx_.Vars.getD i SExpr.null).name = n ∧
        ∀ j, i < j → j < R.varCtx_.Vars.length →
          (R.varCtx_.Vars.getD j SExpr.null).name ≠ n) ∧
    (R.reduceIdentifier (SExpr.Identifier n) = SExpr.Identifier n ↔
      ∀ V ∈ R.varCtx_.Vars, V.name ≠ n) := by
  have hmod : R.varCtx_.Vars.length % 2 ^ 32 = R.varCtx_.Vars.length :=
    Nat.mod_eq_of_lt hsize
  have hget : ∀ i, i < R.varCtx_.Vars.length →
      R.varCtx_.Vars.getD i SExpr.null ∈ R.varCtx_.Vars := by
    intro i hi
    rw [List.getD_eq_getElem _ _ hi]
    exact List.getElem_mem hi
  have hfound : ∀ i, i < R.varCtx_.Vars.length →
      (R.varCtx_.Vars.getD i SExpr.null).name = n →
      (∀ j, i < j → j < R.varCtx_.Vars.length →
        (R.varCtx_.Vars.getD j SExpr.null).name ≠ n) →
      R.reduceIdentifier (SExpr.Identifier n) = R.varCtx_.Vars.getD i SExpr.null := by
    intro i hi hn hl
    have hlook := lookupLoop_found R.varCtx_ n i _ hi hn hl
    have hv := hvd _ (hget i hi)
    simp only [CFGRewriteReducer.reduceIdentifier, SExpr.name, VarContext.lookup, hmod, hlook]
    cases hV : R.varCtx_.Vars.getD i SExpr.null <;> rw [hV] at hv <;>
      simp [SExpr.isVarDecl, SExpr.isNull] at hv ⊢
  have hlast : (∃ V ∈ R.varCtx_.Vars, V.name = n) →
      ∃ i, i < R.varCtx_.Vars.length ∧ (R.varCtx_.Vars.getD i SExpr.null).name = n ∧
        ∀ j, i < j → j < R.varCtx_.Vars.length →
          (R.varCtx_.Vars.getD j SExpr.null).name ≠ n := by
    rintro ⟨V, hV, hVn⟩
    obtain ⟨j, hj, rfl⟩ := List.getElem_of_mem hV
    exact exists_last_named R.varCtx_ n _ ⟨j, hj, by rw [List.getD_eq_getElem _ _ hj]; exact hVn⟩
  refine ⟨hfound, ?_, ?_, ?_⟩
  · intro h
    obtain ⟨i, hi, hn, hl⟩ := hlast h
    exact ⟨i, hi, hfound i hi hn hl, hn, hl⟩
  · intro h V hV hVn
    obtain ⟨i, hi, hn, hl⟩ := hlast ⟨V, hV, hVn⟩
    rw [hfound i hi hn hl] at h
    have hv := hvd _ (hget i hi)
    rw [h] at hv
    simp [SExpr.isVarDecl] at hv
  · intro h
    have hlook := lookupLoop_none R.varCtx_ n R.varCtx_.Vars.length
      (fun j hj => h _ (hget j hj))
    simp only [CFGRewriteReducer.reduceIdentifier, SExpr.name, VarContext.lookup, hmod, hlook]
    simp [SExpr.isNull]


/-- Witness of C23: in the context `x`, `y`, `x` the identifier `x` resolves to the
declaration of `x` pushed last, the entry at index 2. -/
theorem C23_reduceIdentifier_witness :
    CFGRewriteReducer.reduceIdentifier { CFGRewriteReducer.init with varCtx_ := exVarContext }
        (SExpr.Identifier [120])
      = SExpr.VarDecl 0 2 [120] (SExpr.Literal 7 (LitVal.num 3)) :=
  (C23_reduceIdentifier { CFGRewriteReducer.init with varCtx_ := exVarContext } [120]
    (by decide) (by decide)).1 2 (by decide) (by decide)
    (fun j h1 h2 => absurd h2 (by
      have : ¬ j < 3 := by omega
      exact this))

/-! ## Claims C24 to C26: parse results and the abstract stack -/

/-- C24: move-out empties the source.  For a result `r` that holds a single user
node (`resultKind_ >= PRS_UserDefined`, not a list), the assertion of
`getNode` holds, `getNode` returns the stored pointer and leaves `r` empty:
kind `PRS_None`, list flag false, null pointer; in particular for the result
that the node constructor builds from a kind of at least `PRS_UserDefined`.
The move constructor gives the new result, and the move assignment gives the
destination `d`, the rule ID, the kind, the list flag and the value of `r`,
and both leave `r` empty. -/
theorem C24_move_out_empties (r d : ParseResult) (kind node : Nat) :
    (r.resultKind_ ≥ PRS_UserDefined → r.isList_ = false →
      r.getNode.1 = true ∧ r.getNode.2.1 = r.result_.ptr_ ∧
      r.getNode.2.2.resultKind_ = PRS_None ∧ r.getNode.2.2.isList_ = false ∧
      r.getNode.2.2.result_.ptr_ = 0 ∧ r.getNode.2.2.empty = true) ∧
    (PRS_UserDefined ≤ kind → kind < 2 ^ 16 →
      (ParseResult.ofNode kind node).1 = true ∧
      (ParseResult.ofNode kind node).2.getNode.1 = true ∧
      (ParseResult.ofNode kind node).2.getNode.2.1 = node ∧
      (ParseResult.ofNode kind node).2.getNode.2.2.empty = true) ∧
    (r.move.1.ruleID_ = r.ruleID_ ∧ r.move.1.resultKind_ = r.resultKind_ ∧
      r.move.1.isList_ = r.isList_ ∧ r.move.1.result_ = r.result_ ∧
      r.move.2.resultKind_ = PRS_None ∧ r.move.2.isList_ = false ∧
      r.move.2.result_.ptr_ = 0 ∧ r.move.2.empty = true) ∧
    ((ParseResult.assign d r).1.ruleID_ = r.ruleID_ ∧
      (ParseResult.assign d r).1.resultKind_ = r.resultKind_ ∧
      (ParseResult.assign d r).1.isList_ = r.isList_ ∧
      (ParseResult.assign d r).1.result_ = r.result_ ∧
      (ParseResult.assign d r).2.resultKind_ = PRS_None ∧
      (ParseResult.assign d r).2.isList_ = false ∧
      (ParseResult.assign d r).2.result_.ptr_ = 0 ∧
      (ParseResult.assign d r).2.empty = true) := by
  refine ⟨fun hk hl => ?_, fun h1 h2 => ?_, ?_, ?_⟩
  · simp [ParseResult.getNode, ParseResult.release, ParseResult.empty, hk, hl]
  · have hm : kind % 65536 = kind := Nat.mod_eq_of_lt h2
    simp [ParseResult.ofNode, ParseResult.getNode, ParseResult.release, ParseResult.empty,
      hm, h1]
  · simp [ParseResult.move, ParseResult.release, ParseResult.empty]
  · simp [ParseResult.assign, ParseResult.release, ParseResult.empty]

/-- Witness of C24: the result built from the kind `PRS_UserDefined` and the node
at address 1000: `getNode` returns 1000 and leaves the result empty. -/
theorem C24_move_out_empties_witness :
    (ParseResult.ofNode 2 1000).2.getNode.2.1 = 1000 ∧
    (ParseResult.ofNode 2 1000).2.getNode.2.2.empty = true :=
  ⟨((C24_move_out_empties ParseResult.new ParseResult.new 2 1000).2.1
      (by decide) (by decide)).2.2.1,
   ((C24_move_out_empties ParseResult.new ParseResult.new 2 1000).2.1
      (by decide) (by decide)).2.2.2⟩

/-- C25 (defect in `getNodeList`): for the result that the list constructor builds
from a kind of at least `PRS_UserDefined` and a list, the assertion of
`getNodeList`, which is `resultKind_ >= PRS_UserDefined && isList_ == false`,
the assertion of `getNode`, does not hold.  In a build without assertions
`getNodeList` returns the stored list and leaves the result empty. -/
theorem C25_getNodeList_assertion_fails (kind pl : Nat) :
    (ParseResult.ofList kind pl).2.isList_ = true ∧
    (ParseResult.ofList kind pl).2.getNodeList.1 = false ∧
    (ParseResult.ofList kind pl).2.getNodeList.2.1 = pl ∧
    (ParseResult.ofList kind pl).2.getNodeList.2.2.empty = true ∧
    (ParseResult.ofList 2 1000).1 = true ∧
    (ParseResult.ofList 2 1000).2.getNodeList = (false, 1000, ⟨0, 0, false, ⟨0, 0⟩⟩) := by
  refine ⟨rfl, ?_, rfl, ?_, by decide, by decide⟩
  · simp [ParseResult.ofList, ParseResult.getNodeList]
  · simp [ParseResult.ofList, ParseResult.getNodeList, ParseResult.release,
      ParseResult.empty]

/-- C26 (as stated, refuted): on the stack `exBigStack`, whose only slot that
holds the name `s` is slot `0xFFFF`, `getIndex(s)` returns `0xFFFF`, which is
`InvalidIndex`, although a slot of the stack holds `s`. -/
theorem C26_counterexample_index_is_invalid_index :
    exBigStack.getIndex [115] = AbstractStack.InvalidIndex ∧
    exBigStack.getIndex [115] < exBigStack.size ∧
    exBigStack.stack_.getD (exBigStack.getIndex [115]) [] = [115] := by
  obtain ⟨h1, h2, h3⟩ := exBigStack_facts
  have hn : exBigStack.stack_.length % 2 ^ 32 = 0x10000 := by rw [h1]; decide
  have hg : exBigStack.getIndex [115] = 0xFFFF := by
    simp only [AbstractStack.getIndex, hn]
    exact getIndexLoop_found exBigStack [115] 0x10000 0xFFFF (by decide) h2 0x10000 0
      (Nat.zero_le _) (by decide) (fun j _ hj => h3 j hj)
  refine ⟨hg, ?_, ?_⟩
  · rw [hg, AbstractStack.size, hn]; decide
  · rw [hg]; exact h2

/-- C26 (amended): `getIndex` on a stack of fewer than `2^32` names.  When a slot
holds a name equal to `s`, `getIndex(s)` returns the smallest index of such a
slot, an index below `size()`; when no slot holds `s`, it returns
`InvalidIndex`; and for a stack of at most `0xFFFF` names, so that every index
is below `InvalidIndex`, it returns `InvalidIndex` exactly when no slot holds
`s`. -/
theorem C26_getIndex (A : AbstractStack) (s : List Nat) (hsize : A.stack_.length < 2 ^ 32) :
    ((∃ j, j < A.stack_.length ∧ A.stack_.getD j [] = s) →
      A.getIndex s < A.size ∧ A.stack_.getD (A.getIndex s) [] = s ∧
      ∀ j, j < A.getIndex s → A.stack_.getD j [] ≠ s) ∧
    ((∀ j, j < A.stack_.length → A.stack_.getD j [] ≠ s) →
      A.getIndex s = AbstractStack.InvalidIndex) ∧
    (A.stack_.length ≤ 0xFFFF →
      (A.getIndex s = AbstractStack.InvalidIndex ↔
        ∀ j, j < A.stack_.length → A.stack_.getD j [] ≠ s)) := by
  have hn : A.stack_.length % 2 ^ 32 = A.stack_.length := Nat.mod_eq_of_lt hsize
  have hfound : (∃ j, j < A.stack_.length ∧ A.stack_.getD j [] = s) →
      ∃ m, m < A.stack_.length ∧ A.getIndex s = m ∧ A.stack_.getD m [] = s ∧
        ∀ j, j < m → A.stack_.getD j [] ≠ s := by
    intro h
    obtain ⟨m, hm, h1, h2⟩ := exists_first_named A.stack_ s _ h
    refine ⟨m, hm, ?_, h1, h2⟩
    simp only [AbstractStack.getIndex, hn]
    exact getIndexLoop_found A s _ m hm h1 _ 0 (Nat.zero_le _) (by omega)
      (fun j _ hj => h2 j hj)
  have hnone : (∀ j, j < A.stack_.length → A.stack_.getD j [] ≠ s) →
      A.getIndex s = AbstractStack.InvalidIndex := by
    intro h
    simp only [AbstractStack.getIndex, hn]
    exact getIndexLoop_none A s _ _ 0 (fun j _ hj => h j hj)
  refine ⟨fun h => ?_, hnone, fun hsmall => ⟨fun h j hj hc => ?_, hnone⟩⟩
  · obtain ⟨m, hm, h1, h2, h3⟩ := hfound h
    rw [h1, AbstractStack.size, hn]
    exact ⟨hm, h2, h3⟩
  · obtain ⟨m, hm, h1, _, _⟩ := hfound ⟨j, hj, hc⟩
    rw [h1] at h
    have : m < 0xFFFF := by omega
    rw [h] at this
    exact absurd this (by decide)

/-- Witness of C26 (amended): on the stack `x`, `y`, `x` the name `x` has the
index 0, the smallest one of the two slots that hold it. -/
theorem C26_getIndex_witness :
    AbstractStack.getIndex ⟨0, [[120], [121], [120]]⟩ [120]
        < AbstractStack.size ⟨0, [[120], [121], [120]]⟩ ∧
    List.getD [[120], [121], [120]]
        (AbstractStack.getIndex ⟨0, [[120], [121], [120]]⟩ [120]) [] = [120] :=
  ⟨((C26_getIndex ⟨0, [[120], [121], [120]]⟩ [120] (by decide)).1
      ⟨2, by decide, by decide⟩).1,
   ((C26_getIndex ⟨0, [[120], [121], [120]]⟩ [120] (by decide)).1
      ⟨2, by decide, by decide⟩).2.1⟩


/-! ## Claim C27: the reconstruction stack -/

/-- C27 (as stated, refuted): `readUndefined` pops nothing and pushes one value:
on the empty stack of a reader in its initial state it leaves one value, a
net change of +1 and not of 0. -/
theorem C27_counterexample_leaf_pushes :
    (BytecodeReader.ofStream 64 20 []).Stack.length = 0 ∧
    (BytecodeReader.readUndefined (BytecodeReader.ofStream 64 20 [])).Stack.length = 1 ∧
    (BytecodeReader.readUndefined (BytecodeReader.ofStream 64 20 [])).Stack.length
      ≠ (BytecodeReader.ofStream 64 20 []).Stack.length := by
  refine ⟨by decide, by decide, by decide⟩


/-- C27 (amended): the effect of the readers on the reconstruction stack.  The
readers of `ScalarType`, `Literal`, `Variable`, `Undefined`, `Wildcard` and
`Identifier` pop nothing and push exactly one value, a net change of +1.  On
a stack with enough values, the readers of `Apply`, `Function`, `Code`,
`Field`, `Store`, `ArrayIndex`, `ArrayAdd`, `BinaryOp` and `Let` pop two
values and push one (net -1), `readIfThenElse` pops three and pushes one (net
-2), `readRecord` pops the parent and the `Ns` slots and pushes one (net
`-Ns`); `readGoto` pops `numArgs` values, `readBranch` and `readReturn` pop
one, `readSwitch` pops `numCases + 1`, and these four push nothing.  What lies
below the popped values stays as it is. -/
theorem C27_stack_effect (T : Tables) (r : BytecodeReader) :
    (r.PopsAndPushesOne r.readScalarType 0 ∧
      r.PopsAndPushesOne (BytecodeReader.readLiteral T r) 0 ∧
      r.PopsAndPushesOne r.readVariable 0 ∧
      r.PopsAndPushesOne r.readUndefined 0 ∧
      r.PopsAndPushesOne r.readWildcard 0 ∧
      r.PopsAndPushesOne r.readIdentifier 0) ∧
    (2 ≤ r.Stack.length →
      r.PopsAndPushesOne r.readApply 2 ∧
      r.PopsAndPushesOne r.readFunction 2 ∧
      r.PopsAndPushesOne r.readCode 2 ∧
      r.PopsAndPushesOne r.readField 2 ∧
      r.PopsAndPushesOne r.readStore 2 ∧
      r.PopsAndPushesOne r.readArrayIndex 2 ∧
      r.PopsAndPushesOne r.readArrayAdd 2 ∧
      r.PopsAndPushesOne r.readBinaryOp 2 ∧
      r.PopsAndPushesOne r.readLet 2 ∧
      r.readApply.Stack.length + 1 = r.Stack.length) ∧
    (3 ≤ r.Stack.length →
      r.PopsAndPushesOne r.readIfThenElse 3 ∧
      r.readIfThenElse.Stack.length + 2 = r.Stack.length) ∧
    (r.Stack.length < 2 ^ 31 → r.readUInt32.1 + 1 ≤ r.Stack.length →
      r.PopsAndPushesOne r.readRecord (r.readUInt32.1 + 1) ∧
      r.readRecord.Stack.length + r.readUInt32.1 = r.Stack.length) ∧
    (r.Stack.length < 2 ^ 31 → r.readUInt32.1 ≤ r.Stack.length →
      r.PopsOnly (BytecodeReader.readGoto T r) r.readUInt32.1) ∧
    (1 ≤ r.Stack.length →
      r.PopsOnly (BytecodeReader.readBranch T r) 1 ∧ r.PopsOnly r.readReturn 1) ∧
    (r.Stack.length < 2 ^ 31 → r.readUInt32.1 + 1 ≤ r.Stack.length →
      r.PopsOnly (BytecodeReader.readSwitch T r) (r.readUInt32.1 + 1)) := by
  refine ⟨⟨?_, ?_, ?_, ?_, ?_, ?_⟩, fun h2 => ⟨?_, ?_, ?_, ?_, ?_, ?_, ?_, ?_, ?_, ?_⟩,
    fun h3 => ⟨?_, ?_⟩, fun _ hk => ⟨?_, ?_⟩, fun _ _ => ?_, fun _ => ⟨?_, ?_⟩, fun _ _ => ?_⟩
  · exact BytecodeReader.push_spec r _ rfl _
  · unfold BytecodeReader.readLiteral
    simp only
    split
    · exact BytecodeReader.push_spec r _ rfl _
    · exact BytecodeReader.push_spec r _ rfl _
  · unfold BytecodeReader.readVariable
    refine BytecodeReader.push_spec r _ ?_ _
    simp only [BytecodeReader.getVarDecl_Stack, BytecodeReader.readUInt32]
  · exact BytecodeReader.push_spec r _ rfl _
  · exact BytecodeReader.push_spec r _ rfl _
  · exact BytecodeReader.push_spec r _ rfl _
  · exact BytecodeReader.drop_push_spec r _ rfl _ _
  · exact BytecodeReader.drop_push_spec r _ rfl _ _
  · exact BytecodeReader.drop_push_spec r _ rfl _ _
  · exact BytecodeReader.drop_push_spec r _ rfl _ _
  · exact BytecodeReader.drop_push_spec r _ rfl _ _
  · exact BytecodeReader.drop_push_spec r _ rfl _ _
  · exact BytecodeReader.drop_push_spec r _ rfl _ _
  · exact BytecodeReader.drop_push_spec r _ rfl _ _
  · exact BytecodeReader.drop_push_spec r _ rfl _ _
  · have h := (BytecodeReader.drop_push_spec r r.readFlag.2 rfl 2
      (SExpr.Apply (r.readFlag.2.arg 1) (r.readFlag.2.arg 0) r.readFlag.1)).1
    have h1 : r.readApply.Stack.length = r.Stack.length - 2 + 1 := h
    omega
  · exact BytecodeReader.drop_push_spec r _ rfl _ _
  · have h := (BytecodeReader.drop_push_spec r r rfl 3
      (SExpr.IfThenElse (r.arg 2) (r.arg 1) (r.arg 0))).1
    have h1 : r.readIfThenElse.Stack.length = r.Stack.length - 3 + 1 := h
    omega
  · exact BytecodeReader.drop_push_spec r _ rfl _ _
  · have h := (BytecodeReader.drop_push_spec r r.readUInt32.2 rfl (r.readUInt32.1 + 1)
      (SExpr.Record (r.readUInt32.2.arg r.readUInt32.1)
        ((List.range r.readUInt32.1).map
          (fun j => (r.readUInt32.2.arg (r.readUInt32.1 - 1 - j)).dynCastSlot)))).1
    have h1 : r.readRecord.Stack.length = r.Stack.length - (r.readUInt32.1 + 1) + 1 := h
    omega
  · unfold BytecodeReader.readGoto
    refine BytecodeReader.drop_spec r _ ?_ _
    simp only [BytecodeReader.getBlock_Stack, BytecodeReader.readUInt32]
  · unfold BytecodeReader.readBranch
    refine BytecodeReader.drop_spec r _ ?_ _
    simp only [BytecodeReader.getBlock_Stack, BytecodeReader.readUInt32]
  · exact BytecodeReader.drop_spec r _ rfl _
  · unfold BytecodeReader.readSwitch
    refine BytecodeReader.drop_spec r _ ?_ _
    simp only [BytecodeReader.readSwitchCases_Stack, BytecodeReader.readUInt32]

/-- Witness of C27 (amended): on a stack of three values `readIfThenElse` leaves
one value, and `readReturn` leaves the two values below the top. -/
theorem C27_stack_effect_witness :
    (BytecodeReader.readIfThenElse { BytecodeReader.ofStream 64 20 [] with
        Stack := [SExpr.Undefined, SExpr.Wildcard, SExpr.Undefined] }).Stack.length + 2 = 3 ∧
    BytecodeReader.PopsOnly
      { BytecodeReader.ofStream 64 20 [] with
        Stack := [SExpr.Undefined, SExpr.Wildcard, SExpr.Undefined] }
      (BytecodeReader.readReturn { BytecodeReader.ofStream 64 20 [] with
        Stack := [SExpr.Undefined, SExpr.Wildcard, SExpr.Undefined] }) 1 :=
  ⟨((C27_stack_effect exTables { BytecodeReader.ofStream 64 20 [] with
        Stack := [SExpr.Undefined, SExpr.Wildcard, SExpr.Undefined] }).2.2.1
      (by decide)).2,
   ((C27_stack_effect exTables { BytecodeReader.ofStream 64 20 [] with
        Stack := [SExpr.Undefined, SExpr.Wildcard, SExpr.Undefined] }).2.2.2.2.2.1
      (by decide)).2⟩

/-! ## Claims C28 to C30: `readBytes` and the tail reserve of the writer -/

/-- C28 (defect in `readBytes`): when `Size` exceeds the bytes in the buffer,
`readBytes` copies the buffered bytes out but does not advance `Pos` past
them.  With the bytes 1 to 4 buffered and 5, 6 in the source, `readBytes(6)`
takes the refill path and returns 1, 2, 3, 4, 1, 2 with the error flag
clear, leaving 3, 4, 5, 6 unread.  With 5 to 12 in the source,
`readBytes(12)` takes the direct read of the source: it returns 1 to 12, but
the reader is not positioned after them, the bytes 1, 2, 3, 4 are unread
again. -/
theorem C28_readBytes_keeps_buffered_bytes :
    (exAfterHeader [1, 2, 3, 4, 5, 6]).pending = [1, 2, 3, 4, 5, 6] ∧
    (exAfterHeader [1, 2, 3, 4, 5, 6]).length = 4 ∧
    ((exAfterHeader [1, 2, 3, 4, 5, 6]).readBytes 6).1 = [1, 2, 3, 4, 1, 2] ∧
    ((exAfterHeader [1, 2, 3, 4, 5, 6]).readBytes 6).2.Error = false ∧
    ((exAfterHeader [1, 2, 3, 4, 5, 6]).readBytes 6).2.pending = [3, 4, 5, 6] ∧
    (exAfterHeader [1, 2, 3, 4, 5, 6, 7, 8, 9, 10, 11, 12]).pending
      = [1, 2, 3, 4, 5, 6, 7, 8, 9, 10, 11, 12] ∧
    ((exAfterHeader [1, 2, 3, 4, 5, 6, 7, 8, 9, 10, 11, 12]).readBytes 12).1
      = [1, 2, 3, 4, 5, 6, 7, 8, 9, 10, 11, 12] ∧
    ((exAfterHeader [1, 2, 3, 4, 5, 6, 7, 8, 9, 10, 11, 12]).readBytes 12).2.Error = false ∧
    ((exAfterHeader [1, 2, 3, 4, 5, 6, 7, 8, 9, 10, 11, 12]).readBytes 12).2.pending
      = [1, 2, 3, 4] := by
  refine ⟨by decide, by decide, by decide, by decide, by decide, by decide, by decide,
    by decide, by decide⟩

/-- C29 (defect in `readBytes`): a short read leaves the error flag clear.  With
seven unread bytes, four of them buffered, `readBytes(12)` reads the source
directly, gets three bytes for the eight it asks for, sets `Eof` and
returns: seven bytes are delivered and `Error` is clear.  With five unread
bytes, four of them buffered, `readBytes(6)` refills, counts the four
buffered bytes a second time, and returns 1, 2, 3, 4, 1, 2 with `Error`
clear. -/
theorem C29_short_read_leaves_error_clear :
    (exAfterHeader [1, 2, 3, 4, 5, 6, 7]).pending = [1, 2, 3, 4, 5, 6, 7] ∧
    (exAfterHeader [1, 2, 3, 4, 5, 6, 7]).Eof = false ∧
    ((exAfterHeader [1, 2, 3, 4, 5, 6, 7]).readBytes 12).1 = [1, 2, 3, 4, 5, 6, 7] ∧
    ((exAfterHeader [1, 2, 3, 4, 5, 6, 7]).readBytes 12).2.Eof = true ∧
    ((exAfterHeader [1, 2, 3, 4, 5, 6, 7]).readBytes 12).2.Error = false ∧
    (exAfterHeader [1, 2, 3, 4, 5]).pending = [1, 2, 3, 4, 5] ∧
    ((exAfterHeader [1, 2, 3, 4, 5]).readBytes 6).1 = [1, 2, 3, 4, 1, 2] ∧
    ((exAfterHeader [1, 2, 3, 4, 5]).readBytes 6).2.Error = false := by
  refine ⟨by decide, by decide, by decide, by decide, by decide, by decide, by decide,
    by decide⟩

/-- C30: tail reserve of the writer.  When fewer than `MaxAtomSize` bytes are free
at `endAtom`, the buffer is flushed: the bytes written to the buffer are
handed to the sink, after what the sink already holds, and the position
returns to 0; in every case `endAtom` keeps the bytes that the writer has
accepted, in the sink or in the buffer, as they are.  For a buffer of
`BufferSize` bytes with `BufferSize > MaxAtomSize`, after `endAtom` at least
`MaxAtomSize` bytes are free, so the stores `Buffer[Pos++] = b` of an atom
`bs` of at most `MaxAtomSize` bytes all fall inside the buffer: store `i`
writes at an index below `BufferSize`, `Pos` ends at most at `BufferSize`,
and the buffer holds the bytes of the atom where `endAtom` left `Pos`. -/
theorem C30_tail_reserve (w : ByteStreamWriterBase) (bs : List Nat)
    (hbuf : w.Buffer.length = w.BufferSize) (hmax : w.MaxAtomSize < w.BufferSize)
    (hbs : bs.length ≤ w.MaxAtomSize) :
    (w.length < (w.MaxAtomSize : Int) →
      w.endAtom = w.flush ∧
      w.endAtom.Sink = w.Sink ++ w.Buffer.take w.Pos ∧
      w.endAtom.Pos = 0) ∧
    w.endAtom.Sink ++ w.endAtom.Buffer.take w.endAtom.Pos
      = w.Sink ++ w.Buffer.take w.Pos ∧
    (w.MaxAtomSize : Int) ≤ w.endAtom.length ∧
    w.endAtom.Pos + w.MaxAtomSize ≤ w.BufferSize ∧
    (∀ i, i < bs.length → w.endAtom.Pos + i < w.BufferSize) ∧
    (w.endAtom.storeAll bs).Pos = w.endAtom.Pos + bs.length ∧
    (w.endAtom.storeAll bs).Pos ≤ w.BufferSize ∧
    (w.endAtom.storeAll bs).Buffer.length = w.BufferSize ∧
    ((w.endAtom.storeAll bs).Buffer.drop w.endAtom.Pos).take bs.length
      = bs.map (fun b => b % 256) ∧
    (w.endAtom.storeAll bs).Sink = w.endAtom.Sink := by
  have hE : w.endAtom.Pos + w.MaxAtomSize ≤ w.BufferSize ∧
      w.endAtom.Buffer = w.Buffer ∧ w.endAtom.BufferSize = w.BufferSize ∧
      w.endAtom.MaxAtomSize = w.MaxAtomSize := by
    unfold ByteStreamWriterBase.endAtom
    split
    · simp only [ByteStreamWriterBase.flush]
      refine ⟨by simp only [Nat.zero_add]; omega, ?_, ?_, ?_⟩ <;> split <;> rfl
    · rename_i h
      simp only [ByteStreamWriterBase.length] at h
      exact ⟨by omega, rfl, rfl, rfl⟩
  obtain ⟨hp, hb, hs, hm⟩ := hE
  have hroom : w.endAtom.Pos + bs.length ≤ w.endAtom.Buffer.length := by
    rw [hb, hbuf]; omega
  obtain ⟨h1, h2, _, h4, _, h6⟩ := ByteStreamWriterBase.storeAll_spec bs w.endAtom hroom
  have hfl := ByteStreamWriterBase.flush_accepted w
  have hkeep : w.endAtom.Sink ++ w.endAtom.Buffer.take w.endAtom.Pos
      = w.Sink ++ w.Buffer.take w.Pos := by
    unfold ByteStreamWriterBase.endAtom
    split
    · rw [hfl.1, hfl.2, List.take_zero, List.append_nil]
      rfl
    · rfl
  refine ⟨?_, hkeep, ?_, hp, ?_, h1, ?_, ?_, h6, h4⟩
  · intro hlt
    have he : w.endAtom = w.flush := by
      unfold ByteStreamWriterBase.endAtom
      rw [if_pos (le_of_lt hlt)]
    refine ⟨he, ?_, ?_⟩
    · rw [he, hfl.1]; rfl
    · rw [he, hfl.2]
  · simp only [ByteStreamWriterBase.length, hs]
    omega
  · intro i hi; omega
  · rw [h1]; omega
  · rw [h2, hb, hbuf]

/-- Witness of C30: a writer with a buffer of 16 bytes, atoms of at most 4 bytes
and 13 bytes written has 3 bytes free; `endAtom` hands the 13 bytes to the
sink and returns to position 0; the four bytes of the next atom then go to
the offsets 0 to 3. -/
theorem C30_tail_reserve_witness :
    (ByteStreamWriterBase.mk 16 4
      [1, 2, 3, 4, 5, 6, 7, 8, 9, 10, 11, 12, 13, 0, 0, 0] 13 []).endAtom.Sink
      = [] ++ List.take 13 [1, 2, 3, 4, 5, 6, 7, 8, 9, 10, 11, 12, 13, 0, 0, 0] ∧
    (((ByteStreamWriterBase.mk 16 4
      [1, 2, 3, 4, 5, 6, 7, 8, 9, 10, 11, 12, 13, 0, 0, 0] 13 []).endAtom.storeAll
      [1, 2, 3, 4]).Pos ≤ 16) :=
  ⟨((C30_tail_reserve (ByteStreamWriterBase.mk 16 4
      [1, 2, 3, 4, 5, 6, 7, 8, 9, 10, 11, 12, 13, 0, 0, 0] 13 []) [1, 2, 3, 4]
      (by decide) (by decide) (by decide)).1 (by decide)).2.1,
   (C30_tail_reserve (ByteStreamWriterBase.mk 16 4
      [1, 2, 3, 4, 5, 6, 7, 8, 9, 10, 11, 12, 13, 0, 0, 0] 13 []) [1, 2, 3, 4]
      (by decide) (by decide) (by decide)).2.2.2.2.2.2.1⟩

/-! ## Claims C31 to C35: `writeBytes`, the tables of the reader, `finishBlock` and the result stack -/

/-- C31: a sequence of `writeBytes` calls followed by `flush`.  For a writer whose
buffer has `BufferSize` bytes and whose position is inside it, and data
`Ds` made of bytes: after the calls `writeBytes(D)` for the `D` of `Ds`, in
order, and `flush`, the sink holds what the writer had accepted before,
followed by the concatenation of `Ds`; for a writer that starts empty the
sink holds exactly the concatenation of `Ds`.  After every call of the
sequence the write position is at most `BufferSize`. -/
theorem C31_writeBytes_then_flush (w : ByteStreamWriterBase) (Ds : List (List Nat))
    (hbuf : w.Buffer.length = w.BufferSize) (hpos : w.Pos ≤ w.BufferSize)
    (hbytes : ∀ D ∈ Ds, ∀ b ∈ D, b < 256) :
    (w.writeAll Ds).flush.Sink = w.Sink ++ w.Buffer.take w.Pos ++ Ds.flatten ∧
    (w.Pos = 0 → w.Sink = [] → (w.writeAll Ds).flush.Sink = Ds.flatten) ∧
    (∀ k, (w.writeAll (Ds.take k)).Pos ≤ w.BufferSize) ∧
    (w.writeAll Ds).flush.Pos = 0 := by
  have hall := ByteStreamWriterBase.writeAll_spec Ds w hbuf hpos hbytes
  have hsink : (w.writeAll Ds).flush.Sink = w.Sink ++ w.Buffer.take w.Pos ++ Ds.flatten := by
    rw [(ByteStreamWriterBase.flush_accepted _).1, hall.2.2.2]
    rfl
  refine ⟨hsink, ?_, ?_, (ByteStreamWriterBase.flush_accepted _).2⟩
  · intro h0 hs
    rw [hsink, h0, hs, List.take_zero]
    rfl
  · intro k
    exact (ByteStreamWriterBase.writeAll_spec (Ds.take k) w hbuf hpos
      (fun D hD => hbytes D (List.mem_of_mem_take hD))).2.2.1

/-- Witness of C31: a writer with a buffer of 16 bytes, atoms of at most 4 bytes,
and three writes of 3, 9 and 1 bytes, the second one large enough to go to
the sink directly: the sink receives the 13 bytes in order. -/
theorem C31_writeBytes_then_flush_witness :
    ((ByteStreamWriterBase.mk 16 4 (List.replicate 16 0) 0 []).writeAll
      [[1, 2, 3], [4, 5, 6, 7, 8, 9, 10, 11, 12], [13]]).flush.Sink
      = [[1, 2, 3], [4, 5, 6, 7, 8, 9, 10, 11, 12], [13]].flatten :=
  (C31_writeBytes_then_flush (ByteStreamWriterBase.mk 16 4 (List.replicate 16 0) 0 [])
    [[1, 2, 3], [4, 5, 6, 7, 8, 9, 10, 11, 12], [13]] (by decide) (by decide)
    (by decide)).2.1 rfl rfl

/-- C32 (defect in `enterCFG`, `enterBlock` and `readBBInstruction`): the stores to
the block table and to the instruction table are not guarded.  `enterCFG`
never sets the error flag, and the block table has `numBlocks` entries
after it.  On the header `EnterCFG(2, 1, 5, 1)` the reader stores
`Blocks[5]` in a table of two entries and the error flag stays clear.  On a
CFG that declares one instruction and holds two `BBInstruction` atoms the
second atom stores `Instrs[1]` in a table of one entry: the instruction
counter ends at 2 with the error flag clear.  On `EnterBlock(1, 7, 1)` the
phi argument of the block is stored in `Instrs[7]`, the table having one
entry, and the error flag stays clear. -/
theorem C32_unguarded_table_stores (r : BytecodeReader) :
    r.enterCFG.Error = r.Error ∧
    r.enterCFG.Blocks.length = r.readUInt32.1 ∧
    (BytecodeReader.ofStream 64 20 exStreamEntryOutside).readPseudoOpcode.2.readUInt32.1 = 2 ∧
    (BytecodeReader.ofStream 64 20
      exStreamEntryOutside).readPseudoOpcode.2.readUInt32.2.readUInt32.2.readUInt32.1 = 5 ∧
    (BytecodeReader.readLoop exTables 20
      (BytecodeReader.ofStream 64 20 exStreamEntryOutside)).map
        (fun x => (x.Error, x.Blocks)) = some (false, [none, some 1]) ∧
    (BytecodeReader.readLoop exTables 20
      (BytecodeReader.ofStream 64 20 exStreamTwoInstructions)).map
        (fun x => (x.Error, x.Instrs.length, x.CurrentInstrID)) = some (false, 1, 2) ∧
    (BytecodeReader.readLoop exTables 20
      (BytecodeReader.ofStream 64 20 exStreamFirstInstrOutside)).map
        (fun x => (x.Error, x.Instrs.length, x.CurrentInstrID)) = some (false, 1, 8) := by
  refine ⟨?_, ?_, by decide, by decide, by decide, by decide, by decide⟩
  · simp only [BytecodeReader.enterCFG, BytecodeReader.readUInt32]
  · simp only [BytecodeReader.enterCFG, BytecodeReader.readUInt32, List.length_set,
      BytecodeReader.resize, List.length_append, List.length_take, List.length_replicate]
    omega

/-- C33: the scope table.  In every reader state reachable through `enterScope`
and `exitScope`, entry `i` of `Vars` is a `VarDecl` whose `varIndex` is `i`.
`enterScope` appends the value on top of the stack when it is a `VarDecl`
whose `varIndex` is the size of the table, and leaves the error flag as it
is; otherwise it sets the error flag and leaves the table unchanged.
`getVarDecl(i)` returns the `VarDecl` with `varIndex` `i` for every `i` below
the size of the table, without a change of state; for every other `i` it
returns null and sets the error flag. -/
theorem C33_scope_table (r : BytecodeReader) (h : r.ScopeReachable) :
    r.ScopesInOrder ∧
    (∀ k n d, r.arg 0 = SExpr.VarDecl k r.Vars.length n d →
      r.enterScope.Vars = r.Vars ++ [r.arg 0] ∧ r.enterScope.Error = r.Error) ∧
    ((¬ ∃ k n d, r.arg 0 = SExpr.VarDecl k r.Vars.length n d) →
      r.enterScope.Vars = r.Vars ∧ r.enterScope.Error = true) ∧
    r.enterScope.ScopesInOrder ∧ r.exitScope.ScopesInOrder ∧
    (∀ i, i < r.Vars.length →
      (∃ k n d, (r.getVarDecl i).1 = SExpr.VarDecl k i n d) ∧ (r.getVarDecl i).2 = r) ∧
    (∀ i, r.Vars.length ≤ i →
      (r.getVarDecl i).1 = SExpr.null ∧ (r.getVarDecl i).2.Error = true ∧
      (r.getVarDecl i).2.Vars = r.Vars) := by
  have hord := BytecodeReader.scopesInOrder_of_reachable r h
  refine ⟨hord, (BytecodeReader.enterScope_cases r).1, (BytecodeReader.enterScope_cases r).2,
    BytecodeReader.scopesInOrder_of_reachable _ (BytecodeReader.ScopeReachable.enter r h),
    ?_, ?_, ?_⟩
  · by_cases he : r.Vars = []
    · intro i hi
      have hV : r.exitScope.Vars = r.Vars.dropLast := rfl
      rw [hV, he] at hi
      exact absurd hi (Nat.not_lt_zero _)
    · exact BytecodeReader.scopesInOrder_of_reachable _
        (BytecodeReader.ScopeReachable.exit r h he)
  · intro i hi
    have hnot : ¬ i ≥ r.Vars.length := by omega
    simp only [BytecodeReader.getVarDecl, hnot, if_false, and_true]
    exact hord i hi
  · intro i hi
    have hge : i ≥ r.Vars.length := hi
    simp only [BytecodeReader.getVarDecl, hge, if_true, BytecodeReader.fail, and_self]

/-- Witness of C33: from the empty table, `enterScope` with the declaration of
index 0 on top of the stack; in the state reached, `getVarDecl(0)` returns
this declaration and `getVarDecl(1)` fails. -/
theorem C33_scope_table_witness :
    (BytecodeReader.getVarDecl (BytecodeReader.enterScope
      { BytecodeReader.ofStream 64 20 [] with
        Stack := [SExpr.VarDecl 0 0 [120] SExpr.Undefined] }) 1).1 = SExpr.null ∧
    (BytecodeReader.getVarDecl (BytecodeReader.enterScope
      { BytecodeReader.ofStream 64 20 [] with
        Stack := [SExpr.VarDecl 0 0 [120] SExpr.Undefined] }) 1).2.Error = true :=
  ⟨((C33_scope_table _ (BytecodeReader.ScopeReachable.enter
      { BytecodeReader.ofStream 64 20 [] with
        Stack := [SExpr.VarDecl 0 0 [120] SExpr.Undefined] }
      (BytecodeReader.ScopeReachable.start _ rfl))).2.2.2.2.2.2 1 (by decide)).1,
   ((C33_scope_table _ (BytecodeReader.ScopeReachable.enter
      { BytecodeReader.ofStream 64 20 [] with
        Stack := [SExpr.VarDecl 0 0 [120] SExpr.Undefined] }
      (BytecodeReader.ScopeReachable.start _ rfl))).2.2.2.2.2.2 1 (by decide)).2.1⟩

/-- C34 (defect in `addInstruction`): the assertion of `finishBlock` on the
instruction list of the block fails.  For `if (1 + 2) then 10 else 20` the
traversal of the condition hands the `BinaryOp` to `addInstruction`, which
adds it to the current block itself, so that the entry block, still the
current block, holds one instruction; `createBranch` then calls
`finishBlock`, whose assertion `currentBB_->instructions().size() == 0` at
line 230 fails.  It is the only assertion that fails in the conversion; for
an `IfThenElse` over literals none fails. -/
theorem C34_finishBlock_assertion_fails :
    ((CFGRewriter.traverse exPointers
        (SExpr.BinaryOp 0 (SExpr.Literal 7 (LitVal.num 1)) (SExpr.Literal 7 (LitVal.num 2)) 7)
        ⟨none⟩ CFGRewriteReducer.init.initCFG.2).2.blockAt 0).Instrs
      = [SExpr.BinaryOp 0 (SExpr.Literal 7 (LitVal.num 1)) (SExpr.Literal 7 (LitVal.num 2)) 7] ∧
    (CFGRewriter.traverse exPointers
        (SExpr.BinaryOp 0 (SExpr.Literal 7 (LitVal.num 1)) (SExpr.Literal 7 (LitVal.num 2)) 7)
        ⟨none⟩ CFGRewriteReducer.init.initCFG.2).2.currentBB_ = some 0 ∧
    (CFGRewriter.traverse exPointers exIfBinaryOp ⟨some CFGRewriteReducer.init.initCFG.1⟩
      CFGRewriteReducer.init.initCFG.2).2.FailedAsserts = [230] ∧
    (CFGRewriter.traverse exPointers exIfThenElse ⟨some CFGRewriteReducer.init.initCFG.1⟩
      CFGRewriteReducer.init.initCFG.2).2.FailedAsserts = [] := by
  refine ⟨by rfl, by decide, by decide, by decide⟩

/-- C35 (as stated, refuted): `drop(2, 1)` on a stack of four results that hold
user nodes.  The stack has at least `2 + 1` entries and `drop` leaves the
first and the top entry, but `erase` destroys the third entry, which still
holds its node: the assertion `resultKind_ == PRS_None` of `~ParseResult()`
fails. -/
theorem C35_counterexample_unused_result_destroyed :
    (ResultStack.drop ⟨[⟨1, 2, false, ⟨10, 0⟩⟩, ⟨2, 2, false, ⟨20, 0⟩⟩,
        ⟨3, 2, false, ⟨30, 0⟩⟩, ⟨4, 2, false, ⟨40, 0⟩⟩]⟩ 2 1).1 = false ∧
    (ResultStack.erase [⟨1, 2, false, ⟨10, 0⟩⟩, ⟨2, 2, false, ⟨20, 0⟩⟩,
        ⟨3, 2, false, ⟨30, 0⟩⟩, ⟨4, 2, false, ⟨40, 0⟩⟩] 1 3).1 = false ∧
    (ResultStack.moveDown 1 1 3 [⟨1, 2, false, ⟨10, 0⟩⟩, ⟨2, 2, false, ⟨20, 0⟩⟩,
        ⟨3, 2, false, ⟨30, 0⟩⟩, ⟨4, 2, false, ⟨40, 0⟩⟩]).drop 2
      = [⟨3, 2, false, ⟨30, 0⟩⟩, ⟨4, 0, false, ⟨0, 0⟩⟩] ∧
    (ResultStack.drop ⟨[⟨1, 2, false, ⟨10, 0⟩⟩, ⟨2, 2, false, ⟨20, 0⟩⟩,
        ⟨3, 2, false, ⟨30, 0⟩⟩, ⟨4, 2, false, ⟨40, 0⟩⟩]⟩ 2 1).2.stack_
      = [⟨1, 2, false, ⟨10, 0⟩⟩, ⟨4, 2, false, ⟨40, 0⟩⟩] := by
  refine ⟨by decide, by decide, by decide, by decide⟩

/-- C35 (amended): `ResultStack::drop(n, nsave)` on a stack of at least `n + nsave`
entries.  The size decreases by `n`, and the stack that is left is the old
one without the `n` entries that lay directly beneath its top `nsave`
entries: when the old stack is `below ++ removed ++ top` with `n` entries in
`removed` and `nsave` in `top`, the new one is `below ++ top`, so the top
`nsave` entries and the entries below the removed range keep their values
and their order.  The assertions of `drop` and of the destructors that
`erase` runs hold exactly when the removed entries that no entry from above
overwrites, those after the first `nsave`, are empty; they hold in particular
when all `n` removed entries are empty.  And `drop(0, nsave)` changes
nothing and asserts nothing, for every stack. -/
theorem C35_drop (S : ResultStack) (n nsave : Nat) (hn : n < 2 ^ 32) (hs : nsave < 2 ^ 32)
    (h : n + nsave ≤ S.stack_.length) :
    (S.drop n nsave).2.stack_.length + n = S.stack_.length ∧
    (S.drop n nsave).2.stack_.drop ((S.drop n nsave).2.stack_.length - nsave)
      = S.stack_.drop (S.stack_.length - nsave) ∧
    (S.drop n nsave).2.stack_.take (S.stack_.length - nsave - n)
      = S.stack_.take (S.stack_.length - nsave - n) ∧
    (∀ below removed top, S.stack_ = below ++ removed ++ top → removed.length = n →
      top.length = nsave →
      (S.drop n nsave).2.stack_ = below ++ top ∧
      ((S.drop n nsave).1 = true ↔ ∀ r ∈ removed.drop nsave, r.empty = true) ∧
      ((∀ r ∈ removed, r.empty = true) → (S.drop n nsave).1 = true)) ∧
    (∀ S0 : ResultStack, S0.drop 0 nsave = (true, S0)) := by
  have hsplit : ∀ below removed top, S.stack_ = below ++ removed ++ top →
      removed.length = n → top.length = nsave →
      (S.drop n nsave).2.stack_ = below ++ top ∧
      ((S.drop n nsave).1 = true ↔ ∀ r ∈ removed.drop nsave, r.empty = true) := by
    intro below removed top hS hr ht
    by_cases h0 : n = 0
    · have hnil : removed = [] := List.length_eq_zero.mp (hr.trans h0)
      simp only [ResultStack.drop, h0, if_true, hS, hnil, List.append_nil, List.drop_nil,
        List.not_mem_nil, false_implies, implies_true, and_self]
    · have hlen : S.stack_.length = below.length + n + nsave := by
        rw [hS, List.length_append, List.length_append, hr, ht]
      have e1 : S.stack_.length - nsave - n = below.length := by omega
      have e2 : S.stack_.length - nsave = below.length + removed.length := by omega
      have hne : 0 < removed.length := by omega
      obtain ⟨s1, s2⟩ := ResultStack.erase_split below removed top hne
      have hmod : decide (S.stack_.length ≥ (n + nsave) % 2 ^ 32) = true := by
        rw [decide_eq_true_eq]
        exact le_trans (Nat.mod_le _ _) h
      simp only [ResultStack.drop, h0, if_false, hmod, Bool.true_and]
      rw [e1, e2, hS, s1, s2, ht]
      refine ⟨rfl, ?_⟩
      rw [List.all_eq_true]
      rfl
  have hex : S.stack_ = S.stack_.take (S.stack_.length - nsave - n)
      ++ (S.stack_.drop (S.stack_.length - nsave - n)).take n
      ++ S.stack_.drop (S.stack_.length - nsave) := by
    have : S.stack_.drop (S.stack_.length - nsave)
        = (S.stack_.drop (S.stack_.length - nsave - n)).drop n := by
      rw [List.drop_drop]; congr 1; omega
    rw [this, List.append_assoc, List.take_append_drop, List.take_append_drop]
  have hl1 : ((S.stack_.drop (S.stack_.length - nsave - n)).take n).length = n := by
    rw [List.length_take, List.length_drop]; omega
  have hl2 : (S.stack_.drop (S.stack_.length - nsave)).length = nsave := by
    rw [List.length_drop]; omega
  have hl0 : (S.stack_.take (S.stack_.length - nsave - n)).length
      = S.stack_.length - nsave - n := by
    rw [List.length_take]; omega
  have hres := (hsplit _ _ _ hex hl1 hl2).1
  refine ⟨?_, ?_, ?_, ?_, ?_⟩
  · rw [hres, List.length_append, hl0, hl2]; omega
  · rw [hres, List.length_append, hl0, hl2]
    have : S.stack_.length - nsave - n + nsave - nsave
        = (S.stack_.take (S.stack_.length - nsave - n)).length := by rw [hl0]; omega
    rw [this, List.drop_left]
  · rw [hres]
    exact List.take_left' hl0
  · intro below removed top hS hr ht
    obtain ⟨a1, a2⟩ := hsplit below removed top hS hr ht
    exact ⟨a1, a2, fun hall => a2.mpr (fun r hr2 => hall r (List.mem_of_mem_drop hr2))⟩
  · intro S0
    simp only [ResultStack.drop, if_true]

/-- Witness of C35 (amended): `drop(2, 1)` on a stack of four entries whose second
and third entry are empty removes these two, keeps the first and the top
entry, and the assertions hold. -/
theorem C35_drop_witness :
    (ResultStack.drop ⟨[⟨1, 2, false, ⟨10, 0⟩⟩, ⟨2, 0, false, ⟨0, 0⟩⟩,
        ⟨3, 0, false, ⟨0, 0⟩⟩, ⟨4, 2, false, ⟨40, 0⟩⟩]⟩ 2 1).2.stack_
      = [⟨1, 2, false, ⟨10, 0⟩⟩] ++ [⟨4, 2, false, ⟨40, 0⟩⟩] ∧
    (ResultStack.drop ⟨[⟨1, 2, false, ⟨10, 0⟩⟩, ⟨2, 0, false, ⟨0, 0⟩⟩,
        ⟨3, 0, false, ⟨0, 0⟩⟩, ⟨4, 2, false, ⟨40, 0⟩⟩]⟩ 2 1).1 = true :=
  ⟨((C35_drop ⟨[⟨1, 2, false, ⟨10, 0⟩⟩, ⟨2, 0, false, ⟨0, 0⟩⟩,
        ⟨3, 0, false, ⟨0, 0⟩⟩, ⟨4, 2, false, ⟨40, 0⟩⟩]⟩ 2 1 (by decide) (by decide)
      (by decide)).2.2.2.1
      [⟨1, 2, false, ⟨10, 0⟩⟩] [⟨2, 0, false, ⟨0, 0⟩⟩, ⟨3, 0, false, ⟨0, 0⟩⟩]
      [⟨4, 2, false, ⟨40, 0⟩⟩] rfl rfl rfl).1,
   ((C35_drop ⟨[⟨1, 2, false, ⟨10, 0⟩⟩, ⟨2, 0, false, ⟨0, 0⟩⟩,
        ⟨3, 0, false, ⟨0, 0⟩⟩, ⟨4, 2, false, ⟨40, 0⟩⟩]⟩ 2 1 (by decide) (by decide)
      (by decide)).2.2.2.1
      [⟨1, 2, false, ⟨10, 0⟩⟩] [⟨2, 0, false, ⟨0, 0⟩⟩, ⟨3, 0, false, ⟨0, 0⟩⟩]
      [⟨4, 2, false, ⟨40, 0⟩⟩] rfl rfl rfl).2.2 (by decide)⟩
end Ohmu
